import Mathlib

/-!
# lua-avro-c: the Lua binding of the Avro C library

A shallow embedding of the binding code in `src/avro/c/legacy.c` (the
`AvroValue` class, built on the library's `avro_value_t` interface, with
its iterators, resolvers and data files) and of the sub-value access
and the resolver constructor of `src/avro.c` (the `AvroDatum` class,
built on the library's `avro_datum_t` interface).

The binding is glue between two collaborators that are not part of the
repository: the Lua 5.1 runtime and the Avro C library.  Both are
represented by small executable models:

* the Lua runtime by a value stack (`lua_State.stack`, bottom first, so
  that the Lua index `i > 0` is position `i - 1`), with the C API
  functions the binding calls;
* the Avro library's generic values by trees (`avro_value`) kept in
  `lua_State.heap`; an `avro_value_t` handle (interface + `self`
  pointer) is a reference `Ref`: a root of the heap and a path into it.

Conventions of the models:

* A floating-point number (`float`, `double`, `lua_Number`) that is an
  integer is represented by its value (`Int`); every other number (a
  fraction, the negative zero, an infinity, a NaN) by its IEEE-754 bit
  pattern.  The conversions are those of an x86-64 processor and of the
  GNU C library.
* Lua strings are arbitrary sequences of characters (zero bytes
  included); a `const char *` handed to the library is read up to its
  first zero byte (`cstr`).
* The message of an argument error raised by the auxiliary library
  (`luaL_typerror`) is given without the name of the called function.
* A userdata is represented by the contents of its C structure; a C
  function that changes these contents leaves the new contents in the
  stack slot of the userdata.
* What the binding takes from the library and the C runtime without
  determining it is a parameter of the embedded function: the codec
  (`avro_codec`), the resolver constructors, the contents of
  `static_buf` and the result of `malloc`.  The section on the binary
  codec gives the codec that the specification describes, as an
  instance (`binary_codec`).
-/

namespace LuaAvro

/-! ## Avro schemas -/

/-- The type tags of the Avro C library (`avro_type_t`). -/
inductive avro_type_t where
  | AVRO_STRING | AVRO_BYTES | AVRO_INT32 | AVRO_INT64 | AVRO_FLOAT
  | AVRO_DOUBLE | AVRO_BOOLEAN | AVRO_NULL | AVRO_RECORD | AVRO_ENUM
  | AVRO_FIXED | AVRO_MAP | AVRO_ARRAY | AVRO_UNION | AVRO_LINK
  deriving DecidableEq, Repr

open avro_type_t

/-- An Avro schema (`avro_schema_t`). -/
inductive avro_schema_t where
  | string | bytes | int | long | float | double | boolean | null
  | record (name : String) (fields : List (String × avro_schema_t))
  | enum (name : String) (symbols : List String)
  | fixed (name : String) (size : Nat)
  | map (values : avro_schema_t)
  | array (items : avro_schema_t)
  | union (branches : List avro_schema_t)

/-- The library's `avro_schema_type_name`: the name of a named type, the
name of the type otherwise. -/
def avro_schema_type_name : avro_schema_t → String
  | .string => "string"
  | .bytes => "bytes"
  | .int => "int"
  | .long => "long"
  | .float => "float"
  | .double => "double"
  | .boolean => "boolean"
  | .null => "null"
  | .record name _ => name
  | .enum name _ => name
  | .fixed name _ => name
  | .map _ => "map"
  | .array _ => "array"
  | .union _ => "union"

/-- Position of the first element of a list satisfying `p`. -/
def findIdx? {α : Type} (p : α → Bool) : List α → Option Nat
  | [] => none
  | a :: as => if p a then some 0 else (findIdx? p as).map (· + 1)

/-- The library's `avro_schema_union_branch`: the branch schema with the
given discriminant, `NULL` (`none`) when there is none. -/
def avro_schema_union_branch (schema : avro_schema_t) (discriminant : Int) :
    Option avro_schema_t :=
  match schema with
  | .union branches =>
    if 0 ≤ discriminant then branches[discriminant.toNat]? else none
  | _ => none

/-- The lookup of a branch of a union schema by its type name: the
branch with its discriminant.  The type names of the branches of a
union are distinct (Avro allows one branch of each type name); the
branches are searched from the first on. -/
def union_branch_by_name (schema : avro_schema_t) (name : String) :
    Option (Nat × avro_schema_t) :=
  match schema with
  | .union branches =>
    match findIdx? (fun b => avro_schema_type_name b == name) branches with
    | some i => (branches[i]?).map (fun b => (i, b))
    | none => none
  | _ => none

/-- The library's `avro_schema_enum_get`: the symbol with the given
index, `NULL` (`none`) when there is none. -/
def avro_schema_enum_get (schema : avro_schema_t) (index : Int) : Option String :=
  match schema with
  | .enum _ symbols => if 0 ≤ index then symbols[index.toNat]? else none
  | _ => none

/-- The library's `avro_schema_enum_get_by_name`: the index of the
symbol, `-1` when the schema has no such symbol. -/
def avro_schema_enum_get_by_name (schema : avro_schema_t) (symbol : String) : Int :=
  match schema with
  | .enum _ symbols =>
    match findIdx? (fun s => s == symbol) symbols with
    | some i => (i : Int)
    | none => -1
  | _ => -1

/-! ## Floating-point numbers

The C types `float` and `double` (and `lua_Number`, a `double`) are the
IEEE-754 formats with 8 exponent bits and 23 fraction bits, and with 11
exponent bits and 52 fraction bits. -/

/-- The number of binary digits of `a`, for `a` below `2 ^ fuel`. -/
def bit_length : Nat → Nat → Nat
  | 0, _ => 0
  | fuel + 1, a => if a = 0 then 0 else bit_length fuel (a / 2) + 1

/-- A floating-point number of the C code, of the format that the
context gives (`float`: 8 exponent bits and 23 fraction bits; `double`
and `lua_Number`: 11 and 52): an integer is given by its value, every
other number (a fraction, the negative zero, an infinity, a NaN) by its
IEEE-754 bit pattern. -/
inductive floating where
  | integral (n : Int)
  | pattern (bits : Nat)
  deriving DecidableEq, Repr

instance : Coe Int floating := ⟨floating.integral⟩

/-- The IEEE-754 bit pattern, with `ebits` exponent bits and `mbits`
fraction bits, of an integral number that the format holds exactly:
sign, biased exponent, fraction. -/
def ieee_bits (ebits mbits : Nat) (n : Int) : Nat :=
  if n = 0 then 0
  else
    let a := n.natAbs
    let e := bit_length a a - 1
    let fraction :=
      if e ≤ mbits then (a - 2 ^ e) * 2 ^ (mbits - e) else (a - 2 ^ e) / 2 ^ (e - mbits)
    (if n < 0 then 2 ^ (ebits + mbits) else 0) + (e + (2 ^ (ebits - 1) - 1)) * 2 ^ mbits
      + fraction

/-- The integer that an IEEE-754 bit pattern stands for; `none` for the
patterns of the other numbers: the fractions, the negative zero, the
infinities and the NaNs. -/
def ieee_value (ebits mbits : Nat) (bits : Nat) : Option Int :=
  let fraction := bits % 2 ^ mbits
  let exponent := bits / 2 ^ mbits % 2 ^ ebits
  let bias := 2 ^ (ebits - 1) - 1
  if exponent = 0 then (if bits = 0 then some 0 else none)
  else if exponent = 2 ^ ebits - 1 ∨ exponent < bias then none
  else
    let e := exponent - bias
    let m := 2 ^ mbits + fraction
    let magnitude : Option Nat :=
      if mbits ≤ e then some (m * 2 ^ (e - mbits))
      else if m % 2 ^ (mbits - e) = 0 then some (m / 2 ^ (mbits - e))
      else none
    magnitude.map (fun a => if bits / 2 ^ (ebits + mbits) % 2 = 1 then -(a : Int) else (a : Int))

/-- The bit pattern of a number. -/
def floating.bits (ebits mbits : Nat) : floating → Nat
  | .integral n => ieee_bits ebits mbits n
  | .pattern bits => bits

/-- The number of a bit pattern. -/
def floating.of_bits (ebits mbits : Nat) (bits : Nat) : floating :=
  match ieee_value ebits mbits bits with
  | some n => .integral n
  | none => .pattern bits

/-- The sign and the value `m * 2 ^ e` of the bit pattern of a finite
number, as `(negative, m, e)`; `none` for an infinity or a NaN. -/
def ieee_finite (ebits mbits : Nat) (bits : Nat) : Option (Bool × Nat × Int) :=
  let fraction := bits % 2 ^ mbits
  let exponent := bits / 2 ^ mbits % 2 ^ ebits
  let negative : Bool := bits / 2 ^ (ebits + mbits) % 2 = 1
  let emin : Int := 2 - (2 : Int) ^ (ebits - 1)
  if exponent = 2 ^ ebits - 1 then none
  else if exponent = 0 then some (negative, fraction, emin - mbits)
  else some (negative, 2 ^ mbits + fraction, (exponent : Int) - 1 + emin - mbits)

/-- The bit pattern of the number of a format that is nearest to the
quotient `a / b`, with the given sign: round to nearest, ties to even
(the rounding of the C conversions and of `strtod`); a quotient beyond
the largest number of the format gives the infinity, one below the
smallest gives a zero. -/
def ieee_round (ebits mbits : Nat) (negative : Bool) (a b : Nat) : Nat :=
  let sign := if negative then 2 ^ (ebits + mbits) else 0
  if a = 0 then sign
  else
    let e0 : Int := (bit_length a a : Int) - (bit_length b b : Int)
    let e : Int :=
      if (if 0 ≤ e0 then b * 2 ^ e0.toNat ≤ a else b ≤ a * 2 ^ (-e0).toNat) then e0 else e0 - 1
    let emin : Int := 2 - (2 : Int) ^ (ebits - 1)
    let u : Int := max e emin - mbits
    let n := if u < 0 then a * 2 ^ (-u).toNat else a
    let d := if u < 0 then b else b * 2 ^ u.toNat
    let m := n / d
    let r := n % d
    let m' := if d < 2 * r ∨ (2 * r = d ∧ m % 2 = 1) then m + 1 else m
    sign + min ((max e emin - emin).toNat * 2 ^ mbits + m') ((2 ^ ebits - 1) * 2 ^ mbits)

/-- The bit pattern of the format `ebits'`, `mbits'` that the C
conversion of a number of the format `ebits`, `mbits` gives (`(float) d`
and `(double) f`): a finite number is rounded; an infinity stays one; a
NaN keeps its sign and the leading bits of its fraction and becomes a
quiet NaN (the conversion of the x86-64 processors). -/
def ieee_convert (ebits mbits ebits' mbits' : Nat) (bits : Nat) : Nat :=
  match ieee_finite ebits mbits bits with
  | some (negative, m, e) =>
    if 0 ≤ e then ieee_round ebits' mbits' negative (m * 2 ^ e.toNat) 1
    else ieee_round ebits' mbits' negative m (2 ^ (-e).toNat)
  | none =>
    let fraction := bits % 2 ^ mbits
    let sign := if bits / 2 ^ (ebits + mbits) % 2 = 1 then 2 ^ (ebits' + mbits') else 0
    let fraction' := if mbits ≤ mbits' then fraction * 2 ^ (mbits' - mbits)
      else fraction / 2 ^ (mbits - mbits')
    sign + (2 ^ ebits' - 1) * 2 ^ mbits'
      + (if fraction = 0 then 0
         else if fraction' / 2 ^ (mbits' - 1) % 2 = 1 then fraction'
         else fraction' + 2 ^ (mbits' - 1))

/-- The integer part (truncation toward zero) of the finite number of a
bit pattern; `none` for an infinity or a NaN. -/
def ieee_truncate (ebits mbits : Nat) (bits : Nat) : Option Int :=
  match ieee_finite ebits mbits bits with
  | some (negative, m, e) =>
    let t : Nat := if 0 ≤ e then m * 2 ^ e.toNat else m / 2 ^ (-e).toNat
    some (if negative then -(t : Int) else (t : Int))
  | none => none

/-- An integer rounded to `p` significant bits, ties to even: the
conversion of an integral number to a floating-point format with a
significand of `p` bits, as long as the result is within the range of
the format. -/
def round_to_bits (p : Nat) (n : Int) : Int :=
  if n.natAbs < 2 ^ p then n
  else
    let sh := bit_length n.natAbs n.natAbs - p
    let q := n.natAbs / 2 ^ sh
    let r := n.natAbs % 2 ^ sh
    let q' := if 2 ^ sh < 2 * r ∨ (2 * r = 2 ^ sh ∧ q % 2 = 1) then q + 1 else q
    Int.sign n * ((q' * 2 ^ sh : Nat) : Int)

/-- The cast `(float) n` of a `lua_Number`: an integer is rounded to 24
significant bits and gives an infinity when the result is beyond the
largest `float`; any other number is converted by its bit pattern. -/
def to_float : floating → floating
  | .integral n =>
    if (round_to_bits 24 n).natAbs < 2 ^ 128 then .integral (round_to_bits 24 n)
    else .pattern ((if n < 0 then 2 ^ 31 else 0) + 255 * 2 ^ 23)
  | .pattern bits => floating.of_bits 8 23 (ieee_convert 11 52 8 23 bits)

/-- The conversion `(lua_Number) f` of a `float`, which is exact. -/
def of_float : floating → floating
  | .integral n => .integral n
  | .pattern bits => floating.of_bits 11 52 (ieee_convert 8 23 11 52 bits)

/-- The conversion of an `int64_t` to `lua_Number` (a `double`). -/
def to_double (n : Int) : Int := round_to_bits 53 n

/-! ## Avro generic values -/

/-- A generic value of the library, as the tree of its contents.  String
and bytes buffers are the stored bytes (for a string, the terminating
zero byte included); compound values carry what `avro_value_get_schema`
needs.  A union has at most one active branch.  A float or a double
that is an integer is kept by its value (`float`, `double`), every other
one by its bit pattern (`float_bits`, `double_bits`). -/
inductive avro_value where
  | string (buf : List Char)
  | bytes (buf : List Char)
  | int (val : Int)
  | long (val : Int)
  | float (val : Int)
  | double (val : Int)
  | float_bits (bits : Nat)
  | double_bits (bits : Nat)
  | boolean (val : Bool)
  | null
  | record (name : String) (fields : List (String × avro_value))
  | enum (name : String) (symbols : List String) (val : Int)
  | fixed (name : String) (size : Nat) (buf : List Char)
  | map (values : avro_schema_t) (entries : List (String × avro_value))
  | array (items : avro_schema_t) (elements : List avro_value)
  | union (branches : List avro_schema_t) (current : Option (Nat × avro_value))

/-- The type tag of a value. -/
def avro_value.type : avro_value → avro_type_t
  | .string _ => AVRO_STRING
  | .bytes _ => AVRO_BYTES
  | .int _ => AVRO_INT32
  | .long _ => AVRO_INT64
  | .float _ => AVRO_FLOAT
  | .double _ => AVRO_DOUBLE
  | .float_bits _ => AVRO_FLOAT
  | .double_bits _ => AVRO_DOUBLE
  | .boolean _ => AVRO_BOOLEAN
  | .null => AVRO_NULL
  | .record _ _ => AVRO_RECORD
  | .enum _ _ _ => AVRO_ENUM
  | .fixed _ _ _ => AVRO_FIXED
  | .map _ _ => AVRO_MAP
  | .array _ _ => AVRO_ARRAY
  | .union _ _ => AVRO_UNION

mutual
/-- The library's `avro_generic_value_new`: a fresh value of a schema:
zero numbers, `false`, an empty string (its buffer holds the terminator
only), empty bytes, a zero-filled fixed, the first enum symbol, empty
arrays and maps, a record of fresh fields, a union without a selected
branch. -/
def avro_generic_value_new : avro_schema_t → avro_value
  | .string => .string [Char.ofNat 0]
  | .bytes => .bytes []
  | .int => .int 0
  | .long => .long 0
  | .float => .float 0
  | .double => .double 0
  | .boolean => .boolean false
  | .null => .null
  | .record name fields => .record name (avro_generic_fields_new fields)
  | .enum name symbols => .enum name symbols 0
  | .fixed name size => .fixed name size (List.replicate size (Char.ofNat 0))
  | .map values => .map values []
  | .array items => .array items []
  | .union branches => .union branches none
/-- Fresh values for the fields of a record schema. -/
def avro_generic_fields_new : List (String × avro_schema_t) → List (String × avro_value)
  | [] => []
  | (name, schema) :: rest =>
    (name, avro_generic_value_new schema) :: avro_generic_fields_new rest
end

mutual
/-- The schema of a value (`avro_value_get_schema`). -/
def avro_value.schema : avro_value → avro_schema_t
  | .string _ => .string
  | .bytes _ => .bytes
  | .int _ => .int
  | .long _ => .long
  | .float _ => .float
  | .double _ => .double
  | .float_bits _ => .float
  | .double_bits _ => .double
  | .boolean _ => .boolean
  | .null => .null
  | .record name fields => .record name (avro_value.fieldSchemas fields)
  | .enum name symbols _ => .enum name symbols
  | .fixed name size _ => .fixed name size
  | .map values _ => .map values
  | .array items _ => .array items
  | .union branches _ => .union branches
/-- The field schemas of a record value. -/
def avro_value.fieldSchemas : List (String × avro_value) → List (String × avro_schema_t)
  | [] => []
  | (name, v) :: rest => (name, avro_value.schema v) :: avro_value.fieldSchemas rest
end

/-- One step from a compound value to a child: an array element, a map
entry, a record field or the active branch of a union. -/
inductive Step where
  | index (i : Nat)
  | key (k : String)
  | field (i : Nat)
  | branch
  deriving DecidableEq, Repr

/-- An `avro_value_t` handle: a root value of the heap and the path from
it to the value the handle's `self` pointer designates. -/
structure Ref where
  root : Nat
  path : List Step
  deriving DecidableEq, Repr

/-- The value of the first entry with the given key. -/
def lookupKey {α : Type} (k : String) : List (String × α) → Option α
  | [] => none
  | (k', a) :: rest => if k' = k then some a else lookupKey k rest

/-- Replace the value of the first entry with the given key. -/
def replaceKey {α : Type} (k : String) (a : α) : List (String × α) → List (String × α)
  | [] => []
  | (k', a') :: rest => if k' = k then (k', a) :: rest else (k', a') :: replaceKey k a rest

/-- The child of a value one step down. -/
def avro_value.child : avro_value → Step → Option avro_value
  | .array _ elements, .index i => elements[i]?
  | .map _ entries, .key k => lookupKey k entries
  | .record _ fields, .field i => (fields[i]?).map (·.2)
  | .union _ (some (_, b)), .branch => some b
  | _, _ => none

/-- Replace an existing child of a value. -/
def avro_value.setChild : avro_value → Step → avro_value → Option avro_value
  | .array items elements, .index i, c =>
    if i < elements.length then some (.array items (elements.set i c)) else none
  | .map values entries, .key k, c =>
    if (lookupKey k entries).isSome then some (.map values (replaceKey k c entries)) else none
  | .record name fields, .field i, c =>
    match fields[i]? with
    | some (n, _) => some (.record name (fields.set i (n, c)))
    | none => none
  | .union branches (some (d, _)), .branch, c => some (.union branches (some (d, c)))
  | _, _, _ => none

/-- The value at the end of a path. -/
def avro_value.at : avro_value → List Step → Option avro_value
  | v, [] => some v
  | v, s :: rest => match v.child s with
    | some c => c.at rest
    | none => none

/-- Rewrite the value at the end of a path. -/
def avro_value.update (f : avro_value → Option avro_value) :
    avro_value → List Step → Option avro_value
  | v, [] => f v
  | v, s :: rest => match v.child s with
    | some c => match c.update f rest with
      | some c' => v.setChild s c'
      | none => none
    | none => none

/-! ## The Lua runtime -/

/-- A resolver of the library (`avro_value_iface_t *` of a resolved
reader or writer): it is made for a writer schema and a reader schema. -/
structure avro_resolver where
  writer_schema : avro_schema_t
  reader_schema : avro_schema_t

/-- What one `avro_file_reader_read_value` call finds in a data file
before its end: the next value, or a failure (corrupted data, an input
error) with the error message the library sets. -/
inductive read_step where
  | value (v : avro_value)
  | failure (msg : String)

/-- A file reader of the library (`avro_file_reader_t`): what the
successive reads find before the end of the file, and the message the
library sets when a read finds the end of the file (`none` when it
leaves the message as it is). -/
structure avro_file_reader where
  pending : List read_step
  eof_message : Option String

/-- A Lua value.  A number that is an integer is kept by its value
(`number`), every other number by the bit pattern of the `double`
(`number_bits`).  The userdata of the binding are kept by their C
contents: `avro_value` is a `LuaAvroValue` (metatable `MT_AVRO_VALUE`),
`avro_datum` a `LuaAvroDatum` (metatable `MT_AVRO_DATUM`), `iterator` an
`Iterator` of legacy.c (metatable `MT_ITERATOR`), `avro_schema` a
`LuaAvroSchema`, `resolved_reader` a `LuaAvroResolvedReader`,
`resolved_writer` a `LuaAvroResolvedWriter`, `input_file` a
`LuaAvroDataInputFile`, `resolver` a `LuaAvroResolver` of avro.c,
`datum_iterator` an `Iterator` of avro.c; a `NULL` pointer field is
`none`.  `userdata` is
any other userdata, with the registry name of its metatable.  A C
function that changes the contents of a userdata it was given leaves
the new contents in the stack slot of the userdata, where the caller
finds them.  The `value` field of an `Iterator` of legacy.c is a
pointer into the wrapper userdata that `iterate` was called on:
`iterator` holds the handle found there while the wrapper exists, and
`finalized_iterator` is the `Iterator` after the wrapper has been
finalized (`l_value_gc` sets `iface` and `self` of its handle to `NULL`;
nothing in the `Iterator` keeps the wrapper alive). -/
inductive LuaVal where
  | nil
  | boolean (b : Bool)
  | number (n : Int)
  | number_bits (bits : Nat)
  | string (s : String)
  | table (id : Nat)
  | cfunction (name : String)
  | avro_value (value : Ref) (destructor : Nat)
  | avro_datum (datum : Ref) (schema : Option avro_schema_t)
  | userdata (mt : String)
  | iterator (value : Ref) (next_index : Nat)
  | finalized_iterator (next_index : Nat)
  | avro_schema (schema : avro_schema_t)
  | resolved_reader (resolver : Option avro_resolver)
  | resolved_writer (resolver : Option avro_resolver)
  | input_file (reader : Option avro_file_reader) (wschema : Option avro_schema_t)
  | resolver (resolver : Option avro_resolver)
  | datum_iterator (datum : Ref) (element_schema : Option avro_schema_t) (next_index : Nat)

/-- The state a C function of the binding works on: the Lua stack of the
running call (bottom first), the values owned by the Avro library, and
the library's last error message (`avro_strerror()`). -/
structure lua_State where
  stack : List LuaVal
  heap : List avro_value
  avro_strerror : String

/-- How a call ends: it returns `a`, it raises a Lua error (`lua_error`
does not return), or it dereferences a handle that designates no value
(undefined behaviour in C). -/
inductive Res (α : Type) where
  | ok (a : α) (L : lua_State)
  | raise (msg : LuaVal) (L : lua_State)
  | undefined

/-- Computations on the state. -/
def LuaM (α : Type) : Type := lua_State → Res α

/-- Sequencing: an error or undefined behaviour ends the computation. -/
def LuaM.bind {α β : Type} (m : LuaM α) (f : α → LuaM β) : LuaM β := fun L =>
  match m L with
  | .ok a L' => f a L'
  | .raise msg L' => .raise msg L'
  | .undefined => .undefined

instance : Monad LuaM where
  pure a := fun L => .ok a L
  bind := LuaM.bind

/-- `MT_AVRO_VALUE`. -/
def MT_AVRO_VALUE : String := "avro:AvroValue"
/-- `MT_AVRO_DATUM`. -/
def MT_AVRO_DATUM : String := "avro:AvroDatum"
/-- `NO_DESTRUCTOR`. -/
def NO_DESTRUCTOR : Nat := 0
/-- `GENERIC_DESTRUCTOR`. -/
def GENERIC_DESTRUCTOR : Nat := 1
/-- `RESOLVED_READER_DESTRUCTOR`. -/
def RESOLVED_READER_DESTRUCTOR : Nat := 2

/-- The zero byte. -/
def NUL : Char := Char.ofNat 0

/-- A `const char *` as C reads it: the bytes before the first zero byte. -/
def cstr (s : String) : String := ⟨s.data.takeWhile (fun c => c != NUL)⟩

/-- The value at a stack index (`index2adr`): positive indices count from
the bottom, negative ones from the top; `none` is an unacceptable index
(`LUA_TNONE`).  Pseudo-indices are not used by the embedded code. -/
def index2adr (L : lua_State) (idx : Int) : Option LuaVal :=
  if 0 < idx then L.stack[(idx - 1).toNat]?
  else if idx < 0 ∧ idx.natAbs ≤ L.stack.length then L.stack[L.stack.length - idx.natAbs]?
  else none

/-- Overwrite the value at a stack index. -/
def setidx (L : lua_State) (idx : Int) (v : LuaVal) : lua_State :=
  if 0 < idx then { L with stack := L.stack.set (idx - 1).toNat v }
  else if idx < 0 ∧ idx.natAbs ≤ L.stack.length then
    { L with stack := L.stack.set (L.stack.length - idx.natAbs) v }
  else L

/-- Push a value (`api_incr_top`). -/
def push (v : LuaVal) : LuaM Unit := fun L => .ok () { L with stack := L.stack ++ [v] }

/-- `lua_gettop`. -/
def lua_gettop : LuaM Int := fun L => .ok (L.stack.length : Int) L

/-- `lua_pop`. -/
def lua_pop (n : Nat) : LuaM Unit := fun L =>
  .ok () { L with stack := L.stack.take (L.stack.length - n) }

/-- `lua_pushnil`. -/
def lua_pushnil : LuaM Unit := push .nil

/-- `lua_pushboolean`. -/
def lua_pushboolean (b : Bool) : LuaM Unit := push (.boolean b)

/-- The Lua value of a number. -/
def LuaVal.of_number : floating → LuaVal
  | .integral n => .number n
  | .pattern bits =>
    match ieee_value 11 52 bits with
    | some n => .number n
    | none => .number_bits bits

/-- `lua_pushnumber`. -/
def lua_pushnumber (n : floating) : LuaM Unit := push (LuaVal.of_number n)

/-- `lua_pushinteger`. -/
def lua_pushinteger (n : Int) : LuaM Unit := push (.number n)

/-- `lua_pushlstring`: the first `len` bytes of the buffer. -/
def lua_pushlstring (buf : List Char) (len : Nat) : LuaM Unit :=
  push (.string ⟨buf.take len⟩)

/-- `lua_pushstring`: the zero-terminated string, `nil` for `NULL`. -/
def lua_pushstring (s : Option String) : LuaM Unit :=
  match s with
  | some s => push (.string (cstr s))
  | none => push .nil

/-- `lua_pushliteral`. -/
def lua_pushliteral (s : String) : LuaM Unit := push (.string s)

/-- `lua_pushvalue`: a copy of the value at the index. -/
def lua_pushvalue (idx : Int) : LuaM Unit := fun L =>
  push ((index2adr L idx).getD .nil) L

/-- `lua_error`: raise the value on top of the stack. -/
def lua_error {α : Type} : LuaM α := fun L =>
  .raise ((index2adr L (-1)).getD .nil) L

/-- `luaL_error` called from a C function (no position is prepended). -/
def luaL_error {α : Type} (msg : String) : LuaM α := do
  lua_pushliteral msg
  lua_error

/-- `lua_typename (L, lua_type (L, idx))`. -/
def luaL_typename (v : Option LuaVal) : String :=
  match v with
  | none => "no value"
  | some .nil => "nil"
  | some (.boolean _) => "boolean"
  | some (.number _) => "number"
  | some (.number_bits _) => "number"
  | some (.string _) => "string"
  | some (.table _) => "table"
  | some (.cfunction _) => "function"
  | some (.avro_value _ _) => "userdata"
  | some (.avro_datum _ _) => "userdata"
  | some (.userdata _) => "userdata"
  | some (.iterator _ _) => "userdata"
  | some (.finalized_iterator _) => "userdata"
  | some (.avro_schema _) => "userdata"
  | some (.resolved_reader _) => "userdata"
  | some (.resolved_writer _) => "userdata"
  | some (.input_file _ _) => "userdata"
  | some (.resolver _) => "userdata"
  | some (.datum_iterator _ _ _) => "userdata"

/-- `luaL_typerror`: the argument error "`tname` expected, got ...". -/
def luaL_typerror {α : Type} (narg : Int) (tname : String) : LuaM α := fun L =>
  luaL_error ("bad argument #" ++ toString narg ++ " (" ++ tname ++ " expected, got "
    ++ luaL_typename (index2adr L narg) ++ ")") L

/-- White space of the C locale (`isspace`). -/
def isspace (c : Char) : Bool := c = ' ' || (9 ≤ c.toNat && c.toNat ≤ 13)

/-- The value of a decimal digit. -/
def decimal_digit (c : Char) : Option Nat :=
  if 48 ≤ c.toNat ∧ c.toNat ≤ 57 then some (c.toNat - 48) else none

/-- The value of an octal digit. -/
def octal_digit (c : Char) : Option Nat :=
  if 48 ≤ c.toNat ∧ c.toNat ≤ 55 then some (c.toNat - 48) else none

/-- The value of a hexadecimal digit. -/
def hex_digit (c : Char) : Option Nat :=
  if 48 ≤ c.toNat ∧ c.toNat ≤ 57 then some (c.toNat - 48)
  else if 97 ≤ c.toNat ∧ c.toNat ≤ 102 then some (c.toNat - 87)
  else if 65 ≤ c.toNat ∧ c.toNat ≤ 70 then some (c.toNat - 55)
  else none

/-- The leading digits of an input, in the base of `digit`: the number
they make when they follow the digits of `acc`, their count added to
`count`, and the rest of the input. -/
def take_digits (digit : Char → Option Nat) (base : Nat) :
    List Char → Nat → Nat → Nat × Nat × List Char
  | [], acc, count => (acc, count, [])
  | c :: cs, acc, count =>
    match digit c with
    | some d => take_digits digit base cs (acc * base + d) (count + 1)
    | none => (acc, count, c :: cs)

/-- The lower-case form of an ASCII letter. -/
def tolower (c : Char) : Char :=
  if 65 ≤ c.toNat ∧ c.toNat ≤ 90 then Char.ofNat (c.toNat + 32) else c

/-- The input without a leading word, compared without regard to the
case of the letters; `none` when the input does not start with it. -/
def skip_word : List Char → List Char → Option (List Char)
  | [], inp => some inp
  | _ :: _, [] => none
  | w :: ws, c :: cs => if tolower c = w then skip_word ws cs else none

/-- The exponent part of a number, after the mantissa: the marker (`e`
or `p`, in either case), an optional sign and decimal digits; it is
taken only when it has a digit.  The result is the exponent and the rest
of the input. -/
def take_exponent (marker : Char) (inp : List Char) : Int × List Char :=
  match inp with
  | c :: cs =>
    if tolower c = marker then
      let signed : Bool × List Char :=
        match cs with
        | '-' :: t => (true, t)
        | '+' :: t => (false, t)
        | _ => (false, cs)
      match take_digits decimal_digit 10 signed.2 0 0 with
      | (_, 0, _) => (0, inp)
      | (x, _, rest) => (if signed.1 then -(x : Int) else (x : Int), rest)
    else (0, inp)
  | [] => (0, inp)

/-- The mantissa of a number, in the base of `digit`: digits with at
most one point among them, and at least one digit.  The result is the
number the digits make, the count of the digits after the point, and the
rest of the input. -/
def take_mantissa (digit : Char → Option Nat) (base : Nat) (inp : List Char) :
    Option (Nat × Nat × List Char) :=
  match take_digits digit base inp 0 0 with
  | (i, ki, '.' :: t) =>
    (match take_digits digit base t i 0 with
    | (m, kf, rest) => if ki + kf = 0 then none else some (m, kf, rest))
  | (i, ki, rest) => if ki = 0 then none else some (i, 0, rest)

/-- The characters of the sequence in the parentheses after "nan":
letters, digits and the underscore. -/
def nan_char (c : Char) : Bool :=
  (48 ≤ c.toNat && c.toNat ≤ 57) || (65 ≤ c.toNat && c.toNat ≤ 90)
    || (97 ≤ c.toNat && c.toNat ≤ 122) || c = '_'

/-- The number that the C library reads from the sequence in the
parentheses after "nan" (`strtoull` with base 0: hexadecimal after "0x",
octal after "0", decimal otherwise, at most `ULLONG_MAX`); 0 when the
sequence is not a number as a whole. -/
def nan_payload (seq : List Char) : Nat :=
  let parsed : Nat × Nat × List Char :=
    match seq with
    | '0' :: x :: t =>
      if tolower x = 'x' then
        (match take_digits hex_digit 16 t 0 0 with
        | (_, 0, _) => (0, 1, x :: t)
        | r => r)
      else take_digits octal_digit 8 seq 0 0
    | '0' :: t => take_digits octal_digit 8 ('0' :: t) 0 0
    | _ => take_digits decimal_digit 10 seq 0 0
  match parsed with
  | (n, _, []) => min n (2 ^ 64 - 1)
  | _ => 0

/-- The bit pattern of the `double` that `strtod` of the C library reads
at the start of an input, and the rest of the input; `none` when no
number starts the input.  After optional white space and an optional
sign come: "inf" or "infinity"; "nan", optionally followed by a sequence
of letters, digits and underscores in parentheses, which gives the
fraction bits of the NaN when it is a number; a hexadecimal mantissa
after "0x" with an optional binary exponent after "p"; or a decimal
mantissa with an optional decimal exponent after "e".  Letters count
without regard to case.  The value is rounded to the nearest `double`. -/
def strtod (inp : List Char) : Option (Nat × List Char) :=
  let s := inp.dropWhile isspace
  let signed : Bool × List Char :=
    match s with
    | '-' :: t => (true, t)
    | '+' :: t => (false, t)
    | _ => (false, s)
  let negative := signed.1
  let sign := if negative then 2 ^ 63 else 0
  let s := signed.2
  match skip_word ['i', 'n', 'f'] s with
  | some rest =>
    some (sign + 2047 * 2 ^ 52, (skip_word ['i', 'n', 'i', 't', 'y'] rest).getD rest)
  | none =>
  match skip_word ['n', 'a', 'n'] s with
  | some rest =>
    (match rest with
    | '(' :: t =>
      (match t.dropWhile nan_char with
      | ')' :: rest' =>
        some (sign + 2047 * 2 ^ 52 + 2 ^ 51 + nan_payload (t.takeWhile nan_char) % 2 ^ 51, rest')
      | _ => some (sign + 2047 * 2 ^ 52 + 2 ^ 51, rest))
    | _ => some (sign + 2047 * 2 ^ 52 + 2 ^ 51, rest))
  | none =>
  let hex : Option (Nat × List Char) :=
    match s with
    | '0' :: x :: t =>
      if tolower x = 'x' then
        match take_mantissa hex_digit 16 t with
        | some (m, kf, rest) =>
          let (x, rest') := take_exponent 'p' rest
          let e : Int := x - 4 * (kf : Int)
          some (if 0 ≤ e then ieee_round 11 52 negative (m * 2 ^ e.toNat) 1
            else ieee_round 11 52 negative m (2 ^ (-e).toNat), rest')
        | none => none
      else none
    | _ => none
  match hex with
  | some r => some r
  | none =>
  match take_mantissa decimal_digit 10 s with
  | some (m, kf, rest) =>
    let (x, rest') := take_exponent 'e' rest
    let e : Int := x - (kf : Int)
    some (if 0 ≤ e then ieee_round 11 52 negative (m * 10 ^ e.toNat) 1
      else ieee_round 11 52 negative m (10 ^ (-e).toNat), rest')
  | none => none

/-- The runtime's string-to-number conversion (`luaO_str2d`), which
works on the string as a C string: it succeeds when `strtod` reads a
number at the start and only white space follows it.  (When `strtod`
stops at an "x", `luaO_str2d` reads the string again with `strtoul` in
base 16.  With a `strtod` that reads hexadecimal numbers itself, as the
one of the GNU C library does, `strtoul` reads no further than that "x",
so that something other than white space follows what it reads, and the
conversion fails as it does here.) -/
def luaO_str2d (s : String) : Option floating :=
  match strtod (cstr s).data with
  | some (bits, rest) => if rest.all isspace then some (floating.of_bits 11 52 bits) else none
  | none => none

/-- The smallest `k` with `b ≤ a * 10 ^ k`, for `k` up to `fuel`. -/
def decimal_shift : Nat → Nat → Nat → Nat
  | 0, _, _ => 0
  | fuel + 1, a, b => if b ≤ a then 0 else decimal_shift fuel (a * 10) b + 1

/-- The digits of a number without its trailing zeros. -/
def strip_zeros (digits : List Char) : List Char :=
  (digits.reverse.dropWhile (fun c => c = '0')).reverse

/-- The conversion "%.14g" of `printf` for the positive quotient
`a / b`: the quotient is rounded to 14 significant digits (ties to
even); with the decimal exponent `x` of the result, the style is that of
"%e" when `x < -4` or `14 ≤ x` and that of "%f" otherwise; trailing
zeros of the fraction, and a decimal point that nothing follows, are
left out; the exponent has at least two digits. -/
def format_g (a b : Nat) : String :=
  let x0 : Int :=
    if b ≤ a then ((toString (a / b)).length : Int) - 1
    else -(decimal_shift (bit_length b b) a b : Int)
  let n := if x0 ≤ 13 then a * 10 ^ (13 - x0).toNat else a
  let d := if x0 ≤ 13 then b else b * 10 ^ (x0 - 13).toNat
  let q := n / d
  let r := n % d
  let q' := if d < 2 * r ∨ (2 * r = d ∧ q % 2 = 1) then q + 1 else q
  let x : Int := if q' = 10 ^ 14 then x0 + 1 else x0
  let digits : List Char := (toString (if q' = 10 ^ 14 then 10 ^ 13 else q')).data
  if x < -4 ∨ 14 ≤ x then
    let fraction := strip_zeros (digits.drop 1)
    ⟨digits.take 1 ++ (if fraction = [] then [] else '.' :: fraction)
      ++ 'e' :: (if x < 0 then '-' else '+')
      :: (if x.natAbs < 10 then '0' :: (toString x.natAbs).data else (toString x.natAbs).data)⟩
  else if 0 ≤ x then
    let fraction := strip_zeros (digits.drop (x.toNat + 1))
    ⟨digits.take (x.toNat + 1) ++ (if fraction = [] then [] else '.' :: fraction)⟩
  else
    ⟨'0' :: '.' :: (List.replicate ((-x).toNat - 1) '0' ++ strip_zeros digits)⟩

/-- The runtime's number-to-string conversion (`lua_number2str`, the
format "%.14g") of an integral number: its decimal digits when they are
at most 14, the exponent style otherwise. -/
def lua_number2str (n : Int) : String :=
  if n.natAbs < 10 ^ 14 then toString n
  else (if n < 0 then "-" else "") ++ format_g n.natAbs 1

/-- The runtime's number-to-string conversion (`lua_number2str`, the
format "%.14g") of a number given by its bit pattern, as the C library
prints it: "inf", "nan", with a minus sign when the sign bit is set. -/
def lua_number2str_bits (bits : Nat) : String :=
  (if bits / 2 ^ 63 % 2 = 1 then "-" else "") ++
    match ieee_finite 11 52 bits with
    | some (_, m, e) =>
      if m = 0 then "0"
      else if 0 ≤ e then format_g (m * 2 ^ e.toNat) 1
      else format_g m (2 ^ (-e).toNat)
    | none => if bits % 2 ^ 52 = 0 then "inf" else "nan"

/-- The number a value converts to (`luaV_tonumber`). -/
def luaV_tonumber (v : Option LuaVal) : Option floating :=
  match v with
  | some (.number n) => some (.integral n)
  | some (.number_bits bits) => some (.pattern bits)
  | some (.string s) => luaO_str2d s
  | _ => none

/-- `lua_isnumber`: a number or a string convertible to one. -/
def lua_isnumber (idx : Int) : LuaM Bool := fun L =>
  .ok (luaV_tonumber (index2adr L idx)).isSome L

/-- The conversion of a number to `lua_Integer` (64 bits); outside of
its range the x86-64 conversion yields the smallest integer. -/
def lua_number2integer (n : Int) : Int :=
  if -(2 : Int) ^ 63 ≤ n ∧ n < (2 : Int) ^ 63 then n else -(2 : Int) ^ 63

/-- The conversion `lua_number2integer` of any number: a fraction is
truncated toward zero; an infinity and a NaN give the smallest integer
(the x86-64 conversion). -/
def floating.to_integer : floating → Int
  | .integral n => lua_number2integer n
  | .pattern bits =>
    match ieee_truncate 11 52 bits with
    | some t => lua_number2integer t
    | none => -(2 : Int) ^ 63

/-- `lua_tointeger`: `0` when the value does not convert to a number. -/
def lua_tointeger (idx : Int) : LuaM Int := fun L =>
  match luaV_tonumber (index2adr L idx) with
  | some n => .ok n.to_integer L
  | none => .ok 0 L

/-- `lua_toboolean`: false for `nil`, `false` and no value. -/
def lua_toboolean (idx : Int) : LuaM Bool := fun L =>
  match index2adr L idx with
  | none => .ok false L
  | some .nil => .ok false L
  | some (.boolean b) => .ok b L
  | some _ => .ok true L

/-- `lua_tolstring`: the string at the index; a number is converted to a
string in place; `NULL` (`none`) for any other value. -/
def lua_tolstring (idx : Int) : LuaM (Option String) := fun L =>
  match index2adr L idx with
  | some (.string s) => .ok (some s) L
  | some (.number n) =>
    .ok (some (lua_number2str n)) (setidx L idx (.string (lua_number2str n)))
  | some (.number_bits bits) =>
    .ok (some (lua_number2str_bits bits)) (setidx L idx (.string (lua_number2str_bits bits)))
  | _ => .ok none L

/-- `luaL_checklstring`. -/
def luaL_checklstring (narg : Int) : LuaM String := do
  match ← lua_tolstring narg with
  | some s => pure s
  | none => luaL_typerror narg "string"

/-- `luaL_checkstring`: the string as a `const char *`. -/
def luaL_checkstring (narg : Int) : LuaM String := do
  let s ← luaL_checklstring narg
  pure (cstr s)

/-- `luaL_optstring (L, narg, NULL)`: `NULL` for `nil` or no value. -/
def luaL_optstring (narg : Int) : LuaM (Option String) := fun L =>
  match index2adr L narg with
  | none => .ok none L
  | some .nil => .ok none L
  | some _ => (do let s ← luaL_checkstring narg; pure (some s)) L

/-- `luaL_checkinteger`. -/
def luaL_checkinteger (narg : Int) : LuaM Int := do
  if ← lua_isnumber narg then lua_tointeger narg
  else luaL_typerror narg "number"

/-- `luaL_checklong`. -/
def luaL_checklong (narg : Int) : LuaM Int := luaL_checkinteger narg

/-- `luaL_checknumber`. -/
def luaL_checknumber (narg : Int) : LuaM floating := fun L =>
  match luaV_tonumber (index2adr L narg) with
  | some n => .ok n L
  | none => luaL_typerror narg "number" L

/-- `lua_pushcfunction`: the C function, by its name. -/
def lua_pushcfunction (name : String) : LuaM Unit := push (.cfunction name)

/-- `lua_isnil`. -/
def lua_isnil (idx : Int) : LuaM Bool := fun L =>
  match index2adr L idx with
  | some .nil => .ok true L
  | _ => .ok false L

/-- `MT_AVRO_VALUE_METHODS`. -/
def MT_AVRO_VALUE_METHODS : String := "avro:AvroValue:methods"

/-- `MT_ITERATOR` of legacy.c. -/
def MT_ITERATOR : String := "sawmill:AvroValue:iterator"

/-- `MT_AVRO_SCHEMA`. -/
def MT_AVRO_SCHEMA : String := "avro:AvroSchema"

/-- `MT_AVRO_RESOLVED_READER`. -/
def MT_AVRO_RESOLVED_READER : String := "avro:AvroResolvedReader"

/-- `MT_AVRO_RESOLVED_WRITER`. -/
def MT_AVRO_RESOLVED_WRITER : String := "avro:AvroResolvedWriter"

/-- `MT_AVRO_DATA_INPUT_FILE`. -/
def MT_AVRO_DATA_INPUT_FILE : String := "avro:AvroDataInputFile"

/-- `value_methods` of legacy.c: the methods of the AvroValue class,
each name with its C function. -/
def value_methods : List (String × String) :=
  [("append", "l_value_append"),
   ("discriminant", "l_value_discriminant"),
   ("encode", "l_value_encode"),
   ("encoded_size", "l_value_encoded_size"),
   ("get", "l_value_get"),
   ("hash", "l_value_hash"),
   ("iterate", "l_value_iterate"),
   ("scalar", "l_value_scalar"),
   ("set", "l_value_set"),
   ("set_source", "l_value_set_source"),
   ("type", "l_value_type")]

/-- The tables of the registry that the binding reads back:
`luaopen_avro_c_legacy` registers `value_methods` in the table it stores
under `MT_AVRO_VALUE_METHODS`, which Lua code cannot reach.  A table is
identified by its position in this list. -/
def registry : List (String × List (String × LuaVal)) :=
  [(MT_AVRO_VALUE_METHODS, value_methods.map (fun m => (m.1, LuaVal.cfunction m.2)))]

/-- `luaL_getmetatable`: push the table stored in the registry under
`tname`, `nil` when there is none. -/
def luaL_getmetatable (tname : String) : LuaM Unit :=
  match findIdx? (fun t => t.1 == tname) registry with
  | some id => push (.table id)
  | none => push .nil

/-- The value of a key in a table of the registry, without metamethods:
the tables hold string keys only. -/
def rawget (id : Nat) (key : LuaVal) : LuaVal :=
  match registry[id]?, key with
  | some t, .string s => (lookupKey s t.2).getD .nil
  | _, _ => .nil

/-- `lua_rawget`: replace the key on top of the stack by its value in
the table at the index. -/
def lua_rawget (idx : Int) : LuaM Unit := fun L =>
  match index2adr L idx, index2adr L (-1) with
  | some (.table id), some key => .ok () (setidx L (-1) (rawget id key))
  | _, _ => .ok () (setidx L (-1) .nil)

/-! ## The value interface of the Avro library

A library call that returns a status yields `none` for a non-zero
status; the calls that fail set the library's error message. -/

/-- The value a handle designates. -/
def deref (heap : List avro_value) (value : Ref) : Option avro_value :=
  match heap[value.root]? with
  | some v => v.at value.path
  | none => none

/-- Rewrite the value a handle designates. -/
def store (L : lua_State) (value : Ref) (f : avro_value → Option avro_value) :
    Option lua_State :=
  match L.heap[value.root]? with
  | some v => match v.update f value.path with
    | some v' => some { L with heap := L.heap.set value.root v' }
    | none => none
  | none => none

/-- The handle of a child. -/
def Ref.child (value : Ref) (s : Step) : Ref := { value with path := value.path ++ [s] }

/-- `avro_set_error`. -/
def avro_set_error (msg : String) (L : lua_State) : lua_State :=
  { L with avro_strerror := msg }

/-- `avro_value_get_type`. -/
def avro_value_get_type (value : Ref) : LuaM avro_type_t := fun L =>
  match deref L.heap value with
  | some v => .ok v.type L
  | none => .undefined

/-- `avro_value_get_schema`. -/
def avro_value_get_schema (value : Ref) : LuaM avro_schema_t := fun L =>
  match deref L.heap value with
  | some v => .ok v.schema L
  | none => .undefined

/-- A getter of the value interface: the status is non-zero when the
value has no such content. -/
def avro_value_getter {α : Type} (sel : avro_value → Option α) (value : Ref) :
    LuaM (Option α) := fun L =>
  match deref L.heap value with
  | some v => .ok (sel v) L
  | none => .undefined

/-- A setter of the value interface: the status is non-zero, with the
given message, when the value does not take the content. -/
def avro_value_setter (upd : avro_value → Option avro_value) (msg : String) (value : Ref) :
    LuaM (Option Unit) := fun L =>
  match deref L.heap value with
  | some _ => match store L value upd with
    | some L' => .ok (some ()) L'
    | none => .ok none (avro_set_error msg L)
  | none => .undefined

/-- `avro_value_get_string`: the buffer and its size, terminator included. -/
def avro_value_get_string : Ref → LuaM (Option (List Char × Nat)) :=
  avro_value_getter (fun v => match v with
    | .string buf => some (buf, buf.length)
    | _ => none)

/-- `avro_value_get_bytes`. -/
def avro_value_get_bytes : Ref → LuaM (Option (List Char × Nat)) :=
  avro_value_getter (fun v => match v with
    | .bytes buf => some (buf, buf.length)
    | _ => none)

/-- `avro_value_get_int`. -/
def avro_value_get_int : Ref → LuaM (Option Int) :=
  avro_value_getter (fun v => match v with
    | .int val => some val
    | _ => none)

/-- `avro_value_get_long`. -/
def avro_value_get_long : Ref → LuaM (Option Int) :=
  avro_value_getter (fun v => match v with
    | .long val => some val
    | _ => none)

/-- `avro_value_get_float`. -/
def avro_value_get_float : Ref → LuaM (Option floating) :=
  avro_value_getter (fun v => match v with
    | .float val => some (.integral val)
    | .float_bits bits => some (.pattern bits)
    | _ => none)

/-- `avro_value_get_double`. -/
def avro_value_get_double : Ref → LuaM (Option floating) :=
  avro_value_getter (fun v => match v with
    | .double val => some (.integral val)
    | .double_bits bits => some (.pattern bits)
    | _ => none)

/-- `avro_value_get_boolean`. -/
def avro_value_get_boolean : Ref → LuaM (Option Bool) :=
  avro_value_getter (fun v => match v with
    | .boolean val => some val
    | _ => none)

/-- `avro_value_get_null`. -/
def avro_value_get_null : Ref → LuaM (Option Unit) :=
  avro_value_getter (fun v => match v with
    | .null => some ()
    | _ => none)

/-- `avro_value_get_enum`. -/
def avro_value_get_enum : Ref → LuaM (Option Int) :=
  avro_value_getter (fun v => match v with
    | .enum _ _ val => some val
    | _ => none)

/-- `avro_value_get_fixed`. -/
def avro_value_get_fixed : Ref → LuaM (Option (List Char × Nat)) :=
  avro_value_getter (fun v => match v with
    | .fixed _ _ buf => some (buf, buf.length)
    | _ => none)

/-- `avro_value_set_string_len`: the string takes the first `size` bytes
of what `str` points to, where `size` counts the terminator. -/
def avro_value_set_string_len (value : Ref) (str : List Char) (size : Nat) :
    LuaM (Option Unit) :=
  avro_value_setter (fun v => match v with
    | .string _ => some (.string (str.take size))
    | _ => none) "Value is not a string" value

/-- `avro_value_set_bytes`. -/
def avro_value_set_bytes (value : Ref) (buf : List Char) (size : Nat) : LuaM (Option Unit) :=
  avro_value_setter (fun v => match v with
    | .bytes _ => some (.bytes (buf.take size))
    | _ => none) "Value is not bytes" value

/-- Conversion to a signed integer of `w` bits (two's complement). -/
def wrapSigned (w : Nat) (n : Int) : Int :=
  (n + (2 : Int) ^ (w - 1)) % (2 : Int) ^ w - (2 : Int) ^ (w - 1)

/-- `avro_value_set_int`; the argument converts to `int32_t`. -/
def avro_value_set_int (value : Ref) (val : Int) : LuaM (Option Unit) :=
  avro_value_setter (fun v => match v with
    | .int _ => some (.int (wrapSigned 32 val))
    | _ => none) "Value is not an int" value

/-- `avro_value_set_long`; the argument converts to `int64_t`. -/
def avro_value_set_long (value : Ref) (val : Int) : LuaM (Option Unit) :=
  avro_value_setter (fun v => match v with
    | .long _ => some (.long (wrapSigned 64 val))
    | _ => none) "Value is not a long" value

/-- The float value of a number. -/
def avro_value.of_float : floating → avro_value
  | .integral n => .float n
  | .pattern bits =>
    match ieee_value 8 23 bits with
    | some n => .float n
    | none => .float_bits bits

/-- The double value of a number. -/
def avro_value.of_double : floating → avro_value
  | .integral n => .double n
  | .pattern bits =>
    match ieee_value 11 52 bits with
    | some n => .double n
    | none => .double_bits bits

/-- `avro_value_set_float`. -/
def avro_value_set_float (value : Ref) (val : floating) : LuaM (Option Unit) :=
  avro_value_setter (fun v => match v with
    | .float _ => some (avro_value.of_float val)
    | .float_bits _ => some (avro_value.of_float val)
    | _ => none) "Value is not a float" value

/-- `avro_value_set_double`. -/
def avro_value_set_double (value : Ref) (val : floating) : LuaM (Option Unit) :=
  avro_value_setter (fun v => match v with
    | .double _ => some (avro_value.of_double val)
    | .double_bits _ => some (avro_value.of_double val)
    | _ => none) "Value is not a double" value

/-- `avro_value_set_boolean`. -/
def avro_value_set_boolean (value : Ref) (val : Bool) : LuaM (Option Unit) :=
  avro_value_setter (fun v => match v with
    | .boolean _ => some (.boolean val)
    | _ => none) "Value is not a boolean" value

/-- `avro_value_set_null`. -/
def avro_value_set_null (value : Ref) : LuaM (Option Unit) :=
  avro_value_setter (fun v => match v with
    | .null => some .null
    | _ => none) "Value is not a null" value

/-- `avro_value_set_enum`. -/
def avro_value_set_enum (value : Ref) (val : Int) : LuaM (Option Unit) :=
  avro_value_setter (fun v => match v with
    | .enum name symbols _ => some (.enum name symbols val)
    | _ => none) "Value is not an enum" value

/-- `avro_value_set_fixed`: the size must be the size of the schema. -/
def avro_value_set_fixed (value : Ref) (buf : List Char) (size : Nat) : LuaM (Option Unit) :=
  avro_value_setter (fun v => match v with
    | .fixed name n _ => if size = n then some (.fixed name n (buf.take size)) else none
    | _ => none) "Invalid size for fixed" value

/-- `avro_value_get_size`: the number of elements of an array or map. -/
def avro_value_get_size : Ref → LuaM (Option Nat) :=
  avro_value_getter (fun v => match v with
    | .array _ elements => some elements.length
    | .map _ entries => some entries.length
    | _ => none)

/-- `avro_value_get_by_index`: the handle of the element at a 0-based
position of an array, of a map (with its key) or of a record (with its
field name); the status is non-zero when the position is out of range. -/
def avro_value_get_by_index (value : Ref) (index : Nat) :
    LuaM (Option (Ref × Option String)) := fun L =>
  match deref L.heap value with
  | some (.array _ elements) =>
    if index < elements.length then .ok (some (value.child (.index index), none)) L
    else .ok none (avro_set_error "Array index out of range" L)
  | some (.map _ entries) =>
    match entries[index]? with
    | some (k, _) => .ok (some (value.child (.key k), some k)) L
    | none => .ok none (avro_set_error "Map index out of range" L)
  | some (.record _ fields) =>
    match fields[index]? with
    | some (n, _) => .ok (some (value.child (.field index), some n)) L
    | none => .ok none (avro_set_error "Record index out of range" L)
  | some _ => .ok none L
  | none => .undefined

/-- `avro_value_get_by_name`: for a map, the handle of the entry with the
given key, whose `self` is `NULL` (inner `none`) when there is no such
entry; for a record, the handle of the named field, and a non-zero
status when the record has no such field. -/
def avro_value_get_by_name (value : Ref) (name : String) :
    LuaM (Option (Option Ref)) := fun L =>
  match deref L.heap value with
  | some (.map _ entries) =>
    if (lookupKey name entries).isSome then .ok (some (some (value.child (.key name)))) L
    else .ok (some none) L
  | some (.record _ fields) =>
    match findIdx? (fun f => f.1 == name) fields with
    | some i => .ok (some (some (value.child (.field i)))) L
    | none => .ok none (avro_set_error ("Unknown record field " ++ name) L)
  | some _ => .ok none L
  | none => .undefined

/-- `avro_value_add`: the handle of the map entry with the given key,
which is first appended, with a fresh value, when the map has none. -/
def avro_value_add (value : Ref) (key : String) : LuaM (Option Ref) := fun L =>
  match deref L.heap value with
  | some (.map values entries) =>
    if (lookupKey key entries).isSome then .ok (some (value.child (.key key))) L
    else
      match store L value (fun _ =>
          some (.map values (entries ++ [(key, avro_generic_value_new values)]))) with
      | some L' => .ok (some (value.child (.key key))) L'
      | none => .undefined
  | some _ => .ok none L
  | none => .undefined

/-- `avro_value_append`: append a fresh element to an array. -/
def avro_value_append (value : Ref) : LuaM (Option Ref) := fun L =>
  match deref L.heap value with
  | some (.array items elements) =>
    match store L value (fun _ =>
        some (.array items (elements ++ [avro_generic_value_new items]))) with
    | some L' => .ok (some (value.child (.index elements.length))) L'
    | none => .undefined
  | some _ => .ok none L
  | none => .undefined

/-- `avro_value_get_discriminant`: `-1` when no branch is selected. -/
def avro_value_get_discriminant : Ref → LuaM (Option Int) :=
  avro_value_getter (fun v => match v with
    | .union _ (some (d, _)) => some (d : Int)
    | .union _ none => some (-1)
    | _ => none)

/-- `avro_value_get_current_branch`: the status is non-zero when no
branch is selected. -/
def avro_value_get_current_branch (value : Ref) : LuaM (Option Ref) := fun L =>
  match deref L.heap value with
  | some (.union _ (some _)) => .ok (some (value.child .branch)) L
  | some (.union _ none) => .ok none (avro_set_error "Union has no selected branch" L)
  | some _ => .ok none L
  | none => .undefined

/-- Whether the branch with the given discriminant is the active one. -/
def is_active (current : Option (Nat × avro_value)) (discriminant : Nat) : Bool :=
  match current with
  | some (d, _) => d == discriminant
  | none => false

/-- `avro_value_set_branch`: select a branch; when it is not the active
one already, the old branch value is discarded and a fresh one made. -/
def avro_value_set_branch (value : Ref) (discriminant : Nat) : LuaM (Option Ref) := fun L =>
  match deref L.heap value with
  | some (.union branches current) =>
    match branches[discriminant]? with
    | none => .ok none (avro_set_error "Invalid union discriminant" L)
    | some schema =>
      if is_active current discriminant then .ok (some (value.child .branch)) L
      else
        match store L value (fun _ =>
            some (.union branches (some (discriminant, avro_generic_value_new schema)))) with
        | some L' => .ok (some (value.child .branch)) L'
        | none => .undefined
  | some _ => .ok none L
  | none => .undefined

/-- `avro_strerror`. -/
def avro_strerror : LuaM String := fun L => .ok L.avro_strerror L

/-- The library's `avro_schema_union_branch_by_name`: the branch whose
type name is `name`, with its discriminant; `NULL` (`none`), with the
error message set, when there is none. -/
def avro_schema_union_branch_by_name (schema : avro_schema_t) (name : String) :
    LuaM (Option (Nat × avro_schema_t)) := fun L =>
  match union_branch_by_name schema name with
  | some r => .ok (some r) L
  | none => .ok none (avro_set_error ("No union branch named " ++ name) L)

/-- A call of the library that fails with a message: the status is
non-zero and the message is the library's error message. -/
def library_call {α : Type} (result : Except String α) : LuaM (Option α) := fun L =>
  match result with
  | .ok a => .ok (some a) L
  | .error msg => .ok none (avro_set_error msg L)

/-- The binary codec of the library, whose code is not part of the
binding: `avro_value_sizeof` gives the size of the encoding of a value;
`avro_value_write` gives the bytes that writing a value puts into a
memory writer of a given capacity; `avro_value_read` gives the contents
that reading an encoding through the value of a resolved writer leaves
in the destination value, from its former contents.  A failure carries
the error message the library sets. -/
structure avro_codec where
  avro_value_sizeof : avro_value → Except String Nat
  avro_value_write : avro_value → Nat → Except String (List Char)
  avro_value_read : avro_resolver → List Char → avro_value → Except String avro_value

/-- `avro_value_sizeof`. -/
def avro_value_sizeof (codec : avro_codec) (value : Ref) : LuaM (Option Nat) := fun L =>
  match deref L.heap value with
  | some v => library_call (codec.avro_value_sizeof v) L
  | none => .undefined

/-- A region of C memory of `size` bytes whose contents were not set by
the caller: the byte at each offset is what `bytes` says. -/
def c_block (bytes : Nat → Char) (size : Nat) : List Char := (List.range size).map bytes

/-- `avro_value_write` on `avro_writer_memory (buf, size)`: the bytes
written replace the leading bytes of the buffer, whose new contents are
returned. -/
def avro_value_write (codec : avro_codec) (buf : List Char) (size : Nat) (value : Ref) :
    LuaM (Option (List Char)) := fun L =>
  match deref L.heap value with
  | some v =>
    match codec.avro_value_write v size with
    | .ok written => .ok (some (written ++ buf.drop written.length)) L
    | .error msg => .ok none (avro_set_error msg L)
  | none => .undefined

/-- `avro_value_read` on `avro_reader_memory (buf, size)` and the value
of a resolved writer whose destination was set to `dest` by
`avro_resolved_writer_set_dest`. -/
def avro_value_read (codec : avro_codec) (resolver : Option avro_resolver) (buf : List Char)
    (dest : Ref) : LuaM (Option Unit) := fun L =>
  match resolver, deref L.heap dest with
  | some r, some v =>
    match codec.avro_value_read r buf v with
    | .ok v' =>
      match store L dest (fun _ => some v') with
      | some L' => .ok (some ()) L'
      | none => .undefined
    | .error msg => .ok none (avro_set_error msg L)
  | _, _ => .undefined

/-- `avro_generic_value_new (iface, &value)` as a call: a new value of
the schema of the class, which no other value contains. -/
def avro_generic_value_create (iface : Option avro_schema_t) : LuaM (Option Ref) := fun L =>
  match iface with
  | some schema =>
    .ok (some ⟨L.heap.length, []⟩) { L with heap := L.heap ++ [avro_generic_value_new schema] }
  | none => .undefined

/-- `avro_file_reader_read_value`: the next value of the file is read
into `value`; the status is non-zero, with the library's message set,
when the read fails and when the file has no more values.  The reader
is returned as the call leaves it. -/
def avro_file_reader_read_value (reader : Option avro_file_reader) (value : Ref) :
    LuaM (Option Unit × Option avro_file_reader) := fun L =>
  match reader with
  | some r =>
    match r.pending with
    | [] => .ok (none, some r) (avro_set_error (r.eof_message.getD L.avro_strerror) L)
    | .failure msg :: rest => .ok (none, some { r with pending := rest }) (avro_set_error msg L)
    | .value v :: rest =>
      match store L value (fun _ => some v) with
      | some L' => .ok (some (), some { r with pending := rest }) L'
      | none => .undefined
  | none => .undefined

/-! ## The binary codec of the library

The code of the codec is in the Avro C library, not in this repository.
The definitions of this section follow the encoding rules of the
specification (its section 4.3) and the structural equality of its
section 4.2, on the values of this development. -/

/-- The byte of a number, reduced modulo 256. -/
def byte (n : Nat) : Char := Char.ofNat (n % 256)

/-- Modelled from the spec: the zig-zag mapping of the signed integers
to the unsigned ones, `0, -1, 1, -2, 2` to `0, 1, 2, 3, 4`. -/
def zigzag (n : Int) : Nat := if 0 ≤ n then 2 * n.toNat else 2 * (-n).toNat - 1

/-- Modelled from the spec: the inverse of the zig-zag mapping, used by
the decoder. -/
def unzigzag (n : Nat) : Int :=
  if n % 2 = 0 then ((n / 2 : Nat) : Int) else -(((n + 1) / 2 : Nat) : Int)

/-- Modelled from the spec: the variable-length base-128 encoding of an
unsigned integer, low groups first, the high bit of a byte set when
more bytes follow; `fuel` bounds the number of bytes. -/
def put_varint : Nat → Nat → List Char
  | 0, _ => []
  | fuel + 1, n =>
    if n < 128 then [byte n] else byte (n % 128 + 128) :: put_varint fuel (n / 128)

/-- Modelled from the spec: the decoding of a base-128 integer; a
truncated integer is rejected. -/
def get_varint : List Char → Option (Nat × List Char)
  | [] => none
  | c :: cs =>
    if c.toNat < 128 then some (c.toNat, cs)
    else
      match get_varint cs with
      | some (n, rest) => some (c.toNat - 128 + 128 * n, rest)
      | none => none

/-- Modelled from the spec: an `int` or `long` is zig-zag encoded, then
written as a base-128 integer (of at most ten bytes, for 64 bits). -/
def put_long (n : Int) : List Char := put_varint 10 (zigzag n)

/-- Modelled from the spec: the decoding of an `int` or `long`; an
integer that does not fit 64 bits is rejected. -/
def get_long (inp : List Char) : Option (Int × List Char) :=
  match get_varint inp with
  | some (n, rest) => if n < 2 ^ 64 then some (unzigzag n, rest) else none
  | none => none

/-- Modelled from the spec: the `k` bytes of a number, little-endian
(the layout of float and double). -/
def put_le : Nat → Nat → List Char
  | 0, _ => []
  | k + 1, n => byte n :: put_le k (n / 256)

/-- Modelled from the spec: the number that `k` little-endian bytes
hold; a truncated input is rejected. -/
def get_le : Nat → List Char → Option (Nat × List Char)
  | 0, inp => some (0, inp)
  | _ + 1, [] => none
  | k + 1, c :: cs =>
    match get_le k cs with
    | some (n, rest) => some (c.toNat + 256 * n, rest)
    | none => none

/-- Modelled from the spec: bytes and strings are written as their
length followed by the raw bytes. -/
def put_bytes (buf : List Char) : List Char := put_long buf.length ++ buf

/-- Modelled from the spec: the decoding of a length and as many raw
bytes; a negative length and a truncated input are rejected. -/
def get_bytes (inp : List Char) : Option (List Char × List Char) :=
  match get_long inp with
  | some (len, rest) =>
    if 0 ≤ len ∧ len.toNat ≤ rest.length then
      some (rest.take len.toNat, rest.drop len.toNat)
    else none
  | none => none

/-- Modelled from the spec: the decoding of the `n` items of a block,
one after the other. -/
def get_items {α : Type} (item : List Char → Option (α × List Char)) :
    Nat → List Char → Option (List α × List Char)
  | 0, inp => some ([], inp)
  | n + 1, inp =>
    match item inp with
    | some (a, rest) =>
      match get_items item n rest with
      | some (as, rest') => some (a :: as, rest')
      | none => none
    | none => none

/-- Modelled from the spec: the decoding of the blocks of an array or a
map: each block is a count followed by that many items, a count of zero
ends the sequence; the blocks with a negative count (the legacy variant)
are not supported.  Every block takes at least one byte, so the length
of the input bounds the number of blocks (`fuel`). -/
def get_blocks {α : Type} (item : List Char → Option (α × List Char)) :
    Nat → List Char → Option (List α × List Char)
  | 0, _ => none
  | fuel + 1, inp =>
    match get_long inp with
    | some (count, rest) =>
      if count = 0 then some ([], rest)
      else if count < 0 then none
      else
        match get_items item count.toNat rest with
        | some (as, rest') =>
          match get_blocks item fuel rest' with
          | some (bs, rest'') => some (as ++ bs, rest'')
          | none => none
        | none => none
    | none => none

/-- Modelled from the spec: the decoding of an item of a map, its key
(a string) and its value. -/
def get_entry {α : Type} (item : List Char → Option (α × List Char)) (inp : List Char) :
    Option ((String × α) × List Char) :=
  match get_bytes inp with
  | some (k, rest) =>
    match item rest with
    | some (v, rest') => some ((⟨k⟩, v), rest')
    | none => none
  | none => none

/-- Modelled from the spec: the blocks of an array or map: nothing but
the final zero count when there are no items, else one block with all
the items and the final zero count. -/
def put_blocks (count : Nat) (items : List Char) : List Char :=
  if count = 0 then put_long 0 else put_long count ++ items ++ put_long 0

mutual
/-- Modelled from the spec: the binary encoding of a value (section
4.3), which the library's `avro_value_write` produces: nothing for null, one byte for a boolean, zig-zag base-128
integers for int, long and the index of an enum, little-endian IEEE-754
for float and double, a length and the raw bytes for bytes and strings
(the terminator of a string left out), the raw bytes for fixed, blocks
for arrays and maps, the branch index and the branch for a union, the
fields in their order for a record.  A union without a selected branch
has no encoding. -/
def encode : avro_value → Option (List Char)
  | .null => some []
  | .boolean b => some [byte (if b then 1 else 0)]
  | .int val => some (put_long val)
  | .long val => some (put_long val)
  | .float val => some (put_le 4 (ieee_bits 8 23 val))
  | .double val => some (put_le 8 (ieee_bits 11 52 val))
  | .float_bits bits => some (put_le 4 bits)
  | .double_bits bits => some (put_le 8 bits)
  | .bytes buf => some (put_bytes buf)
  | .string buf => some (put_bytes buf.dropLast)
  | .fixed _ _ buf => some buf
  | .enum _ _ val => some (put_long val)
  | .array _ elements =>
    match encode_elements elements with
    | some items => some (put_blocks elements.length items)
    | none => none
  | .map _ entries =>
    match encode_entries entries with
    | some items => some (put_blocks entries.length items)
    | none => none
  | .union _ (some (d, b)) =>
    match encode b with
    | some bs => some (put_long d ++ bs)
    | none => none
  | .union _ none => none
  | .record _ fields => encode_fields fields
/-- Modelled from the spec: the encodings of the elements of an array,
in their order. -/
def encode_elements : List avro_value → Option (List Char)
  | [] => some []
  | e :: rest =>
    match encode e, encode_elements rest with
    | some a, some b => some (a ++ b)
    | _, _ => none
/-- Modelled from the spec: the encodings of the entries of a map, each
a key (as a string) and a value. -/
def encode_entries : List (String × avro_value) → Option (List Char)
  | [] => some []
  | (k, v) :: rest =>
    match encode v, encode_entries rest with
    | some a, some b => some (put_bytes k.data ++ a ++ b)
    | _, _ => none
/-- Modelled from the spec: the encodings of the fields of a record, in
their declared order, without separators. -/
def encode_fields : List (String × avro_value) → Option (List Char)
  | [] => some []
  | (_, v) :: rest =>
    match encode v, encode_fields rest with
    | some a, some b => some (a ++ b)
    | _, _ => none
end

mutual
/-- Modelled from the spec: the decoding of a value of a schema from the
start of an input, with the rest of the input, as the library's
`avro_value_read` does it by the writer schema; it mirrors `encode` and
rejects truncated input and out-of-range enum and union indices. -/
def decode : avro_schema_t → List Char → Option (avro_value × List Char)
  | .null, inp => some (.null, inp)
  | .boolean, inp =>
    match inp with
    | c :: rest =>
      if c.toNat = 0 then some (.boolean false, rest)
      else if c.toNat = 1 then some (.boolean true, rest)
      else none
    | [] => none
  | .int, inp =>
    match get_long inp with
    | some (n, rest) =>
      if -(2 : Int) ^ 31 ≤ n ∧ n < (2 : Int) ^ 31 then some (.int n, rest) else none
    | none => none
  | .long, inp =>
    match get_long inp with
    | some (n, rest) => some (.long n, rest)
    | none => none
  | .float, inp =>
    match get_le 4 inp with
    | some (bits, rest) => some (avro_value.of_float (.pattern bits), rest)
    | none => none
  | .double, inp =>
    match get_le 8 inp with
    | some (bits, rest) => some (avro_value.of_double (.pattern bits), rest)
    | none => none
  | .bytes, inp =>
    match get_bytes inp with
    | some (buf, rest) => some (.bytes buf, rest)
    | none => none
  | .string, inp =>
    match get_bytes inp with
    | some (buf, rest) => some (.string (buf ++ [NUL]), rest)
    | none => none
  | .fixed name size, inp =>
    if size ≤ inp.length then some (.fixed name size (inp.take size), inp.drop size) else none
  | .enum name symbols, inp =>
    match get_long inp with
    | some (n, rest) =>
      if 0 ≤ n ∧ n < symbols.length then some (.enum name symbols n, rest) else none
    | none => none
  | .array items, inp =>
    match get_blocks (decode items) (inp.length + 1) inp with
    | some (elements, rest) => some (.array items elements, rest)
    | none => none
  | .map values, inp =>
    match get_blocks (get_entry (decode values)) (inp.length + 1) inp with
    | some (entries, rest) => some (.map values entries, rest)
    | none => none
  | .union branches, inp =>
    match get_long inp with
    | some (n, rest) =>
      if 0 ≤ n then
        match decode_branch branches n.toNat rest with
        | some (b, rest') => some (.union branches (some (n.toNat, b)), rest')
        | none => none
      else none
    | none => none
  | .record name fields, inp =>
    match decode_fields fields inp with
    | some (values, rest) => some (.record name values, rest)
    | none => none
/-- Modelled from the spec: the decoding of the branch of a union with a
given index; an index out of range is rejected. -/
def decode_branch : List avro_schema_t → Nat → List Char → Option (avro_value × List Char)
  | [], _, _ => none
  | schema :: _, 0, inp => decode schema inp
  | _ :: rest, i + 1, inp => decode_branch rest i inp
/-- Modelled from the spec: the decoding of the fields of a record, in
their declared order. -/
def decode_fields : List (String × avro_schema_t) → List Char →
    Option (List (String × avro_value) × List Char)
  | [], inp => some ([], inp)
  | (name, schema) :: rest, inp =>
    match decode schema inp with
    | some (v, inp') =>
      match decode_fields rest inp' with
      | some (values, inp'') => some ((name, v) :: values, inp'')
      | none => none
    | none => none
end

mutual
/-- Modelled from the spec: the structural equality of two values
(section 4.2), the library's `avro_value_equal`: the same kind and equal contents, child by child; the
entries of a map are compared by key, whatever their order. -/
def avro_value.equal : avro_value → avro_value → Bool
  | .null, w => match w with
    | .null => true
    | _ => false
  | .boolean a, w => match w with
    | .boolean b => a == b
    | _ => false
  | .int a, w => match w with
    | .int b => a == b
    | _ => false
  | .long a, w => match w with
    | .long b => a == b
    | _ => false
  | .float a, w => match w with
    | .float b => a == b
    | .float_bits b => ieee_bits 8 23 a == b
    | _ => false
  | .double a, w => match w with
    | .double b => a == b
    | .double_bits b => ieee_bits 11 52 a == b
    | _ => false
  | .float_bits a, w => match w with
    | .float b => a == ieee_bits 8 23 b
    | .float_bits b => a == b
    | _ => false
  | .double_bits a, w => match w with
    | .double b => a == ieee_bits 11 52 b
    | .double_bits b => a == b
    | _ => false
  | .bytes a, w => match w with
    | .bytes b => a == b
    | _ => false
  | .string a, w => match w with
    | .string b => a == b
    | _ => false
  | .fixed _ _ a, w => match w with
    | .fixed _ _ b => a == b
    | _ => false
  | .enum _ _ a, w => match w with
    | .enum _ _ b => a == b
    | _ => false
  | .array _ a, w => match w with
    | .array _ b => avro_value.equal_elements a b
    | _ => false
  | .map _ a, w => match w with
    | .map _ b => a.length == b.length && avro_value.equal_entries a b
    | _ => false
  | .union _ (some (d, a)), w => match w with
    | .union _ (some (d', b)) => d == d' && avro_value.equal a b
    | _ => false
  | .union _ none, w => match w with
    | .union _ none => true
    | _ => false
  | .record _ a, w => match w with
    | .record _ b => avro_value.equal_fields a b
    | _ => false
/-- Modelled from the spec: equality of the elements of two arrays,
position by position. -/
def avro_value.equal_elements : List avro_value → List avro_value → Bool
  | [], l => l.isEmpty
  | a :: rest, l => match l with
    | b :: rest' => avro_value.equal a b && avro_value.equal_elements rest rest'
    | [] => false
/-- Modelled from the spec: every entry of the first map has an equal
value under its key in the second. -/
def avro_value.equal_entries : List (String × avro_value) → List (String × avro_value) → Bool
  | [], _ => true
  | (k, a) :: rest, l =>
    (match lookupKey k l with
      | some b => avro_value.equal a b
      | none => false) && avro_value.equal_entries rest l
/-- Modelled from the spec: equality of the fields of two records,
position by position. -/
def avro_value.equal_fields : List (String × avro_value) → List (String × avro_value) → Bool
  | [], l => l.isEmpty
  | (_, a) :: rest, l => match l with
    | (_, b) :: rest' => avro_value.equal a b && avro_value.equal_fields rest rest'
    | [] => false
end

mutual
/-- Modelled from the spec: whether two schemas are the same (the
library's `avro_schema_equal`): the same kind, the same names and equal
parts.  It tells the resolvers that act as identity. -/
def avro_schema_equal : avro_schema_t → avro_schema_t → Bool
  | .string, t => match t with
    | .string => true
    | _ => false
  | .bytes, t => match t with
    | .bytes => true
    | _ => false
  | .int, t => match t with
    | .int => true
    | _ => false
  | .long, t => match t with
    | .long => true
    | _ => false
  | .float, t => match t with
    | .float => true
    | _ => false
  | .double, t => match t with
    | .double => true
    | _ => false
  | .boolean, t => match t with
    | .boolean => true
    | _ => false
  | .null, t => match t with
    | .null => true
    | _ => false
  | .record name fields, t => match t with
    | .record name' fields' => name == name' && avro_schema_equal_fields fields fields'
    | _ => false
  | .enum name symbols, t => match t with
    | .enum name' symbols' => name == name' && symbols == symbols'
    | _ => false
  | .fixed name size, t => match t with
    | .fixed name' size' => name == name' && size == size'
    | _ => false
  | .map values, t => match t with
    | .map values' => avro_schema_equal values values'
    | _ => false
  | .array items, t => match t with
    | .array items' => avro_schema_equal items items'
    | _ => false
  | .union branches, t => match t with
    | .union branches' => avro_schema_equal_branches branches branches'
    | _ => false
/-- Modelled from the spec: the fields of two record schemas are the
same. -/
def avro_schema_equal_fields :
    List (String × avro_schema_t) → List (String × avro_schema_t) → Bool
  | [], l => l.isEmpty
  | (n, s) :: rest, l => match l with
    | (n', s') :: rest' => n == n' && avro_schema_equal s s' && avro_schema_equal_fields rest rest'
    | [] => false
/-- Modelled from the spec: the branches of two union schemas are the
same. -/
def avro_schema_equal_branches : List avro_schema_t → List avro_schema_t → Bool
  | [], l => l.isEmpty
  | s :: rest, l => match l with
    | s' :: rest' => avro_schema_equal s s' && avro_schema_equal_branches rest rest'
    | [] => false
end

/-- Modelled from the spec: the codec of the library as the binding
uses it.  The size of a value is the length of its encoding; a write
fails when the memory writer is too small; a read through a resolved
writer decodes by the writer schema and fills the destination with the
value read when the resolver is made for one schema as writer and
reader (it acts as identity); what the other resolvers make of the
value read (section 4.4) is the parameter `resolve`. -/
def binary_codec (resolve : avro_resolver → avro_value → Except String avro_value) :
    avro_codec where
  avro_value_sizeof v :=
    match encode v with
    | some bs => .ok bs.length
    | none => .error "Cannot encode the value"
  avro_value_write v capacity :=
    match encode v with
    | some bs =>
      if bs.length ≤ capacity then .ok bs else .error "Cannot write to the memory buffer"
    | none => .error "Cannot encode the value"
  avro_value_read resolver buf _ :=
    match decode resolver.writer_schema buf with
    | some (v, _) =>
      if avro_schema_equal resolver.writer_schema resolver.reader_schema then .ok v
      else resolve resolver v
    | none => .error "Cannot read the value"

/-- `avro_value_equal` on two handles. -/
def avro_value_equal (value1 value2 : Ref) : LuaM Bool := fun L =>
  match deref L.heap value1, deref L.heap value2 with
  | some v1, some v2 => .ok (v1.equal v2) L
  | _, _ => .undefined

/-! ## legacy.c: the AvroValue class -/

/-- `lua_return_avro_error`. -/
def lua_return_avro_error : LuaM Int := do
  lua_pushnil
  lua_pushstring (some (← avro_strerror))
  return 2

/-- `lua_avro_error`. -/
def lua_avro_error {α : Type} : LuaM α := do
  lua_pushstring (some (← avro_strerror))
  lua_error

/-- The `check` macro: a non-zero status raises the library's error. -/
def check {α : Type} (call : LuaM (Option α)) : LuaM α := do
  match ← call with
  | some a => pure a
  | none => lua_avro_error

/-- `lua_avro_push_value`. -/
def lua_avro_push_value (value : Ref) (destructor : Nat) : LuaM Int := do
  push (.avro_value value destructor)
  return 1

/-- `luaL_checkudata (L, ud, MT_AVRO_VALUE)`. -/
def luaL_checkudata_value (ud : Int) : LuaM (Ref × Nat) := fun L =>
  match index2adr L ud with
  | some (.avro_value value destructor) => .ok (value, destructor) L
  | _ => luaL_typerror ud MT_AVRO_VALUE L

/-- `lua_avro_get_value`. -/
def lua_avro_get_value (index : Int) : LuaM Ref := do
  let l_value ← luaL_checkudata_value index
  return l_value.1

/-- `l_value_discriminant`. -/
def l_value_discriminant : LuaM Int := do
  let value ← lua_avro_get_value 1
  if (← avro_value_get_type value) != .AVRO_UNION then
    lua_pushliteral "Can't get discriminant of a non-union value"
    lua_error
  else
    let discriminant ← check (avro_value_get_discriminant value)
    let union_schema ← avro_value_get_schema value
    let branch := avro_schema_union_branch union_schema discriminant
    lua_pushstring (branch.map avro_schema_type_name)
    return 1

/-- `lua_avro_push_scalar_or_value`. -/
def lua_avro_push_scalar_or_value (value : Ref) (require_scalar : Bool) (destructor : Nat) :
    LuaM Int := do
  match ← avro_value_get_type value with
  | .AVRO_STRING =>
    let (val, size) ← check (avro_value_get_string value)
    lua_pushlstring val (size - 1)
    return 1
  | .AVRO_BYTES =>
    let (val, size) ← check (avro_value_get_bytes value)
    lua_pushlstring val size
    return 1
  | .AVRO_INT32 =>
    let val ← check (avro_value_get_int value)
    lua_pushnumber val
    return 1
  | .AVRO_INT64 =>
    let val ← check (avro_value_get_long value)
    lua_pushnumber (to_double val)
    return 1
  | .AVRO_FLOAT =>
    let val ← check (avro_value_get_float value)
    lua_pushnumber (of_float val)
    return 1
  | .AVRO_DOUBLE =>
    let val ← check (avro_value_get_double value)
    lua_pushnumber val
    return 1
  | .AVRO_BOOLEAN =>
    let val ← check (avro_value_get_boolean value)
    lua_pushboolean val
    return 1
  | .AVRO_NULL =>
    check (avro_value_get_null value)
    lua_pushnil
    return 1
  | .AVRO_ENUM =>
    let val ← check (avro_value_get_enum value)
    let enum_schema ← avro_value_get_schema value
    let name := avro_schema_enum_get enum_schema val
    lua_pushstring name
    return 1
  | .AVRO_FIXED =>
    let (val, size) ← check (avro_value_get_fixed value)
    lua_pushlstring val size
    return 1
  | _ =>
    if require_scalar then
      luaL_error "Avro value isn't a scalar"
    else
      lua_avro_push_value value destructor

/-- `l_value_scalar`. -/
def l_value_scalar : LuaM Int := do
  let value ← lua_avro_get_value 1
  lua_avro_push_scalar_or_value value true NO_DESTRUCTOR

/-- Conversion to `unsigned int` (32 bits). -/
def to_unsigned_int (i : Int) : Nat := (i % (2 : Int) ^ 32).toNat

/-- `get_array_element`; `index` is the `unsigned int` parameter. -/
def get_array_element (value : Ref) (index : Nat) (coerce_scalar : Bool) : LuaM Int := do
  let array_size ← check (avro_value_get_size value)
  if index < 1 ∨ index > array_size then
    lua_pushnil
    lua_pushliteral "Index out of bounds"
    return 2
  else
    let (element_value, _) ← check (avro_value_get_by_index value (index - 1))
    if coerce_scalar then
      lua_avro_push_scalar_or_value element_value false NO_DESTRUCTOR
    else
      lua_avro_push_value element_value NO_DESTRUCTOR

/-- `get_map_value`. -/
def get_map_value (value : Ref) (key : String) (can_create coerce_scalar : Bool) :
    LuaM Int := do
  let element_value : Option Ref ←
    if can_create then do
      let e ← check (avro_value_add value key)
      pure (some e)
    else
      check (avro_value_get_by_name value key)
  match element_value with
  | none =>
    lua_pushnil
    lua_pushliteral "Map element doesn't exist"
    return 2
  | some element_value =>
    if coerce_scalar then
      lua_avro_push_scalar_or_value element_value false NO_DESTRUCTOR
    else
      lua_avro_push_value element_value NO_DESTRUCTOR

/-- `get_record_field`. -/
def get_record_field (value : Ref) (field_name : String) (coerce_scalar : Bool) :
    LuaM Int := do
  match ← check (avro_value_get_by_name value field_name) with
  | none =>
    lua_pushnil
    lua_pushliteral "Record field doesn't exist"
    return 2
  | some field_value =>
    if coerce_scalar then
      lua_avro_push_scalar_or_value field_value false NO_DESTRUCTOR
    else
      lua_avro_push_value field_value NO_DESTRUCTOR

/-- `get_union_branch` of legacy.c. -/
def get_union_branch (value : Ref) (field_name : String) (coerce_scalar : Bool) :
    LuaM Int := do
  let branch : Option Ref ←
    if field_name = "_" then do
      let b ← check (avro_value_get_current_branch value)
      pure (some b)
    else do
      let union_schema ← avro_value_get_schema value
      match ← avro_schema_union_branch_by_name union_schema field_name with
      | none => pure none
      | some (discriminant, _) =>
        let b ← check (avro_value_set_branch value discriminant)
        pure (some b)
  match branch with
  | none => lua_return_avro_error
  | some branch =>
    if coerce_scalar then
      lua_avro_push_scalar_or_value branch false NO_DESTRUCTOR
    else
      lua_avro_push_value branch NO_DESTRUCTOR

/-- `get_subvalue`. -/
def get_subvalue (value : Ref) (index_index : Int) (can_create coerce_value : Bool) :
    LuaM Int := do
  let by_name : LuaM Int := do
    match ← luaL_optstring index_index with
    | some index_str =>
      let t ← avro_value_get_type value
      if t = .AVRO_MAP then
        get_map_value value index_str can_create coerce_value
      else if t = .AVRO_RECORD then
        get_record_field value index_str coerce_value
      else if t = .AVRO_UNION then
        get_union_branch value index_str coerce_value
      else
        return 0
    | none => return 0
  if ← lua_isnumber index_index then
    let index ← lua_tointeger index_index
    if (← avro_value_get_type value) = .AVRO_ARRAY then
      get_array_element value (to_unsigned_int index) coerce_value
    else
      by_name
  else
    by_name

/-- `l_value_get`. -/
def l_value_get : LuaM Int := do
  let value ← lua_avro_get_value 1
  get_subvalue value 2 false true

/-- `set_scalar_value`. -/
def set_scalar_value (self_index val_index : Int) : LuaM Int := do
  let value ← lua_avro_get_value self_index
  match ← avro_value_get_type value with
  | .AVRO_STRING =>
    let str ← luaL_checklstring val_index
    check (avro_value_set_string_len value (str.data ++ [NUL]) (str.length + 1))
    lua_pushvalue self_index
    return 1
  | .AVRO_BYTES =>
    let buf ← luaL_checklstring val_index
    check (avro_value_set_bytes value buf.data buf.length)
    lua_pushvalue self_index
    return 1
  | .AVRO_INT32 =>
    let i ← luaL_checkinteger val_index
    check (avro_value_set_int value i)
    lua_pushvalue self_index
    return 1
  | .AVRO_INT64 =>
    let l ← luaL_checklong val_index
    check (avro_value_set_long value l)
    lua_pushvalue self_index
    return 1
  | .AVRO_FLOAT =>
    let n ← luaL_checknumber val_index
    check (avro_value_set_float value (to_float n))
    lua_pushvalue self_index
    return 1
  | .AVRO_DOUBLE =>
    let n ← luaL_checknumber val_index
    check (avro_value_set_double value n)
    lua_pushvalue self_index
    return 1
  | .AVRO_BOOLEAN =>
    let b ← lua_toboolean val_index
    check (avro_value_set_boolean value b)
    lua_pushvalue self_index
    return 1
  | .AVRO_NULL =>
    check (avro_value_set_null value)
    lua_pushvalue self_index
    return 1
  | .AVRO_ENUM =>
    let symbol ← luaL_checkstring val_index
    let enum_schema ← avro_value_get_schema value
    let symbol_value := avro_schema_enum_get_by_name enum_schema symbol
    if symbol_value < 0 then
      luaL_error ("No symbol named " ++ symbol)
    else
      check (avro_value_set_enum value symbol_value)
      lua_pushvalue self_index
      return 1
  | .AVRO_FIXED =>
    let buf ← luaL_checklstring val_index
    check (avro_value_set_fixed value buf.data buf.length)
    lua_pushvalue self_index
    return 1
  | _ =>
    lua_pushliteral "Avro value isn't a scalar"
    lua_error

/-- `l_value_set`. -/
def l_value_set : LuaM Int := do
  let nargs ← lua_gettop
  if nargs = 2 then
    set_scalar_value 1 2
  else if nargs = 3 then
    let value ← lua_avro_get_value 1
    if (← get_subvalue value 2 true false) = 0 then
      lua_pushliteral "Nonexistent subvalue"
      lua_error
    else
      set_scalar_value (-1) 3
  else
    lua_pushliteral "Bad number of arguments to AvroValue:set"
    lua_error

/-- `l_value_index`, the `__index` metamethod. -/
def l_value_index : LuaM Int := do
  luaL_getmetatable MT_AVRO_VALUE_METHODS
  lua_pushvalue 2
  lua_rawget (-2)
  if !(← lua_isnil (-1)) then
    return 1
  else
    lua_pop 2
    l_value_get

/-- `l_value_newindex`, the `__newindex` metamethod. -/
def l_value_newindex : LuaM Int := do
  luaL_getmetatable MT_AVRO_VALUE_METHODS
  lua_pushvalue 2
  lua_rawget (-2)
  if !(← lua_isnil (-1)) then
    lua_pushliteral "Cannot set field with [] syntax"
    lua_error
  else
    lua_pop 2
    l_value_set

/-- `l_value_append`. -/
def l_value_append : LuaM Int := do
  let nargs ← lua_gettop
  let value ← lua_avro_get_value 1
  if (← avro_value_get_type value) != .AVRO_ARRAY then
    lua_pushliteral "Can only append to an array"
    lua_error
  else if nargs > 2 then
    lua_pushliteral "Bad number of arguments to AvroValue:append"
    lua_error
  else
    let element ← check (avro_value_append value)
    let _ ← lua_avro_push_value element NO_DESTRUCTOR
    if nargs = 2 then
      set_scalar_value (-1) 2
    else
      return 1

/-- `create_iterator` of legacy.c: a new `Iterator` whose `value` field
is the pointer it is given, the address of the handle in the wrapper
that `iterate` was called on, and which stands before the first element.
No reference to the wrapper is taken. -/
def create_iterator (value : Ref) : LuaM Unit := push (.iterator value 0)

/-- `luaL_checkudata (L, ud, MT_ITERATOR)`: the fields of the `Iterator`;
`value` is `none` when it points to a finalized wrapper. -/
def luaL_checkudata_iterator (ud : Int) : LuaM (Option Ref × Nat) := fun L =>
  match index2adr L ud with
  | some (.iterator value next_index) => .ok (some value, next_index) L
  | some (.finalized_iterator next_index) => .ok (none, next_index) L
  | _ => luaL_typerror ud MT_ITERATOR L

/-- The handle that `state->value` points to; the call of the library
on the handle of a finalized wrapper dereferences its `NULL` interface
pointer. -/
def iterator_value (value : Option Ref) : LuaM Ref := fun L =>
  match value with
  | some value => .ok value L
  | none => .undefined

/-- Assignment to the fields of the userdata at a stack index. -/
def set_userdata (ud : Int) (contents : LuaVal) : LuaM Unit := fun L =>
  .ok () (setidx L ud contents)

/-- `iterate_array` of legacy.c. -/
def iterate_array : LuaM Int := do
  let state ← luaL_checkudata_iterator 1
  let value ← iterator_value state.1
  let length ← check (avro_value_get_size value)
  if state.2 ≥ length then
    return 0
  else
    let (element, _) ← check (avro_value_get_by_index value state.2)
    lua_pushinteger (state.2 + 1 : Nat)
    let _ ← lua_avro_push_scalar_or_value element false NO_DESTRUCTOR
    set_userdata 1 (.iterator value (state.2 + 1))
    return 2

/-- `iterate_map` of legacy.c. -/
def iterate_map : LuaM Int := do
  let state ← luaL_checkudata_iterator 1
  let value ← iterator_value state.1
  let length ← check (avro_value_get_size value)
  if state.2 ≥ length then
    return 0
  else
    let (element, key) ← check (avro_value_get_by_index value state.2)
    lua_pushstring key
    let _ ← lua_avro_push_scalar_or_value element false NO_DESTRUCTOR
    set_userdata 1 (.iterator value (state.2 + 1))
    return 2

/-- `l_value_iterate`. -/
def l_value_iterate : LuaM Int := do
  let value ← lua_avro_get_value 1
  let value_type ← avro_value_get_type value
  if value_type = .AVRO_ARRAY then
    lua_pushcfunction "iterate_array"
    create_iterator value
    lua_pushnil
    return 3
  else if value_type = .AVRO_MAP then
    lua_pushcfunction "iterate_map"
    create_iterator value
    lua_pushnil
    return 3
  else
    lua_pushliteral "Can only iterate through arrays and maps"
    lua_error

/-- `l_value_new`, the module function `Value` of legacy.c. -/
def l_value_new : LuaM Int := do
  lua_pushnil
  return 1

/-- `l_value_eq`, the `__eq` metamethod. -/
def l_value_eq : LuaM Int := do
  let value1 ← lua_avro_get_value 1
  let value2 ← lua_avro_get_value 2
  lua_pushboolean (← avro_value_equal value1 value2)
  return 1

/-- `l_value_encode`.  The contents of `static_buf` before the call
and what `malloc` returns for a size (`none` is `NULL`) are given. -/
def l_value_encode (codec : avro_codec) (static_buf : Nat → Char)
    (malloc : Nat → Option (Nat → Char)) : LuaM Int := do
  let value ← lua_avro_get_value 1
  let size ← check (avro_value_sizeof codec value)
  let buf : Option (List Char) :=
    if size ≤ 65536 then some (c_block static_buf 65536)
    else (malloc size).map (fun block => c_block block size)
  match buf with
  | none =>
    lua_pushnil
    lua_pushliteral "Out of memory"
    return 2
  | some buf =>
    match ← avro_value_write codec buf size value with
    | none => lua_return_avro_error
    | some buf =>
      lua_pushlstring buf size
      return 1

/-- `l_value_encoded_size`. -/
def l_value_encoded_size (codec : avro_codec) : LuaM Int := do
  let value ← lua_avro_get_value 1
  let size ← check (avro_value_sizeof codec value)
  lua_pushinteger (size : Nat)
  return 1

/-- `luaL_checkudata (L, ud, MT_AVRO_SCHEMA)`. -/
def luaL_checkudata_schema (ud : Int) : LuaM avro_schema_t := fun L =>
  match index2adr L ud with
  | some (.avro_schema schema) => .ok schema L
  | _ => luaL_typerror ud MT_AVRO_SCHEMA L

/-- `lua_avro_get_schema`. -/
def lua_avro_get_schema (index : Int) : LuaM avro_schema_t := luaL_checkudata_schema index

/-- `lua_avro_push_resolved_reader`. -/
def lua_avro_push_resolved_reader (resolver : avro_resolver) : LuaM Int := do
  push (.resolved_reader (some resolver))
  return 1

/-- `l_resolved_reader_new`, over the library's `avro_resolved_reader_new`,
which gives a resolver or fails (`NULL`) with an error message. -/
def l_resolved_reader_new
    (avro_resolved_reader_new : avro_schema_t → avro_schema_t → Except String avro_resolver) :
    LuaM Int := do
  let writer_schema ← lua_avro_get_schema 1
  let reader_schema ← lua_avro_get_schema 2
  match ← library_call (avro_resolved_reader_new writer_schema reader_schema) with
  | none => lua_return_avro_error
  | some resolver =>
    let _ ← lua_avro_push_resolved_reader resolver
    return 1

/-- `lua_avro_push_resolved_writer`. -/
def lua_avro_push_resolved_writer (resolver : avro_resolver) : LuaM Int := do
  push (.resolved_writer (some resolver))
  return 1

/-- `l_resolved_writer_new`, over the library's `avro_resolved_writer_new`,
which gives a resolver or fails (`NULL`) with an error message. -/
def l_resolved_writer_new
    (avro_resolved_writer_new : avro_schema_t → avro_schema_t → Except String avro_resolver) :
    LuaM Int := do
  let writer_schema ← lua_avro_get_schema 1
  let reader_schema ← lua_avro_get_schema 2
  match ← library_call (avro_resolved_writer_new writer_schema reader_schema) with
  | none => lua_return_avro_error
  | some resolver =>
    let _ ← lua_avro_push_resolved_writer resolver
    return 1

/-- `luaL_checkudata (L, ud, MT_AVRO_RESOLVED_WRITER)`. -/
def luaL_checkudata_resolved_writer (ud : Int) : LuaM (Option avro_resolver) := fun L =>
  match index2adr L ud with
  | some (.resolved_writer resolver) => .ok resolver L
  | _ => luaL_typerror ud MT_AVRO_RESOLVED_WRITER L

/-- `l_resolved_writer_decode`. -/
def l_resolved_writer_decode (codec : avro_codec) : LuaM Int := do
  let l_resolver ← luaL_checkudata_resolved_writer 1
  let buf ← luaL_checklstring 2
  let value ← lua_avro_get_value 3
  match ← avro_value_read codec l_resolver buf.data value with
  | none => lua_return_avro_error
  | some _ =>
    lua_pushboolean true
    return 1

/-- `luaL_checkudata (L, ud, MT_AVRO_DATA_INPUT_FILE)`. -/
def luaL_checkudata_input_file (ud : Int) :
    LuaM (Option avro_file_reader × Option avro_schema_t) := fun L =>
  match index2adr L ud with
  | some (.input_file reader wschema) => .ok (reader, wschema) L
  | _ => luaL_typerror ud MT_AVRO_DATA_INPUT_FILE L

/-- `l_input_file_read`.  The class `iface` of the file is the generic
class of its writer schema. -/
def l_input_file_read : LuaM Int := do
  let nargs ← lua_gettop
  let l_file ← luaL_checkudata_input_file 1
  if nargs = 1 then
    let value ← check (avro_generic_value_create l_file.2)
    let (rc, reader) ← avro_file_reader_read_value l_file.1 value
    set_userdata 1 (.input_file reader l_file.2)
    match rc with
    | none => lua_return_avro_error
    | some _ =>
      let _ ← lua_avro_push_value value GENERIC_DESTRUCTOR
      return 1
  else
    let value ← lua_avro_get_value 2
    let (rc, reader) ← avro_file_reader_read_value l_file.1 value
    set_userdata 1 (.input_file reader l_file.2)
    match rc with
    | none => lua_return_avro_error
    | some _ =>
      lua_pushvalue 2
      return 1

/-! ## avro.c: the AvroDatum class

The datum interface of the library works on the same values; a
`LuaAvroDatum` keeps the handle of the datum and its schema (`NULL` is
`none`).  The calls of this interface report no status to the binding:
a call that cannot deliver leaves its result `NULL`. -/

namespace Datum

/-- Use of a `NULL` or dangling pointer. -/
def undefined_behaviour {α : Type} : LuaM α := fun _ => .undefined

/-- `avro_typeof`. -/
def avro_typeof (datum : Ref) : LuaM avro_type_t := avro_value_get_type datum

/-- The content of a datum, `none` when it has no such content. -/
def avro_datum_get {α : Type} (sel : avro_value → Option α) (datum : Ref) :
    LuaM (Option α) := fun L =>
  match deref L.heap datum with
  | some v => .ok (sel v) L
  | none => .undefined

/-- `avro_schema_array_items`. -/
def avro_schema_array_items (schema : Option avro_schema_t) : Option avro_schema_t :=
  match schema with
  | some (.array items) => some items
  | _ => none

/-- `avro_schema_map_values`. -/
def avro_schema_map_values (schema : Option avro_schema_t) : Option avro_schema_t :=
  match schema with
  | some (.map values) => some values
  | _ => none

/-- `avro_schema_record_field_get`. -/
def avro_schema_record_field_get (schema : Option avro_schema_t) (name : String) :
    Option avro_schema_t :=
  match schema with
  | some (.record _ fields) => lookupKey name fields
  | _ => none

/-- `lua_avro_push_datum`. -/
def lua_avro_push_datum (datum : Ref) (schema : Option avro_schema_t) : LuaM Int := do
  push (.avro_datum datum schema)
  return 1

/-- `luaL_checkudata (L, ud, MT_AVRO_DATUM)`. -/
def luaL_checkudata_datum (ud : Int) : LuaM (Ref × Option avro_schema_t) := fun L =>
  match index2adr L ud with
  | some (.avro_datum datum schema) => .ok (datum, schema) L
  | _ => luaL_typerror ud MT_AVRO_DATUM L

/-- `lua_avro_push_scalar_or_datum`. -/
def lua_avro_push_scalar_or_datum (datum : Ref) (schema : Option avro_schema_t)
    (require_scalar : Bool) : LuaM Int := do
  match ← avro_typeof datum with
  | .AVRO_STRING =>
    let val ← avro_datum_get (fun v => match v with
      | .string buf => some (String.mk buf)
      | _ => none) datum
    lua_pushstring val
    return 1
  | .AVRO_BYTES =>
    let val ← avro_datum_get (fun v => match v with
      | .bytes buf => some buf
      | _ => none) datum
    lua_pushlstring (val.getD []) (val.getD []).length
    return 1
  | .AVRO_INT32 =>
    let val ← avro_datum_get (fun v => match v with
      | .int val => some val
      | _ => none) datum
    lua_pushnumber (val.getD 0)
    return 1
  | .AVRO_INT64 =>
    let val ← avro_datum_get (fun v => match v with
      | .long val => some val
      | _ => none) datum
    lua_pushnumber (to_double (val.getD 0))
    return 1
  | .AVRO_FLOAT =>
    let val ← avro_datum_get (fun v => match v with
      | .float val => some (floating.integral val)
      | .float_bits bits => some (floating.pattern bits)
      | _ => none) datum
    lua_pushnumber (of_float (val.getD (.integral 0)))
    return 1
  | .AVRO_DOUBLE =>
    let val ← avro_datum_get (fun v => match v with
      | .double val => some (floating.integral val)
      | .double_bits bits => some (floating.pattern bits)
      | _ => none) datum
    lua_pushnumber (val.getD (.integral 0))
    return 1
  | .AVRO_BOOLEAN =>
    let val ← avro_datum_get (fun v => match v with
      | .boolean val => some val
      | _ => none) datum
    lua_pushboolean (val.getD false)
    return 1
  | .AVRO_NULL =>
    lua_pushnil
    return 1
  | .AVRO_ENUM =>
    let name ← avro_datum_get (fun v => match v with
      | .enum n symbols val => avro_schema_enum_get (.enum n symbols) val
      | _ => none) datum
    lua_pushstring name
    return 1
  | .AVRO_FIXED =>
    let val ← avro_datum_get (fun v => match v with
      | .fixed _ _ buf => some buf
      | _ => none) datum
    lua_pushlstring (val.getD []) (val.getD []).length
    return 1
  | _ =>
    if require_scalar then
      lua_pushstring (some "Avro datum isn't a scalar")
      lua_error
    else
      lua_avro_push_datum datum schema

/-- `get_array_element` of avro.c. -/
def get_array_element (l_datum : Ref × Option avro_schema_t) (index : Nat)
    (coerce_scalar : Bool) : LuaM Int := do
  let array_size ← avro_datum_get (fun v => match v with
    | .array _ elements => some elements.length
    | _ => none) l_datum.1
  if index < 1 ∨ index > array_size.getD 0 then
    lua_pushnil
    lua_pushliteral "Index out of bounds"
    return 2
  else
    match ← avro_value_get_by_index l_datum.1 (index - 1) with
    | none => undefined_behaviour
    | some (element_datum, _) =>
      let element_schema := avro_schema_array_items l_datum.2
      if coerce_scalar then
        lua_avro_push_scalar_or_datum element_datum element_schema false
      else
        lua_avro_push_datum element_datum element_schema

/-- `get_map_datum`. -/
def get_map_datum (l_datum : Ref × Option avro_schema_t) (key : String)
    (can_create coerce_scalar : Bool) : LuaM Int := do
  let element_schema := avro_schema_map_values l_datum.2
  let found ← avro_value_get_by_name l_datum.1 key
  let element_datum : Option Ref ←
    match found.getD none with
    | some e => pure (some e)
    | none =>
      if can_create then
        match element_schema with
        | none => undefined_behaviour
        | some _ => avro_value_add l_datum.1 key
      else
        pure none
  match element_datum with
  | none =>
    lua_pushnil
    lua_pushliteral "Map element doesn't exist"
    return 2
  | some element_datum =>
    if coerce_scalar then
      lua_avro_push_scalar_or_datum element_datum element_schema false
    else
      lua_avro_push_datum element_datum element_schema

/-- `get_record_field` of avro.c. -/
def get_record_field (l_datum : Ref × Option avro_schema_t) (field_name : String)
    (coerce_scalar : Bool) : LuaM Int := do
  let found ← avro_value_get_by_name l_datum.1 field_name
  match found.getD none with
  | none =>
    lua_pushnil
    lua_pushliteral "Record field doesn't exist"
    return 2
  | some field_datum =>
    let field_schema := avro_schema_record_field_get l_datum.2 field_name
    if coerce_scalar then
      lua_avro_push_scalar_or_datum field_datum field_schema false
    else
      lua_avro_push_datum field_datum field_schema

/-- `avro_union_discriminant`: `-1` when no branch is selected. -/
def avro_union_discriminant (datum : Ref) : LuaM Int := fun L =>
  match deref L.heap datum with
  | some (.union _ (some (d, _))) => .ok (d : Int) L
  | some _ => .ok (-1) L
  | none => .undefined

/-- `avro_union_current_branch`: `NULL` when no branch is selected. -/
def avro_union_current_branch (datum : Ref) : LuaM (Option Ref) := fun L =>
  match deref L.heap datum with
  | some (.union _ (some _)) => .ok (some (datum.child .branch)) L
  | some _ => .ok none L
  | none => .undefined

/-- `avro_union_set_discriminant`: select a branch; the branch value is
kept when the branch is the active one already and is a fresh value of
the branch schema otherwise.  The binding ignores the status: on a
failure `branch` is not assigned. -/
def avro_union_set_discriminant (datum : Ref) (discriminant : Nat) : LuaM Ref := do
  match ← avro_value_set_branch datum discriminant with
  | some branch => pure branch
  | none => undefined_behaviour

/-- `l_datum_discriminant`. -/
def l_datum_discriminant : LuaM Int := do
  let l_datum ← luaL_checkudata_datum 1
  if (← avro_typeof l_datum.1) != .AVRO_UNION then
    lua_pushstring (some "Can't get discriminant of a non-union datum")
    lua_error
  else
    let discriminant ← avro_union_discriminant l_datum.1
    let branch := match l_datum.2 with
      | some schema => avro_schema_union_branch schema discriminant
      | none => none
    lua_pushstring (branch.map avro_schema_type_name)
    return 1

/-- `get_union_branch` of avro.c. -/
def get_union_branch (l_datum : Ref × Option avro_schema_t) (field_name : String)
    (coerce_scalar : Bool) : LuaM Int := do
  let selected : Option (Option Ref × Option avro_schema_t) ←
    if field_name = "_" then do
      let discriminant ← avro_union_discriminant l_datum.1
      let branch ← avro_union_current_branch l_datum.1
      let branch_schema := match l_datum.2 with
        | some schema => avro_schema_union_branch schema discriminant
        | none => none
      pure (some (branch, branch_schema))
    else do
      match l_datum.2 with
      | none => undefined_behaviour
      | some schema =>
        match ← avro_schema_union_branch_by_name schema field_name with
        | none => pure none
        | some (discriminant, branch_schema) =>
          let branch ← avro_union_set_discriminant l_datum.1 discriminant
          pure (some (some branch, some branch_schema))
  match selected with
  | none =>
    lua_pushnil
    lua_pushliteral "Union branch doesn't exist"
    return 2
  | some (none, _) =>
    lua_pushnil
    lua_pushstring (some (← avro_strerror))
    return 2
  | some (some branch, branch_schema) =>
    if coerce_scalar then
      lua_avro_push_scalar_or_datum branch branch_schema false
    else
      lua_avro_push_datum branch branch_schema

/-- `get_subdatum`. -/
def get_subdatum (l_datum : Ref × Option avro_schema_t) (index_index : Int)
    (can_create coerce_datum : Bool) : LuaM Int := do
  let by_name : LuaM Int := do
    match ← luaL_optstring index_index with
    | some index_str =>
      let t ← avro_typeof l_datum.1
      if t = .AVRO_MAP then
        get_map_datum l_datum index_str can_create coerce_datum
      else if t = .AVRO_RECORD then
        get_record_field l_datum index_str coerce_datum
      else if t = .AVRO_UNION then
        get_union_branch l_datum index_str coerce_datum
      else
        return 0
    | none => return 0
  if ← lua_isnumber index_index then
    let index ← lua_tointeger index_index
    if (← avro_typeof l_datum.1) = .AVRO_ARRAY then
      get_array_element l_datum (to_unsigned_int index) coerce_datum
    else
      by_name
  else
    by_name

/-- `l_datum_get`. -/
def l_datum_get : LuaM Int := do
  let l_datum ← luaL_checkudata_datum 1
  get_subdatum l_datum 2 false true

/-- `l_datum_new`, the module function `Value` of avro.c. -/
def l_datum_new : LuaM Int := do
  lua_pushnil
  return 1

/-- `MT_ITERATOR` of avro.c. -/
def MT_ITERATOR : String := "sawmill:AvroDatum:iterator"

/-- `create_iterator` of avro.c. -/
def create_iterator (datum : Ref) (element_schema : Option avro_schema_t) : LuaM Unit :=
  push (.datum_iterator datum element_schema 0)

/-- `luaL_checkudata (L, ud, MT_ITERATOR)` of avro.c. -/
def luaL_checkudata_iterator (ud : Int) : LuaM (Ref × Option avro_schema_t × Nat) := fun L =>
  match index2adr L ud with
  | some (.datum_iterator datum element_schema next_index) =>
    .ok (datum, element_schema, next_index) L
  | _ => luaL_typerror ud MT_ITERATOR L

/-- `avro_array_size`. -/
def avro_array_size (datum : Ref) : LuaM (Option Nat) :=
  avro_datum_get (fun v => match v with
    | .array _ elements => some elements.length
    | _ => none) datum

/-- `avro_map_size`. -/
def avro_map_size (datum : Ref) : LuaM (Option Nat) :=
  avro_datum_get (fun v => match v with
    | .map _ entries => some entries.length
    | _ => none) datum

/-- `iterate_array` of avro.c. -/
def iterate_array : LuaM Int := do
  let state ← luaL_checkudata_iterator 1
  let length ← avro_array_size state.1
  if state.2.2 ≥ length.getD 0 then
    return 0
  else
    match ← avro_value_get_by_index state.1 state.2.2 with
    | none => undefined_behaviour
    | some (element, _) =>
      lua_pushinteger (state.2.2 + 1 : Nat)
      let _ ← lua_avro_push_scalar_or_datum element state.2.1 false
      set_userdata 1 (.datum_iterator state.1 state.2.1 (state.2.2 + 1))
      return 2

/-- `iterate_map` of avro.c. -/
def iterate_map : LuaM Int := do
  let state ← luaL_checkudata_iterator 1
  let length ← avro_map_size state.1
  if state.2.2 ≥ length.getD 0 then
    return 0
  else
    match ← avro_value_get_by_index state.1 state.2.2 with
    | none => undefined_behaviour
    | some (element, key) =>
      lua_pushstring key
      let _ ← lua_avro_push_scalar_or_datum element state.2.1 false
      set_userdata 1 (.datum_iterator state.1 state.2.1 (state.2.2 + 1))
      return 2

/-- `l_datum_iterate`. -/
def l_datum_iterate : LuaM Int := do
  let l_datum ← luaL_checkudata_datum 1
  let t ← avro_typeof l_datum.1
  if t = .AVRO_ARRAY then
    lua_pushcfunction "iterate_array"
    create_iterator l_datum.1 l_datum.2
    lua_pushnil
    return 3
  else if t = .AVRO_MAP then
    lua_pushcfunction "iterate_map"
    create_iterator l_datum.1 l_datum.2
    lua_pushnil
    return 3
  else
    lua_pushstring (some "Can only iterate through arrays and maps")
    lua_error

/-- `avro_consume_datum` with the sizeof consumer, whose status the
binding ignores: what the call leaves in `size`. -/
def avro_consume_sizeof (sizeof_consumer : avro_value → Nat) (datum : Ref) : LuaM Nat := fun L =>
  match deref L.heap datum with
  | some v => .ok (sizeof_consumer v) L
  | none => .undefined

/-- `avro_consume_datum` with the encoding consumer on
`avro_writer_memory (buf, size)`: the bytes written replace the leading
bytes of the buffer, whose new contents are returned. -/
def avro_consume_encoding (encoding_consumer : avro_value → Nat → Except String (List Char))
    (buf : List Char) (size : Nat) (datum : Ref) : LuaM (Option (List Char)) := fun L =>
  match deref L.heap datum with
  | some v =>
    match encoding_consumer v size with
    | .ok written => .ok (some (written ++ buf.drop written.length)) L
    | .error msg => .ok none (avro_set_error msg L)
  | none => .undefined

/-- `l_datum_encode`.  The library's consumers, the contents of
`static_buf` before the call and what `malloc` returns for a size
(`none` is `NULL`) are given.  The variable `buf` of the function is
`some` buffer once it is assigned; the block that `malloc` returns is
assigned to the `buf` that the `else` block declares, not to it. -/
def l_datum_encode (sizeof_consumer : avro_value → Nat)
    (encoding_consumer : avro_value → Nat → Except String (List Char))
    (static_buf : Nat → Char) (malloc : Nat → Option (Nat → Char)) : LuaM Int := do
  let l_datum ← luaL_checkudata_datum 1
  let size ← avro_consume_sizeof sizeof_consumer l_datum.1
  let buf : Option (Option (List Char)) :=
    if size ≤ 65536 then some (some (c_block static_buf 65536))
    else (malloc size).map (fun _ => none)
  match buf with
  | none =>
    lua_pushnil
    lua_pushstring (some "Out of memory")
    return 2
  | some none => undefined_behaviour
  | some (some buf) =>
    match ← avro_consume_encoding encoding_consumer buf size l_datum.1 with
    | none =>
      lua_pushnil
      lua_pushstring (some (← avro_strerror))
      return 2
    | some buf =>
      lua_pushlstring buf size
      return 1

/-- `lua_avro_get_schema` of avro.c. -/
def lua_avro_get_schema (index : Int) : LuaM avro_schema_t := luaL_checkudata_schema index

/-- `lua_avro_push_resolver`. -/
def lua_avro_push_resolver (resolver : avro_resolver) : LuaM Int := do
  push (.resolver (some resolver))
  return 1

/-- `l_resolver_new`, over the library's `avro_resolver_new`, which
gives a resolver or fails (`NULL`) with an error message. -/
def l_resolver_new
    (avro_resolver_new : avro_schema_t → avro_schema_t → Except String avro_resolver) :
    LuaM Int := do
  let writer_schema ← lua_avro_get_schema 1
  let reader_schema ← lua_avro_get_schema 2
  match ← library_call (avro_resolver_new writer_schema reader_schema) with
  | none =>
    lua_pushnil
    lua_pushstring (some (← avro_strerror))
    return 2
  | some resolver =>
    let _ ← lua_avro_push_resolver resolver
    return 1

end Datum

/-! ## Vocabulary of the statements -/

/-- The Lua equivalent of a scalar value, as `scalar()` and `get` give
it: the string without its terminator, the bytes, the number, the
boolean, `nil` for null, the symbol name of an enum; `none` for a
compound value. -/
def scalar_of : avro_value → Option LuaVal
  | .string buf => some (.string ⟨buf.dropLast⟩)
  | .bytes buf => some (.string ⟨buf⟩)
  | .int val => some (.number val)
  | .long val => some (.number (to_double val))
  | .float val => some (.number val)
  | .double val => some (.number val)
  | .float_bits bits => some (LuaVal.of_number (of_float (.pattern bits)))
  | .double_bits bits => some (LuaVal.of_number (.pattern bits))
  | .boolean val => some (.boolean val)
  | .null => some .nil
  | .enum name symbols val =>
    match avro_schema_enum_get (.enum name symbols) val with
    | some s => some (.string (cstr s))
    | none => some .nil
  | .fixed _ _ buf => some (.string ⟨buf⟩)
  | _ => none

/-- What `get` pushes for a sub-value: its Lua equivalent when it is a
scalar, a wrapper of its handle otherwise. -/
def scalar_or_wrapper (v : avro_value) (value : Ref) (destructor : Nat) : LuaVal :=
  (scalar_of v).getD (.avro_value value destructor)

/-- The values a call hands back to Lua: the topmost `n` values of the
stack when the C function returns `n`; nothing when it raises. -/
def returned : Res Int → Option (List LuaVal)
  | .ok n L => some (L.stack.drop (L.stack.length - n.toNat))
  | _ => none

/-- The shape of what a call hands back to Lua: the type names of the
returned values, in their order. -/
def shape (r : Res Int) : Option (List String) :=
  (returned r).map (fun vs => vs.map (fun v => luaL_typename (some v)))

/-- What the finalization of the wrapper that `iterate` was called on
makes of an iterator state: the `value` field of an `Iterator` of
legacy.c then points to a handle that `l_value_gc` has set to `NULL`;
the `Iterator` of avro.c holds a reference of its own to the datum
(`avro_datum_incref`) and is not concerned. -/
def wrapper_finalized : LuaVal → LuaVal
  | .iterator _ next_index => .finalized_iterator next_index
  | x => x

/-- The generic `for` of Lua, `for k, v in f, s, nil do ... end`, over a
C function `f` and a body that does not touch the values: `f` is called
with the state and the control variable until its first result is `nil`
or missing; the first result becomes the control variable.  The loop
keeps `f`, the state and the control variable, and not the wrapper that
`iterate` was called on: when that wrapper is a temporary value (as in
`for k, v in r:get("items"):iterate()`), the collector may finalize it
during the loop (the body may call `collectgarbage()`); `collect i`
tells whether it does so before the call number `i`, counted from `i0`.
The result is the list of the pairs `(k, v)` the loop went through,
`none` when the loop is not over after `fuel` calls or when a call
fails. -/
def generic_for (f : LuaM Int) (collect : Nat → Bool) :
    Nat → Nat → List avro_value → String → LuaVal → LuaVal →
      Option (List (LuaVal × LuaVal))
  | 0, _, _, _, _, _ => none
  | fuel + 1, i0, heap, err, s, control =>
    match f ⟨[if collect i0 then wrapper_finalized s else s, control], heap, err⟩ with
    | .ok n L' =>
      match returned (.ok n L') with
      | some (k :: rest) =>
        match k with
        | .nil => some []
        | _ =>
          match generic_for f collect fuel (i0 + 1) L'.heap L'.avro_strerror
              (L'.stack.headD s) k with
          | some pairs => some ((k, rest.headD .nil) :: pairs)
          | none => none
      | _ => some []
    | _ => none

/-- The pairs an iteration over the elements of an array goes through,
from the 0-based position `k` on: the 1-based index and the element, as
`get` gives it. -/
def array_pairs (value : Ref) : Nat → List avro_value → List (LuaVal × LuaVal)
  | _, [] => []
  | k, e :: rest =>
    (.number ((k + 1 : Nat) : Int),
      scalar_or_wrapper e (value.child (.index k)) NO_DESTRUCTOR) :: array_pairs value (k + 1) rest

/-- Lua values that are not userdata, tables or functions. -/
def is_plain : LuaVal → Bool
  | .nil => true
  | .boolean _ => true
  | .number _ => true
  | .number_bits _ => true
  | .string _ => true
  | _ => false

/-- The truth value of a Lua value. -/
def lua_truth : LuaVal → Bool
  | .nil => false
  | .boolean b => b
  | _ => true

/-- `lua_isstring`: a string or a number (which converts to a string). -/
def lua_isstring : LuaVal → Bool
  | .string _ => true
  | .number _ => true
  | .number_bits _ => true
  | _ => false

/-- The string that a Lua value converts to (`lua_tolstring`): a string
itself, a number in the format "%.14g"; nothing else converts. -/
def lua_tostring : LuaVal → Option String
  | .string s => some s
  | .number n => some (lua_number2str n)
  | .number_bits bits => some (lua_number2str_bits bits)
  | _ => none

/-- The Lua arguments that the conversion used by `set` for a value of
type `t` refuses: for a string, bytes, fixed or enum value, what is
neither a string nor a number; for an int, long, float or double value,
what does not convert to a number.  Nothing is refused for a boolean or
a null value. -/
def lua_rejects (t : avro_type_t) (x : LuaVal) : Bool :=
  match t with
  | .AVRO_STRING | .AVRO_BYTES | .AVRO_FIXED | .AVRO_ENUM => !lua_isstring x
  | .AVRO_INT32 | .AVRO_INT64 | .AVRO_FLOAT | .AVRO_DOUBLE =>
    (luaV_tonumber (some x)).isNone
  | _ => false

/-- The branch value of a union after the branch `i`, of schema
`schema`, is selected: the former value when the branch was the active
one already, a fresh value otherwise. -/
def selected_branch (current : Option (Nat × avro_value)) (i : Nat)
    (schema : avro_schema_t) : avro_value :=
  match current with
  | some (j, b) => if j = i then b else avro_generic_value_new schema
  | none => avro_generic_value_new schema

/-- The Lua values of the type of a scalar schema that the schema can
hold exactly: a string for string and bytes, a string of the declared
size for fixed, a symbol for an enum, a boolean, `nil` for null, an
integer of the range of the type for int and long (for long, one that a
`lua_Number` holds exactly), a number that the conversion to `float` and
back gives again for float, any number for double. -/
def acceptable (s : avro_schema_t) (x : LuaVal) : Prop :=
  match s, x with
  | .string, .string _ => True
  | .bytes, .string _ => True
  | .fixed _ size, .string str => str.length = size
  | .enum _ symbols, .string str => cstr str = str ∧ str ∈ symbols
  | .boolean, .boolean _ => True
  | .null, .nil => True
  | .int, .number n => -(2 : Int) ^ 31 ≤ n ∧ n < (2 : Int) ^ 31
  | .long, .number n => n.natAbs < 2 ^ 53
  | .float, .number n => to_float (.integral n) = .integral n
  | .float, .number_bits bits =>
    LuaVal.of_number (of_float (to_float (.pattern bits))) = .number_bits bits
  | .double, .number _ => True
  | .double, .number_bits bits => ieee_value 11 52 bits = none
  | _, _ => False

/-- The integral numbers that an IEEE-754 format with `ebits` exponent
bits and `mbits` fraction bits holds exactly: zero, and the numbers
whose leading bit is at a position `e` within the exponent range and
whose bits below the position `e - mbits` are zero. -/
def is_ieee (ebits mbits : Nat) (n : Int) : Prop :=
  n = 0 ∨
    (bit_length n.natAbs n.natAbs - 1 ≤ 2 ^ (ebits - 1) - 1 ∧
      (mbits < bit_length n.natAbs n.natAbs - 1 →
        n.natAbs % 2 ^ (bit_length n.natAbs n.natAbs - 1 - mbits) = 0))

mutual
/-- The values that conform to their schema: numbers in the range of
their type, a string buffer that ends with its terminator, a fixed of
the declared size, an enum index within the symbols, array elements and
map values of the item schema, map keys that are unique, a union with a
selected branch of the schema of that branch; sizes below 2^63. -/
def conforms : avro_value → Prop
  | .null => True
  | .boolean _ => True
  | .int val => -(2 : Int) ^ 31 ≤ val ∧ val < (2 : Int) ^ 31
  | .long val => -(2 : Int) ^ 63 ≤ val ∧ val < (2 : Int) ^ 63
  | .float val => is_ieee 8 23 val
  | .double val => is_ieee 11 52 val
  | .float_bits bits => bits < 2 ^ 32 ∧ ieee_value 8 23 bits = none
  | .double_bits bits => bits < 2 ^ 64 ∧ ieee_value 11 52 bits = none
  | .bytes buf => buf.length < 2 ^ 63
  | .string buf => buf.length ≤ 2 ^ 63 ∧ buf.getLast? = some NUL
  | .fixed _ size buf => buf.length = size
  | .enum _ symbols val => 0 ≤ val ∧ val < symbols.length ∧ val < (2 : Int) ^ 31
  | .array items elements => elements.length < 2 ^ 63 ∧ conforms_elements items elements
  | .map values entries =>
    entries.length < 2 ^ 63 ∧ (entries.map (fun e => e.1)).Nodup ∧
      conforms_entries values entries
  | .union branches (some (d, b)) =>
    d < 2 ^ 31 ∧ branches[d]? = some (avro_value.schema b) ∧ conforms b
  | .union _ none => False
  | .record _ fields => conforms_fields fields
/-- The elements of an array conform to the item schema. -/
def conforms_elements : avro_schema_t → List avro_value → Prop
  | _, [] => True
  | items, e :: rest =>
    avro_value.schema e = items ∧ conforms e ∧ conforms_elements items rest
/-- The entries of a map conform to the value schema. -/
def conforms_entries : avro_schema_t → List (String × avro_value) → Prop
  | _, [] => True
  | values, (k, v) :: rest =>
    k.length < 2 ^ 63 ∧ avro_value.schema v = values ∧ conforms v ∧
      conforms_entries values rest
/-- The fields of a record conform to their schemas. -/
def conforms_fields : List (String × avro_value) → Prop
  | [] => True
  | (_, v) :: rest => conforms v ∧ conforms_fields rest
end

/-- An outcome that leaves the values of the library as they were in
the state `L`, whether it returns or raises. -/
def Res.keeps_heap {α : Type} (L : lua_State) : Res α → Prop
  | .ok _ L' => L'.heap = L.heap
  | .raise _ L' => L'.heap = L.heap
  | .undefined => True

/-- An outcome that leaves the values of the library as they were in
the state `L` when it raises. -/
def Res.raise_keeps_heap {α : Type} (L : lua_State) : Res α → Prop
  | .raise _ L' => L'.heap = L.heap
  | _ => True

/-- An outcome that does not raise. -/
def Res.never_raises {α : Type} : Res α → Prop
  | .raise _ _ => False
  | _ => True

/-- An outcome that returns 1 when it is defined. -/
def Res.returns_one : Res Int → Prop
  | .ok n _ => n = 1
  | .raise _ _ => False
  | .undefined => True

/-- The outcome of a navigation step whose failure leaves the values of
the library as they were in the state `L`: when it returns another
number than 1, the heap is what it was and either the number is 0 or a
string is on top of the stack; when it raises, the heap is what it
was. -/
def Res.fails_clean (L : lua_State) : Res Int → Prop
  | .ok n L' =>
    n = 1 ∨ (L'.heap = L.heap ∧ (n = 0 ∨ ∃ stk msg, L'.stack = stk ++ [LuaVal.string msg]))
  | .raise _ L' => L'.heap = L.heap
  | .undefined => True

/-- A computation that leaves the values of the library as they are,
whether it returns or raises. -/
def keeps_heap {α : Type} (m : LuaM α) : Prop := ∀ L, (m L).keeps_heap L

/-- A computation that leaves the values of the library as they are
when it raises. -/
def raise_keeps_heap {α : Type} (m : LuaM α) : Prop := ∀ L, (m L).raise_keeps_heap L

/-- A computation that does not raise. -/
def never_raises {α : Type} (m : LuaM α) : Prop := ∀ L, (m L).never_raises

/-- A navigation step that returns 1 whenever it is defined. -/
def returns_one (m : LuaM Int) : Prop := ∀ L, (m L).returns_one

/-- A navigation step whose failures leave the values of the library as
they are. -/
def fails_clean (m : LuaM Int) : Prop := ∀ L, (m L).fails_clean L

/-! ## Reasoning about the state monad -/

@[simp] theorem LuaM.bind_apply {α β : Type} (m : LuaM α) (f : α → LuaM β) (L : lua_State) :
    (m >>= f) L = match m L with
      | .ok a L' => f a L'
      | .raise msg L' => .raise msg L'
      | .undefined => .undefined := rfl

@[simp] theorem LuaM.pure_apply {α : Type} (a : α) (L : lua_State) :
    (pure a : LuaM α) L = .ok a L := rfl

@[simp] theorem LuaVal.of_number_integral (n : Int) :
    LuaVal.of_number (.integral n) = .number n := rfl

@[simp] theorem of_float_integral (n : Int) : of_float (.integral n) = .integral n := rfl

@[simp] theorem floating.to_integer_integral (n : Int) :
    (floating.integral n).to_integer = lua_number2integer n := rfl

/-- The Lua value of a number is a number. -/
theorem is_plain_of_number (n : floating) : is_plain (LuaVal.of_number n) = true := by
  cases n with
  | integral n => rfl
  | pattern bits =>
    simp only [LuaVal.of_number]
    split <;> rfl

/-- What `lua_avro_push_scalar_or_value` does for a live handle when a
scalar is not required: one value is pushed, the Lua equivalent of a
scalar or a wrapper of the handle. -/
theorem lua_avro_push_scalar_or_value_eq (stk : List LuaVal) (heap : List avro_value)
    (err : String) (value : Ref) (d : Nat) (v : avro_value)
    (hlive : deref heap value = some v) :
    lua_avro_push_scalar_or_value value false d ⟨stk, heap, err⟩
      = .ok 1 ⟨stk ++ [scalar_or_wrapper v value d], heap, err⟩ := by
  cases v <;>
    simp [lua_avro_push_scalar_or_value, avro_value_get_type, hlive, avro_value.type,
      check, avro_value_get_string, avro_value_get_bytes, avro_value_get_int,
      avro_value_get_long, avro_value_get_float, avro_value_get_double,
      avro_value_get_boolean, avro_value_get_null, avro_value_get_enum,
      avro_value_get_fixed, avro_value_getter, avro_value_get_schema,
      lua_pushlstring, lua_pushnumber, lua_pushboolean, lua_pushnil, lua_pushstring, push,
      scalar_or_wrapper, scalar_of, lua_avro_push_value, avro_value.schema,
      List.dropLast_eq_take]
  case enum name symbols val =>
    cases h : avro_schema_enum_get (.enum name symbols) val <;> simp [push]

/-! ## Handles and paths -/

theorem lookupKey_replaceKey {α : Type} (k : String) (a : α) :
    ∀ (l : List (String × α)), (lookupKey k l).isSome → lookupKey k (replaceKey k a l) = some a := by
  intro l
  induction l with
  | nil => simp [lookupKey]
  | cons e rest ih =>
    obtain ⟨k', a'⟩ := e
    by_cases h : k' = k
    · simp [lookupKey, replaceKey, h]
    · simp [lookupKey, replaceKey, h]
      exact ih

theorem child_setChild (v : avro_value) (s : Step) (c v' : avro_value)
    (h : v.setChild s c = some v') : v'.child s = some c := by
  cases v <;> cases s <;> simp [avro_value.setChild] at h
  case record.field name fields i =>
    cases hf : fields[i]? with
    | none => simp [hf] at h
    | some e =>
      obtain ⟨n, c0⟩ := e
      simp [hf] at h
      subst h
      have hi : i < fields.length := by
        rcases Nat.lt_or_ge i fields.length with h1 | h1
        · exact h1
        · simp [List.getElem?_eq_none h1] at hf
      simp [avro_value.child, hi]
  case map.key values entries k =>
    obtain ⟨h1, h2⟩ := h
    subst h2
    simp [avro_value.child, lookupKey_replaceKey k c entries h1]
  case array.index items elements i =>
    obtain ⟨h1, h2⟩ := h
    subst h2
    simp [avro_value.child, h1]
  case union.branch branches current =>
    cases current with
    | none => simp [avro_value.setChild] at h
    | some p =>
      obtain ⟨d0, b⟩ := p
      simp [avro_value.setChild] at h
      subst h
      simp [avro_value.child]

theorem setChild_of_child (v : avro_value) (s : Step) (c0 c : avro_value)
    (h : v.child s = some c0) : ∃ v', v.setChild s c = some v' := by
  cases v <;> cases s <;> simp [avro_value.child] at h
  case record.field name fields i =>
    obtain ⟨n, hn⟩ := h
    simp [avro_value.setChild, hn]
  case map.key values entries k =>
    simp [avro_value.setChild, h]
  case array.index items elements i =>
    have hi : i < elements.length := by
      rcases Nat.lt_or_ge i elements.length with h1 | h1
      · exact h1
      · simp [List.getElem?_eq_none h1] at h
    simp [avro_value.setChild, hi]
  case union.branch branches current =>
    cases current with
    | none => simp [avro_value.child] at h
    | some p => simp [avro_value.setChild]

/-- Rewriting the value at the end of a path succeeds when the path
leads to a value that the rewriting accepts, and the new value is then
found at the end of the path. -/
theorem at_update (f : avro_value → Option avro_value) (v0 v1 : avro_value)
    (hf : f v0 = some v1) :
    ∀ (p : List Step) (v : avro_value), v.at p = some v0 →
      ∃ v', v.update f p = some v' ∧ v'.at p = some v1 := by
  intro p
  induction p with
  | nil =>
    intro v h
    simp [avro_value.at] at h
    subst h
    exact ⟨v1, by simp [avro_value.update, hf], by simp [avro_value.at]⟩
  | cons s rest ih =>
    intro v h
    cases hc : v.child s with
    | none => simp [avro_value.at, hc] at h
    | some c =>
      simp [avro_value.at, hc] at h
      obtain ⟨c', hc1, hc2⟩ := ih c h
      obtain ⟨v', hv'⟩ := setChild_of_child v s c c' hc
      refine ⟨v', by simp [avro_value.update, hc, hc1, hv'], ?_⟩
      simp [avro_value.at, child_setChild v s c' v' hv', hc2]

theorem at_append (s : Step) :
    ∀ (p : List Step) (v : avro_value),
      v.at (p ++ [s]) = match v.at p with
        | some m => m.child s
        | none => none := by
  intro p
  induction p with
  | nil =>
    intro v
    cases h : v.child s <;> simp [avro_value.at, h]
  | cons s' rest ih =>
    intro v
    cases hc : v.child s' with
    | none => simp [avro_value.at, hc]
    | some c => simp [avro_value.at, hc, ih c]

/-- Rewriting a child through the path of its parent. -/
theorem update_append (f : avro_value → Option avro_value) (s : Step) :
    ∀ (p : List Step) (v : avro_value),
      v.update f (p ++ [s]) = v.update (fun m => match m.child s with
        | some c => match f c with
          | some c' => m.setChild s c'
          | none => none
        | none => none) p := by
  intro p
  induction p with
  | nil =>
    intro v
    cases hc : v.child s with
    | none => simp [avro_value.update, hc]
    | some c => cases hfc : f c <;> simp [avro_value.update, hc, hfc]
  | cons s' rest ih =>
    intro v
    cases hc : v.child s' with
    | none => simp [avro_value.update, hc]
    | some c => simp [avro_value.update, hc, ih c]

theorem deref_child (heap : List avro_value) (value : Ref) (s : Step) (m : avro_value)
    (hlive : deref heap value = some m) :
    deref heap (value.child s) = m.child s := by
  unfold deref at hlive ⊢
  cases hr : heap[value.root]? with
  | none => simp [hr] at hlive
  | some v =>
    simp [hr] at hlive
    simp [Ref.child, hr, at_append, hlive]

/-- Storing through a live handle: the store succeeds and the handle
then designates the new value. -/
theorem store_eq (stk : List LuaVal) (heap : List avro_value) (err : String) (value : Ref)
    (f : avro_value → Option avro_value) (v0 v1 : avro_value)
    (hlive : deref heap value = some v0) (hf : f v0 = some v1) :
    ∃ heap', store ⟨stk, heap, err⟩ value f = some ⟨stk, heap', err⟩ ∧
      deref heap' value = some v1 := by
  unfold deref at hlive
  cases hr : heap[value.root]? with
  | none => simp [hr] at hlive
  | some v =>
    simp [hr] at hlive
    obtain ⟨v', hu, ha⟩ := at_update f v0 v1 hf value.path v hlive
    have hi : value.root < heap.length := by
      rcases Nat.lt_or_ge value.root heap.length with h1 | h1
      · exact h1
      · simp [List.getElem?_eq_none h1] at hr
    refine ⟨heap.set value.root v', by simp [store, hr, hu], ?_⟩
    simp [deref, hi, ha]

/-- Storing through the handle of a child: the parent then holds the
new child. -/
theorem store_child_eq (stk : List LuaVal) (heap : List avro_value) (err : String)
    (value : Ref) (s : Step) (f : avro_value → Option avro_value) (m c c' m' : avro_value)
    (hlive : deref heap value = some m) (hc : m.child s = some c) (hf : f c = some c')
    (hm : m.setChild s c' = some m') :
    ∃ heap', store ⟨stk, heap, err⟩ (value.child s) f = some ⟨stk, heap', err⟩ ∧
      deref heap' value = some m' ∧ deref heap' (value.child s) = some c' := by
  obtain ⟨heap', h1, h2⟩ := store_eq stk heap err value (fun m => match m.child s with
        | some c => match f c with
          | some c' => m.setChild s c'
          | none => none
        | none => none) m m' hlive (by simp [hc, hf, hm])
  refine ⟨heap', ?_, h2, ?_⟩
  · rw [← h1]
    simp [store, Ref.child, update_append]
  · rw [deref_child heap' value s m' h2]
    exact child_setChild m s c' m' hm

/-- A setter of the library applied through a live handle. -/
theorem avro_value_setter_eq (stk : List LuaVal) (heap : List avro_value) (err : String)
    (upd : avro_value → Option avro_value) (msg : String) (value : Ref) (v0 v1 : avro_value)
    (hlive : deref heap value = some v0) (hupd : upd v0 = some v1) :
    ∃ heap', avro_value_setter upd msg value ⟨stk, heap, err⟩ = .ok (some ()) ⟨stk, heap', err⟩ ∧
      deref heap' value = some v1 := by
  obtain ⟨heap', h1, h2⟩ := store_eq stk heap err value upd v0 v1 hlive hupd
  exact ⟨heap', by simp [avro_value_setter, hlive, h1], h2⟩

/-- A setter of the library refused by the value: nothing is stored. -/
theorem avro_value_setter_none (stk : List LuaVal) (heap : List avro_value) (err : String)
    (upd : avro_value → Option avro_value) (msg : String) (value : Ref) (v0 : avro_value)
    (hlive : deref heap value = some v0) (hupd : upd v0 = none) :
    avro_value_setter upd msg value ⟨stk, heap, err⟩ = .ok none ⟨stk, heap, msg⟩ := by
  have hs : store ⟨stk, heap, err⟩ value upd = none := by
    unfold deref at hlive
    unfold store
    cases hr : heap[value.root]? with
    | none => simp
    | some v =>
      simp [hr] at hlive
      simp only []
      have : v.update upd value.path = none := by
        clear hr
        generalize value.path = p at hlive
        induction p generalizing v with
        | nil =>
          simp [avro_value.at] at hlive
          subst hlive
          simp [avro_value.update, hupd]
        | cons s rest ih =>
          cases hc : v.child s with
          | none => simp [avro_value.at, hc] at hlive
          | some c =>
            simp [avro_value.at, hc] at hlive
            simp [avro_value.update, hc, ih c hlive]
      simp [this]
  simp [avro_value_setter, hlive, hs, avro_set_error]

/-! ## scalar() and set() of a scalar -/

/-- C1: `scalar()` on a live AvroValue of type record, array, map or
union raises the error "Avro value isn't a scalar" (nothing is
returned, the values of the library are untouched); on a value of type
string, bytes, int, long, float, double, boolean, null, enum or fixed it
returns exactly one Lua value, the Lua equivalent of the scalar, which
is no wrapper. -/
theorem l_value_scalar_spec (heap : List avro_value) (err : String) (value : Ref) (d : Nat)
    (v : avro_value) (hlive : deref heap value = some v) :
    (v.type ∈ [AVRO_RECORD, AVRO_ARRAY, AVRO_MAP, AVRO_UNION] →
      l_value_scalar ⟨[.avro_value value d], heap, err⟩
        = .raise (.string "Avro value isn't a scalar")
            ⟨[.avro_value value d, .string "Avro value isn't a scalar"], heap, err⟩) ∧
    (v.type ∈ [AVRO_STRING, AVRO_BYTES, AVRO_INT32, AVRO_INT64, AVRO_FLOAT, AVRO_DOUBLE,
        AVRO_BOOLEAN, AVRO_NULL, AVRO_ENUM, AVRO_FIXED] →
      ∃ x, scalar_of v = some x ∧ is_plain x = true ∧
        l_value_scalar ⟨[.avro_value value d], heap, err⟩
          = .ok 1 ⟨[.avro_value value d, x], heap, err⟩) := by
  constructor
  · intro ht
    cases v <;> simp [avro_value.type] at ht <;>
      simp [l_value_scalar, lua_avro_get_value, luaL_checkudata_value,
        lua_avro_push_scalar_or_value, avro_value_get_type, hlive, avro_value.type,
        luaL_error, lua_pushliteral, push, lua_error, index2adr]
  · intro ht
    cases v <;> simp [avro_value.type] at ht <;>
      simp [l_value_scalar, lua_avro_get_value, luaL_checkudata_value, index2adr,
        lua_avro_push_scalar_or_value, avro_value_get_type, hlive, avro_value.type,
        check, avro_value_get_string, avro_value_get_bytes, avro_value_get_int,
        avro_value_get_long, avro_value_get_float, avro_value_get_double,
        avro_value_get_boolean, avro_value_get_null, avro_value_get_enum,
        avro_value_get_fixed, avro_value_getter, avro_value_get_schema,
        lua_pushlstring, lua_pushnumber, lua_pushboolean, lua_pushnil, lua_pushstring, push,
        is_plain, scalar_of, avro_value.schema, List.dropLast_eq_take]
    case enum name symbols val =>
      cases h : avro_schema_enum_get (.enum name symbols) val <;> simp [push, is_plain]
    case float_bits bits => exact is_plain_of_number _
    case double_bits bits => exact is_plain_of_number _

/-- Witness of C1: an int and an array in the heap. -/
theorem l_value_scalar_spec_witness :
    deref [avro_value.array .int [.int 7]] ⟨0, [.index 0]⟩ = some (.int 7) ∧
    deref [avro_value.array .int [.int 7]] ⟨0, []⟩ = some (.array .int [.int 7]) ∧
    l_value_scalar ⟨[.avro_value ⟨0, [.index 0]⟩ 0], [.array .int [.int 7]], ""⟩
      = .ok 1 ⟨[.avro_value ⟨0, [.index 0]⟩ 0, .number 7], [.array .int [.int 7]], ""⟩ ∧
    l_value_scalar ⟨[.avro_value ⟨0, []⟩ 1], [.array .int [.int 7]], ""⟩
      = .raise (.string "Avro value isn't a scalar")
          ⟨[.avro_value ⟨0, []⟩ 1, .string "Avro value isn't a scalar"],
            [.array .int [.int 7]], ""⟩ := by
  refine ⟨rfl, rfl, ?_, ?_⟩
  · obtain ⟨x, hx, _, h⟩ :=
      (l_value_scalar_spec [.array .int [.int 7]] "" ⟨0, [.index 0]⟩ 0 (.int 7) rfl).2
        (by simp [avro_value.type])
    simp [scalar_of] at hx
    subst hx
    exact h
  · exact (l_value_scalar_spec [.array .int [.int 7]] "" ⟨0, []⟩ 1 (.array .int [.int 7]) rfl).1
      (by simp [avro_value.type])

/-- C2 (counterexample): `set` with an argument of another Lua type than
the value's: a number given to a boolean value, a string given to a null
value and a number given to a string value are all accepted; the boolean
becomes `true` and the string becomes "5". -/
theorem l_value_set_accepts_other_types :
    l_value_set ⟨[.avro_value ⟨0, []⟩ 1, .number 1], [.boolean false], ""⟩
      = .ok 1 ⟨[.avro_value ⟨0, []⟩ 1, .number 1, .avro_value ⟨0, []⟩ 1], [.boolean true], ""⟩ ∧
    l_value_set ⟨[.avro_value ⟨0, []⟩ 1, .string "x"], [.null], ""⟩
      = .ok 1 ⟨[.avro_value ⟨0, []⟩ 1, .string "x", .avro_value ⟨0, []⟩ 1], [.null], ""⟩ ∧
    l_value_set ⟨[.avro_value ⟨0, []⟩ 1, .number 5], [.string [NUL]], ""⟩
      = .ok 1 ⟨[.avro_value ⟨0, []⟩ 1, .string "5", .avro_value ⟨0, []⟩ 1],
          [.string [Char.ofNat 53, NUL]], ""⟩ :=
  ⟨rfl, rfl, rfl⟩

theorem take_terminated (str : String) :
    (str.data ++ [NUL]).take (str.length + 1) = str.data ++ [NUL] := by
  obtain ⟨l⟩ := str
  exact List.take_of_length_le (by simp [String.length])

theorem take_data (str : String) : str.data.take str.length = str.data := by
  obtain ⟨l⟩ := str
  exact List.take_of_length_le (by simp [String.length])

/-- The conversion of strings to numbers at some inputs: hexadecimal
numbers, exponents, fractions, signs and surrounding white space
convert; the conversion reads the C string, up to the first zero byte. -/
theorem luaO_str2d_examples :
    luaO_str2d "0x10" = some (.integral 16) ∧
    luaO_str2d "1e1" = some (.integral 10) ∧
    luaO_str2d " 7" = some (.integral 7) ∧
    luaO_str2d "7 " = some (.integral 7) ∧
    luaO_str2d "10.0" = some (.integral 10) ∧
    luaO_str2d "-12" = some (.integral (-12)) ∧
    luaO_str2d "0.5" = some (.pattern 0x3FE0000000000000) ∧
    luaO_str2d "0x.8" = some (.pattern 0x3FE0000000000000) ∧
    luaO_str2d "0.1" = some (.pattern 0x3FB999999999999A) ∧
    luaO_str2d "-0" = some (.pattern 0x8000000000000000) ∧
    luaO_str2d "inf" = some (.pattern 0x7FF0000000000000) ∧
    luaO_str2d "nan" = some (.pattern 0x7FF8000000000000) ∧
    luaO_str2d "10\x00junk" = some (.integral 10) ∧
    luaO_str2d "" = none ∧
    luaO_str2d "abc" = none ∧
    luaO_str2d "0x" = none ∧
    luaO_str2d "1x" = none ∧
    luaO_str2d "1e" = none ∧
    luaO_str2d "1 2" = none :=
  ⟨rfl, rfl, rfl, rfl, rfl, rfl, rfl, rfl, rfl, rfl, rfl, rfl, rfl, rfl, rfl, rfl, rfl, rfl,
    rfl⟩

/-- The conversion of numbers to strings (the format "%.14g") at some
inputs. -/
theorem lua_number2str_examples :
    lua_number2str 5 = "5" ∧
    lua_number2str (-12) = "-12" ∧
    lua_number2str 99999999999999 = "99999999999999" ∧
    lua_number2str 100000000000000 = "1e+14" ∧
    lua_number2str 9007199254740992 = "9.007199254741e+15" ∧
    lua_number2str 123456789012345677 = "1.2345678901235e+17" ∧
    lua_number2str_bits 0x3FE0000000000000 = "0.5" ∧
    lua_number2str_bits 0x3FB999999999999A = "0.1" ∧
    lua_number2str_bits 0x3FD5555555555555 = "0.33333333333333" ∧
    lua_number2str_bits 0x3EE4F8B588E368F1 = "1e-05" ∧
    lua_number2str_bits 0x8000000000000000 = "-0" ∧
    lua_number2str_bits 0x7FF0000000000000 = "inf" ∧
    lua_number2str_bits 0xFFF0000000000000 = "-inf" ∧
    lua_number2str_bits 0x7FF8000000000000 = "nan" := by
  refine ⟨?_, ?_, ?_, ?_, ?_, ?_, ?_, ?_, ?_, ?_, ?_, ?_, ?_, ?_⟩ <;> decide

/-- A value that is neither a string nor a number is refused by
`luaL_checklstring`. -/
theorem luaL_checklstring_refuses (w x : LuaVal) (heap : List avro_value) (err : String)
    (hx : lua_isstring x = false) :
    ∃ msg, luaL_checklstring 2 ⟨[w, x], heap, err⟩
      = .raise (.string msg) ⟨[w, x, .string msg], heap, err⟩ := by
  cases x <;> simp [lua_isstring] at hx <;>
    simp [luaL_checklstring, lua_tolstring, index2adr, luaL_typerror, luaL_error,
      lua_pushliteral, push, lua_error]

/-- A value that does not convert to a number is refused by
`luaL_checkinteger` and by `luaL_checknumber`. -/
theorem luaL_checkinteger_refuses (w x : LuaVal) (heap : List avro_value) (err : String)
    (hx : luaV_tonumber (some x) = none) :
    (∃ msg, luaL_checkinteger 2 ⟨[w, x], heap, err⟩
      = .raise (.string msg) ⟨[w, x, .string msg], heap, err⟩) ∧
    (∃ msg, luaL_checknumber 2 ⟨[w, x], heap, err⟩
      = .raise (.string msg) ⟨[w, x, .string msg], heap, err⟩) := by
  constructor <;>
    simp [luaL_checkinteger, luaL_checknumber, lua_isnumber, index2adr, hx, luaL_typerror,
      luaL_error, lua_pushliteral, push, lua_error]

/-- C2 (amended): `set(v)` on a live scalar AvroValue raises an error and
leaves the values of the library unchanged whenever the Lua conversion
of the value's type refuses `v` (`lua_rejects`): `v` is neither a string
nor a number for a string, bytes, fixed or enum value, or does not
convert to a number for an int, long, float or double value.  A boolean
value accepts every `v` and takes its truth value; a null value accepts
every `v`; a string value accepts every string and every number, and
takes the string that the runtime converts a number to (`lua_tostring`,
the format "%.14g"), with its terminating zero byte. -/
theorem l_value_set_rejected (heap : List avro_value) (err : String) (value : Ref) (d : Nat)
    (v : avro_value) (x : LuaVal) (hlive : deref heap value = some v) :
    (lua_rejects v.type x = true →
      ∃ msg stk, l_value_set ⟨[.avro_value value d, x], heap, err⟩
        = .raise msg ⟨stk, heap, err⟩) ∧
    (v.type = AVRO_BOOLEAN →
      ∃ heap', l_value_set ⟨[.avro_value value d, x], heap, err⟩
          = .ok 1 ⟨[.avro_value value d, x, .avro_value value d], heap', err⟩ ∧
        deref heap' value = some (.boolean (lua_truth x))) ∧
    (v.type = AVRO_NULL →
      ∃ heap', l_value_set ⟨[.avro_value value d, x], heap, err⟩
          = .ok 1 ⟨[.avro_value value d, x, .avro_value value d], heap', err⟩ ∧
        deref heap' value = some .null) ∧
    (v.type = AVRO_STRING → ∀ s, lua_tostring x = some s →
      ∃ heap', l_value_set ⟨[.avro_value value d, x], heap, err⟩
          = .ok 1 ⟨[.avro_value value d, .string s, .avro_value value d], heap', err⟩ ∧
        deref heap' value = some (.string (s.data ++ [NUL]))) := by
  have hdisp : l_value_set ⟨[.avro_value value d, x], heap, err⟩
      = set_scalar_value 1 2 ⟨[.avro_value value d, x], heap, err⟩ := by
    simp [l_value_set, lua_gettop]
  have hself : index2adr ⟨[.avro_value value d, x], heap, err⟩ 1
      = some (.avro_value value d) := rfl
  rw [hdisp]
  refine ⟨?_, ?_, ?_, ?_⟩
  · intro hrej
    have hS : lua_isstring x = false →
        ∃ msg, luaL_checklstring 2 ⟨[.avro_value value d, x], heap, err⟩
          = .raise (.string msg) ⟨[.avro_value value d, x, .string msg], heap, err⟩ :=
      luaL_checklstring_refuses (.avro_value value d) x heap err
    have hI := luaL_checkinteger_refuses (.avro_value value d) x heap err
    cases v <;> simp [avro_value.type, lua_rejects] at hrej
    case string =>
      obtain ⟨msg, h⟩ := hS hrej
      refine ⟨.string msg, [.avro_value value d, x, .string msg], ?_⟩
      simp only [set_scalar_value, lua_avro_get_value, luaL_checkudata_value, hself,
        avro_value_get_type, hlive, avro_value.type, LuaM.bind_apply, LuaM.pure_apply, h]
    case bytes =>
      obtain ⟨msg, h⟩ := hS hrej
      refine ⟨.string msg, [.avro_value value d, x, .string msg], ?_⟩
      simp only [set_scalar_value, lua_avro_get_value, luaL_checkudata_value, hself,
        avro_value_get_type, hlive, avro_value.type, LuaM.bind_apply, LuaM.pure_apply, h]
    case fixed =>
      obtain ⟨msg, h⟩ := hS hrej
      refine ⟨.string msg, [.avro_value value d, x, .string msg], ?_⟩
      simp only [set_scalar_value, lua_avro_get_value, luaL_checkudata_value, hself,
        avro_value_get_type, hlive, avro_value.type, LuaM.bind_apply, LuaM.pure_apply, h]
    case enum =>
      obtain ⟨msg, h⟩ := hS hrej
      refine ⟨.string msg, [.avro_value value d, x, .string msg], ?_⟩
      simp only [set_scalar_value, lua_avro_get_value, luaL_checkudata_value, hself,
        avro_value_get_type, hlive, avro_value.type, LuaM.bind_apply, LuaM.pure_apply,
        luaL_checkstring, h]
    case int =>
      obtain ⟨msg, h⟩ := (hI hrej).1
      refine ⟨.string msg, [.avro_value value d, x, .string msg], ?_⟩
      simp only [set_scalar_value, lua_avro_get_value, luaL_checkudata_value, hself,
        avro_value_get_type, hlive, avro_value.type, LuaM.bind_apply, LuaM.pure_apply, h]
    case long =>
      obtain ⟨msg, h⟩ := (hI hrej).1
      refine ⟨.string msg, [.avro_value value d, x, .string msg], ?_⟩
      simp only [set_scalar_value, lua_avro_get_value, luaL_checkudata_value, hself,
        avro_value_get_type, hlive, avro_value.type, LuaM.bind_apply, LuaM.pure_apply,
        luaL_checklong, h]
    case float =>
      obtain ⟨msg, h⟩ := (hI hrej).2
      refine ⟨.string msg, [.avro_value value d, x, .string msg], ?_⟩
      simp only [set_scalar_value, lua_avro_get_value, luaL_checkudata_value, hself,
        avro_value_get_type, hlive, avro_value.type, LuaM.bind_apply, LuaM.pure_apply, h]
    case double =>
      obtain ⟨msg, h⟩ := (hI hrej).2
      refine ⟨.string msg, [.avro_value value d, x, .string msg], ?_⟩
      simp only [set_scalar_value, lua_avro_get_value, luaL_checkudata_value, hself,
        avro_value_get_type, hlive, avro_value.type, LuaM.bind_apply, LuaM.pure_apply, h]
    case float_bits =>
      obtain ⟨msg, h⟩ := (hI hrej).2
      refine ⟨.string msg, [.avro_value value d, x, .string msg], ?_⟩
      simp only [set_scalar_value, lua_avro_get_value, luaL_checkudata_value, hself,
        avro_value_get_type, hlive, avro_value.type, LuaM.bind_apply, LuaM.pure_apply, h]
    case double_bits =>
      obtain ⟨msg, h⟩ := (hI hrej).2
      refine ⟨.string msg, [.avro_value value d, x, .string msg], ?_⟩
      simp only [set_scalar_value, lua_avro_get_value, luaL_checkudata_value, hself,
        avro_value_get_type, hlive, avro_value.type, LuaM.bind_apply, LuaM.pure_apply, h]
  · intro ht
    cases v <;> simp [avro_value.type] at ht
    case boolean b =>
      have hset : ∃ heap', avro_value_set_boolean value (lua_truth x)
            ⟨[.avro_value value d, x], heap, err⟩
            = .ok (some ()) ⟨[.avro_value value d, x], heap', err⟩ ∧
          deref heap' value = some (.boolean (lua_truth x)) := by
        unfold avro_value_set_boolean
        exact avro_value_setter_eq _ _ _ _ _ _ _ _ hlive rfl
      obtain ⟨heap', h1, h2⟩ := hset
      refine ⟨heap', ?_, h2⟩
      have hb : lua_toboolean 2 ⟨[.avro_value value d, x], heap, err⟩
          = .ok (lua_truth x) ⟨[.avro_value value d, x], heap, err⟩ := by
        cases x <;> simp [lua_toboolean, index2adr, lua_truth]
      simp only [set_scalar_value, lua_avro_get_value, luaL_checkudata_value, hself,
        avro_value_get_type, hlive, avro_value.type, LuaM.bind_apply, LuaM.pure_apply, hb,
        check, h1]
      simp [lua_pushvalue, push, index2adr]
  · intro ht
    cases v <;> simp [avro_value.type] at ht
    have hset : ∃ heap', avro_value_set_null value ⟨[.avro_value value d, x], heap, err⟩
          = .ok (some ()) ⟨[.avro_value value d, x], heap', err⟩ ∧
        deref heap' value = some .null := by
      unfold avro_value_set_null
      exact avro_value_setter_eq _ _ _ _ _ _ _ _ hlive rfl
    obtain ⟨heap', h1, h2⟩ := hset
    refine ⟨heap', ?_, h2⟩
    simp only [set_scalar_value, lua_avro_get_value, luaL_checkudata_value, hself,
      avro_value_get_type, hlive, avro_value.type, LuaM.bind_apply, LuaM.pure_apply,
      check, h1]
    simp [lua_pushvalue, push, index2adr]
  · intro ht s hs
    cases v <;> simp [avro_value.type] at ht
    have hcheck : luaL_checklstring 2 ⟨[.avro_value value d, x], heap, err⟩
        = .ok s ⟨[.avro_value value d, .string s], heap, err⟩ := by
      cases x <;> simp [lua_tostring] at hs <;> subst hs <;>
        simp [luaL_checklstring, lua_tolstring, index2adr, setidx]
    have hset : ∃ heap', avro_value_set_string_len value (s.data ++ [NUL]) (s.length + 1)
          ⟨[.avro_value value d, .string s], heap, err⟩
          = .ok (some ()) ⟨[.avro_value value d, .string s], heap', err⟩ ∧
        deref heap' value = some (.string ((s.data ++ [NUL]).take (s.length + 1))) := by
      unfold avro_value_set_string_len
      exact avro_value_setter_eq _ _ _ _ _ _ _ _ hlive rfl
    obtain ⟨heap', h1, h2⟩ := hset
    rw [take_terminated] at h2
    refine ⟨heap', ?_, h2⟩
    simp only [set_scalar_value, lua_avro_get_value, luaL_checkudata_value, hself,
      avro_value_get_type, hlive, avro_value.type, LuaM.bind_apply, LuaM.pure_apply,
      hcheck, check, h1]
    simp [lua_pushvalue, push, index2adr]

/-- Witness of C2 (amended): a boolean argument is refused by an int
value, which keeps its content. -/
theorem l_value_set_rejected_witness :
    deref [avro_value.int 3] ⟨0, []⟩ = some (.int 3) ∧
    lua_rejects (avro_value.int 3).type (.boolean true) = true ∧
    ∃ msg stk, l_value_set ⟨[.avro_value ⟨0, []⟩ 1, .boolean true], [.int 3], ""⟩
      = .raise msg ⟨stk, [.int 3], ""⟩ :=
  ⟨rfl, rfl,
    (l_value_set_rejected [.int 3] "" ⟨0, []⟩ 1 (.int 3) (.boolean true) rfl).1 rfl⟩

/-- Numerals that `set` converts: the string "0x10" given to an int
value stores 16, the string " 1e1 " given to a long value stores 10, the
string "0.5" given to a double value stores one half, and the number
`1e14` given to a string value stores the string "1e+14". -/
theorem l_value_set_converts :
    l_value_set ⟨[.avro_value ⟨0, []⟩ 1, .string "0x10"], [.int 0], ""⟩
      = .ok 1 ⟨[.avro_value ⟨0, []⟩ 1, .string "0x10", .avro_value ⟨0, []⟩ 1],
          [.int 16], ""⟩ ∧
    l_value_set ⟨[.avro_value ⟨0, []⟩ 1, .string " 1e1 "], [.long 0], ""⟩
      = .ok 1 ⟨[.avro_value ⟨0, []⟩ 1, .string " 1e1 ", .avro_value ⟨0, []⟩ 1],
          [.long 10], ""⟩ ∧
    l_value_set ⟨[.avro_value ⟨0, []⟩ 1, .string "0.5"], [.double 0], ""⟩
      = .ok 1 ⟨[.avro_value ⟨0, []⟩ 1, .string "0.5", .avro_value ⟨0, []⟩ 1],
          [.double_bits 0x3FE0000000000000], ""⟩ ∧
    l_value_set ⟨[.avro_value ⟨0, []⟩ 1, .number 100000000000000], [.string [NUL]], ""⟩
      = .ok 1 ⟨[.avro_value ⟨0, []⟩ 1, .string "1e+14", .avro_value ⟨0, []⟩ 1],
          [.string ['1', 'e', '+', '1', '4', NUL]], ""⟩ :=
  ⟨rfl, rfl, rfl, rfl⟩

/-! ## get() on arrays -/

/-- C3 (the code at the failing input): on an array of one element,
`get(4294967297)` and `get(-4294967295)`, whose indices are out of
range, return the first element: the `lua_Integer` index is reduced
modulo 2^32 by the `unsigned int` parameter of `get_array_element`
before the bounds check.  An index that is out of range after the
reduction is reported as "Index out of bounds".  The `get` of avro.c
does the same. -/
theorem l_value_get_index_wraps :
    l_value_get ⟨[.avro_value ⟨0, []⟩ 1, .number 4294967297], [.array .int [.int 10]], ""⟩
      = .ok 1 ⟨[.avro_value ⟨0, []⟩ 1, .number 4294967297, .number 10],
          [.array .int [.int 10]], ""⟩ ∧
    l_value_get ⟨[.avro_value ⟨0, []⟩ 1, .number (-4294967295)], [.array .int [.int 10]], ""⟩
      = .ok 1 ⟨[.avro_value ⟨0, []⟩ 1, .number (-4294967295), .number 10],
          [.array .int [.int 10]], ""⟩ ∧
    l_value_get ⟨[.avro_value ⟨0, []⟩ 1, .number 2], [.array .int [.int 10]], ""⟩
      = .ok 2 ⟨[.avro_value ⟨0, []⟩ 1, .number 2, .nil, .string "Index out of bounds"],
          [.array .int [.int 10]], ""⟩ ∧
    Datum.l_datum_get ⟨[.avro_datum ⟨0, []⟩ (some (.array .int)), .number 4294967297],
        [.array .int [.int 10]], ""⟩
      = .ok 1 ⟨[.avro_datum ⟨0, []⟩ (some (.array .int)), .number 4294967297, .number 10],
          [.array .int [.int 10]], ""⟩ :=
  ⟨rfl, rfl, rfl, rfl⟩

/-- What `get` does with a number index on a live array: the bounds
check and the element access of `get_array_element` on the index
reduced to `unsigned int`. -/
theorem l_value_get_array (heap : List avro_value) (err : String) (value : Ref) (d : Nat)
    (items : avro_schema_t) (elements : List avro_value) (i : Int)
    (hlive : deref heap value = some (.array items elements)) :
    l_value_get ⟨[.avro_value value d, .number i], heap, err⟩
      = get_array_element value (to_unsigned_int (lua_number2integer i)) true
          ⟨[.avro_value value d, .number i], heap, err⟩ := by
  have hself : index2adr ⟨[.avro_value value d, .number i], heap, err⟩ 1
      = some (.avro_value value d) := rfl
  have hidx : index2adr ⟨[.avro_value value d, .number i], heap, err⟩ 2
      = some (.number i) := rfl
  simp only [l_value_get, lua_avro_get_value, luaL_checkudata_value, hself, get_subvalue,
    lua_isnumber, lua_tointeger, hidx, luaV_tonumber, avro_value_get_type, hlive,
    avro_value.type, LuaM.bind_apply, LuaM.pure_apply, Option.isSome_some, if_true,
    floating.to_integer]

/-- What the bounds check of `get` covers: on a live array, an index
whose reduction to `unsigned int` is `0` or exceeds the size gives `nil`
plus "Index out of bounds", and nothing is changed. -/
theorem l_value_get_out_of_bounds (heap : List avro_value) (err : String) (value : Ref)
    (d : Nat) (items : avro_schema_t) (elements : List avro_value) (i : Int)
    (hlive : deref heap value = some (.array items elements))
    (hout : to_unsigned_int (lua_number2integer i) < 1 ∨
      to_unsigned_int (lua_number2integer i) > elements.length) :
    l_value_get ⟨[.avro_value value d, .number i], heap, err⟩
      = .ok 2 ⟨[.avro_value value d, .number i, .nil, .string "Index out of bounds"],
          heap, err⟩ := by
  rw [l_value_get_array heap err value d items elements _ hlive]
  simp only [get_array_element, check, avro_value_get_size, avro_value_getter, hlive,
    LuaM.bind_apply, LuaM.pure_apply, hout, if_true]
  simp [lua_pushnil, lua_pushliteral, push]

/-- C4: array indexing is 1-based.  On a live array of `n` elements,
`get(i)` with `1 ≤ i ≤ n` (and `i` below 2^32, the range of the
`unsigned int` index) succeeds with exactly one result: the element at
the 0-based position `i - 1`, as its Lua equivalent when it is a scalar
and as a wrapper of its handle otherwise. -/
theorem l_value_get_one_based (heap : List avro_value) (err : String) (value : Ref) (d : Nat)
    (items : avro_schema_t) (elements : List avro_value) (i : Int)
    (hlive : deref heap value = some (.array items elements))
    (h1 : 1 ≤ i) (hn : i ≤ elements.length) (h32 : i < 2 ^ 32) :
    ∃ e, elements[(i - 1).toNat]? = some e ∧
      l_value_get ⟨[.avro_value value d, .number i], heap, err⟩
        = .ok 1 ⟨[.avro_value value d, .number i,
            scalar_or_wrapper e (value.child (.index (i - 1).toNat)) NO_DESTRUCTOR],
            heap, err⟩ := by
  obtain ⟨k, rfl⟩ : ∃ k : Nat, i = ((k + 1 : Nat) : Int) := ⟨(i - 1).toNat, by omega⟩
  have hk : k < elements.length := by omega
  have hint : lua_number2integer ((k + 1 : Nat) : Int) = ((k + 1 : Nat) : Int) := by
    unfold lua_number2integer
    rw [if_pos]
    constructor <;> omega
  have hu : to_unsigned_int ((k + 1 : Nat) : Int) = k + 1 := by
    unfold to_unsigned_int
    rw [Int.emod_eq_of_lt (by omega) (by omega)]
    simp
  have hpos : ((((k + 1 : Nat) : Int)) - 1).toNat = k := by omega
  refine ⟨elements[k], by simp [hpos, hk], ?_⟩
  rw [l_value_get_array heap err value d items elements _ hlive, hint, hu, hpos]
  have hchild : deref heap (value.child (.index k)) = some elements[k] := by
    rw [deref_child heap value (.index k) _ hlive]
    simp [avro_value.child, hk]
  simp only [get_array_element, check, avro_value_get_size, avro_value_getter, hlive,
    LuaM.bind_apply, LuaM.pure_apply, avro_value_get_by_index]
  have hnot : ¬ (k + 1 < 1 ∨ k + 1 > elements.length) := by omega
  have hgi : avro_value_get_by_index value k
      ⟨[.avro_value value d, .number ((k + 1 : Nat) : Int)], heap, err⟩
      = .ok (some (value.child (.index k), none))
          ⟨[.avro_value value d, .number ((k + 1 : Nat) : Int)], heap, err⟩ := by
    simp [avro_value_get_by_index, hlive, hk]
  simp only [hnot, if_false, Nat.add_sub_cancel, hgi, LuaM.bind_apply, LuaM.pure_apply]
  exact lua_avro_push_scalar_or_value_eq _ heap err _ NO_DESTRUCTOR _ hchild

/-- Witness of C4: the second element of an array of two. -/
theorem l_value_get_one_based_witness :
    deref [avro_value.array .int [.int 10, .int 20]] ⟨0, []⟩
      = some (.array .int [.int 10, .int 20]) ∧
    (1 : Int) ≤ 2 ∧ (2 : Int) ≤ ([avro_value.int 10, .int 20].length : Int) ∧
    (2 : Int) < 2 ^ 32 ∧
    ∃ e, [avro_value.int 10, .int 20][((2 : Int) - 1).toNat]? = some e ∧
      l_value_get ⟨[.avro_value ⟨0, []⟩ 1, .number 2], [.array .int [.int 10, .int 20]], ""⟩
        = .ok 1 ⟨[.avro_value ⟨0, []⟩ 1, .number 2,
            scalar_or_wrapper e (Ref.child ⟨0, []⟩ (.index ((2 : Int) - 1).toNat))
              NO_DESTRUCTOR],
            [.array .int [.int 10, .int 20]], ""⟩ :=
  ⟨rfl, by decide, by decide, by decide,
    l_value_get_one_based [.array .int [.int 10, .int 20]] "" ⟨0, []⟩ 1 .int
      [.int 10, .int 20] 2 rfl (by decide) (by decide) (by decide)⟩

/-! ## get() by name -/

/-- What `get_subvalue` does with a string index on a live value that is
not an array: the access by name of the value's type, on the index read
as a C string. -/
theorem get_subvalue_string (L : lua_State) (value : Ref) (v : avro_value) (name : String)
    (can_create coerce_value : Bool)
    (hidx : index2adr L 2 = some (.string name))
    (hlive : deref L.heap value = some v) (hna : v.type ≠ AVRO_ARRAY) :
    get_subvalue value 2 can_create coerce_value L
      = (if v.type = AVRO_MAP then
          get_map_value value (cstr name) can_create coerce_value
        else if v.type = AVRO_RECORD then
          get_record_field value (cstr name) coerce_value
        else if v.type = AVRO_UNION then
          get_union_branch value (cstr name) coerce_value
        else pure 0) L := by
  have hopt : luaL_optstring 2 L = .ok (some (cstr name)) L := by
    simp [luaL_optstring, hidx, luaL_checkstring, luaL_checklstring, lua_tolstring]
  cases hnum : luaO_str2d name <;>
    simp only [get_subvalue, lua_isnumber, lua_tointeger, hidx, luaV_tonumber, hnum,
      avro_value_get_type, hlive, LuaM.bind_apply, LuaM.pure_apply, Option.isSome_some,
      Option.isSome_none, if_true, if_false, hna, hopt, Bool.false_eq_true]

/-- What `get` does with a string index on a live value that is not an
array. -/
theorem l_value_get_string (heap : List avro_value) (err : String) (value : Ref) (d : Nat)
    (v : avro_value) (name : String)
    (hlive : deref heap value = some v) (hna : v.type ≠ AVRO_ARRAY) :
    l_value_get ⟨[.avro_value value d, .string name], heap, err⟩
      = (if v.type = AVRO_MAP then
          get_map_value value (cstr name) false true
        else if v.type = AVRO_RECORD then
          get_record_field value (cstr name) true
        else if v.type = AVRO_UNION then
          get_union_branch value (cstr name) true
        else pure 0) ⟨[.avro_value value d, .string name], heap, err⟩ := by
  have hself : index2adr ⟨[.avro_value value d, .string name], heap, err⟩ 1
      = some (.avro_value value d) := rfl
  simp only [l_value_get, lua_avro_get_value, luaL_checkudata_value, hself,
    LuaM.bind_apply, LuaM.pure_apply]
  exact get_subvalue_string _ value v name false true rfl hlive hna

theorem findIdx?_eq_none {α : Type} (p : α → Bool) :
    ∀ (l : List α), (∀ a ∈ l, p a = false) → findIdx? p l = none := by
  intro l
  induction l with
  | nil => intro _; rfl
  | cons a rest ih =>
    intro h
    simp [findIdx?, h a (by simp), ih (fun b hb => h b (by simp [hb]))]

theorem findIdx?_some {α : Type} (p : α → Bool) :
    ∀ (l : List α) (i : Nat), findIdx? p l = some i →
      ∃ a, l[i]? = some a ∧ p a = true ∧ ∀ j b, j < i → l[j]? = some b → p b = false := by
  intro l
  induction l with
  | nil => intro i h; simp [findIdx?] at h
  | cons a rest ih =>
    intro i h
    by_cases hp : p a = true
    · simp [findIdx?, hp] at h
      subst h
      exact ⟨a, by simp, hp, by intro j b hj; omega⟩
    · simp [findIdx?, hp] at h
      obtain ⟨i', hi', rfl⟩ := h
      obtain ⟨a', h1, h2, h3⟩ := ih i' hi'
      refine ⟨a', by simp [h1], h2, ?_⟩
      intro j b hj hb
      cases j with
      | zero =>
        simp at hb
        subst hb
        simpa using hp
      | succ j' =>
        simp at hb
        exact h3 j' b (by omega) hb

/-- What `get` of avro.c does with a string index on a live datum that
is not an array. -/
theorem l_datum_get_string (heap : List avro_value) (err : String) (datum : Ref)
    (schema : Option avro_schema_t) (v : avro_value) (name : String)
    (hlive : deref heap datum = some v) (hna : v.type ≠ AVRO_ARRAY) :
    Datum.l_datum_get ⟨[.avro_datum datum schema, .string name], heap, err⟩
      = (if v.type = AVRO_MAP then
          Datum.get_map_datum (datum, schema) (cstr name) false true
        else if v.type = AVRO_RECORD then
          Datum.get_record_field (datum, schema) (cstr name) true
        else if v.type = AVRO_UNION then
          Datum.get_union_branch (datum, schema) (cstr name) true
        else pure 0) ⟨[.avro_datum datum schema, .string name], heap, err⟩ := by
  have hself : index2adr ⟨[.avro_datum datum schema, .string name], heap, err⟩ 1
      = some (.avro_datum datum schema) := rfl
  have hidx : index2adr ⟨[.avro_datum datum schema, .string name], heap, err⟩ 2
      = some (.string name) := rfl
  have hopt : luaL_optstring 2 ⟨[.avro_datum datum schema, .string name], heap, err⟩
      = .ok (some (cstr name)) ⟨[.avro_datum datum schema, .string name], heap, err⟩ := by
    simp [luaL_optstring, hidx, luaL_checkstring, luaL_checklstring, lua_tolstring]
  cases hnum : luaO_str2d name <;>
    simp only [Datum.l_datum_get, Datum.luaL_checkudata_datum, hself, Datum.get_subdatum,
      lua_isnumber, lua_tointeger, hidx, luaV_tonumber, hnum, Datum.avro_typeof,
      avro_value_get_type, hlive, LuaM.bind_apply, LuaM.pure_apply, Option.isSome_some,
      Option.isSome_none, if_true, if_false, hna, hopt, Bool.false_eq_true]

/-- C5 (counterexample): a record with the single field "a" and the
name "a", a zero byte, "b", which is none of its declared fields:
`get` hands the name to the library as a C string, which ends at the
zero byte, and returns the value of the field "a", in legacy.c and in
avro.c. -/
theorem l_value_get_field_of_prefix :
    (∀ f ∈ [(("a", avro_value.int 1) : String × avro_value)], f.1 ≠ "a\x00b") ∧
    cstr "a\x00b" = "a" ∧
    l_value_get ⟨[.avro_value ⟨0, []⟩ 1, .string "a\x00b"], [.record "r" [("a", .int 1)]], ""⟩
      = .ok 1 ⟨[.avro_value ⟨0, []⟩ 1, .string "a\x00b", .number 1],
          [.record "r" [("a", .int 1)]], ""⟩ ∧
    Datum.l_datum_get ⟨[.avro_datum ⟨0, []⟩ (some (.record "r" [("a", .int)])),
          .string "a\x00b"], [.record "r" [("a", .int 1)]], ""⟩
      = .ok 1 ⟨[.avro_datum ⟨0, []⟩ (some (.record "r" [("a", .int)])), .string "a\x00b",
            .number 1], [.record "r" [("a", .int 1)]], ""⟩ :=
  ⟨by decide, by decide, rfl, rfl⟩

/-- C5 (amended): `get(name)` on a live record with a name that, read as
a C string (the bytes before its first zero byte), is none of the field
names of the record never returns a field value.  In legacy.c, where
the lookup of the library fails, it raises the error of the library; in
avro.c, where the lookup yields a `NULL` field, it returns `nil` plus
"Record field doesn't exist".  The values of the library are unchanged
in both. -/
theorem l_value_get_missing_field (heap : List avro_value) (err : String) (value : Ref)
    (d : Nat) (schema : Option avro_schema_t) (rname : String)
    (fields : List (String × avro_value)) (name : String)
    (hlive : deref heap value = some (.record rname fields))
    (hname : ∀ f ∈ fields, f.1 ≠ cstr name) :
    l_value_get ⟨[.avro_value value d, .string name], heap, err⟩
      = .raise (.string (cstr ("Unknown record field " ++ cstr name)))
          ⟨[.avro_value value d, .string name,
              .string (cstr ("Unknown record field " ++ cstr name))],
            heap, "Unknown record field " ++ cstr name⟩ ∧
    Datum.l_datum_get ⟨[.avro_datum value schema, .string name], heap, err⟩
      = .ok 2 ⟨[.avro_datum value schema, .string name, .nil,
              .string "Record field doesn't exist"],
            heap, "Unknown record field " ++ cstr name⟩ := by
  have hfind : findIdx? (fun f : String × avro_value => f.1 == cstr name) fields = none :=
    findIdx?_eq_none _ fields (fun f hf => by simpa using hname f hf)
  constructor
  · rw [l_value_get_string heap err value d _ name hlive (by simp [avro_value.type])]
    simp [avro_value.type, get_record_field, check, avro_value_get_by_name, hlive, hfind,
      avro_set_error, lua_avro_error, avro_strerror, lua_pushstring, push, lua_error,
      index2adr]
  · rw [l_datum_get_string heap err value schema _ name hlive (by simp [avro_value.type])]
    simp [avro_value.type, Datum.get_record_field, avro_value_get_by_name, hlive, hfind,
      avro_set_error, lua_pushnil, lua_pushliteral, push]

/-- Witness of C5 (amended): a record with the field "a", asked for "b". -/
theorem l_value_get_missing_field_witness :
    deref [avro_value.record "r" [("a", .int 1)]] ⟨0, []⟩
      = some (.record "r" [("a", .int 1)]) ∧
    (∀ f ∈ [(("a", avro_value.int 1) : String × avro_value)], f.1 ≠ cstr "b") ∧
    l_value_get ⟨[.avro_value ⟨0, []⟩ 1, .string "b"], [.record "r" [("a", .int 1)]], ""⟩
      = .raise (.string (cstr ("Unknown record field " ++ cstr "b")))
          ⟨[.avro_value ⟨0, []⟩ 1, .string "b",
              .string (cstr ("Unknown record field " ++ cstr "b"))],
            [.record "r" [("a", .int 1)]], "Unknown record field " ++ cstr "b"⟩ ∧
    Datum.l_datum_get ⟨[.avro_datum ⟨0, []⟩ (some (.record "r" [("a", .int)])), .string "b"],
        [.record "r" [("a", .int 1)]], ""⟩
      = .ok 2 ⟨[.avro_datum ⟨0, []⟩ (some (.record "r" [("a", .int)])), .string "b", .nil,
              .string "Record field doesn't exist"],
            [.record "r" [("a", .int 1)]], "Unknown record field " ++ cstr "b"⟩ :=
  ⟨rfl, by decide,
    l_value_get_missing_field [.record "r" [("a", .int 1)]] "" ⟨0, []⟩ 1
      (some (.record "r" [("a", .int)])) "r" [("a", .int 1)] "b" rfl (by decide)⟩

theorem lookupKey_eq_none {α : Type} (k : String) :
    ∀ (l : List (String × α)), (∀ e ∈ l, e.1 ≠ k) → lookupKey k l = none := by
  intro l
  induction l with
  | nil => intro _; rfl
  | cons e rest ih =>
    intro h
    obtain ⟨k', a⟩ := e
    have h1 : k' ≠ k := h (k', a) (by simp)
    simp [lookupKey, h1, ih (fun b hb => h b (by simp [hb]))]

/-- C6 (counterexample): a map that holds the key "a" and the key "a",
a zero byte, "b", which the map does not hold: `get` hands the key to
the library as a C string, which ends at the zero byte, and returns the
value of the entry "a" instead of failing. -/
theorem l_value_get_key_of_prefix :
    (∀ e ∈ [(("a", avro_value.int 1) : String × avro_value)], e.1 ≠ "a\x00b") ∧
    cstr "a\x00b" = "a" ∧
    l_value_get ⟨[.avro_value ⟨0, []⟩ 1, .string "a\x00b"], [.map .int [("a", .int 1)]], ""⟩
      = .ok 1 ⟨[.avro_value ⟨0, []⟩ 1, .string "a\x00b", .number 1],
          [.map .int [("a", .int 1)]], ""⟩ :=
  ⟨by decide, by decide, rfl⟩

/-- C6 (amended): `get(k)` on a live map with a key that, read as a C
string (the bytes before its first zero byte), the map does not hold
returns `nil` and "Map element doesn't exist", and changes nothing: the
values of the library, hence the entries and the size of the map, are
the same afterwards. -/
theorem l_value_get_missing_key (heap : List avro_value) (err : String) (value : Ref)
    (d : Nat) (values : avro_schema_t) (entries : List (String × avro_value)) (k : String)
    (hlive : deref heap value = some (.map values entries))
    (hkey : ∀ e ∈ entries, e.1 ≠ cstr k) :
    l_value_get ⟨[.avro_value value d, .string k], heap, err⟩
      = .ok 2 ⟨[.avro_value value d, .string k, .nil, .string "Map element doesn't exist"],
          heap, err⟩ := by
  rw [l_value_get_string heap err value d _ k hlive (by simp [avro_value.type])]
  simp [avro_value.type, get_map_value, check, avro_value_get_by_name, hlive,
    lookupKey_eq_none (cstr k) entries hkey, lua_pushnil, lua_pushliteral, push]

/-- Witness of C6 (amended): a map with the key "a", asked for "b". -/
theorem l_value_get_missing_key_witness :
    deref [avro_value.map .int [("a", .int 1)]] ⟨0, []⟩
      = some (.map .int [("a", .int 1)]) ∧
    (∀ e ∈ [(("a", avro_value.int 1) : String × avro_value)], e.1 ≠ cstr "b") ∧
    l_value_get ⟨[.avro_value ⟨0, []⟩ 1, .string "b"], [.map .int [("a", .int 1)]], ""⟩
      = .ok 2 ⟨[.avro_value ⟨0, []⟩ 1, .string "b", .nil,
            .string "Map element doesn't exist"], [.map .int [("a", .int 1)]], ""⟩ :=
  ⟨rfl, by decide,
    l_value_get_missing_key [.map .int [("a", .int 1)]] "" ⟨0, []⟩ 1 .int [("a", .int 1)]
      "b" rfl (by decide)⟩

/-! ## set() of a sub-value -/

/-- A setter of the library applied through the handle of a child: the
parent then holds the new child. -/
theorem avro_value_setter_child_eq (stk : List LuaVal) (heap : List avro_value) (err : String)
    (upd : avro_value → Option avro_value) (msg : String) (value : Ref) (s : Step)
    (m c c' m' : avro_value)
    (hlive : deref heap value = some m) (hc : m.child s = some c) (hupd : upd c = some c')
    (hm : m.setChild s c' = some m') :
    ∃ heap', avro_value_setter upd msg (value.child s) ⟨stk, heap, err⟩
        = .ok (some ()) ⟨stk, heap', err⟩ ∧
      deref heap' value = some m' ∧ deref heap' (value.child s) = some c' := by
  obtain ⟨heap', h1, h2, h3⟩ := store_child_eq stk heap err value s upd m c c' m' hlive hc hupd hm
  have hcl : deref heap (value.child s) = some c := by
    rw [deref_child heap value s m hlive, hc]
  exact ⟨heap', by simp [avro_value_setter, hcl, h1], h2, h3⟩

theorem wrapSigned_eq (w : Nat) (n : Int) (hw : 0 < w)
    (h1 : -(2 : Int) ^ (w - 1) ≤ n) (h2 : n < (2 : Int) ^ (w - 1)) :
    wrapSigned w n = n := by
  unfold wrapSigned
  have hp : (2 : Int) ^ w = 2 * (2 : Int) ^ (w - 1) := by
    obtain ⟨k, rfl⟩ : ∃ k, w = k + 1 := ⟨w - 1, by omega⟩
    simp [pow_succ, mul_comm]
  rw [Int.emod_eq_of_lt (by omega) (by omega)]
  omega

theorem round_to_bits_eq (p : Nat) (n : Int) (h : n.natAbs < 2 ^ p) :
    round_to_bits p n = n := by
  simp [round_to_bits, h]

theorem findIdx?_mem (symbols : List String) (str : String) (h : str ∈ symbols) :
    ∃ i, findIdx? (fun s => s == str) symbols = some i ∧ symbols[i]? = some str := by
  induction symbols with
  | nil => simp at h
  | cons a rest ih =>
    by_cases ha : a = str
    · exact ⟨0, by simp [findIdx?, ha], by simp [ha]⟩
    · have hr : str ∈ rest := by
        rcases List.mem_cons.mp h with h1 | h1
        · exact absurd h1.symm ha
        · exact h1
      obtain ⟨i, h1, h2⟩ := ih hr
      exact ⟨i + 1, by simp [findIdx?, ha, h1], by simp [h2]⟩

/-- Setting a fresh scalar sub-value: `set_scalar_value`, given the
wrapper of a fresh child of a live value and an argument the child's
schema can hold exactly, stores the argument in the child (whose Lua
equivalent is then the argument), leaves the rest of the parent as it
was, and returns one result, the wrapper. -/
theorem set_scalar_value_acceptable (stk : List LuaVal) (heap : List avro_value) (err : String)
    (self_index val_index : Int) (parent : Ref) (s : Step) (d : Nat) (m : avro_value)
    (schema : avro_schema_t) (x : LuaVal)
    (hself : index2adr ⟨stk, heap, err⟩ self_index = some (.avro_value (parent.child s) d))
    (hval : index2adr ⟨stk, heap, err⟩ val_index = some x)
    (hlive : deref heap parent = some m)
    (hc : m.child s = some (avro_generic_value_new schema))
    (hx : acceptable schema x) :
    ∃ heap' c' m',
      set_scalar_value self_index val_index ⟨stk, heap, err⟩
        = .ok 1 ⟨stk ++ [.avro_value (parent.child s) d], heap', err⟩ ∧
      scalar_of c' = some x ∧ m.setChild s c' = some m' ∧
      deref heap' parent = some m' ∧ deref heap' (parent.child s) = some c' := by
  have hcl : deref heap (parent.child s) = some (avro_generic_value_new schema) := by
    rw [deref_child heap parent s m hlive, hc]
  have hself' : ∀ heap', index2adr ⟨stk, heap', err⟩ self_index
      = some (.avro_value (parent.child s) d) := fun _ => hself
  cases schema <;> cases x <;> simp [acceptable] at hx
  case string.string str =>
    simp only [avro_generic_value_new] at hcl hc
    obtain ⟨m', hm'⟩ := setChild_of_child m s _ (.string (str.data ++ [NUL])) hc
    have hset : ∃ heap', avro_value_set_string_len (parent.child s) (str.data ++ [NUL])
          (str.length + 1) ⟨stk, heap, err⟩ = .ok (some ()) ⟨stk, heap', err⟩ ∧
        deref heap' parent = some m' ∧
        deref heap' (parent.child s) = some (.string (str.data ++ [NUL])) := by
      unfold avro_value_set_string_len
      exact avro_value_setter_child_eq _ _ _ _ _ _ _ _ _ _ _ hlive hc
        (by simp only [take_terminated]) hm'
    obtain ⟨heap', h1, h2, h3⟩ := hset
    refine ⟨heap', _, m', ?_, ?_, hm', h2, h3⟩
    · have hchk : luaL_checklstring val_index ⟨stk, heap, err⟩ = .ok str ⟨stk, heap, err⟩ := by
        simp [luaL_checklstring, lua_tolstring, hval]
      simp only [set_scalar_value, lua_avro_get_value, luaL_checkudata_value, hself,
        avro_value_get_type, hcl, avro_value.type, LuaM.bind_apply, LuaM.pure_apply, hchk,
        check, h1, lua_pushvalue, hself', push, Option.getD_some]
    · simp [scalar_of]
  case bytes.string str =>
    simp only [avro_generic_value_new] at hcl hc
    obtain ⟨m', hm'⟩ := setChild_of_child m s _ (.bytes str.data) hc
    have hset : ∃ heap', avro_value_set_bytes (parent.child s) str.data str.length ⟨stk, heap, err⟩ = .ok (some ()) ⟨stk, heap', err⟩ ∧
        deref heap' parent = some m' ∧
        deref heap' (parent.child s) = some (.bytes str.data) := by
      unfold avro_value_set_bytes
      exact avro_value_setter_child_eq _ _ _ _ _ _ _ _ _ _ _ hlive hc
        (by simp only [take_data]) hm'
    obtain ⟨heap', h1, h2, h3⟩ := hset
    refine ⟨heap', _, m', ?_, ?_, hm', h2, h3⟩
    · have hchk : luaL_checklstring val_index ⟨stk, heap, err⟩ = .ok (str) ⟨stk, heap, err⟩ := by
        simp [luaL_checklstring, lua_tolstring, hval]
      simp only [set_scalar_value, lua_avro_get_value, luaL_checkudata_value, hself,
        avro_value_get_type, hcl, avro_value.type, LuaM.bind_apply, LuaM.pure_apply, hchk,
        check, h1, lua_pushvalue, hself', push, Option.getD_some]
    · simp [scalar_of]
  case int.number n =>
    simp only [avro_generic_value_new] at hcl hc
    obtain ⟨m', hm'⟩ := setChild_of_child m s _ (.int n) hc
    have hset : ∃ heap', avro_value_set_int (parent.child s) n ⟨stk, heap, err⟩ = .ok (some ()) ⟨stk, heap', err⟩ ∧
        deref heap' parent = some m' ∧
        deref heap' (parent.child s) = some (.int n) := by
      unfold avro_value_set_int
      exact avro_value_setter_child_eq _ _ _ _ _ _ _ _ _ _ _ hlive hc
        (by simp only [wrapSigned_eq 32 n (by decide) (by norm_num; omega) (by norm_num; omega)]) hm'
    obtain ⟨heap', h1, h2, h3⟩ := hset
    refine ⟨heap', _, m', ?_, ?_, hm', h2, h3⟩
    · have hchk : luaL_checkinteger val_index ⟨stk, heap, err⟩ = .ok (n) ⟨stk, heap, err⟩ := by
        have hr : lua_number2integer n = n := by
          unfold lua_number2integer
          rw [if_pos]
          constructor <;> omega
        simp [luaL_checkinteger, lua_isnumber, lua_tointeger, hval, luaV_tonumber, hr]
      simp only [set_scalar_value, lua_avro_get_value, luaL_checkudata_value, hself,
        avro_value_get_type, hcl, avro_value.type, LuaM.bind_apply, LuaM.pure_apply, hchk,
        check, h1, lua_pushvalue, hself', push, Option.getD_some]
    · simp [scalar_of]
  case long.number n =>
    simp only [avro_generic_value_new] at hcl hc
    obtain ⟨m', hm'⟩ := setChild_of_child m s _ (.long n) hc
    have hset : ∃ heap', avro_value_set_long (parent.child s) n ⟨stk, heap, err⟩ = .ok (some ()) ⟨stk, heap', err⟩ ∧
        deref heap' parent = some m' ∧
        deref heap' (parent.child s) = some (.long n) := by
      unfold avro_value_set_long
      exact avro_value_setter_child_eq _ _ _ _ _ _ _ _ _ _ _ hlive hc
        (by simp only [wrapSigned_eq 64 n (by decide) (by norm_num; omega) (by norm_num; omega)]) hm'
    obtain ⟨heap', h1, h2, h3⟩ := hset
    refine ⟨heap', _, m', ?_, ?_, hm', h2, h3⟩
    · have hchk : luaL_checkinteger val_index ⟨stk, heap, err⟩ = .ok (n) ⟨stk, heap, err⟩ := by
        have hr : lua_number2integer n = n := by
          unfold lua_number2integer
          rw [if_pos]
          constructor <;> omega
        simp [luaL_checkinteger, lua_isnumber, lua_tointeger, hval, luaV_tonumber, hr]
      simp only [set_scalar_value, lua_avro_get_value, luaL_checkudata_value, hself,
        avro_value_get_type, hcl, avro_value.type, LuaM.bind_apply, LuaM.pure_apply, hchk,
        check, h1, lua_pushvalue, hself', push, Option.getD_some, luaL_checklong]
    · simp [scalar_of, to_double, round_to_bits_eq 53 n (by omega)]
  case float.number n =>
    simp only [avro_generic_value_new] at hcl hc
    obtain ⟨m', hm'⟩ := setChild_of_child m s _ (.float n) hc
    have hset : ∃ heap', avro_value_set_float (parent.child s) (to_float n) ⟨stk, heap, err⟩ = .ok (some ()) ⟨stk, heap', err⟩ ∧
        deref heap' parent = some m' ∧
        deref heap' (parent.child s) = some (.float n) := by
      unfold avro_value_set_float
      exact avro_value_setter_child_eq _ _ _ _ _ _ _ _ _ _ _ hlive hc
        (by simp only [hx, avro_value.of_float]) hm'
    obtain ⟨heap', h1, h2, h3⟩ := hset
    refine ⟨heap', _, m', ?_, ?_, hm', h2, h3⟩
    · have hchk : luaL_checknumber val_index ⟨stk, heap, err⟩ = .ok (n) ⟨stk, heap, err⟩ := by
        simp [luaL_checknumber, hval, luaV_tonumber]
      simp only [set_scalar_value, lua_avro_get_value, luaL_checkudata_value, hself,
        avro_value_get_type, hcl, avro_value.type, LuaM.bind_apply, LuaM.pure_apply, hchk,
        check, h1, lua_pushvalue, hself', push, Option.getD_some]
    · simp [scalar_of]
  case double.number n =>
    simp only [avro_generic_value_new] at hcl hc
    obtain ⟨m', hm'⟩ := setChild_of_child m s _ (.double n) hc
    have hset : ∃ heap', avro_value_set_double (parent.child s) n ⟨stk, heap, err⟩ = .ok (some ()) ⟨stk, heap', err⟩ ∧
        deref heap' parent = some m' ∧
        deref heap' (parent.child s) = some (.double n) := by
      unfold avro_value_set_double
      exact avro_value_setter_child_eq _ _ _ _ _ _ _ _ _ _ _ hlive hc
        (by rfl) hm'
    obtain ⟨heap', h1, h2, h3⟩ := hset
    refine ⟨heap', _, m', ?_, ?_, hm', h2, h3⟩
    · have hchk : luaL_checknumber val_index ⟨stk, heap, err⟩ = .ok (n) ⟨stk, heap, err⟩ := by
        simp [luaL_checknumber, hval, luaV_tonumber]
      simp only [set_scalar_value, lua_avro_get_value, luaL_checkudata_value, hself,
        avro_value_get_type, hcl, avro_value.type, LuaM.bind_apply, LuaM.pure_apply, hchk,
        check, h1, lua_pushvalue, hself', push, Option.getD_some]
    · simp [scalar_of]
  case float.number_bits bits =>
    simp only [avro_generic_value_new] at hcl hc
    have hcanon : ∃ b, to_float (.pattern bits) = .pattern b ∧ ieee_value 8 23 b = none := by
      cases hv : ieee_value 8 23 (ieee_convert 11 52 8 23 bits) with
      | some n => simp [to_float, floating.of_bits, hv] at hx
      | none => exact ⟨_, by simp only [to_float, floating.of_bits, hv], hv⟩
    obtain ⟨b, hb, hbv⟩ := hcanon
    obtain ⟨m', hm'⟩ := setChild_of_child m s _ (.float_bits b) hc
    have hset : ∃ heap', avro_value_set_float (parent.child s) (to_float (.pattern bits))
          ⟨stk, heap, err⟩ = .ok (some ()) ⟨stk, heap', err⟩ ∧
        deref heap' parent = some m' ∧
        deref heap' (parent.child s) = some (.float_bits b) := by
      unfold avro_value_set_float
      exact avro_value_setter_child_eq _ _ _ _ _ _ _ _ _ _ _ hlive hc
        (by simp only [hb, avro_value.of_float, hbv]) hm'
    obtain ⟨heap', h1, h2, h3⟩ := hset
    refine ⟨heap', _, m', ?_, ?_, hm', h2, h3⟩
    · have hchk : luaL_checknumber val_index ⟨stk, heap, err⟩
          = .ok (.pattern bits) ⟨stk, heap, err⟩ := by
        simp [luaL_checknumber, hval, luaV_tonumber]
      simp only [set_scalar_value, lua_avro_get_value, luaL_checkudata_value, hself,
        avro_value_get_type, hcl, avro_value.type, LuaM.bind_apply, LuaM.pure_apply, hchk,
        check, h1, lua_pushvalue, hself', push, Option.getD_some]
    · rw [hb] at hx
      simp only [scalar_of, hx]
  case double.number_bits bits =>
    simp only [avro_generic_value_new] at hcl hc
    obtain ⟨m', hm'⟩ := setChild_of_child m s _ (.double_bits bits) hc
    have hset : ∃ heap', avro_value_set_double (parent.child s) (.pattern bits)
          ⟨stk, heap, err⟩ = .ok (some ()) ⟨stk, heap', err⟩ ∧
        deref heap' parent = some m' ∧
        deref heap' (parent.child s) = some (.double_bits bits) := by
      unfold avro_value_set_double
      exact avro_value_setter_child_eq _ _ _ _ _ _ _ _ _ _ _ hlive hc
        (by simp only [avro_value.of_double, hx]) hm'
    obtain ⟨heap', h1, h2, h3⟩ := hset
    refine ⟨heap', _, m', ?_, ?_, hm', h2, h3⟩
    · have hchk : luaL_checknumber val_index ⟨stk, heap, err⟩
          = .ok (.pattern bits) ⟨stk, heap, err⟩ := by
        simp [luaL_checknumber, hval, luaV_tonumber]
      simp only [set_scalar_value, lua_avro_get_value, luaL_checkudata_value, hself,
        avro_value_get_type, hcl, avro_value.type, LuaM.bind_apply, LuaM.pure_apply, hchk,
        check, h1, lua_pushvalue, hself', push, Option.getD_some]
    · simp only [scalar_of, LuaVal.of_number, hx]
  case boolean.boolean b =>
    simp only [avro_generic_value_new] at hcl hc
    obtain ⟨m', hm'⟩ := setChild_of_child m s _ (.boolean b) hc
    have hset : ∃ heap', avro_value_set_boolean (parent.child s) b ⟨stk, heap, err⟩ = .ok (some ()) ⟨stk, heap', err⟩ ∧
        deref heap' parent = some m' ∧
        deref heap' (parent.child s) = some (.boolean b) := by
      unfold avro_value_set_boolean
      exact avro_value_setter_child_eq _ _ _ _ _ _ _ _ _ _ _ hlive hc
        (by rfl) hm'
    obtain ⟨heap', h1, h2, h3⟩ := hset
    refine ⟨heap', _, m', ?_, ?_, hm', h2, h3⟩
    · have hchk : lua_toboolean val_index ⟨stk, heap, err⟩ = .ok (b) ⟨stk, heap, err⟩ := by
        simp [lua_toboolean, hval]
      simp only [set_scalar_value, lua_avro_get_value, luaL_checkudata_value, hself,
        avro_value_get_type, hcl, avro_value.type, LuaM.bind_apply, LuaM.pure_apply, hchk,
        check, h1, lua_pushvalue, hself', push, Option.getD_some]
    · simp [scalar_of]
  case fixed.string name size str =>
    subst hx
    simp only [avro_generic_value_new] at hcl hc
    obtain ⟨m', hm'⟩ := setChild_of_child m s _ (.fixed name str.length str.data) hc
    have hset : ∃ heap', avro_value_set_fixed (parent.child s) str.data str.length ⟨stk, heap, err⟩ = .ok (some ()) ⟨stk, heap', err⟩ ∧
        deref heap' parent = some m' ∧
        deref heap' (parent.child s) = some (.fixed name str.length str.data) := by
      unfold avro_value_set_fixed
      exact avro_value_setter_child_eq _ _ _ _ _ _ _ _ _ _ _ hlive hc
        (by simp only [if_true, take_data]) hm'
    obtain ⟨heap', h1, h2, h3⟩ := hset
    refine ⟨heap', _, m', ?_, ?_, hm', h2, h3⟩
    · have hchk : luaL_checklstring val_index ⟨stk, heap, err⟩ = .ok (str) ⟨stk, heap, err⟩ := by
        simp [luaL_checklstring, lua_tolstring, hval]
      simp only [set_scalar_value, lua_avro_get_value, luaL_checkudata_value, hself,
        avro_value_get_type, hcl, avro_value.type, LuaM.bind_apply, LuaM.pure_apply, hchk,
        check, h1, lua_pushvalue, hself', push, Option.getD_some]
    · simp [scalar_of]
  case null.nil =>
    simp only [avro_generic_value_new] at hcl hc
    obtain ⟨m', hm'⟩ := setChild_of_child m s _ .null hc
    have hset : ∃ heap', avro_value_set_null (parent.child s) ⟨stk, heap, err⟩
          = .ok (some ()) ⟨stk, heap', err⟩ ∧
        deref heap' parent = some m' ∧
        deref heap' (parent.child s) = some .null := by
      unfold avro_value_set_null
      exact avro_value_setter_child_eq _ _ _ _ _ _ _ _ _ _ _ hlive hc rfl hm'
    obtain ⟨heap', h1, h2, h3⟩ := hset
    refine ⟨heap', _, m', ?_, ?_, hm', h2, h3⟩
    · simp only [set_scalar_value, lua_avro_get_value, luaL_checkudata_value, hself,
        avro_value_get_type, hcl, avro_value.type, LuaM.bind_apply, LuaM.pure_apply,
        check, h1, lua_pushvalue, hself', push, Option.getD_some]
    · simp [scalar_of]
  case enum.string name symbols str =>
    simp only [avro_generic_value_new] at hcl hc
    obtain ⟨hcs, hmem⟩ := hx
    obtain ⟨i, hi1, hi2⟩ := findIdx?_mem symbols str hmem
    have hby : avro_schema_enum_get_by_name (.enum name symbols) str = (i : Int) := by
      simp [avro_schema_enum_get_by_name, hi1]
    obtain ⟨m', hm'⟩ := setChild_of_child m s _ (.enum name symbols (i : Int)) hc
    have hset : ∃ heap', avro_value_set_enum (parent.child s) (i : Int) ⟨stk, heap, err⟩
          = .ok (some ()) ⟨stk, heap', err⟩ ∧
        deref heap' parent = some m' ∧
        deref heap' (parent.child s) = some (.enum name symbols (i : Int)) := by
      unfold avro_value_set_enum
      exact avro_value_setter_child_eq _ _ _ _ _ _ _ _ _ _ _ hlive hc rfl hm'
    obtain ⟨heap', h1, h2, h3⟩ := hset
    refine ⟨heap', _, m', ?_, ?_, hm', h2, h3⟩
    · have hchk : luaL_checkstring val_index ⟨stk, heap, err⟩ = .ok str ⟨stk, heap, err⟩ := by
        simp [luaL_checkstring, luaL_checklstring, lua_tolstring, hval, hcs]
      have hneg : ¬ ((i : Int) < 0) := by omega
      simp only [set_scalar_value, lua_avro_get_value, luaL_checkudata_value, hself,
        avro_value_get_type, hcl, avro_value.type, LuaM.bind_apply, LuaM.pure_apply, hchk,
        avro_value_get_schema, avro_value.schema, hby, hneg, if_false,
        check, h1, lua_pushvalue, hself', push, Option.getD_some]
    · simp [scalar_of, avro_schema_enum_get, hi2, hcs]
/-- The number 0.5 is acceptable as a float and as a double, and so is
0.1 as a double; 0.1 is not acceptable as a float, since it has no exact
single-precision form (the conversion to `float` and back gives another
number); an integer beyond 24 bits is acceptable as a float when its low
bits are zero. -/
theorem acceptable_fractions :
    acceptable .float (.number_bits 0x3FE0000000000000) ∧
    acceptable .double (.number_bits 0x3FE0000000000000) ∧
    acceptable .double (.number_bits 0x3FB999999999999A) ∧
    ¬ acceptable .float (.number_bits 0x3FB999999999999A) ∧
    acceptable .float (.number (2 ^ 30)) ∧
    ¬ acceptable .float (.number (2 ^ 24 + 1)) := by
  refine ⟨?_, ?_, ?_, ?_, ?_, ?_⟩
  · show LuaVal.of_number (of_float (to_float (.pattern 0x3FE0000000000000))) = _
    rfl
  · show ieee_value 11 52 _ = none
    rfl
  · show ieee_value 11 52 _ = none
    rfl
  · show ¬ (LuaVal.of_number (of_float (to_float (.pattern 0x3FB999999999999A))) = _)
    have : LuaVal.of_number (of_float (to_float (.pattern 0x3FB999999999999A)))
        = .number_bits 0x3FB99999A0000000 := rfl
    rw [this]
    simp
  · show to_float (.integral (2 ^ 30)) = .integral (2 ^ 30)
    rfl
  · show ¬ (to_float (.integral (2 ^ 24 + 1)) = .integral (2 ^ 24 + 1))
    have : to_float (.integral (2 ^ 24 + 1)) = .integral (2 ^ 24) := rfl
    rw [this]
    simp

theorem lookupKey_append_new {α : Type} (k : String) (a : α) :
    ∀ (l : List (String × α)), (∀ e ∈ l, e.1 ≠ k) → lookupKey k (l ++ [(k, a)]) = some a := by
  intro l
  induction l with
  | nil => intro _; simp [lookupKey]
  | cons e rest ih =>
    intro h
    obtain ⟨k', a'⟩ := e
    have h1 : k' ≠ k := h (k', a') (by simp)
    simp [lookupKey, h1, ih (fun b hb => h b (by simp [hb]))]

theorem replaceKey_append_new {α : Type} (k : String) (a a' : α) :
    ∀ (l : List (String × α)), (∀ e ∈ l, e.1 ≠ k) →
      replaceKey k a' (l ++ [(k, a)]) = l ++ [(k, a')] := by
  intro l
  induction l with
  | nil => intro _; simp [replaceKey]
  | cons e rest ih =>
    intro h
    obtain ⟨k', a0⟩ := e
    have h1 : k' ≠ k := h (k', a0) (by simp)
    simp [replaceKey, h1, ih (fun b hb => h b (by simp [hb]))]

/-- C7 (counterexample): a map of ints that holds 1 under the key "a",
and the key "a", a zero byte, "b", which the map does not hold:
`set(k, 5)` hands the key to the library as a C string, which ends at
the zero byte; no entry is inserted, and the entry "a", another entry
than the one asked for, becomes 5. -/
theorem l_value_set_key_of_prefix :
    (∀ e ∈ [(("a", avro_value.int 1) : String × avro_value)], e.1 ≠ "a\x00b") ∧
    cstr "a\x00b" = "a" ∧
    l_value_set ⟨[.avro_value ⟨0, []⟩ 1, .string "a\x00b", .number 5],
        [.map .int [("a", .int 1)]], ""⟩
      = .ok 1 ⟨[.avro_value ⟨0, []⟩ 1, .string "a\x00b", .number 5,
            .avro_value ⟨0, [.key "a"]⟩ 0, .avro_value ⟨0, [.key "a"]⟩ 0],
          [.map .int [("a", .int 5)]], ""⟩ :=
  ⟨by decide, by decide, rfl⟩

/-- C7 (amended): the three-argument `set(k, v)` on a live map whose
values are scalars, with a key that, read as a C string (the bytes
before its first zero byte), the map does not hold, and a Lua value `v`
that the value schema can hold exactly (`acceptable`), returns
normally; afterwards the map holds its former entries, unchanged and in
their order, followed by one new entry for the key as a C string, whose
Lua equivalent is `v`, and `get(k)` returns `v`. -/
theorem l_value_set_new_key (heap : List avro_value) (err : String) (value : Ref) (d : Nat)
    (values : avro_schema_t) (entries : List (String × avro_value)) (k : String) (x : LuaVal)
    (hlive : deref heap value = some (.map values entries))
    (hkey : ∀ e ∈ entries, e.1 ≠ cstr k)
    (hx : acceptable values x) :
    ∃ heap' e,
      l_value_set ⟨[.avro_value value d, .string k, x], heap, err⟩
        = .ok 1 ⟨[.avro_value value d, .string k, x,
            .avro_value (value.child (.key (cstr k))) NO_DESTRUCTOR,
            .avro_value (value.child (.key (cstr k))) NO_DESTRUCTOR], heap', err⟩ ∧
      deref heap' value = some (.map values (entries ++ [(cstr k, e)])) ∧
      scalar_of e = some x ∧
      l_value_get ⟨[.avro_value value d, .string k], heap', err⟩
        = .ok 1 ⟨[.avro_value value d, .string k, x], heap', err⟩ := by
  -- the navigation step: the entry is created
  obtain ⟨heap1, hst, hd1⟩ := store_eq [.avro_value value d, .string k, x] heap err value
    (fun _ => some (.map values (entries ++ [(cstr k, avro_generic_value_new values)])))
    _ _ hlive rfl
  have hnone : lookupKey (cstr k) entries = none := lookupKey_eq_none (cstr k) entries hkey
  have hadd : avro_value_add value (cstr k) ⟨[.avro_value value d, .string k, x], heap, err⟩
      = .ok (some (value.child (.key (cstr k))))
          ⟨[.avro_value value d, .string k, x], heap1, err⟩ := by
    simp only [avro_value_add, hlive, hnone, Option.isSome_none, hst]
    simp
  have hnav : get_subvalue value 2 true false
      ⟨[.avro_value value d, .string k, x], heap, err⟩
      = .ok 1 ⟨[.avro_value value d, .string k, x,
          .avro_value (value.child (.key (cstr k))) NO_DESTRUCTOR], heap1, err⟩ := by
    rw [get_subvalue_string ⟨[.avro_value value d, .string k, x], heap, err⟩ value _ k true
      false (by rfl) hlive (by simp [avro_value.type])]
    simp [avro_value.type, get_map_value, check, hadd, lua_avro_push_value, push]
  -- the assignment to the new entry
  obtain ⟨heap', e, m', hset, hsc, hm', hd2, hd3⟩ :=
    set_scalar_value_acceptable [.avro_value value d, .string k, x,
        .avro_value (value.child (.key (cstr k))) NO_DESTRUCTOR] heap1 err (-1) 3 value
      (.key (cstr k)) NO_DESTRUCTOR _ values x (by rfl) (by rfl) hd1
      (by simp [avro_value.child, lookupKey_append_new (cstr k) _ entries hkey]) hx
  have hm : m' = .map values (entries ++ [(cstr k, e)]) := by
    simp [avro_value.setChild, lookupKey_append_new (cstr k) _ entries hkey,
      replaceKey_append_new (cstr k) _ e entries hkey] at hm'
    exact hm'.symm
  subst hm
  refine ⟨heap', e, ?_, hd2, hsc, ?_⟩
  · have hself : index2adr ⟨[.avro_value value d, .string k, x], heap, err⟩ 1
        = some (.avro_value value d) := rfl
    have hdisp : l_value_set ⟨[.avro_value value d, .string k, x], heap, err⟩
        = (do
            let value ← lua_avro_get_value 1
            if (← get_subvalue value 2 true false) = 0 then
              lua_pushliteral "Nonexistent subvalue"
              lua_error
            else
              set_scalar_value (-1) 3) ⟨[.avro_value value d, .string k, x], heap, err⟩ := by
      simp [l_value_set, lua_gettop]
    rw [hdisp]
    simp only [LuaM.bind_apply, LuaM.pure_apply, lua_avro_get_value, luaL_checkudata_value,
      hself, hnav, one_ne_zero, if_false, hset, List.cons_append, List.nil_append]
  · rw [l_value_get_string heap' err value d _ k hd2 (by simp [avro_value.type])]
    have hby : avro_value_get_by_name value (cstr k)
        ⟨[.avro_value value d, .string k], heap', err⟩
        = .ok (some (some (value.child (.key (cstr k)))))
            ⟨[.avro_value value d, .string k], heap', err⟩ := by
      simp [avro_value_get_by_name, hd2, lookupKey_append_new (cstr k) _ entries hkey]
    simp only [avro_value.type, if_true, get_map_value, check, hby, LuaM.bind_apply,
      LuaM.pure_apply, Bool.false_eq_true, if_false]
    rw [lua_avro_push_scalar_or_value_eq _ heap' err _ NO_DESTRUCTOR e hd3]
    simp [scalar_or_wrapper, hsc]

/-- Witness of C7 (amended): the key "b" set to 5 in a map of ints holding "a". -/
theorem l_value_set_new_key_witness :
    deref [avro_value.map .int [("a", .int 1)]] ⟨0, []⟩
      = some (.map .int [("a", .int 1)]) ∧
    (∀ e ∈ [(("a", avro_value.int 1) : String × avro_value)], e.1 ≠ cstr "b") ∧
    acceptable .int (.number 5) ∧
    ∃ heap' e,
      l_value_set ⟨[.avro_value ⟨0, []⟩ 1, .string "b", .number 5],
          [.map .int [("a", .int 1)]], ""⟩
        = .ok 1 ⟨[.avro_value ⟨0, []⟩ 1, .string "b", .number 5,
            .avro_value (Ref.child ⟨0, []⟩ (.key (cstr "b"))) NO_DESTRUCTOR,
            .avro_value (Ref.child ⟨0, []⟩ (.key (cstr "b"))) NO_DESTRUCTOR], heap', ""⟩ ∧
      deref heap' ⟨0, []⟩ = some (.map .int ([("a", .int 1)] ++ [(cstr "b", e)])) ∧
      scalar_of e = some (.number 5) ∧
      l_value_get ⟨[.avro_value ⟨0, []⟩ 1, .string "b"], heap', ""⟩
        = .ok 1 ⟨[.avro_value ⟨0, []⟩ 1, .string "b", .number 5], heap', ""⟩ :=
  ⟨rfl, by decide, by simp [acceptable],
    l_value_set_new_key [.map .int [("a", .int 1)]] "" ⟨0, []⟩ 1 .int [("a", .int 1)]
      "b" (.number 5) rfl (by decide) (by simp [acceptable])⟩

/-! ## get() on unions -/

theorem cstr_cstr (s : String) : cstr (cstr s) = cstr s := by
  obtain ⟨l⟩ := s
  simp only [cstr]
  congr 1
  induction l with
  | nil => rfl
  | cons c rest ih =>
    by_cases h : (c != NUL) = true
    · simp only [List.takeWhile, h, ih]
    · simp only [List.takeWhile, h]

theorem union_branch_by_name_some (branches : List avro_schema_t) (name : String) (i : Nat)
    (schema : avro_schema_t)
    (h : union_branch_by_name (.union branches) name = some (i, schema)) :
    branches[i]? = some schema ∧ avro_schema_type_name schema = name := by
  simp only [union_branch_by_name] at h
  cases hf : findIdx? (fun b => avro_schema_type_name b == name) branches with
  | none => simp [hf] at h
  | some j =>
    obtain ⟨a, h1, h2, _⟩ := findIdx?_some _ branches j hf
    simp [hf, h1] at h
    obtain ⟨rfl, rfl⟩ := h
    exact ⟨h1, by simpa using h2⟩

/-- C8 (counterexample): in a union of null and a record named "_"
whose active branch is null, "_" is the type name of a branch, yet
`get("_")` returns the value of the active null branch and leaves it
active: `discriminant()` still returns "null".  In a union of null and
string whose active branch is null, the name "string", a zero byte, "x"
is neither "_" nor the type name of a branch, yet `get` of it, which
hands the name to the library as a C string, does not fail: it makes the
string branch the active one. -/
theorem l_value_get_underscore_branch :
    union_branch_by_name (.union [.null, .record "_" []]) "_" = some (1, .record "_" []) ∧
    l_value_get ⟨[.avro_value ⟨0, []⟩ 1, .string "_"],
        [.union [.null, .record "_" []] (some (0, .null))], ""⟩
      = .ok 1 ⟨[.avro_value ⟨0, []⟩ 1, .string "_", .nil],
          [.union [.null, .record "_" []] (some (0, .null))], ""⟩ ∧
    l_value_discriminant ⟨[.avro_value ⟨0, []⟩ 1],
        [.union [.null, .record "_" []] (some (0, .null))], ""⟩
      = .ok 1 ⟨[.avro_value ⟨0, []⟩ 1, .string "null"],
          [.union [.null, .record "_" []] (some (0, .null))], ""⟩ ∧
    union_branch_by_name (.union [.null, .string]) "string\x00x" = none ∧
    l_value_get ⟨[.avro_value ⟨0, []⟩ 1, .string "string\x00x"],
        [.union [.null, .string] (some (0, .null))], ""⟩
      = .ok 1 ⟨[.avro_value ⟨0, []⟩ 1, .string "string\x00x", .string ""],
          [.union [.null, .string] (some (1, .string [NUL]))], ""⟩ :=
  ⟨rfl, rfl, rfl, rfl, rfl⟩

/-- C10 (the code at the failing input): in avro.c, `get("string")` on
a union datum of null and string whose active branch is null does not
give a nil result: it makes the string branch the active one and
returns its (empty) string. -/
theorem l_datum_get_selects_branch :
    Datum.l_datum_get ⟨[.avro_datum ⟨0, []⟩ (some (.union [.null, .string])), .string "string"],
        [.union [.null, .string] (some (0, .null))], ""⟩
      = .ok 1 ⟨[.avro_datum ⟨0, []⟩ (some (.union [.null, .string])), .string "string",
            .string ""],
          [.union [.null, .string] (some (1, .string [NUL]))], ""⟩ ∧
    Datum.l_datum_get ⟨[.avro_datum ⟨0, []⟩ (some (.union [.null, .string])), .string "int"],
        [.union [.null, .string] (some (0, .null))], ""⟩
      = .ok 2 ⟨[.avro_datum ⟨0, []⟩ (some (.union [.null, .string])), .string "int",
            .nil, .string "Union branch doesn't exist"],
          [.union [.null, .string] (some (0, .null))], "No union branch named int"⟩ :=
  ⟨rfl, rfl⟩

/-- Selecting a branch of a live union. -/
theorem avro_value_set_branch_eq (stk : List LuaVal) (heap : List avro_value) (err : String)
    (value : Ref) (branches : List avro_schema_t) (current : Option (Nat × avro_value))
    (i : Nat) (schema : avro_schema_t)
    (hlive : deref heap value = some (.union branches current))
    (hi : branches[i]? = some schema) :
    ∃ heap', avro_value_set_branch value i ⟨stk, heap, err⟩
        = .ok (some (value.child .branch)) ⟨stk, heap', err⟩ ∧
      deref heap' value = some (.union branches (some (i, selected_branch current i schema))) := by
  by_cases hkeep : ∃ b, current = some (i, b)
  · obtain ⟨b, rfl⟩ := hkeep
    exact ⟨heap, by simp [avro_value_set_branch, hlive, hi, is_active],
      by simp [selected_branch, hlive]⟩
  · obtain ⟨heap', h1, h2⟩ := store_eq stk heap err value
      (fun _ => some (.union branches (some (i, avro_generic_value_new schema)))) _ _ hlive rfl
    have hsel : selected_branch current i schema = avro_generic_value_new schema := by
      cases current with
      | none => rfl
      | some p =>
        obtain ⟨j, b⟩ := p
        have hj : j ≠ i := fun h => hkeep ⟨b, by rw [h]⟩
        simp [selected_branch, hj]
    have hk : is_active current i = false := by
      cases current with
      | none => rfl
      | some p =>
        obtain ⟨j, b⟩ := p
        have hj : j ≠ i := fun h => hkeep ⟨b, by rw [h]⟩
        simp [is_active, hj]
    refine ⟨heap', ?_, by rw [hsel]; exact h2⟩
    simp only [avro_value_set_branch, hlive, hi, hk, h1]
    simp

/-- What `discriminant()` returns on a live union with an active
branch: the type name of the schema of that branch. -/
theorem l_value_discriminant_eq (heap : List avro_value) (err : String) (value : Ref) (d : Nat)
    (branches : List avro_schema_t) (i : Nat) (b : avro_value) (schema : avro_schema_t)
    (hlive : deref heap value = some (.union branches (some (i, b))))
    (hi : branches[i]? = some schema) :
    l_value_discriminant ⟨[.avro_value value d], heap, err⟩
      = .ok 1 ⟨[.avro_value value d, .string (cstr (avro_schema_type_name schema))],
          heap, err⟩ := by
  simp [l_value_discriminant, lua_avro_get_value, luaL_checkudata_value, index2adr,
    avro_value_get_type, hlive, avro_value.type, check, avro_value_get_discriminant,
    avro_value_getter, avro_value_get_schema, avro_value.schema, avro_schema_union_branch,
    hi, lua_pushstring, push]

/-- C8 (amended): on a live union, for a name that, read as a C string
(the bytes before its first zero byte), is not "_": when the C string is
the type name of a branch of the union schema, `get(name)` makes the
branch that the lookup of the library gives for it the active one (its
value is kept when it was active already, and fresh otherwise), returns
the value of the branch, and a following `discriminant()` returns the C
string; when the C string is no branch name, `get(name)` returns `nil`
plus an error message and the union, hence its active branch, is
unchanged. -/
theorem l_value_get_branch (heap : List avro_value) (err : String) (value : Ref) (d : Nat)
    (branches : List avro_schema_t) (current : Option (Nat × avro_value)) (name : String)
    (hlive : deref heap value = some (.union branches current))
    (hname : cstr name ≠ "_") :
    (∀ i schema, union_branch_by_name (.union branches) (cstr name) = some (i, schema) →
      ∃ heap',
        l_value_get ⟨[.avro_value value d, .string name], heap, err⟩
          = .ok 1 ⟨[.avro_value value d, .string name,
              scalar_or_wrapper (selected_branch current i schema) (value.child .branch)
                NO_DESTRUCTOR], heap', err⟩ ∧
        deref heap' value
          = some (.union branches (some (i, selected_branch current i schema))) ∧
        l_value_discriminant ⟨[.avro_value value d], heap', err⟩
          = .ok 1 ⟨[.avro_value value d, .string (cstr name)], heap', err⟩) ∧
    (union_branch_by_name (.union branches) (cstr name) = none →
      ∃ msg,
        l_value_get ⟨[.avro_value value d, .string name], heap, err⟩
          = .ok 2 ⟨[.avro_value value d, .string name, .nil, .string (cstr msg)],
              heap, msg⟩) := by
  have hget := l_value_get_string heap err value d _ name hlive (by simp [avro_value.type])
  simp only [avro_value.type, if_true, if_false, reduceCtorEq] at hget
  have hschema : avro_value_get_schema value ⟨[.avro_value value d, .string name], heap, err⟩
      = .ok (.union branches) ⟨[.avro_value value d, .string name], heap, err⟩ := by
    simp [avro_value_get_schema, hlive, avro_value.schema]
  constructor
  · intro i schema hby
    obtain ⟨hi, htn⟩ := union_branch_by_name_some branches (cstr name) i schema hby
    obtain ⟨heap', h1, h2⟩ := avro_value_set_branch_eq [.avro_value value d, .string name]
      heap err value branches current i schema hlive hi
    have hchild : deref heap' (value.child .branch)
        = some (selected_branch current i schema) := by
      rw [deref_child heap' value .branch _ h2]
      rfl
    refine ⟨heap', ?_, h2, ?_⟩
    · rw [hget]
      simp only [get_union_branch, hname, if_false, LuaM.bind_apply, LuaM.pure_apply, hschema,
        avro_schema_union_branch_by_name, hby, check, h1, if_true]
      exact lua_avro_push_scalar_or_value_eq _ heap' err _ NO_DESTRUCTOR _ hchild
    · rw [l_value_discriminant_eq heap' err value d branches i _ schema h2 hi, htn, cstr_cstr]
  · intro hby
    refine ⟨"No union branch named " ++ cstr name, ?_⟩
    rw [hget]
    simp only [get_union_branch, hname, if_false, LuaM.bind_apply, LuaM.pure_apply, hschema,
      avro_schema_union_branch_by_name, hby]
    simp [lua_return_avro_error, avro_set_error, lua_pushnil, lua_pushstring, avro_strerror,
      push]

/-- Witness of C8 (amended): the string branch of a union of null and
string whose active branch is null. -/
theorem l_value_get_branch_witness :
    deref [avro_value.union [.null, .string] (some (0, .null))] ⟨0, []⟩
      = some (.union [.null, .string] (some (0, .null))) ∧
    cstr "string" ≠ "_" ∧
    union_branch_by_name (.union [.null, .string]) (cstr "string") = some (1, .string) ∧
    ∃ heap',
      l_value_get ⟨[.avro_value ⟨0, []⟩ 1, .string "string"],
          [.union [.null, .string] (some (0, .null))], ""⟩
        = .ok 1 ⟨[.avro_value ⟨0, []⟩ 1, .string "string",
            scalar_or_wrapper (selected_branch (some (0, .null)) 1 .string)
              (Ref.child ⟨0, []⟩ .branch) NO_DESTRUCTOR], heap', ""⟩ ∧
      deref heap' ⟨0, []⟩
        = some (.union [.null, .string]
            (some (1, selected_branch (some (0, .null)) 1 .string))) ∧
      l_value_discriminant ⟨[.avro_value ⟨0, []⟩ 1], heap', ""⟩
        = .ok 1 ⟨[.avro_value ⟨0, []⟩ 1, .string (cstr "string")], heap', ""⟩ :=
  ⟨rfl, by decide, rfl,
    (l_value_get_branch [.union [.null, .string] (some (0, .null))] "" ⟨0, []⟩ 1
      [.null, .string] (some (0, .null)) "string" rfl (by decide)).1 1 .string rfl⟩

/-- What `discriminant()` returns on a live union does not depend on the
error state of the library. -/
theorem l_value_discriminant_returned (heap : List avro_value) (e1 e2 : String) (value : Ref)
    (d : Nat) (branches : List avro_schema_t) (current : Option (Nat × avro_value))
    (hlive : deref heap value = some (.union branches current)) :
    returned (l_value_discriminant ⟨[.avro_value value d], heap, e1⟩)
      = returned (l_value_discriminant ⟨[.avro_value value d], heap, e2⟩) := by
  have h : ∃ x, ∀ e : String, l_value_discriminant ⟨[.avro_value value d], heap, e⟩
      = .ok 1 ⟨[.avro_value value d, x], heap, e⟩ := by
    cases current with
    | none =>
      exact ⟨.nil, fun e => by
        simp [l_value_discriminant, lua_avro_get_value, luaL_checkudata_value, index2adr,
          avro_value_get_type, hlive, avro_value.type, check, avro_value_get_discriminant,
          avro_value_getter, avro_value_get_schema, avro_value.schema,
          avro_schema_union_branch, lua_pushstring, push]⟩
    | some p =>
      obtain ⟨i, b⟩ := p
      cases hi : branches[i]? with
      | none =>
        exact ⟨.nil, fun e => by
          simp [l_value_discriminant, lua_avro_get_value, luaL_checkudata_value, index2adr,
            avro_value_get_type, hlive, avro_value.type, check, avro_value_get_discriminant,
            avro_value_getter, avro_value_get_schema, avro_value.schema,
            avro_schema_union_branch, hi, lua_pushstring, push]⟩
      | some schema =>
        exact ⟨_, fun e => l_value_discriminant_eq heap e value d branches i b schema hlive hi⟩
  obtain ⟨x, hx⟩ := h
  rw [hx e1, hx e2]
  rfl

/-- C9: on a live union, `get("_")` returns the value of the active
branch (its Lua equivalent when it is a scalar, a wrapper of its handle
otherwise) and raises the error of the library when no branch is
selected; in every case the values of the library are exactly as
before, so that `discriminant()` returns the same after the call as
before it: the type name of the active branch. -/
theorem l_value_get_current_branch (heap : List avro_value) (err : String) (value : Ref)
    (d : Nat) (branches : List avro_schema_t) (current : Option (Nat × avro_value))
    (hlive : deref heap value = some (.union branches current)) :
    (∀ i b, current = some (i, b) →
      l_value_get ⟨[.avro_value value d, .string "_"], heap, err⟩
        = .ok 1 ⟨[.avro_value value d, .string "_",
            scalar_or_wrapper b (value.child .branch) NO_DESTRUCTOR], heap, err⟩) ∧
    (current = none →
      l_value_get ⟨[.avro_value value d, .string "_"], heap, err⟩
        = .raise (.string (cstr "Union has no selected branch"))
            ⟨[.avro_value value d, .string "_",
                .string (cstr "Union has no selected branch")], heap,
              "Union has no selected branch"⟩) ∧
    (∀ L', ((∃ n, l_value_get ⟨[.avro_value value d, .string "_"], heap, err⟩ = .ok n L') ∨
        (∃ msg, l_value_get ⟨[.avro_value value d, .string "_"], heap, err⟩
          = .raise msg L')) →
      L'.heap = heap ∧
      returned (l_value_discriminant ⟨[.avro_value value d], L'.heap, L'.avro_strerror⟩)
        = returned (l_value_discriminant ⟨[.avro_value value d], heap, err⟩)) ∧
    (∀ i b schema, current = some (i, b) → branches[i]? = some schema →
      returned (l_value_discriminant ⟨[.avro_value value d], heap, err⟩)
        = some [.string (cstr (avro_schema_type_name schema))]) := by
  have hget := l_value_get_string heap err value d _ "_" hlive (by simp [avro_value.type])
  simp only [avro_value.type, if_true, if_false, reduceCtorEq] at hget
  have hc : cstr "_" = "_" := by decide
  have hsome : ∀ i b, current = some (i, b) →
      l_value_get ⟨[.avro_value value d, .string "_"], heap, err⟩
        = .ok 1 ⟨[.avro_value value d, .string "_",
            scalar_or_wrapper b (value.child .branch) NO_DESTRUCTOR], heap, err⟩ := by
    intro i b hcur
    subst hcur
    have hchild : deref heap (value.child .branch) = some b := by
      rw [deref_child heap value .branch _ hlive]
      rfl
    rw [hget]
    simp only [get_union_branch, hc, if_true, LuaM.bind_apply, LuaM.pure_apply, check,
      avro_value_get_current_branch, hlive, Bool.true_eq_false, if_false]
    exact lua_avro_push_scalar_or_value_eq _ heap err _ NO_DESTRUCTOR _ hchild
  have hnone : current = none →
      l_value_get ⟨[.avro_value value d, .string "_"], heap, err⟩
        = .raise (.string (cstr "Union has no selected branch"))
            ⟨[.avro_value value d, .string "_",
                .string (cstr "Union has no selected branch")], heap,
              "Union has no selected branch"⟩ := by
    intro hcur
    subst hcur
    rw [hget]
    simp only [get_union_branch, hc, if_true, LuaM.bind_apply, LuaM.pure_apply, check,
      avro_value_get_current_branch, hlive]
    simp [lua_avro_error, avro_set_error, avro_strerror, lua_pushstring, push, lua_error,
      index2adr]
  refine ⟨hsome, hnone, ?_, ?_⟩
  · intro L' hL'
    have hheap : L'.heap = heap := by
      cases hcur : current with
      | none =>
        rw [hnone hcur] at hL'
        rcases hL' with ⟨n, h⟩ | ⟨msg, h⟩
        · cases h
        · cases h
          rfl
      | some p =>
        obtain ⟨i, b⟩ := p
        rw [hsome i b hcur] at hL'
        rcases hL' with ⟨n, h⟩ | ⟨msg, h⟩
        · cases h
          rfl
        · cases h
    refine ⟨hheap, ?_⟩
    rw [hheap]
    exact l_value_discriminant_returned heap _ _ value d branches current hlive
  · intro i b schema hcur hi
    subst hcur
    rw [l_value_discriminant_eq heap err value d branches i b schema hlive hi]
    rfl

/-- Witness of C9: a union of null and string whose active branch is
the string "hi". -/
theorem l_value_get_current_branch_witness :
    deref [avro_value.union [.null, .string]
        (some (1, .string [Char.ofNat 104, Char.ofNat 105, NUL]))] ⟨0, []⟩
      = some (.union [.null, .string]
          (some (1, .string [Char.ofNat 104, Char.ofNat 105, NUL]))) ∧
    l_value_get ⟨[.avro_value ⟨0, []⟩ 1, .string "_"],
        [.union [.null, .string]
          (some (1, .string [Char.ofNat 104, Char.ofNat 105, NUL]))], ""⟩
      = .ok 1 ⟨[.avro_value ⟨0, []⟩ 1, .string "_",
          scalar_or_wrapper (.string [Char.ofNat 104, Char.ofNat 105, NUL])
            (Ref.child ⟨0, []⟩ .branch) NO_DESTRUCTOR],
          [.union [.null, .string]
            (some (1, .string [Char.ofNat 104, Char.ofNat 105, NUL]))], ""⟩ ∧
    returned (l_value_discriminant ⟨[.avro_value ⟨0, []⟩ 1],
        [.union [.null, .string]
          (some (1, .string [Char.ofNat 104, Char.ofNat 105, NUL]))], ""⟩)
      = some [.string (cstr (avro_schema_type_name .string))] :=
  ⟨rfl,
    (l_value_get_current_branch
      [.union [.null, .string] (some (1, .string [Char.ofNat 104, Char.ofNat 105, NUL]))]
      "" ⟨0, []⟩ 1 [.null, .string]
      (some (1, .string [Char.ofNat 104, Char.ofNat 105, NUL])) rfl).1 1 _ rfl,
    (l_value_get_current_branch
      [.union [.null, .string] (some (1, .string [Char.ofNat 104, Char.ofNat 105, NUL]))]
      "" ⟨0, []⟩ 1 [.null, .string]
      (some (1, .string [Char.ofNat 104, Char.ofNat 105, NUL])) rfl).2.2.2 1 _ .string rfl
        rfl⟩

/-! ## append() -/

/-- The value on top of the stack. -/
theorem index2adr_top (stk : List LuaVal) (x : LuaVal) (heap : List avro_value)
    (err : String) :
    index2adr ⟨stk ++ [x], heap, err⟩ (-1) = some x := by
  simp [index2adr]

/-- The value on top of a stack given by its bottom value and the rest. -/
theorem index2adr_top_cons (a : LuaVal) (stk : List LuaVal) (x : LuaVal)
    (heap : List avro_value) (err : String) :
    index2adr ⟨a :: (stk ++ [x]), heap, err⟩ (-1) = some x :=
  index2adr_top (a :: stk) x heap err

/-- C11: `append` checks the type of the value before the number of
arguments.  On a live value that is not an array, `append` with any
arguments raises "Can only append to an array"; on a live array,
`append` with two or more arguments besides the value raises "Bad number
of arguments to AvroValue:append".  In both cases the values of the heap
are what they were: nothing is appended. -/
theorem l_value_append_refused (heap : List avro_value) (err : String) (value : Ref)
    (d : Nat) (v : avro_value) (args : List LuaVal)
    (hlive : deref heap value = some v) :
    (v.type ≠ .AVRO_ARRAY →
      l_value_append ⟨.avro_value value d :: args, heap, err⟩
        = .raise (.string "Can only append to an array")
            ⟨.avro_value value d :: args ++ [.string "Can only append to an array"],
              heap, err⟩) ∧
    (v.type = .AVRO_ARRAY → 2 ≤ args.length →
      l_value_append ⟨.avro_value value d :: args, heap, err⟩
        = .raise (.string "Bad number of arguments to AvroValue:append")
            ⟨.avro_value value d :: args
                ++ [.string "Bad number of arguments to AvroValue:append"],
              heap, err⟩) := by
  have hself : index2adr ⟨.avro_value value d :: args, heap, err⟩ 1
      = some (.avro_value value d) := by simp [index2adr]
  constructor
  · intro hty
    simp only [l_value_append, lua_gettop, lua_avro_get_value, luaL_checkudata_value, hself,
      avro_value_get_type, hlive, LuaM.bind_apply, LuaM.pure_apply]
    simp [hty, lua_pushliteral, push, lua_error, index2adr_top_cons]
  · intro hty hargs
    simp only [l_value_append, lua_gettop, lua_avro_get_value, luaL_checkudata_value, hself,
      avro_value_get_type, hlive, LuaM.bind_apply, LuaM.pure_apply]
    have hn : ((args.length : Int) + 1 > 2) := by omega
    simp [hty, hn, lua_pushliteral, push, lua_error, index2adr_top_cons]

/-- Witness of C11: a string value with three arguments, and an array
with two. -/
theorem l_value_append_refused_witness :
    deref [avro_value.array .int [.int 10]] ⟨0, []⟩ = some (.array .int [.int 10]) ∧
    l_value_append ⟨[.avro_value ⟨0, []⟩ 1, .number 1, .number 2],
        [.array .int [.int 10]], ""⟩
      = .raise (.string "Bad number of arguments to AvroValue:append")
          ⟨[.avro_value ⟨0, []⟩ 1, .number 1, .number 2,
              .string "Bad number of arguments to AvroValue:append"],
            [.array .int [.int 10]], ""⟩ :=
  ⟨rfl, (l_value_append_refused [.array .int [.int 10]] "" ⟨0, []⟩ 1 (.array .int [.int 10])
    [.number 1, .number 2] rfl).2 rfl (by decide)⟩

/-- What `get` does with an index in range on a live array: the element
at the 0-based position `k` is what `get(k + 1)` returns, as its Lua
equivalent when it is a scalar and as a wrapper of its handle
otherwise. -/
theorem l_value_get_element (heap : List avro_value) (err : String) (value : Ref) (d : Nat)
    (items : avro_schema_t) (elements : List avro_value) (k : Nat) (e : avro_value)
    (hlive : deref heap value = some (.array items elements))
    (he : elements[k]? = some e) (h32 : k + 1 < 2 ^ 32) :
    l_value_get ⟨[.avro_value value d, .number ((k + 1 : Nat) : Int)], heap, err⟩
      = .ok 1 ⟨[.avro_value value d, .number ((k + 1 : Nat) : Int),
          scalar_or_wrapper e (value.child (.index k)) NO_DESTRUCTOR], heap, err⟩ := by
  have hk : k < elements.length := by
    rcases Nat.lt_or_ge k elements.length with h | h
    · exact h
    · simp [List.getElem?_eq_none h] at he
  have hint : lua_number2integer ((k + 1 : Nat) : Int) = ((k + 1 : Nat) : Int) := by
    unfold lua_number2integer
    rw [if_pos]
    constructor <;> omega
  have hu : to_unsigned_int ((k + 1 : Nat) : Int) = k + 1 := by
    unfold to_unsigned_int
    rw [Int.emod_eq_of_lt (by omega) (by omega)]
    simp
  rw [l_value_get_array heap err value d items elements _ hlive, hint, hu]
  have hchild : deref heap (value.child (.index k)) = some e := by
    rw [deref_child heap value (.index k) _ hlive]
    simp [avro_value.child, he]
  simp only [get_array_element, check, avro_value_get_size, avro_value_getter, hlive,
    LuaM.bind_apply, LuaM.pure_apply, avro_value_get_by_index]
  have hnot : ¬ (k + 1 < 1 ∨ k + 1 > elements.length) := by omega
  have hgi : avro_value_get_by_index value k
      ⟨[.avro_value value d, .number ((k + 1 : Nat) : Int)], heap, err⟩
      = .ok (some (value.child (.index k), none))
          ⟨[.avro_value value d, .number ((k + 1 : Nat) : Int)], heap, err⟩ := by
    simp [avro_value_get_by_index, hlive, hk]
  simp only [hnot, if_false, Nat.add_sub_cancel, hgi, LuaM.bind_apply, LuaM.pure_apply]
  exact lua_avro_push_scalar_or_value_eq _ heap err _ NO_DESTRUCTOR _ hchild

/-- What `avro_value_append` does on a live array: the array gets one
more element, a fresh value of the items schema, behind the others. -/
theorem avro_value_append_eq (stk : List LuaVal) (heap : List avro_value) (err : String)
    (value : Ref) (items : avro_schema_t) (elements : List avro_value)
    (hlive : deref heap value = some (.array items elements)) :
    ∃ heap', avro_value_append value ⟨stk, heap, err⟩
        = .ok (some (value.child (.index elements.length))) ⟨stk, heap', err⟩ ∧
      deref heap' value
        = some (.array items (elements ++ [avro_generic_value_new items])) := by
  obtain ⟨heap', hst, hd⟩ := store_eq stk heap err value
    (fun _ => some (.array items (elements ++ [avro_generic_value_new items])))
    _ _ hlive rfl
  refine ⟨heap', ?_, hd⟩
  simp only [avro_value_append, hlive, hst]

/-- C12: `append()` on a live array of `n` elements returns a wrapper of
a new element: the array then holds its former elements, unchanged and
in their order, followed by the new one, at the 0-based position `n`.
`append(v)` on an array whose items are scalars, with a Lua value `v`
that the items schema can hold exactly (`acceptable`), does the same and
gives the new element the value `v`: its Lua equivalent is `v`, and
`get(n + 1)` returns `v` (for `n + 1` below 2^32, the range of the
`unsigned int` index of `get`). -/
theorem l_value_append_spec (heap : List avro_value) (err : String) (value : Ref) (d : Nat)
    (items : avro_schema_t) (elements : List avro_value)
    (hlive : deref heap value = some (.array items elements)) :
    (∃ heap',
      l_value_append ⟨[.avro_value value d], heap, err⟩
        = .ok 1 ⟨[.avro_value value d,
            .avro_value (value.child (.index elements.length)) NO_DESTRUCTOR], heap', err⟩ ∧
      deref heap' value
        = some (.array items (elements ++ [avro_generic_value_new items])) ∧
      deref heap' (value.child (.index elements.length))
        = some (avro_generic_value_new items)) ∧
    (∀ x : LuaVal, acceptable items x →
      ∃ heap' e,
        l_value_append ⟨[.avro_value value d, x], heap, err⟩
          = .ok 1 ⟨[.avro_value value d, x,
              .avro_value (value.child (.index elements.length)) NO_DESTRUCTOR,
              .avro_value (value.child (.index elements.length)) NO_DESTRUCTOR],
              heap', err⟩ ∧
        deref heap' value = some (.array items (elements ++ [e])) ∧
        deref heap' (value.child (.index elements.length)) = some e ∧
        scalar_of e = some x ∧
        (elements.length + 1 < 2 ^ 32 →
          l_value_get ⟨[.avro_value value d, .number ((elements.length + 1 : Nat) : Int)],
              heap', err⟩
            = .ok 1 ⟨[.avro_value value d, .number ((elements.length + 1 : Nat) : Int), x],
                heap', err⟩)) := by
  constructor
  · obtain ⟨heap', happ, hd⟩ :=
      avro_value_append_eq [.avro_value value d] heap err value items elements hlive
    refine ⟨heap', ?_, hd, ?_⟩
    · have hself : index2adr ⟨[.avro_value value d], heap, err⟩ 1
          = some (.avro_value value d) := rfl
      simp only [l_value_append, lua_gettop, lua_avro_get_value, luaL_checkudata_value, hself,
        avro_value_get_type, hlive, avro_value.type, check, happ, LuaM.bind_apply,
        LuaM.pure_apply]
      simp [happ, lua_avro_push_value, push]
    · rw [deref_child heap' value _ _ hd]
      simp [avro_value.child]
  · intro x hx
    obtain ⟨heap1, happ, hd1⟩ :=
      avro_value_append_eq [.avro_value value d, x] heap err value items elements hlive
    obtain ⟨heap', e, m', hset, hsc, hm', hd2, hd3⟩ :=
      set_scalar_value_acceptable [.avro_value value d, x,
          .avro_value (value.child (.index elements.length)) NO_DESTRUCTOR] heap1 err (-1) 2
        value (.index elements.length) NO_DESTRUCTOR _ items x (by rfl) (by rfl) hd1
        (by simp [avro_value.child]) hx
    have hm : m' = .array items (elements ++ [e]) := by
      simp [avro_value.setChild] at hm'
      exact hm'.symm
    subst hm
    refine ⟨heap', e, ?_, hd2, hd3, hsc, ?_⟩
    · have hself : index2adr ⟨[.avro_value value d, x], heap, err⟩ 1
          = some (.avro_value value d) := rfl
      simp only [l_value_append, lua_gettop, lua_avro_get_value, luaL_checkudata_value, hself,
        avro_value_get_type, hlive, avro_value.type, check, happ, LuaM.bind_apply,
        LuaM.pure_apply]
      simp [happ, lua_avro_push_value, push, hset]
    · intro h32
      have he : (elements ++ [e])[elements.length]? = some e := by simp
      have hg := l_value_get_element heap' err value d items (elements ++ [e])
        elements.length e hd2 he h32
      rw [hg]
      simp [scalar_or_wrapper, hsc]

/-- Witness of C12: 20 appended to an array of ints holding 10. -/
theorem l_value_append_spec_witness :
    deref [avro_value.array .int [.int 10]] ⟨0, []⟩ = some (.array .int [.int 10]) ∧
    acceptable .int (.number 20) ∧
    ∃ heap' e,
      l_value_append ⟨[.avro_value ⟨0, []⟩ 1, .number 20], [.array .int [.int 10]], ""⟩
        = .ok 1 ⟨[.avro_value ⟨0, []⟩ 1, .number 20,
            .avro_value (Ref.child ⟨0, []⟩ (.index 1)) NO_DESTRUCTOR,
            .avro_value (Ref.child ⟨0, []⟩ (.index 1)) NO_DESTRUCTOR], heap', ""⟩ ∧
      deref heap' ⟨0, []⟩ = some (.array .int ([.int 10] ++ [e])) ∧
      scalar_of e = some (.number 20) ∧
      l_value_get ⟨[.avro_value ⟨0, []⟩ 1, .number 2], heap', ""⟩
        = .ok 1 ⟨[.avro_value ⟨0, []⟩ 1, .number 2, .number 20], heap', ""⟩ :=
  ⟨rfl, by simp [acceptable],
    match (l_value_append_spec [.array .int [.int 10]] "" ⟨0, []⟩ 1 .int [.int 10] rfl).2
        (.number 20) (by simp [acceptable]) with
    | ⟨heap', e, h1, h2, _, h4, h5⟩ => ⟨heap', e, h1, h2, h4, h5 (by decide)⟩⟩

/-! ## iterate() -/

/-- C14: `iterate()` on a live array or map returns exactly three
values: the iterator function of the type, a new iterator state that
stands before the first element, and `nil`.  On a live value of any
other type it raises "Can only iterate through arrays and maps", and the
stack holds no iterator state. -/
theorem l_value_iterate_spec (heap : List avro_value) (err : String) (value : Ref) (d : Nat)
    (v : avro_value) (hlive : deref heap value = some v) :
    (v.type = .AVRO_ARRAY →
      l_value_iterate ⟨[.avro_value value d], heap, err⟩
        = .ok 3 ⟨[.avro_value value d, .cfunction "iterate_array", .iterator value 0, .nil],
            heap, err⟩) ∧
    (v.type = .AVRO_MAP →
      l_value_iterate ⟨[.avro_value value d], heap, err⟩
        = .ok 3 ⟨[.avro_value value d, .cfunction "iterate_map", .iterator value 0, .nil],
            heap, err⟩) ∧
    (v.type ≠ .AVRO_ARRAY → v.type ≠ .AVRO_MAP →
      l_value_iterate ⟨[.avro_value value d], heap, err⟩
        = .raise (.string "Can only iterate through arrays and maps")
            ⟨[.avro_value value d, .string "Can only iterate through arrays and maps"],
              heap, err⟩) := by
  have hself : index2adr ⟨[.avro_value value d], heap, err⟩ 1
      = some (.avro_value value d) := rfl
  refine ⟨?_, ?_, ?_⟩
  · intro hty
    simp only [l_value_iterate, lua_avro_get_value, luaL_checkudata_value, hself,
      avro_value_get_type, hlive, LuaM.bind_apply, LuaM.pure_apply]
    simp [hty, lua_pushcfunction, create_iterator, lua_pushnil, push]
  · intro hty
    simp only [l_value_iterate, lua_avro_get_value, luaL_checkudata_value, hself,
      avro_value_get_type, hlive, LuaM.bind_apply, LuaM.pure_apply]
    simp [hty, lua_pushcfunction, create_iterator, lua_pushnil, push]
  · intro h1 h2
    simp only [l_value_iterate, lua_avro_get_value, luaL_checkudata_value, hself,
      avro_value_get_type, hlive, LuaM.bind_apply, LuaM.pure_apply]
    simp [h1, h2, lua_pushliteral, push, lua_error, index2adr]

/-- Witness of C14: a map, and a string value. -/
theorem l_value_iterate_spec_witness :
    deref [avro_value.string ['a', NUL]] ⟨0, []⟩ = some (.string ['a', NUL]) ∧
    l_value_iterate ⟨[.avro_value ⟨0, []⟩ 1], [.string ['a', NUL]], ""⟩
      = .raise (.string "Can only iterate through arrays and maps")
          ⟨[.avro_value ⟨0, []⟩ 1, .string "Can only iterate through arrays and maps"],
            [.string ['a', NUL]], ""⟩ :=
  ⟨rfl, (l_value_iterate_spec [.string ['a', NUL]] "" ⟨0, []⟩ 1 (.string ['a', NUL]) rfl).2.2
    (by simp [avro_value.type]) (by simp [avro_value.type])⟩

/-- One call of `iterate_array` before the end of a live array: the
1-based index and the element at the position of the iterator state are
returned, and the state moves to the next position. -/
theorem iterate_array_step (heap : List avro_value) (err : String) (value : Ref)
    (items : avro_schema_t) (elements : List avro_value) (k : Nat) (e : avro_value)
    (control : LuaVal)
    (hlive : deref heap value = some (.array items elements))
    (he : elements[k]? = some e) :
    iterate_array ⟨[.iterator value k, control], heap, err⟩
      = .ok 2 ⟨[.iterator value (k + 1), control, .number ((k + 1 : Nat) : Int),
          scalar_or_wrapper e (value.child (.index k)) NO_DESTRUCTOR], heap, err⟩ := by
  have hk : k < elements.length := by
    rcases Nat.lt_or_ge k elements.length with h | h
    · exact h
    · simp [List.getElem?_eq_none h] at he
  have hself : index2adr ⟨[.iterator value k, control], heap, err⟩ 1
      = some (.iterator value k) := rfl
  have hchild : deref heap (value.child (.index k)) = some e := by
    rw [deref_child heap value (.index k) _ hlive]
    simp [avro_value.child, he]
  have hgi : avro_value_get_by_index value k ⟨[.iterator value k, control], heap, err⟩
      = .ok (some (value.child (.index k), none))
          ⟨[.iterator value k, control], heap, err⟩ := by
    simp [avro_value_get_by_index, hlive, hk]
  have hnot : ¬ (k ≥ elements.length) := by omega
  simp only [iterate_array, luaL_checkudata_iterator, hself, iterator_value, check,
    avro_value_get_size, avro_value_getter, hlive, LuaM.bind_apply, LuaM.pure_apply, hnot,
    if_false, hgi, lua_pushinteger, push]
  rw [lua_avro_push_scalar_or_value_eq _ heap err _ NO_DESTRUCTOR e hchild]
  simp [set_userdata, setidx]

/-- A call of `iterate_array` at or past the end of a live array returns
nothing and leaves the iterator state as it was. -/
theorem iterate_array_end (heap : List avro_value) (err : String) (value : Ref)
    (items : avro_schema_t) (elements : List avro_value) (k : Nat) (control : LuaVal)
    (hlive : deref heap value = some (.array items elements))
    (hk : elements.length ≤ k) :
    iterate_array ⟨[.iterator value k, control], heap, err⟩
      = .ok 0 ⟨[.iterator value k, control], heap, err⟩ := by
  have hself : index2adr ⟨[.iterator value k, control], heap, err⟩ 1
      = some (.iterator value k) := rfl
  have hge : k ≥ elements.length := hk
  simp only [iterate_array, luaL_checkudata_iterator, hself, iterator_value, check,
    avro_value_get_size, avro_value_getter, hlive, LuaM.bind_apply, LuaM.pure_apply, hge,
    if_true]

/-- The loop over a live array from the position `k` on, with enough
fuel, while the wrapper is not finalized: it goes through the pairs of
the remaining elements and ends. -/
theorem generic_for_iterate_array (heap : List avro_value) (err : String) (value : Ref)
    (items : avro_schema_t) (elements : List avro_value) (collect : Nat → Bool)
    (hlive : deref heap value = some (.array items elements))
    (hcollect : ∀ i, collect i = false) :
    ∀ (rest : List avro_value) (k : Nat) (control : LuaVal) (fuel i0 : Nat),
      elements.drop k = rest → rest.length < fuel →
      generic_for iterate_array collect fuel i0 heap err (.iterator value k) control
        = some (array_pairs value k rest) := by
  intro rest
  induction rest with
  | nil =>
    intro k control fuel i0 hdrop hfuel
    obtain ⟨fuel, rfl⟩ : ∃ f, fuel = f + 1 := ⟨fuel - 1, by simp at hfuel; omega⟩
    have hk : elements.length ≤ k := by
      simpa [List.drop_eq_nil_iff] using hdrop
    simp [generic_for, hcollect,
      iterate_array_end heap err value items elements k control hlive hk, returned,
      array_pairs]
  | cons e rest ih =>
    intro k control fuel i0 hdrop hfuel
    obtain ⟨fuel, rfl⟩ : ∃ f, fuel = f + 1 := ⟨fuel - 1, by simp at hfuel; omega⟩
    have he : elements[k]? = some e := by
      have := congrArg List.head? hdrop
      simpa [List.head?_drop] using this
    have hdrop' : elements.drop (k + 1) = rest := by
      have := congrArg List.tail hdrop
      simpa [List.tail_drop] using this
    have hrec := ih (k + 1) (.number ((k + 1 : Nat) : Int)) fuel (i0 + 1) hdrop'
      (by simp at hfuel; omega)
    simp only [Nat.cast_add, Nat.cast_one] at hrec
    simp [generic_for, hcollect,
      iterate_array_step heap err value items elements k e control hlive he,
      returned, array_pairs, hrec]

/-- A call of `iterate_array` or of `iterate_map` of legacy.c on an
iterator state whose wrapper has been finalized: the call of the library
goes through the `NULL` interface pointer of the handle. -/
theorem iterate_finalized (heap : List avro_value) (err : String) (k : Nat)
    (control : LuaVal) :
    iterate_array ⟨[.finalized_iterator k, control], heap, err⟩ = .undefined ∧
    iterate_map ⟨[.finalized_iterator k, control], heap, err⟩ = .undefined := by
  have hself : index2adr ⟨[.finalized_iterator k, control], heap, err⟩ 1
      = some (.finalized_iterator k) := rfl
  constructor <;>
    simp only [iterate_array, iterate_map, luaL_checkudata_iterator, hself, iterator_value,
      LuaM.bind_apply, LuaM.pure_apply]

/-- The pairs of an iteration, position by position. -/
theorem array_pairs_getElem (value : Ref) :
    ∀ (rest : List avro_value) (k j : Nat) (e : avro_value), rest[j]? = some e →
      (array_pairs value k rest)[j]?
        = some (.number ((k + j + 1 : Nat) : Int),
            scalar_or_wrapper e (value.child (.index (k + j))) NO_DESTRUCTOR) := by
  intro rest
  induction rest with
  | nil => intro k j e h; simp at h
  | cons a rest ih =>
    intro k j e h
    cases j with
    | zero =>
      simp at h
      subst h
      simp [array_pairs]
    | succ j =>
      simp at h
      have := ih (k + 1) j e h
      simp only [array_pairs, List.getElem?_cons_succ, this]
      have h1 : k + 1 + j = k + (j + 1) := by omega
      rw [h1]

/-- The number of pairs of an iteration. -/
theorem array_pairs_length (value : Ref) :
    ∀ (rest : List avro_value) (k : Nat), (array_pairs value k rest).length = rest.length := by
  intro rest
  induction rest with
  | nil => intro k; simp [array_pairs]
  | cons a rest ih => intro k; simp [array_pairs, ih]

/-- Iteration over a live array of `n` elements that the loop does not
modify, while the wrapper that `iterate` was called on is not finalized.
`iterate()` returns the function `iterate_array` with a new iterator
state that stands before the first element, whatever was iterated
before.  The loop `for k, e in value:iterate()` then ends (with any fuel
above `n`) after exactly `n` pairs; the pair at the 0-based position `j`
is the index `j + 1` with the element at the position `j`, as its Lua
equivalent when it is a scalar and as a wrapper of its handle otherwise.
Every call of the iterator function at or past the end returns no values
and leaves the state where it is. -/
theorem l_value_iterate_array (heap : List avro_value) (err : String) (value : Ref) (d : Nat)
    (items : avro_schema_t) (elements : List avro_value) (collect : Nat → Bool)
    (hlive : deref heap value = some (.array items elements))
    (hcollect : ∀ i, collect i = false) :
    l_value_iterate ⟨[.avro_value value d], heap, err⟩
      = .ok 3 ⟨[.avro_value value d, .cfunction "iterate_array", .iterator value 0, .nil],
          heap, err⟩ ∧
    (∀ fuel, elements.length < fuel →
      generic_for iterate_array collect fuel 0 heap err (.iterator value 0) .nil
        = some (array_pairs value 0 elements)) ∧
    (array_pairs value 0 elements).length = elements.length ∧
    (∀ (j : Nat) (e : avro_value), elements[j]? = some e →
      (array_pairs value 0 elements)[j]?
        = some (.number ((j + 1 : Nat) : Int),
            scalar_or_wrapper e (value.child (.index j)) NO_DESTRUCTOR)) ∧
    (∀ (k : Nat) (control : LuaVal), elements.length ≤ k →
      returned (iterate_array ⟨[.iterator value k, control], heap, err⟩) = some [] ∧
      iterate_array ⟨[.iterator value k, control], heap, err⟩
        = .ok 0 ⟨[.iterator value k, control], heap, err⟩) := by
  refine ⟨?_, ?_, array_pairs_length value elements 0, ?_, ?_⟩
  · have hself : index2adr ⟨[.avro_value value d], heap, err⟩ 1
        = some (.avro_value value d) := rfl
    simp only [l_value_iterate, lua_avro_get_value, luaL_checkudata_value, hself,
      avro_value_get_type, hlive, LuaM.bind_apply, LuaM.pure_apply]
    simp [avro_value.type, lua_pushcfunction, create_iterator, lua_pushnil, push]
  · intro fuel hfuel
    exact generic_for_iterate_array heap err value items elements collect hlive hcollect
      elements 0 .nil fuel 0 (by simp) hfuel
  · intro j e he
    have := array_pairs_getElem value elements 0 j e he
    simpa using this
  · intro k control hk
    rw [iterate_array_end heap err value items elements k control hlive hk]
    exact ⟨by simp [returned], rfl⟩

/-- C13 (the code at the failing input): the loop
`for k, e in r:get("items"):iterate() do collectgarbage() end` over the
array field, holding 10 and 20, of a record.  `get` makes a new wrapper of the
array; `iterate()` on it returns `iterate_array` and a state that points
into that wrapper, which nothing references once the loop runs.  The
first call of `iterate_array` returns the pair (1, 10); the collector
then finalizes the wrapper, and the second call dereferences the `NULL`
interface pointer of its handle: the loop does not produce the second
pair.  With the wrapper kept alive the same loop produces the two pairs
and ends, and so does the loop over the `Iterator` of avro.c, which
holds its own reference, under the same collection. -/
theorem l_value_iterate_dangling_wrapper :
    l_value_get ⟨[.avro_value ⟨0, []⟩ 1, .string "items"],
        [.record "r" [("items", .array .int [.int 10, .int 20])]], ""⟩
      = .ok 1 ⟨[.avro_value ⟨0, []⟩ 1, .string "items", .avro_value ⟨0, [.field 0]⟩ 0],
          [.record "r" [("items", .array .int [.int 10, .int 20])]], ""⟩ ∧
    l_value_iterate ⟨[.avro_value ⟨0, [.field 0]⟩ 0],
        [.record "r" [("items", .array .int [.int 10, .int 20])]], ""⟩
      = .ok 3 ⟨[.avro_value ⟨0, [.field 0]⟩ 0, .cfunction "iterate_array",
            .iterator ⟨0, [.field 0]⟩ 0, .nil],
          [.record "r" [("items", .array .int [.int 10, .int 20])]], ""⟩ ∧
    iterate_array ⟨[.iterator ⟨0, [.field 0]⟩ 0, .nil],
        [.record "r" [("items", .array .int [.int 10, .int 20])]], ""⟩
      = .ok 2 ⟨[.iterator ⟨0, [.field 0]⟩ 1, .nil, .number 1, .number 10],
          [.record "r" [("items", .array .int [.int 10, .int 20])]], ""⟩ ∧
    iterate_array ⟨[wrapper_finalized (.iterator ⟨0, [.field 0]⟩ 1), .number 1],
        [.record "r" [("items", .array .int [.int 10, .int 20])]], ""⟩
      = .undefined ∧
    generic_for iterate_array (fun i => i == 1) 3 0
        [.record "r" [("items", .array .int [.int 10, .int 20])]] ""
        (.iterator ⟨0, [.field 0]⟩ 0) .nil
      = none ∧
    generic_for iterate_array (fun _ => false) 3 0
        [.record "r" [("items", .array .int [.int 10, .int 20])]] ""
        (.iterator ⟨0, [.field 0]⟩ 0) .nil
      = some [(.number 1, .number 10), (.number 2, .number 20)] ∧
    generic_for Datum.iterate_array (fun i => i == 1) 3 0
        [.record "r" [("items", .array .int [.int 10, .int 20])]] ""
        (.datum_iterator ⟨0, [.field 0]⟩ (some (.array .int)) 0) .nil
      = some [(.number 1, .number 10), (.number 2, .number 20)] :=
  ⟨rfl, rfl, rfl, rfl, rfl, rfl, rfl⟩

/-! ## The metamethods `__index` and `__newindex` -/

/-- The methods table holds the C function of each method under its
name. -/
theorem rawget_method (m : String × String) (hm : m ∈ value_methods) :
    rawget 0 (.string m.1) = .cfunction m.2 := by
  simp only [value_methods, List.mem_cons, List.mem_singleton, List.not_mem_nil,
    or_false] at hm
  rcases hm with h | h | h | h | h | h | h | h | h | h | h <;> subst h <;> rfl

/-- The methods table holds nothing under any other key. -/
theorem rawget_other (key : LuaVal) (hkey : ∀ m ∈ value_methods, key ≠ .string m.1) :
    rawget 0 key = .nil := by
  cases key <;> try rfl
  case string s =>
    have hnone : lookupKey s (value_methods.map (fun m => (m.1, LuaVal.cfunction m.2)))
        = none := by
      apply lookupKey_eq_none
      intro e he
      simp only [List.mem_map] at he
      obtain ⟨m, hm, rfl⟩ := he
      intro heq
      exact hkey m hm (by simp at heq; simp [heq])
    simp [rawget, registry, hnone]

/-- The lookup both metamethods start with: the methods table and the
value it holds under the key (the second argument) are pushed. -/
theorem methods_lookup {α : Type} (k : LuaM α) (stk : List LuaVal) (heap : List avro_value)
    (err : String) :
    (do luaL_getmetatable MT_AVRO_VALUE_METHODS
        lua_pushvalue 2
        lua_rawget (-2)
        k) ⟨stk, heap, err⟩
      = k ⟨stk ++ [.table 0, rawget 0 ((index2adr ⟨stk ++ [.table 0], heap, err⟩ 2).getD .nil)],
          heap, err⟩ := by
  have hmt : luaL_getmetatable MT_AVRO_VALUE_METHODS = push (.table 0) := rfl
  simp only [hmt, LuaM.bind_apply, push, lua_pushvalue, lua_rawget]
  have h2 : index2adr ⟨stk ++ [.table 0]
      ++ [(index2adr ⟨stk ++ [.table 0], heap, err⟩ 2).getD .nil], heap, err⟩ (-2)
      = some (.table 0) := by
    simp [index2adr, List.getElem_append_right]
  have h1 : index2adr ⟨stk ++ [.table 0]
      ++ [(index2adr ⟨stk ++ [.table 0], heap, err⟩ 2).getD .nil], heap, err⟩ (-1)
      = some ((index2adr ⟨stk ++ [.table 0], heap, err⟩ 2).getD .nil) :=
    index2adr_top _ _ _ _
  simp only [h2, h1]
  simp [setidx]

/-- C15: the `__index` metamethod looks in the methods table first.  The
table holds the eleven method names.  For the name of a method,
`value[k]` is the C function of the method, whatever the value holds
(also a record or a map with an entry of that name).  For every other
key, `l_value_index` does what `get(k)` does: the same results on the
same final state. -/
theorem l_value_index_spec (heap : List avro_value) (err : String) (self : LuaVal) :
    value_methods.map (fun m => m.1)
      = ["append", "discriminant", "encode", "encoded_size", "get", "hash", "iterate",
          "scalar", "set", "set_source", "type"] ∧
    (∀ m ∈ value_methods,
      l_value_index ⟨[self, .string m.1], heap, err⟩
        = .ok 1 ⟨[self, .string m.1, .table 0, .cfunction m.2], heap, err⟩) ∧
    (∀ key : LuaVal, (∀ m ∈ value_methods, key ≠ .string m.1) →
      l_value_index ⟨[self, key], heap, err⟩ = l_value_get ⟨[self, key], heap, err⟩) := by
  refine ⟨rfl, ?_, ?_⟩
  · intro m hm
    unfold l_value_index
    rw [methods_lookup]
    have hk : (index2adr ⟨[self, .string m.1] ++ [.table 0], heap, err⟩ 2).getD .nil
        = .string m.1 := rfl
    rw [hk, rawget_method m hm]
    rfl
  · intro key hkey
    unfold l_value_index
    rw [methods_lookup]
    have hk : (index2adr ⟨[self, key] ++ [.table 0], heap, err⟩ 2).getD .nil = key := rfl
    rw [hk, rawget_other key hkey]
    rfl

/-- Witness of C15: the key "name" is not a method name. -/
theorem l_value_index_spec_witness :
    (∀ m ∈ value_methods, LuaVal.string "name" ≠ .string m.1) ∧
    l_value_index ⟨[.avro_value ⟨0, []⟩ 1, .string "name"],
        [.record "r" [("name", .int 1)]], ""⟩
      = l_value_get ⟨[.avro_value ⟨0, []⟩ 1, .string "name"],
        [.record "r" [("name", .int 1)]], ""⟩ :=
  ⟨by simp [value_methods],
    (l_value_index_spec [.record "r" [("name", .int 1)]] "" (.avro_value ⟨0, []⟩ 1)).2.2
      (.string "name") (by simp [value_methods])⟩

/-- C16: the `__newindex` metamethod refuses the method names.  For the
name of a method, `value[k] = v` raises "Cannot set field with [] syntax"
and the values of the heap are what they were.  For every other key,
`l_value_newindex` does what `set(k, v)` does: the same outcome on the
same final state. -/
theorem l_value_newindex_spec (heap : List avro_value) (err : String) (self x : LuaVal) :
    (∀ m ∈ value_methods,
      l_value_newindex ⟨[self, .string m.1, x], heap, err⟩
        = .raise (.string "Cannot set field with [] syntax")
            ⟨[self, .string m.1, x, .table 0, .cfunction m.2,
                .string "Cannot set field with [] syntax"], heap, err⟩) ∧
    (∀ key : LuaVal, (∀ m ∈ value_methods, key ≠ .string m.1) →
      l_value_newindex ⟨[self, key, x], heap, err⟩ = l_value_set ⟨[self, key, x], heap, err⟩) := by
  refine ⟨?_, ?_⟩
  · intro m hm
    unfold l_value_newindex
    rw [methods_lookup]
    have hk : (index2adr ⟨[self, .string m.1, x] ++ [.table 0], heap, err⟩ 2).getD .nil
        = .string m.1 := rfl
    rw [hk, rawget_method m hm]
    rfl
  · intro key hkey
    unfold l_value_newindex
    rw [methods_lookup]
    have hk : (index2adr ⟨[self, key, x] ++ [.table 0], heap, err⟩ 2).getD .nil = key := rfl
    rw [hk, rawget_other key hkey]
    rfl

/-- Witness of C16: the method name "get" is refused. -/
theorem l_value_newindex_spec_witness :
    ("get", "l_value_get") ∈ value_methods ∧
    l_value_newindex ⟨[.avro_value ⟨0, []⟩ 1, .string "get", .number 5],
        [.map .int [("get", .int 1)]], ""⟩
      = .raise (.string "Cannot set field with [] syntax")
          ⟨[.avro_value ⟨0, []⟩ 1, .string "get", .number 5, .table 0,
              .cfunction "l_value_get", .string "Cannot set field with [] syntax"],
            [.map .int [("get", .int 1)]], ""⟩ :=
  ⟨by simp [value_methods],
    (l_value_newindex_spec [.map .int [("get", .int 1)]] "" (.avro_value ⟨0, []⟩ 1)
      (.number 5)).1 ("get", "l_value_get") (by simp [value_methods])⟩

/-! ## encode() and encoded_size() -/

/-- What `encoded_size()` does on a live value: the size the library
computes is returned, its failure is raised. -/
theorem l_value_encoded_size_eq (codec : avro_codec) (heap : List avro_value) (err : String)
    (value : Ref) (d : Nat) (v : avro_value) (hlive : deref heap value = some v) :
    l_value_encoded_size codec ⟨[.avro_value value d], heap, err⟩
      = match codec.avro_value_sizeof v with
        | .ok size => .ok 1 ⟨[.avro_value value d, .number (size : Nat)], heap, err⟩
        | .error msg => .raise (.string (cstr msg))
            ⟨[.avro_value value d, .string (cstr msg)], heap, msg⟩ := by
  have hself : index2adr ⟨[.avro_value value d], heap, err⟩ 1
      = some (.avro_value value d) := rfl
  simp only [l_value_encoded_size, lua_avro_get_value, luaL_checkudata_value, hself, check,
    avro_value_sizeof, hlive, library_call, LuaM.bind_apply, LuaM.pure_apply]
  cases codec.avro_value_sizeof v with
  | ok size => simp [lua_pushinteger, push]
  | error msg =>
    simp [lua_avro_error, avro_strerror, avro_set_error, lua_pushstring, push, lua_error,
      index2adr]

/-- What `encode()` does on a live value, by what the library and
`malloc` do. -/
theorem l_value_encode_eq (codec : avro_codec) (static_buf : Nat → Char)
    (malloc : Nat → Option (Nat → Char)) (heap : List avro_value) (err : String)
    (value : Ref) (d : Nat) (v : avro_value) (hlive : deref heap value = some v) :
    l_value_encode codec static_buf malloc ⟨[.avro_value value d], heap, err⟩
      = match codec.avro_value_sizeof v with
        | .error msg => .raise (.string (cstr msg))
            ⟨[.avro_value value d, .string (cstr msg)], heap, msg⟩
        | .ok size =>
          match (if size ≤ 65536 then some (c_block static_buf 65536)
              else (malloc size).map (fun block => c_block block size)) with
          | none => .ok 2 ⟨[.avro_value value d, .nil, .string "Out of memory"], heap, err⟩
          | some buf =>
            match codec.avro_value_write v size with
            | .error msg => .ok 2 ⟨[.avro_value value d, .nil, .string (cstr msg)], heap, msg⟩
            | .ok written => .ok 1 ⟨[.avro_value value d,
                .string ⟨(written ++ buf.drop written.length).take size⟩], heap, err⟩ := by
  have hself : index2adr ⟨[.avro_value value d], heap, err⟩ 1
      = some (.avro_value value d) := rfl
  simp only [l_value_encode, lua_avro_get_value, luaL_checkudata_value, hself, check,
    avro_value_sizeof, hlive, library_call, LuaM.bind_apply, LuaM.pure_apply]
  cases codec.avro_value_sizeof v with
  | error msg =>
    simp [lua_avro_error, avro_strerror, avro_set_error, lua_pushstring, push, lua_error,
      index2adr]
  | ok size =>
    simp only []
    cases (if size ≤ 65536 then some (c_block static_buf 65536)
        else (malloc size).map (fun block => c_block block size)) with
    | none => simp [lua_pushnil, lua_pushliteral, push]
    | some buf =>
      cases hw : codec.avro_value_write v size with
      | error msg =>
        simp [avro_value_write, hlive, hw, lua_return_avro_error, avro_strerror,
          avro_set_error, lua_pushnil, lua_pushstring, push]
      | ok written => simp [avro_value_write, hlive, hw, lua_pushlstring, push]

/-- The first `size` bytes of a buffer of at least `size` bytes after a
write at its start. -/
theorem take_written_length (written buf : List Char) (size : Nat) (hbuf : size ≤ buf.length) :
    ((written ++ buf.drop written.length).take size).length = size := by
  simp only [List.length_take, List.length_append, List.length_drop]
  omega

/-- The size of a region of C memory. -/
theorem c_block_length (bytes : Nat → Char) (size : Nat) : (c_block bytes size).length = size := by
  simp [c_block]

/-- C17: on a live value, whenever `encode()` succeeds (it returns one
value), the value is a string whose length is the number that
`encoded_size()` returns: both come from the same `avro_value_sizeof`
result.  And `encode()` does succeed whenever the library computes a
size, a buffer of that size is available (the size is at most 65536, or
`malloc` gives a block) and the library writes the value: it returns one
string of exactly that size. -/
theorem l_value_encode_size (codec : avro_codec) (static_buf : Nat → Char)
    (malloc : Nat → Option (Nat → Char)) (heap : List avro_value) (err : String)
    (value : Ref) (d : Nat) (v : avro_value) (hlive : deref heap value = some v) :
    (∀ x : LuaVal,
      returned (l_value_encode codec static_buf malloc ⟨[.avro_value value d], heap, err⟩)
        = some [x] →
      ∃ s : String, x = .string s ∧
        returned (l_value_encoded_size codec ⟨[.avro_value value d], heap, err⟩)
          = some [.number (s.length : Nat)]) ∧
    (∀ (size : Nat) (written : List Char),
      codec.avro_value_sizeof v = .ok size →
      codec.avro_value_write v size = .ok written →
      (size ≤ 65536 ∨ (malloc size).isSome) →
      ∃ s : String,
        l_value_encode codec static_buf malloc ⟨[.avro_value value d], heap, err⟩
          = .ok 1 ⟨[.avro_value value d, .string s], heap, err⟩ ∧
        s.length = size ∧
        l_value_encoded_size codec ⟨[.avro_value value d], heap, err⟩
          = .ok 1 ⟨[.avro_value value d, .number (size : Nat)], heap, err⟩) := by
  have hbuf : ∀ (size : Nat) (buf : List Char),
      (if size ≤ 65536 then some (c_block static_buf 65536)
        else (malloc size).map (fun block => c_block block size)) = some buf →
      size ≤ buf.length := by
    intro size buf h
    by_cases hs : size ≤ 65536
    · simp only [hs, if_true, Option.some.injEq] at h
      subst h
      rw [c_block_length]
      exact hs
    · simp only [hs, if_false, Option.map_eq_some'] at h
      obtain ⟨block, _, rfl⟩ := h
      rw [c_block_length]
  constructor
  · intro x hx
    rw [l_value_encode_eq codec static_buf malloc heap err value d v hlive] at hx
    rw [l_value_encoded_size_eq codec heap err value d v hlive]
    cases hs : codec.avro_value_sizeof v with
    | error msg => simp [hs, returned] at hx
    | ok size =>
      simp only [hs] at hx
      cases hb : (if size ≤ 65536 then some (c_block static_buf 65536)
          else (malloc size).map (fun block => c_block block size)) with
      | none => simp [hb, returned] at hx
      | some buf =>
        simp only [hb] at hx
        cases hw : codec.avro_value_write v size with
        | error msg => simp [hw, returned] at hx
        | ok written =>
          simp only [hw] at hx
          simp [returned] at hx
          subst hx
          refine ⟨_, rfl, ?_⟩
          simp only [returned, String.length]
          rw [take_written_length written buf size (hbuf size buf hb)]
          simp
  · intro size written hs hw hmem
    rw [l_value_encode_eq codec static_buf malloc heap err value d v hlive,
      l_value_encoded_size_eq codec heap err value d v hlive]
    simp only [hs]
    cases hb : (if size ≤ 65536 then some (c_block static_buf 65536)
        else (malloc size).map (fun block => c_block block size)) with
    | none =>
      exfalso
      by_cases h1 : size ≤ 65536
      · simp [h1] at hb
      · rcases hmem with h | h
        · exact h1 h
        · simp [h1] at hb
          simp [hb] at h
    | some buf =>
      simp only [hw]
      exact ⟨_, rfl, take_written_length written buf size (hbuf size buf hb), trivial⟩

/-- Witness of C17: the int 1 under the binary codec, one byte. -/
theorem l_value_encode_size_witness :
    deref [avro_value.int 1] ⟨0, []⟩ = some (.int 1) ∧
    (binary_codec (fun _ w => .ok w)).avro_value_sizeof (.int 1) = .ok 1 ∧
    (binary_codec (fun _ w => .ok w)).avro_value_write (.int 1) 1 = .ok [byte 2] ∧
    (1 ≤ 65536 ∨ ((fun _ => none : Nat → Option (Nat → Char)) 1).isSome) ∧
    ∃ s : String,
      l_value_encode (binary_codec (fun _ w => .ok w)) (fun _ => NUL) (fun _ => none)
          ⟨[.avro_value ⟨0, []⟩ 1], [.int 1], ""⟩
        = .ok 1 ⟨[.avro_value ⟨0, []⟩ 1, .string s], [.int 1], ""⟩ ∧
      s.length = 1 ∧
      l_value_encoded_size (binary_codec (fun _ w => .ok w))
          ⟨[.avro_value ⟨0, []⟩ 1], [.int 1], ""⟩
        = .ok 1 ⟨[.avro_value ⟨0, []⟩ 1, .number (1 : Nat)], [.int 1], ""⟩ :=
  ⟨rfl, rfl, rfl, Or.inl (by decide),
    (l_value_encode_size (binary_codec (fun _ w => .ok w)) (fun _ => NUL) (fun _ => none)
      [.int 1] "" ⟨0, []⟩ 1 (.int 1) rfl).2 1 [byte 2] rfl rfl (Or.inl (by decide))⟩

/-! ## The resolver constructors -/

/-- C20: the resolver constructors, called with a writer schema and a
reader schema.  When the library gives a resolver, `ResolvedWriter` and
`ResolvedReader` (and `Resolver` of avro.c) return one userdata that
holds this resolver; when the library fails (it returns `NULL`), they
return `nil` and the library's error message, and no userdata is made.
In no case does a returned value hold a `NULL` resolver. -/
theorem l_resolved_new_spec
    (avro_resolved_new : avro_schema_t → avro_schema_t → Except String avro_resolver)
    (heap : List avro_value) (err : String) (w r : avro_schema_t) :
    (l_resolved_writer_new avro_resolved_new ⟨[.avro_schema w, .avro_schema r], heap, err⟩
      = match avro_resolved_new w r with
        | .ok resolver => .ok 1 ⟨[.avro_schema w, .avro_schema r,
            .resolved_writer (some resolver)], heap, err⟩
        | .error msg => .ok 2 ⟨[.avro_schema w, .avro_schema r, .nil, .string (cstr msg)],
            heap, msg⟩) ∧
    (l_resolved_reader_new avro_resolved_new ⟨[.avro_schema w, .avro_schema r], heap, err⟩
      = match avro_resolved_new w r with
        | .ok resolver => .ok 1 ⟨[.avro_schema w, .avro_schema r,
            .resolved_reader (some resolver)], heap, err⟩
        | .error msg => .ok 2 ⟨[.avro_schema w, .avro_schema r, .nil, .string (cstr msg)],
            heap, msg⟩) ∧
    (Datum.l_resolver_new avro_resolved_new ⟨[.avro_schema w, .avro_schema r], heap, err⟩
      = match avro_resolved_new w r with
        | .ok resolver => .ok 1 ⟨[.avro_schema w, .avro_schema r,
            .resolver (some resolver)], heap, err⟩
        | .error msg => .ok 2 ⟨[.avro_schema w, .avro_schema r, .nil, .string (cstr msg)],
            heap, msg⟩) ∧
    (∀ x ∈ ((returned (l_resolved_writer_new avro_resolved_new
          ⟨[.avro_schema w, .avro_schema r], heap, err⟩)).getD []
        ++ (returned (l_resolved_reader_new avro_resolved_new
          ⟨[.avro_schema w, .avro_schema r], heap, err⟩)).getD []
        ++ (returned (Datum.l_resolver_new avro_resolved_new
          ⟨[.avro_schema w, .avro_schema r], heap, err⟩)).getD []),
      x ≠ .resolved_writer none ∧ x ≠ .resolved_reader none ∧ x ≠ .resolver none) := by
  have h1 : index2adr ⟨[.avro_schema w, .avro_schema r], heap, err⟩ 1
      = some (.avro_schema w) := rfl
  have h2 : index2adr ⟨[.avro_schema w, .avro_schema r], heap, err⟩ 2
      = some (.avro_schema r) := rfl
  have hw : l_resolved_writer_new avro_resolved_new
      ⟨[.avro_schema w, .avro_schema r], heap, err⟩
      = match avro_resolved_new w r with
        | .ok resolver => .ok 1 ⟨[.avro_schema w, .avro_schema r,
            .resolved_writer (some resolver)], heap, err⟩
        | .error msg => .ok 2 ⟨[.avro_schema w, .avro_schema r, .nil, .string (cstr msg)],
            heap, msg⟩ := by
    simp only [l_resolved_writer_new, lua_avro_get_schema, luaL_checkudata_schema, h1, h2,
      library_call, LuaM.bind_apply, LuaM.pure_apply]
    cases avro_resolved_new w r <;>
      simp [lua_return_avro_error, avro_strerror, avro_set_error, lua_pushnil,
        lua_pushstring, lua_avro_push_resolved_writer, push]
  have hr : l_resolved_reader_new avro_resolved_new
      ⟨[.avro_schema w, .avro_schema r], heap, err⟩
      = match avro_resolved_new w r with
        | .ok resolver => .ok 1 ⟨[.avro_schema w, .avro_schema r,
            .resolved_reader (some resolver)], heap, err⟩
        | .error msg => .ok 2 ⟨[.avro_schema w, .avro_schema r, .nil, .string (cstr msg)],
            heap, msg⟩ := by
    simp only [l_resolved_reader_new, lua_avro_get_schema, luaL_checkudata_schema, h1, h2,
      library_call, LuaM.bind_apply, LuaM.pure_apply]
    cases avro_resolved_new w r <;>
      simp [lua_return_avro_error, avro_strerror, avro_set_error, lua_pushnil,
        lua_pushstring, lua_avro_push_resolved_reader, push]
  have hd : Datum.l_resolver_new avro_resolved_new
      ⟨[.avro_schema w, .avro_schema r], heap, err⟩
      = match avro_resolved_new w r with
        | .ok resolver => .ok 1 ⟨[.avro_schema w, .avro_schema r,
            .resolver (some resolver)], heap, err⟩
        | .error msg => .ok 2 ⟨[.avro_schema w, .avro_schema r, .nil, .string (cstr msg)],
            heap, msg⟩ := by
    simp only [Datum.l_resolver_new, Datum.lua_avro_get_schema, luaL_checkudata_schema, h1, h2,
      library_call, LuaM.bind_apply, LuaM.pure_apply]
    cases avro_resolved_new w r <;>
      simp [avro_strerror, avro_set_error, lua_pushnil,
        lua_pushstring, Datum.lua_avro_push_resolver, push]
  refine ⟨hw, hr, hd, ?_⟩
  rw [hw, hr, hd]
  cases avro_resolved_new w r <;> simp [returned]

/-- Witness of C20: a library that resolves a string writer against a
string reader; the writer object returned holds the resolver. -/
theorem l_resolved_new_spec_witness :
    LuaVal.resolved_writer (some ⟨.string, .string⟩)
      ∈ ((returned (l_resolved_writer_new (fun w r => .ok ⟨w, r⟩)
          ⟨[.avro_schema .string, .avro_schema .string], [], ""⟩)).getD []
        ++ (returned (l_resolved_reader_new (fun w r => .ok ⟨w, r⟩)
          ⟨[.avro_schema .string, .avro_schema .string], [], ""⟩)).getD []
        ++ (returned (Datum.l_resolver_new (fun w r => .ok ⟨w, r⟩)
          ⟨[.avro_schema .string, .avro_schema .string], [], ""⟩)).getD []) ∧
    (LuaVal.resolved_writer (some ⟨.string, .string⟩) ≠ .resolved_writer none ∧
      LuaVal.resolved_writer (some ⟨.string, .string⟩) ≠ .resolved_reader none ∧
      LuaVal.resolved_writer (some ⟨.string, .string⟩) ≠ .resolver none) :=
  ⟨List.mem_append_left _ (List.mem_append_left _ (List.Mem.head _)),
    (l_resolved_new_spec (fun w r => .ok ⟨w, r⟩) [] "" .string .string).2.2.2
      _ (List.mem_append_left _ (List.mem_append_left _ (List.Mem.head _)))⟩

/-! ## read() on a data file -/

/-- C19 (the claim fails): at the end of the file and at a read that
fails on corrupted data, `read()` returns results of the same shape,
`nil` and a string. -/
theorem l_input_file_read_same_shape :
    shape (l_input_file_read
        ⟨[.input_file (some ⟨[], some "End of file"⟩) (some .int)], [], ""⟩)
      = some ["nil", "string"] ∧
    shape (l_input_file_read
        ⟨[.input_file (some ⟨[.failure "Incorrect sync bytes"], none⟩) (some .int)], [], ""⟩)
      = some ["nil", "string"] ∧
    shape (l_input_file_read
        ⟨[.input_file (some ⟨[.value (.int 7)], none⟩) (some .int)], [], ""⟩)
      = some ["userdata"] :=
  ⟨rfl, rfl, rfl⟩

/-- C19 (as amended): `read()` on an open data file returns `nil` and
the library's error message for every read that does not give a value,
the end of the file included, with or without a value to read into: at
the end of the file the message is the one the library sets there (the
message it had when it sets none), at a failed read the message of the
failure.  The two results have the same shape and differ at most in the
text of the message. -/
theorem l_input_file_read_failure (heap : List avro_value) (err : String)
    (reader : avro_file_reader) (wschema : avro_schema_t) (msg : String)
    (rest : List read_step) (value : Ref) (d : Nat)
    (hread : (reader.pending = [] ∧ rest = [] ∧ msg = reader.eof_message.getD err) ∨
      reader.pending = .failure msg :: rest) :
    l_input_file_read ⟨[.input_file (some reader) (some wschema)], heap, err⟩
      = .ok 2 ⟨[.input_file (some { reader with pending := rest }) (some wschema), .nil,
          .string (cstr msg)], heap ++ [avro_generic_value_new wschema], msg⟩ ∧
    shape (l_input_file_read ⟨[.input_file (some reader) (some wschema)], heap, err⟩)
      = some ["nil", "string"] ∧
    l_input_file_read
        ⟨[.input_file (some reader) (some wschema), .avro_value value d], heap, err⟩
      = .ok 2 ⟨[.input_file (some { reader with pending := rest }) (some wschema),
          .avro_value value d, .nil, .string (cstr msg)], heap, msg⟩ ∧
    shape (l_input_file_read
        ⟨[.input_file (some reader) (some wschema), .avro_value value d], heap, err⟩)
      = some ["nil", "string"] := by
  have hself : index2adr ⟨[.input_file (some reader) (some wschema)], heap, err⟩ 1
      = some (.input_file (some reader) (some wschema)) := rfl
  have hself2 : index2adr
      ⟨[.input_file (some reader) (some wschema), .avro_value value d], heap, err⟩ 1
      = some (.input_file (some reader) (some wschema)) := rfl
  have hval : index2adr
      ⟨[.input_file (some reader) (some wschema), .avro_value value d], heap, err⟩ 2
      = some (.avro_value value d) := rfl
  have heq : l_input_file_read ⟨[.input_file (some reader) (some wschema)], heap, err⟩
      = .ok 2 ⟨[.input_file (some { reader with pending := rest }) (some wschema), .nil,
          .string (cstr msg)], heap ++ [avro_generic_value_new wschema], msg⟩ := by
    obtain ⟨pending, eof⟩ := reader
    simp only at hread
    rcases hread with ⟨hp, hr, hm⟩ | hp
    · subst hr
      subst hm
      subst hp
      simp [l_input_file_read, lua_gettop, luaL_checkudata_input_file, hself, check,
        avro_generic_value_create, avro_file_reader_read_value, avro_set_error, set_userdata,
        setidx, lua_return_avro_error, lua_pushnil, avro_strerror, lua_pushstring, push]
    · subst hp
      simp [l_input_file_read, lua_gettop, luaL_checkudata_input_file, hself, check,
        avro_generic_value_create, avro_file_reader_read_value, avro_set_error, set_userdata,
        setidx, lua_return_avro_error, lua_pushnil, avro_strerror, lua_pushstring, push]
  have heq2 : l_input_file_read
      ⟨[.input_file (some reader) (some wschema), .avro_value value d], heap, err⟩
      = .ok 2 ⟨[.input_file (some { reader with pending := rest }) (some wschema),
          .avro_value value d, .nil, .string (cstr msg)], heap, msg⟩ := by
    obtain ⟨pending, eof⟩ := reader
    simp only at hread
    rcases hread with ⟨hp, hr, hm⟩ | hp
    · subst hr
      subst hm
      subst hp
      simp [l_input_file_read, lua_gettop, luaL_checkudata_input_file, hself2,
        lua_avro_get_value, luaL_checkudata_value, hval,
        avro_file_reader_read_value, avro_set_error, set_userdata,
        setidx, lua_return_avro_error, lua_pushnil, avro_strerror, lua_pushstring, push]
    · subst hp
      simp [l_input_file_read, lua_gettop, luaL_checkudata_input_file, hself2,
        lua_avro_get_value, luaL_checkudata_value, hval,
        avro_file_reader_read_value, avro_set_error, set_userdata,
        setidx, lua_return_avro_error, lua_pushnil, avro_strerror, lua_pushstring, push]
  refine ⟨heq, ?_, heq2, ?_⟩
  · rw [heq]
    rfl
  · rw [heq2]
    rfl

/-- Witness of C19: a reader at the end of its file. -/
theorem l_input_file_read_failure_witness :
    (((avro_file_reader.mk [] (some "End of file")).pending = [] ∧
        ([] : List read_step) = [] ∧
        "End of file" = (avro_file_reader.mk [] (some "End of file")).eof_message.getD "") ∨
      (avro_file_reader.mk [] (some "End of file")).pending
        = .failure "End of file" :: []) ∧
    l_input_file_read ⟨[.input_file (some ⟨[], some "End of file"⟩) (some .int)], [], ""⟩
      = .ok 2 ⟨[.input_file (some ⟨[], some "End of file"⟩) (some .int), .nil,
          .string (cstr "End of file")], [] ++ [avro_generic_value_new .int], "End of file"⟩ ∧
    shape (l_input_file_read
        ⟨[.input_file (some ⟨[], some "End of file"⟩) (some .int)], [], ""⟩)
      = some ["nil", "string"] :=
  ⟨Or.inl ⟨rfl, rfl, rfl⟩,
    (l_input_file_read_failure [] "" ⟨[], some "End of file"⟩ .int "End of file" []
      ⟨0, []⟩ 0 (Or.inl ⟨rfl, rfl, rfl⟩)).1,
    (l_input_file_read_failure [] "" ⟨[], some "End of file"⟩ .int "End of file" []
      ⟨0, []⟩ 0 (Or.inl ⟨rfl, rfl, rfl⟩)).2.1⟩

/-! ## The binary codec -/

/-- The number of a byte. -/
theorem byte_toNat (n : Nat) : (byte n).toNat = n % 256 := by
  have h : n % 256 < 256 := Nat.mod_lt _ (by decide)
  unfold byte
  have hv : (n % 256).isValidChar := by
    left
    omega
  simp [Char.ofNat, hv, Char.toNat, Char.ofNatAux, UInt32.toNat]

/-- The zig-zag mapping has `unzigzag` as its inverse. -/
theorem unzigzag_zigzag (n : Int) : unzigzag (zigzag n) = n := by
  unfold unzigzag zigzag
  by_cases h : 0 ≤ n
  · simp only [h, if_true]
    have : 2 * n.toNat % 2 = 0 := by omega
    simp only [this, if_true]
    omega
  · simp only [h, if_false]
    have h1 : (2 * (-n).toNat - 1) % 2 = 1 := by omega
    have h2 : ¬ ((2 * (-n).toNat - 1) % 2 = 0) := by omega
    simp only [h2, if_false]
    omega

/-- The range of the zig-zag mapping on 64-bit integers. -/
theorem zigzag_lt (n : Int) (h1 : -(2 : Int) ^ 63 ≤ n) (h2 : n < (2 : Int) ^ 63) :
    zigzag n < 2 ^ 64 := by
  unfold zigzag
  split <;> omega

/-- A base-128 integer is read back, whatever follows it. -/
theorem get_varint_put_varint (rest : List Char) :
    ∀ (fuel n : Nat), n < 128 ^ (fuel + 1) →
      get_varint (put_varint (fuel + 1) n ++ rest) = some (n, rest) := by
  intro fuel
  induction fuel with
  | zero =>
    intro n h
    have hn : n < 128 := by simpa using h
    have hb : n % 256 = n := Nat.mod_eq_of_lt (by omega)
    simp [put_varint, hn, get_varint, byte_toNat, hb]
  | succ fuel ih =>
    intro n h
    rw [put_varint]
    by_cases hn : n < 128
    · have hb : n % 256 = n := Nat.mod_eq_of_lt (by omega)
      simp [hn, get_varint, byte_toNat, hb]
    · have hlt : n / 128 < 128 ^ (fuel + 1) := by
        rw [Nat.div_lt_iff_lt_mul (by decide)]
        rw [pow_succ] at h
        exact h
      have hb : (n % 128 + 128) % 256 = n % 128 + 128 := Nat.mod_eq_of_lt (by omega)
      simp only [hn, if_false, List.cons_append, get_varint, byte_toNat, hb]
      have : ¬ (n % 128 + 128 < 128) := by omega
      simp only [this, if_false, ih (n / 128) hlt]
      have he : n % 128 + 128 - 128 + 128 * (n / 128) = n := by omega
      rw [he]

/-- An `int` or `long` of the 64-bit range is read back, whatever
follows it. -/
theorem get_long_put_long (n : Int) (rest : List Char)
    (h1 : -(2 : Int) ^ 63 ≤ n) (h2 : n < (2 : Int) ^ 63) :
    get_long (put_long n ++ rest) = some (n, rest) := by
  have hz := zigzag_lt n h1 h2
  have hlt : zigzag n < 128 ^ 10 := by
    have : (2 : Nat) ^ 64 < 128 ^ 10 := by norm_num
    omega
  unfold get_long put_long
  rw [get_varint_put_varint rest 9 (zigzag n) hlt]
  simp only [hz, if_true, unzigzag_zigzag]

/-- Little-endian bytes are read back, whatever follows them. -/
theorem get_le_put_le (rest : List Char) :
    ∀ (k n : Nat), n < 256 ^ k → get_le k (put_le k n ++ rest) = some (n, rest) := by
  intro k
  induction k with
  | zero => intro n h; simp at h; subst h; simp [get_le, put_le]
  | succ k ih =>
    intro n h
    have hlt : n / 256 < 256 ^ k := by
      rw [Nat.div_lt_iff_lt_mul (by decide)]
      rw [pow_succ] at h
      exact h
    have he : n % 256 + 256 * (n / 256) = n := by omega
    simp [put_le, get_le, ih (n / 256) hlt, byte_toNat, he]

/-- A length and its raw bytes are read back, whatever follows them. -/
theorem get_bytes_put_bytes (buf rest : List Char) (h : buf.length < 2 ^ 63) :
    get_bytes (put_bytes buf ++ rest) = some (buf, rest) := by
  unfold get_bytes put_bytes
  rw [List.append_assoc, get_long_put_long _ _ (by omega) (by omega)]
  simp

/-- The number of binary digits of zero. -/
theorem bit_length_zero (fuel : Nat) : bit_length fuel 0 = 0 := by
  cases fuel <;> simp [bit_length]

/-- The leading bit of a positive number is at the position
`bit_length - 1`. -/
theorem bit_length_spec :
    ∀ (fuel a : Nat), a ≤ fuel → 0 < a →
      0 < bit_length fuel a ∧ 2 ^ (bit_length fuel a - 1) ≤ a ∧ a < 2 ^ bit_length fuel a := by
  intro fuel
  induction fuel with
  | zero => intro a h1 h2; omega
  | succ fuel ih =>
    intro a h1 h2
    have ha : a ≠ 0 := by omega
    simp only [bit_length, ha, if_false, Nat.add_sub_cancel]
    by_cases h : a / 2 = 0
    · have h1' : a = 1 := by omega
      subst h1'
      simp [bit_length_zero]
    · obtain ⟨hb, hlo, hhi⟩ := ih (a / 2) (by omega) (by omega)
      refine ⟨by omega, ?_, ?_⟩
      · have hp : 2 ^ bit_length fuel (a / 2) = 2 * 2 ^ (bit_length fuel (a / 2) - 1) := by
          obtain ⟨k, hk⟩ : ∃ k, bit_length fuel (a / 2) = k + 1 := ⟨_, (Nat.succ_pred_eq_of_pos hb).symm⟩
          rw [hk, pow_succ]
          simp
          ring
        omega
      · rw [pow_succ]
        omega

/-- The fields of a bit pattern given by its sign, exponent and
fraction. -/
theorem bits_fields (P E s x f : Nat) (hf : f < P) (hx : x < E) (hs : s < 2) :
    (s * (E * P) + x * P + f) % P = f ∧
    (s * (E * P) + x * P + f) / P % E = x ∧
    (s * (E * P) + x * P + f) / (E * P) % 2 = s := by
  have hP : 0 < P := by omega
  have hE : 0 < E := by omega
  have h1 : (s * (E * P) + x * P + f) = f + P * (s * E + x) := by ring
  have hdm := (Nat.div_mod_unique hP).mpr ⟨h1.symm, hf⟩
  have h2 : (s * (E * P) + x * P + f) = (x * P + f) + (E * P) * s := by ring
  have hlt : x * P + f < E * P := by
    have : (x + 1) * P ≤ E * P := Nat.mul_le_mul_right P (by omega)
    have h3 : (x + 1) * P = x * P + P := by ring
    omega
  have hdm2 := (Nat.div_mod_unique (Nat.mul_pos hE hP)).mpr ⟨h2.symm, hlt⟩
  refine ⟨hdm.2, ?_, ?_⟩
  · rw [hdm.1]
    have h4 : s * E + x = x + E * s := by ring
    exact ((Nat.div_mod_unique hE).mpr ⟨h4.symm, hx⟩).2
  · rw [hdm2.1]
    exact Nat.mod_eq_of_lt hs

/-- The value of a bit pattern given by its sign, a biased exponent in
the range of the integral numbers, and its fraction. -/
theorem ieee_value_fields (ebits mbits s e f : Nat) (hebits : 2 ≤ ebits)
    (hf : f < 2 ^ mbits) (he : e ≤ 2 ^ (ebits - 1) - 1) (hs : s < 2) :
    ieee_value ebits mbits
        (s * 2 ^ (ebits + mbits) + (e + (2 ^ (ebits - 1) - 1)) * 2 ^ mbits + f)
      = (if mbits ≤ e then some ((2 ^ mbits + f) * 2 ^ (e - mbits))
          else if (2 ^ mbits + f) % 2 ^ (mbits - e) = 0 then
            some ((2 ^ mbits + f) / 2 ^ (mbits - e))
          else none).map (fun a => if s = 1 then -(a : Int) else (a : Int)) := by
  have hE : 2 ^ ebits = 2 * 2 ^ (ebits - 1) := by
    obtain ⟨k, rfl⟩ : ∃ k, ebits = k + 1 := ⟨ebits - 1, by omega⟩
    rw [pow_succ]
    simp
    ring
  have hb : 2 ≤ 2 ^ (ebits - 1) := by
    obtain ⟨k, rfl⟩ : ∃ k, ebits = k + 2 := ⟨ebits - 2, by omega⟩
    have : 1 ≤ 2 ^ k := Nat.one_le_two_pow
    have h2 : 2 ^ (k + 2 - 1) = 2 * 2 ^ k := by
      rw [show k + 2 - 1 = k + 1 by omega, pow_succ]
      ring
    omega
  have hx : e + (2 ^ (ebits - 1) - 1) < 2 ^ ebits := by omega
  have hpow : 2 ^ (ebits + mbits) = 2 ^ ebits * 2 ^ mbits := pow_add 2 ebits mbits
  obtain ⟨h1, h2, h3⟩ := bits_fields (2 ^ mbits) (2 ^ ebits) s (e + (2 ^ (ebits - 1) - 1)) f
    hf hx hs
  rw [← hpow] at h1 h2 h3
  have hne0 : ¬ (e + (2 ^ (ebits - 1) - 1) = 0) := by omega
  have hne1 : ¬ (e + (2 ^ (ebits - 1) - 1) = 2 ^ ebits - 1 ∨
      e + (2 ^ (ebits - 1) - 1) < 2 ^ (ebits - 1) - 1) := by omega
  simp only [ieee_value, h1, h2, h3, hne0, hne1, if_false, Nat.add_sub_cancel]

/-- The bit pattern of a non-zero integral number that the format
holds: its sign, exponent and fraction, and the number they stand for. -/
theorem ieee_bits_fields (ebits mbits : Nat) (n : Int) (hn : n ≠ 0)
    (h : is_ieee ebits mbits n) :
    ∃ s e f : Nat, s < 2 ∧ e ≤ 2 ^ (ebits - 1) - 1 ∧ f < 2 ^ mbits ∧
      ieee_bits ebits mbits n
        = s * 2 ^ (ebits + mbits) + (e + (2 ^ (ebits - 1) - 1)) * 2 ^ mbits + f ∧
      (if mbits ≤ e then some ((2 ^ mbits + f) * 2 ^ (e - mbits))
        else if (2 ^ mbits + f) % 2 ^ (mbits - e) = 0 then
          some ((2 ^ mbits + f) / 2 ^ (mbits - e))
        else none).map (fun a => if s = 1 then -(a : Int) else (a : Int)) = some n := by
  rcases h with h | ⟨hexp, hlow⟩
  · exact absurd h hn
  · have ha : 0 < n.natAbs := Int.natAbs_pos.mpr hn
    obtain ⟨hb, hlo, hhi⟩ := bit_length_spec n.natAbs n.natAbs (le_refl _) ha
    generalize hedef : bit_length n.natAbs n.natAbs - 1 = e at hexp hlow hlo
    have hhi' : n.natAbs < 2 ^ (e + 1) := by
      have : bit_length n.natAbs n.natAbs = e + 1 := by omega
      rw [this] at hhi
      exact hhi
    have hhi2 : n.natAbs < 2 * 2 ^ e := by
      rw [pow_succ] at hhi'
      omega
    obtain ⟨a, hadef⟩ : ∃ a, n.natAbs = a := ⟨_, rfl⟩
    rw [hadef] at ha hlo hhi2 hlow hedef
    have hs : (if n < 0 then 1 else 0 : Nat) < 2 := by split <;> omega
    have hsign : (if (if n < 0 then 1 else 0 : Nat) = 1 then -(a : Int) else (a : Int)) = n := by
      by_cases hneg : n < 0
      · simp only [hneg, if_true]
        have : (n.natAbs : Int) = -n := Int.ofNat_natAbs_of_nonpos (le_of_lt hneg)
        rw [hadef] at this
        omega
      · simp only [hneg, if_false, Nat.zero_ne_one]
        have : (n.natAbs : Int) = n := Int.natAbs_of_nonneg (by omega)
        rw [hadef] at this
        omega
    by_cases hcase : e ≤ mbits
    · -- the fraction is the number below its leading bit, shifted up
      have hP : 2 ^ mbits = 2 ^ e * 2 ^ (mbits - e) := by
        rw [← pow_add]
        congr 1
        omega
      have hD : 0 < 2 ^ (mbits - e) := Nat.two_pow_pos _
      have hf : (a - 2 ^ e) * 2 ^ (mbits - e) < 2 ^ mbits := by
        rw [hP]
        exact Nat.mul_lt_mul_of_pos_right (by omega) hD
      have hm : 2 ^ mbits + (a - 2 ^ e) * 2 ^ (mbits - e) = a * 2 ^ (mbits - e) := by
        rw [hP, ← Nat.add_mul]
        congr 1
        omega
      have hbits : ieee_bits ebits mbits n
          = (if n < 0 then 1 else 0) * 2 ^ (ebits + mbits)
            + (e + (2 ^ (ebits - 1) - 1)) * 2 ^ mbits + (a - 2 ^ e) * 2 ^ (mbits - e) := by
        simp only [ieee_bits, hn, if_false, hadef, hedef, hcase, if_true]
        split <;> simp
      refine ⟨_, e, _, hs, hexp, hf, hbits, ?_⟩
      rw [hm]
      by_cases heq : mbits ≤ e
      · have : mbits - e = 0 := by omega
        simp only [heq, if_true, this, pow_zero, Nat.mul_one, Option.map_some']
        have : e - mbits = 0 := by omega
        simp only [this, pow_zero, Nat.mul_one]
        exact congrArg some hsign
      · simp only [heq, if_false, Nat.mul_mod_left, if_true, Nat.mul_div_cancel _ hD,
          Option.map_some']
        exact congrArg some hsign
    · -- the fraction is the number below its leading bit, shifted down
      have hem : mbits < e := by omega
      have hlow' := hlow hem
      have hD : 0 < 2 ^ (e - mbits) := Nat.two_pow_pos _
      have hP : 2 ^ e = 2 ^ mbits * 2 ^ (e - mbits) := by
        rw [← pow_add]
        congr 1
        omega
      obtain ⟨q, hq⟩ : ∃ q, a = q * 2 ^ (e - mbits) :=
        ⟨a / 2 ^ (e - mbits), by
          have := Nat.div_add_mod a (2 ^ (e - mbits))
          rw [hlow', Nat.add_zero, Nat.mul_comm] at this
          exact this.symm⟩
      have hqlo : 2 ^ mbits ≤ q := by
        rw [hP, hq] at hlo
        exact Nat.le_of_mul_le_mul_right hlo hD
      have hqhi : q < 2 * 2 ^ mbits := by
        rw [hP, hq, ← Nat.mul_assoc] at hhi2
        exact Nat.lt_of_mul_lt_mul_right hhi2
      have hfr : (a - 2 ^ e) / 2 ^ (e - mbits) = q - 2 ^ mbits := by
        rw [hq, hP, ← Nat.sub_mul, Nat.mul_div_cancel _ hD]
      have hf : q - 2 ^ mbits < 2 ^ mbits := by omega
      have hbits : ieee_bits ebits mbits n
          = (if n < 0 then 1 else 0) * 2 ^ (ebits + mbits)
            + (e + (2 ^ (ebits - 1) - 1)) * 2 ^ mbits + (q - 2 ^ mbits) := by
        simp only [ieee_bits, hn, if_false, hadef, hedef, hcase, hfr]
        split <;> simp
      refine ⟨_, e, _, hs, hexp, hf, hbits, ?_⟩
      have hle : mbits ≤ e := by omega
      have hm : 2 ^ mbits + (q - 2 ^ mbits) = q := by omega
      simp only [hle, if_true, hm, Option.map_some', ← hq]
      exact congrArg some hsign

/-- The bit pattern of an integral number that the format holds has the
number as its value. -/
theorem ieee_value_ieee_bits (ebits mbits : Nat) (n : Int) (hebits : 2 ≤ ebits)
    (h : is_ieee ebits mbits n) :
    ieee_value ebits mbits (ieee_bits ebits mbits n) = some n := by
  by_cases hn : n = 0
  · subst hn
    simp [ieee_bits, ieee_value]
  · obtain ⟨s, e, f, hs, he, hf, hbits, hval⟩ := ieee_bits_fields ebits mbits n hn h
    rw [hbits, ieee_value_fields ebits mbits s e f hebits hf he hs]
    exact hval

/-- The bit pattern of an integral number that the format holds fits
the width of the format. -/
theorem ieee_bits_lt (ebits mbits : Nat) (n : Int) (hebits : 2 ≤ ebits)
    (h : is_ieee ebits mbits n) :
    ieee_bits ebits mbits n < 2 * 2 ^ (ebits + mbits) := by
  by_cases hn : n = 0
  · subst hn
    have : 0 < 2 ^ (ebits + mbits) := Nat.two_pow_pos _
    simp [ieee_bits]
  · obtain ⟨s, e, f, hs, he, hf, hbits, _⟩ := ieee_bits_fields ebits mbits n hn h
    have hE : 2 ^ ebits = 2 * 2 ^ (ebits - 1) := by
      obtain ⟨k, rfl⟩ : ∃ k, ebits = k + 1 := ⟨ebits - 1, by omega⟩
      rw [pow_succ]
      simp
      ring
    have hb : 1 ≤ 2 ^ (ebits - 1) := Nat.one_le_two_pow
    have hpow : 2 ^ (ebits + mbits) = 2 ^ ebits * 2 ^ mbits := pow_add 2 ebits mbits
    have h1 : (e + (2 ^ (ebits - 1) - 1) + 1) * 2 ^ mbits ≤ 2 ^ ebits * 2 ^ mbits :=
      Nat.mul_le_mul_right _ (by omega)
    have h2 : s * 2 ^ (ebits + mbits) ≤ 1 * 2 ^ (ebits + mbits) :=
      Nat.mul_le_mul_right _ (by omega)
    have h3 : (e + (2 ^ (ebits - 1) - 1) + 1) * 2 ^ mbits
        = (e + (2 ^ (ebits - 1) - 1)) * 2 ^ mbits + 2 ^ mbits := by ring
    rw [hbits]
    omega

/-- The number of binary digits of a number between two powers of 2. -/
theorem bit_length_eq (a e : Nat) (hlo : 2 ^ e ≤ a) (hhi : a < 2 ^ (e + 1)) :
    bit_length a a = e + 1 := by
  have ha : 0 < a := lt_of_lt_of_le (Nat.two_pow_pos e) hlo
  obtain ⟨hb, h1, h2⟩ := bit_length_spec a a (le_refl _) ha
  by_contra hne
  rcases Nat.lt_or_gt_of_ne hne with h | h
  · have : 2 ^ bit_length a a ≤ 2 ^ e := Nat.pow_le_pow_right (by norm_num) (by omega)
    omega
  · have : 2 ^ (e + 1) ≤ 2 ^ (bit_length a a - 1) :=
      Nat.pow_le_pow_right (by norm_num) (by omega)
    omega

/-- A bit pattern that stands for an integer is the bit pattern of that
integer, and the format holds the integer exactly. -/
theorem ieee_bits_ieee_value (ebits mbits bits : Nat) (n : Int) (hebits : 2 ≤ ebits)
    (hbits : bits < 2 * 2 ^ (ebits + mbits)) (h : ieee_value ebits mbits bits = some n) :
    is_ieee ebits mbits n ∧ ieee_bits ebits mbits n = bits := by
  have hE : 2 ^ ebits = 2 * 2 ^ (ebits - 1) := by
    obtain ⟨k, rfl⟩ : ∃ k, ebits = k + 1 := ⟨ebits - 1, by omega⟩
    rw [pow_succ]
    simp
    ring
  have hb1 : 1 ≤ 2 ^ (ebits - 1) := Nat.one_le_two_pow
  have hpow : 2 ^ (ebits + mbits) = 2 ^ ebits * 2 ^ mbits := pow_add 2 ebits mbits
  have hP : 0 < 2 ^ mbits := Nat.two_pow_pos _
  have hEP : 0 < 2 ^ (ebits + mbits) := Nat.two_pow_pos _
  -- the fields of the pattern
  obtain ⟨f, hf⟩ : ∃ f, bits % 2 ^ mbits = f := ⟨_, rfl⟩
  obtain ⟨x, hx⟩ : ∃ x, bits / 2 ^ mbits % 2 ^ ebits = x := ⟨_, rfl⟩
  obtain ⟨s, hs⟩ : ∃ s, bits / 2 ^ (ebits + mbits) % 2 = s := ⟨_, rfl⟩
  have hflt : f < 2 ^ mbits := by rw [← hf]; exact Nat.mod_lt _ hP
  have hxlt : x < 2 ^ ebits := by rw [← hx]; exact Nat.mod_lt _ (Nat.two_pow_pos _)
  have hslt : s < 2 := by rw [← hs]; exact Nat.mod_lt _ (by norm_num)
  have hdecomp : bits = s * 2 ^ (ebits + mbits) + x * 2 ^ mbits + f := by
    have h1 := Nat.div_add_mod bits (2 ^ mbits)
    have h2 := Nat.div_add_mod (bits / 2 ^ mbits) (2 ^ ebits)
    have h3 : bits / 2 ^ mbits / 2 ^ ebits = bits / 2 ^ (ebits + mbits) := by
      rw [Nat.div_div_eq_div_mul, hpow, Nat.mul_comm]
    have h4 : bits / 2 ^ (ebits + mbits) < 2 := (Nat.div_lt_iff_lt_mul hEP).mpr hbits
    have h5 : bits / 2 ^ (ebits + mbits) = s := by
      rw [← hs, Nat.mod_eq_of_lt h4]
    rw [h3, h5, hx] at h2
    rw [hf, ← h2] at h1
    rw [← h1, hpow]
    ring
  simp only [ieee_value, hf, hx, hs] at h
  by_cases hx0 : x = 0
  · simp only [hx0, if_true] at h
    by_cases hb0 : bits = 0
    · simp only [hb0, if_true, Option.some.injEq] at h
      subst h
      exact ⟨Or.inl rfl, by simp [ieee_bits, hb0]⟩
    · simp [hb0] at h
  · simp only [hx0, if_false] at h
    by_cases hx1 : x = 2 ^ ebits - 1 ∨ x < 2 ^ (ebits - 1) - 1
    · simp [hx1] at h
    · simp only [hx1, if_false] at h
      obtain ⟨e, he⟩ : ∃ e, x - (2 ^ (ebits - 1) - 1) = e := ⟨_, rfl⟩
      have hxe : x = e + (2 ^ (ebits - 1) - 1) := by omega
      have hele : e ≤ 2 ^ (ebits - 1) - 1 := by omega
      rw [he] at h
      -- the magnitude
      have key : ∀ a : Nat, 2 ^ e ≤ a → a < 2 ^ (e + 1) →
          (mbits < e → a % 2 ^ (e - mbits) = 0) →
          (if e ≤ mbits then (a - 2 ^ e) * 2 ^ (mbits - e)
            else (a - 2 ^ e) / 2 ^ (e - mbits)) = f →
          n = (if s = 1 then -(a : Int) else (a : Int)) →
          is_ieee ebits mbits n ∧ ieee_bits ebits mbits n = bits := by
        intro a hlo hhi hlow hfr hn
        have ha : 0 < a := lt_of_lt_of_le (Nat.two_pow_pos e) hlo
        have hna : n.natAbs = a := by
          rw [hn]
          split <;> simp
        have hn0 : n ≠ 0 := by
          intro h0
          rw [h0] at hna
          simp at hna
          omega
        have hbl : bit_length a a = e + 1 := bit_length_eq a e hlo hhi
        have hsign : (if n < 0 then 2 ^ (ebits + mbits) else 0) = s * 2 ^ (ebits + mbits) := by
          rw [hn]
          by_cases hs1 : s = 1
          · have : -(a : Int) < 0 := by omega
            simp [hs1, this]
          · have hs0 : s = 0 := by omega
            have : ¬ ((a : Int) < 0) := by omega
            simp [hs0, this]
        constructor
        · right
          rw [hna, hbl]
          exact ⟨by simpa using hele, by simpa using hlow⟩
        · simp only [ieee_bits, hn0, if_false, hna, hbl, Nat.add_sub_cancel, hfr, hsign]
          rw [hdecomp, hxe]
      by_cases hme : mbits ≤ e
      · simp only [hme, if_true, Option.pure_def, Option.bind_eq_bind, Option.some_bind,
          Option.map_some', Option.some.injEq] at h
        have hD : 0 < 2 ^ (e - mbits) := Nat.two_pow_pos _
        have hPe : 2 ^ e = 2 ^ mbits * 2 ^ (e - mbits) := by
          rw [← pow_add]
          congr 1
          omega
        have hPe1 : 2 ^ (e + 1) = (2 * 2 ^ mbits) * 2 ^ (e - mbits) := by
          rw [pow_succ, hPe]
          ring
        refine key ((2 ^ mbits + f) * 2 ^ (e - mbits)) ?_ ?_ ?_ ?_ h.symm
        · rw [hPe]
          exact Nat.mul_le_mul_right _ (by omega)
        · rw [hPe1]
          exact Nat.mul_lt_mul_of_pos_right (by omega) hD
        · intro _
          exact Nat.mul_mod_left _ _
        · have h1 : (2 ^ mbits + f) * 2 ^ (e - mbits) - 2 ^ e = f * 2 ^ (e - mbits) := by
            rw [hPe, ← Nat.sub_mul]
            congr 1
            omega
          rw [h1]
          by_cases hem : e ≤ mbits
          · have h0 : e - mbits = 0 := by omega
            have h0' : mbits - e = 0 := by omega
            simp [hem, h0, h0']
          · simp only [hem, if_false]
            exact Nat.mul_div_cancel _ hD
      · simp only [hme, if_false] at h
        by_cases hmod : (2 ^ mbits + f) % 2 ^ (mbits - e) = 0
        · simp only [hmod, if_true, Option.pure_def, Option.bind_eq_bind, Option.some_bind,
            Option.map_some', Option.some.injEq] at h
          have hD : 0 < 2 ^ (mbits - e) := Nat.two_pow_pos _
          have hPm : 2 ^ mbits = 2 ^ e * 2 ^ (mbits - e) := by
            rw [← pow_add]
            congr 1
            omega
          obtain ⟨a, ha⟩ : ∃ a, 2 ^ mbits + f = a * 2 ^ (mbits - e) :=
            ⟨(2 ^ mbits + f) / 2 ^ (mbits - e), by
              have := Nat.div_add_mod (2 ^ mbits + f) (2 ^ (mbits - e))
              rw [hmod, Nat.add_zero, Nat.mul_comm] at this
              exact this.symm⟩
          have hdiv : (2 ^ mbits + f) / 2 ^ (mbits - e) = a := by
            rw [ha, Nat.mul_div_cancel _ hD]
          rw [hdiv] at h
          have hlo : 2 ^ e ≤ a := by
            have h1 : 2 ^ e * 2 ^ (mbits - e) ≤ a * 2 ^ (mbits - e) := by
              rw [← hPm, ← ha]
              omega
            exact Nat.le_of_mul_le_mul_right h1 hD
          have hhi : a < 2 ^ (e + 1) := by
            have h1 : a * 2 ^ (mbits - e) < 2 ^ (e + 1) * 2 ^ (mbits - e) := by
              rw [← ha, pow_succ, Nat.mul_assoc, Nat.mul_comm 2, ← Nat.mul_assoc, ← hPm]
              omega
            exact Nat.lt_of_mul_lt_mul_right h1
          refine key a hlo hhi (fun hlt => by omega) ?_ h.symm
          have hem : e ≤ mbits := by omega
          simp only [hem, if_true]
          rw [Nat.sub_mul, ← ha, ← hPm]
          omega
        · simp [hmod] at h

/-- Every pattern of 32 bits is the encoding of a float that conforms:
the value that `decode` makes of the four bytes of the pattern.  The
same holds for the patterns of 64 bits and double. -/
theorem encode_of_bits (bits : Nat) :
    (bits < 2 ^ 32 →
      conforms (avro_value.of_float (.pattern bits)) ∧
      encode (avro_value.of_float (.pattern bits)) = some (put_le 4 bits) ∧
      decode .float (put_le 4 bits) = some (avro_value.of_float (.pattern bits), [])) ∧
    (bits < 2 ^ 64 →
      conforms (avro_value.of_double (.pattern bits)) ∧
      encode (avro_value.of_double (.pattern bits)) = some (put_le 8 bits) ∧
      decode .double (put_le 8 bits) = some (avro_value.of_double (.pattern bits), [])) := by
  constructor
  · intro hb
    have hdec : decode .float (put_le 4 bits)
        = some (avro_value.of_float (.pattern bits), []) := by
      have := get_le_put_le [] 4 bits (by norm_num at hb ⊢; exact hb)
      simp only [List.append_nil] at this
      simp [decode, this]
    refine ⟨?_, ?_, hdec⟩
    · cases hv : ieee_value 8 23 bits with
      | none =>
        simp only [avro_value.of_float, hv, conforms]
        exact ⟨hb, trivial⟩
      | some n =>
        simp only [avro_value.of_float, hv, conforms]
        exact (ieee_bits_ieee_value 8 23 bits n (by norm_num) (by norm_num; omega) hv).1
    · cases hv : ieee_value 8 23 bits with
      | none => simp [avro_value.of_float, hv, encode]
      | some n =>
        simp only [avro_value.of_float, hv, encode]
        rw [(ieee_bits_ieee_value 8 23 bits n (by norm_num) (by norm_num; omega) hv).2]
  · intro hb
    have hdec : decode .double (put_le 8 bits)
        = some (avro_value.of_double (.pattern bits), []) := by
      have := get_le_put_le [] 8 bits (by norm_num at hb ⊢; exact hb)
      simp only [List.append_nil] at this
      simp [decode, this]
    refine ⟨?_, ?_, hdec⟩
    · cases hv : ieee_value 11 52 bits with
      | none =>
        simp only [avro_value.of_double, hv, conforms]
        exact ⟨hb, trivial⟩
      | some n =>
        simp only [avro_value.of_double, hv, conforms]
        exact (ieee_bits_ieee_value 11 52 bits n (by norm_num) (by norm_num; omega) hv).1
    · cases hv : ieee_value 11 52 bits with
      | none => simp [avro_value.of_double, hv, encode]
      | some n =>
        simp only [avro_value.of_double, hv, encode]
        rw [(ieee_bits_ieee_value 11 52 bits n (by norm_num) (by norm_num; omega) hv).2]

/-- An encoded integer takes at least one byte. -/
theorem put_long_length (n : Int) : 0 < (put_long n).length := by
  unfold put_long
  rw [put_varint]
  split <;> simp

/-- The blocks of an array or a map are read back, whatever follows
them, when the items are. -/
theorem get_blocks_put_blocks {α : Type} (item : List Char → Option (α × List Char))
    (as : List α) (bs rest : List Char) (hlen : as.length < 2 ^ 63)
    (hitems : ∀ rest', get_items item as.length (bs ++ rest') = some (as, rest')) :
    get_blocks item ((put_blocks as.length bs ++ rest).length + 1)
      (put_blocks as.length bs ++ rest) = some (as, rest) := by
  have hz : get_long (put_long 0 ++ rest) = some (0, rest) :=
    get_long_put_long 0 rest (by norm_num) (by norm_num)
  have hend : ∀ fuel, get_blocks item (fuel + 1) (put_long 0 ++ rest) = some ([], rest) := by
    intro fuel
    simp [get_blocks, hz]
  by_cases h0 : as.length = 0
  · have hnil : as = [] := List.length_eq_zero.mp h0
    subst hnil
    simp only [put_blocks, List.length_nil, if_true]
    exact hend _
  · have hpos : 0 < (put_long 0).length := put_long_length 0
    obtain ⟨fuel, hfuel⟩ : ∃ fuel, (put_blocks as.length bs ++ rest).length + 1 = fuel + 2 := by
      refine ⟨(put_blocks as.length bs ++ rest).length - 1, ?_⟩
      simp only [put_blocks, h0, if_false, List.length_append]
      omega
    rw [hfuel]
    have hcount : get_long (put_long (as.length : Int) ++ (bs ++ (put_long 0 ++ rest)))
        = some ((as.length : Int), bs ++ (put_long 0 ++ rest)) :=
      get_long_put_long _ _ (by omega) (by omega)
    have hne : ¬ ((as.length : Int) = 0) := by omega
    have hnn : ¬ ((as.length : Int) < 0) := by omega
    simp only [put_blocks, h0, if_false, List.append_assoc]
    rw [get_blocks]
    simp only [hcount, hne, hnn, if_false, Int.toNat_ofNat, hitems, hend, List.append_nil]

/-- The branch of a union with a given index is decoded by the schema
at this index. -/
theorem decode_branch_eq (inp : List Char) (schema : avro_schema_t) :
    ∀ (branches : List avro_schema_t) (d : Nat), branches[d]? = some schema →
      decode_branch branches d inp = decode schema inp := by
  intro branches
  induction branches with
  | nil => intro d h; simp at h
  | cons s rest ih =>
    intro d h
    cases d with
    | zero =>
      simp at h
      subst h
      simp [decode_branch]
    | succ d =>
      simp at h
      simp [decode_branch, ih d h]
mutual
/-- The encoding of a conforming value exists and is decoded, by the
schema of the value, to the value itself, whatever follows it. -/
theorem decode_encode : ∀ (v : avro_value), conforms v →
    ∃ bs, encode v = some bs ∧
      ∀ rest, decode (avro_value.schema v) (bs ++ rest) = some (v, rest)
  | .null, _ => ⟨[], by simp [encode], by intro rest; simp [avro_value.schema, decode]⟩
  | .boolean b, _ => by
    refine ⟨_, rfl, ?_⟩
    intro rest
    cases b <;> simp [avro_value.schema, decode, byte_toNat]
  | .int val, h => by
    simp only [conforms] at h
    refine ⟨_, rfl, ?_⟩
    intro rest
    simp only [avro_value.schema, decode]
    rw [get_long_put_long val rest (by omega) (by omega)]
    simp only [h, and_self, if_true]
  | .long val, h => by
    simp only [conforms] at h
    refine ⟨_, rfl, ?_⟩
    intro rest
    simp only [avro_value.schema, decode]
    rw [get_long_put_long val rest h.1 h.2]
  | .float val, h => by
    simp only [conforms] at h
    refine ⟨_, rfl, ?_⟩
    intro rest
    have hlt := ieee_bits_lt 8 23 val (by decide) h
    simp only [avro_value.schema, decode]
    rw [get_le_put_le rest 4 _ (by norm_num at hlt ⊢; omega)]
    simp only [avro_value.of_float, ieee_value_ieee_bits 8 23 val (by decide) h]
  | .double val, h => by
    simp only [conforms] at h
    refine ⟨_, rfl, ?_⟩
    intro rest
    have hlt := ieee_bits_lt 11 52 val (by decide) h
    simp only [avro_value.schema, decode]
    rw [get_le_put_le rest 8 _ (by norm_num at hlt ⊢; omega)]
    simp only [avro_value.of_double, ieee_value_ieee_bits 11 52 val (by decide) h]
  | .float_bits bits, h => by
    simp only [conforms] at h
    refine ⟨_, rfl, ?_⟩
    intro rest
    simp only [avro_value.schema, decode]
    rw [get_le_put_le rest 4 _ (by norm_num at h ⊢; omega)]
    simp only [avro_value.of_float, h.2]
  | .double_bits bits, h => by
    simp only [conforms] at h
    refine ⟨_, rfl, ?_⟩
    intro rest
    simp only [avro_value.schema, decode]
    rw [get_le_put_le rest 8 _ (by norm_num at h ⊢; omega)]
    simp only [avro_value.of_double, h.2]
  | .bytes buf, h => by
    simp only [conforms] at h
    refine ⟨_, rfl, ?_⟩
    intro rest
    simp only [avro_value.schema, decode]
    rw [get_bytes_put_bytes buf rest h]
  | .string buf, h => by
    simp only [conforms] at h
    refine ⟨_, rfl, ?_⟩
    intro rest
    have hne : buf ≠ [] := by
      intro hnil
      simp [hnil] at h
    have hlen : buf.dropLast.length < 2 ^ 63 := by
      have := List.length_pos.mpr hne
      simp only [List.length_dropLast]
      omega
    have hbuf : buf.dropLast ++ [NUL] = buf := by
      have hlast := List.dropLast_append_getLast? NUL (by simpa using h.2)
      exact hlast
    simp only [avro_value.schema, decode]
    rw [get_bytes_put_bytes buf.dropLast rest hlen]
    simp only [hbuf]
  | .fixed name size buf, h => by
    simp only [conforms] at h
    refine ⟨_, rfl, ?_⟩
    intro rest
    subst h
    simp [avro_value.schema, decode]
  | .enum name symbols val, h => by
    simp only [conforms] at h
    refine ⟨_, rfl, ?_⟩
    intro rest
    simp only [avro_value.schema, decode]
    rw [get_long_put_long val rest (by omega) (by omega)]
    simp [h.1, h.2.1]
  | .array items elements, h => by
    simp only [conforms] at h
    obtain ⟨bs, hbs, hdec⟩ := decode_encode_elements items elements h.2
    refine ⟨put_blocks elements.length bs, by simp [encode, hbs], ?_⟩
    intro rest
    simp only [avro_value.schema, decode]
    rw [get_blocks_put_blocks (decode items) elements bs rest h.1 hdec]
  | .map values entries, h => by
    simp only [conforms] at h
    obtain ⟨bs, hbs, hdec⟩ := decode_encode_entries values entries h.2.2
    refine ⟨put_blocks entries.length bs, by simp [encode, hbs], ?_⟩
    intro rest
    simp only [avro_value.schema, decode]
    rw [get_blocks_put_blocks (get_entry (decode values)) entries bs rest h.1 hdec]
  | .union branches (some (d, b)), h => by
    simp only [conforms] at h
    obtain ⟨bs, hbs, hdec⟩ := decode_encode b h.2.2
    refine ⟨put_long d ++ bs, by simp [encode, hbs], ?_⟩
    intro rest
    simp only [avro_value.schema, decode, List.append_assoc]
    rw [get_long_put_long (d : Int) (bs ++ rest) (by omega) (by omega)]
    simp [decode_branch_eq (bs ++ rest) (avro_value.schema b) branches d h.2.1, hdec]
  | .union _ none, h => by
    simp [conforms] at h
  | .record name fields, h => by
    simp only [conforms] at h
    obtain ⟨bs, hbs, hdec⟩ := decode_encode_fields fields h
    refine ⟨bs, by simp [encode, hbs], ?_⟩
    intro rest
    simp only [avro_value.schema, decode, hdec]
/-- The encodings of conforming array elements are decoded to the
elements, one after the other. -/
theorem decode_encode_elements (items : avro_schema_t) :
    ∀ (elements : List avro_value), conforms_elements items elements →
    ∃ bs, encode_elements elements = some bs ∧
      ∀ rest, get_items (decode items) elements.length (bs ++ rest) = some (elements, rest)
  | [], _ => ⟨[], by simp [encode_elements], by intro rest; simp [get_items]⟩
  | e :: es, h => by
    simp only [conforms_elements] at h
    obtain ⟨a, ha, hdec⟩ := decode_encode e h.2.1
    obtain ⟨b, hb, hdecs⟩ := decode_encode_elements items es h.2.2
    refine ⟨a ++ b, by simp [encode_elements, ha, hb], ?_⟩
    intro rest
    rw [h.1] at hdec
    simp only [List.length_cons, get_items, List.append_assoc, hdec, hdecs]
/-- The encodings of conforming map entries are decoded to the entries,
one after the other. -/
theorem decode_encode_entries (values : avro_schema_t) :
    ∀ (entries : List (String × avro_value)), conforms_entries values entries →
    ∃ bs, encode_entries entries = some bs ∧
      ∀ rest, get_items (get_entry (decode values)) entries.length (bs ++ rest)
        = some (entries, rest)
  | [], _ => ⟨[], by simp [encode_entries], by intro rest; simp [get_items]⟩
  | (k, v) :: es, h => by
    simp only [conforms_entries] at h
    obtain ⟨a, ha, hdec⟩ := decode_encode v h.2.2.1
    obtain ⟨b, hb, hdecs⟩ := decode_encode_entries values es h.2.2.2
    refine ⟨put_bytes k.data ++ a ++ b, by simp [encode_entries, ha, hb], ?_⟩
    intro rest
    rw [h.2.1] at hdec
    have hk : get_bytes (put_bytes k.data ++ (a ++ (b ++ rest))) = some (k.data, a ++ (b ++ rest)) :=
      get_bytes_put_bytes k.data _ h.1
    simp only [List.length_cons, get_items, List.append_assoc, get_entry, hk, hdec, hdecs]
/-- The encodings of conforming record fields are decoded to the
fields, one after the other. -/
theorem decode_encode_fields :
    ∀ (fields : List (String × avro_value)), conforms_fields fields →
    ∃ bs, encode_fields fields = some bs ∧
      ∀ rest, decode_fields (avro_value.fieldSchemas fields) (bs ++ rest) = some (fields, rest)
  | [], _ => ⟨[], by simp [encode_fields], by
      intro rest; simp [avro_value.fieldSchemas, decode_fields]⟩
  | (k, v) :: fs, h => by
    simp only [conforms_fields] at h
    obtain ⟨a, ha, hdec⟩ := decode_encode v h.1
    obtain ⟨b, hb, hdecs⟩ := decode_encode_fields fs h.2
    refine ⟨a ++ b, by simp [encode_fields, ha, hb], ?_⟩
    intro rest
    simp only [avro_value.fieldSchemas, decode_fields, List.append_assoc, hdec, hdecs]
end

/-- An entry of a list with unique keys is the one found under its key. -/
theorem lookupKey_of_mem {α : Type} :
    ∀ (l : List (String × α)), (l.map (fun e => e.1)).Nodup →
      ∀ e ∈ l, lookupKey e.1 l = some e.2 := by
  intro l
  induction l with
  | nil => intro _ e he; simp at he
  | cons a rest ih =>
    intro hnd e he
    obtain ⟨k, x⟩ := a
    simp only [List.map_cons, List.nodup_cons] at hnd
    rcases List.mem_cons.mp he with h | h
    · subst h
      simp [lookupKey]
    · have hne : k ≠ e.1 := by
        intro heq
        apply hnd.1
        rw [heq]
        exact List.mem_map_of_mem (fun e => e.1) h
      simp [lookupKey, hne, ih hnd.2 e h]

mutual
/-- A conforming value equals itself. -/
theorem equal_self : ∀ (v : avro_value), conforms v → v.equal v = true
  | .null, _ => by simp [avro_value.equal]
  | .boolean _, _ => by simp [avro_value.equal]
  | .int _, _ => by simp [avro_value.equal]
  | .long _, _ => by simp [avro_value.equal]
  | .float _, _ => by simp [avro_value.equal]
  | .double _, _ => by simp [avro_value.equal]
  | .float_bits _, _ => by simp [avro_value.equal]
  | .double_bits _, _ => by simp [avro_value.equal]
  | .bytes _, _ => by simp [avro_value.equal]
  | .string _, _ => by simp [avro_value.equal]
  | .fixed _ _ _, _ => by simp [avro_value.equal]
  | .enum _ _ _, _ => by simp [avro_value.equal]
  | .array items elements, h => by
    simp only [conforms] at h
    simp [avro_value.equal, equal_elements_self items elements h.2]
  | .map values entries, h => by
    simp only [conforms] at h
    simp [avro_value.equal,
      equal_entries_sub values entries entries h.2.2 (lookupKey_of_mem entries h.2.1)]
  | .union _ (some (d, b)), h => by
    simp only [conforms] at h
    simp [avro_value.equal, equal_self b h.2.2]
  | .union _ none, _ => by simp [avro_value.equal]
  | .record _ fields, h => by
    simp only [conforms] at h
    simp [avro_value.equal, equal_fields_self fields h]
/-- Conforming array elements equal themselves. -/
theorem equal_elements_self (items : avro_schema_t) :
    ∀ (elements : List avro_value), conforms_elements items elements →
      avro_value.equal_elements elements elements = true
  | [], _ => by simp [avro_value.equal_elements]
  | e :: es, h => by
    simp only [conforms_elements] at h
    simp [avro_value.equal_elements, equal_self e h.2.1, equal_elements_self items es h.2.2]
/-- Conforming map entries equal the entries of a map that holds them
under their keys. -/
theorem equal_entries_sub (values : avro_schema_t) :
    ∀ (entries l : List (String × avro_value)), conforms_entries values entries →
      (∀ e ∈ entries, lookupKey e.1 l = some e.2) →
      avro_value.equal_entries entries l = true
  | [], _, _, _ => by simp [avro_value.equal_entries]
  | (k, v) :: es, l, h, hl => by
    simp only [conforms_entries] at h
    have hk := hl (k, v) (List.mem_cons_self _ _)
    simp only at hk
    simp [avro_value.equal_entries, hk, equal_self v h.2.2.1,
      equal_entries_sub values es l h.2.2.2 (fun e he => hl e (List.mem_cons_of_mem _ he))]
/-- Conforming record fields equal themselves. -/
theorem equal_fields_self :
    ∀ (fields : List (String × avro_value)), conforms_fields fields →
      avro_value.equal_fields fields fields = true
  | [], _ => by simp [avro_value.equal_fields]
  | (_, v) :: fs, h => by
    simp only [conforms_fields] at h
    simp [avro_value.equal_fields, equal_self v h.1, equal_fields_self fs h.2]
end

mutual
/-- A schema equals itself. -/
theorem avro_schema_equal_self : ∀ (s : avro_schema_t), avro_schema_equal s s = true
  | .string => by simp [avro_schema_equal]
  | .bytes => by simp [avro_schema_equal]
  | .int => by simp [avro_schema_equal]
  | .long => by simp [avro_schema_equal]
  | .float => by simp [avro_schema_equal]
  | .double => by simp [avro_schema_equal]
  | .boolean => by simp [avro_schema_equal]
  | .null => by simp [avro_schema_equal]
  | .record _ fields => by simp [avro_schema_equal, avro_schema_equal_fields_self fields]
  | .enum _ _ => by simp [avro_schema_equal]
  | .fixed _ _ => by simp [avro_schema_equal]
  | .map values => by simp [avro_schema_equal, avro_schema_equal_self values]
  | .array items => by simp [avro_schema_equal, avro_schema_equal_self items]
  | .union branches => by simp [avro_schema_equal, avro_schema_equal_branches_self branches]
/-- The fields of a record schema equal themselves. -/
theorem avro_schema_equal_fields_self :
    ∀ (fields : List (String × avro_schema_t)), avro_schema_equal_fields fields fields = true
  | [] => by simp [avro_schema_equal_fields]
  | (_, s) :: rest => by
    simp [avro_schema_equal_fields, avro_schema_equal_self s, avro_schema_equal_fields_self rest]
/-- The branches of a union schema equal themselves. -/
theorem avro_schema_equal_branches_self :
    ∀ (branches : List avro_schema_t), avro_schema_equal_branches branches branches = true
  | [] => by simp [avro_schema_equal_branches]
  | s :: rest => by
    simp [avro_schema_equal_branches, avro_schema_equal_self s,
      avro_schema_equal_branches_self rest]
end

/-- C18: the binary round trip through the binding, with the codec
modelled from the specification.  For a live value `v` that conforms to
its schema, `encode()` returns a string (a buffer being available: the
size is at most 65536, or `malloc` gives a block); a resolved writer is
made for the schema of `v` as writer and reader; decoding the string
with it into a fresh value of that schema succeeds (it returns `true`)
and leaves in the destination a value that `__eq` finds equal to `v`. -/
theorem binary_round_trip
    (resolve : avro_resolver → avro_value → Except String avro_value)
    (avro_resolved_writer_new : avro_schema_t → avro_schema_t → Except String avro_resolver)
    (static_buf : Nat → Char) (malloc : Nat → Option (Nat → Char))
    (heap : List avro_value) (err : String) (value : Ref) (d d' r : Nat) (v : avro_value)
    (hlive : deref heap value = some v) (hconf : conforms v)
    (hdest : heap[r]? = some (avro_generic_value_new (avro_value.schema v)))
    (hne : r ≠ value.root)
    (hres : avro_resolved_writer_new (avro_value.schema v) (avro_value.schema v)
      = .ok ⟨avro_value.schema v, avro_value.schema v⟩)
    (hmem : ∀ bs, encode v = some bs → bs.length ≤ 65536 ∨ (malloc bs.length).isSome) :
    ∃ s : String,
      l_value_encode (binary_codec resolve) static_buf malloc
          ⟨[.avro_value value d], heap, err⟩
        = .ok 1 ⟨[.avro_value value d, .string s], heap, err⟩ ∧
      l_resolved_writer_new avro_resolved_writer_new
          ⟨[.avro_schema (avro_value.schema v), .avro_schema (avro_value.schema v)], heap, err⟩
        = .ok 1 ⟨[.avro_schema (avro_value.schema v), .avro_schema (avro_value.schema v),
            .resolved_writer (some ⟨avro_value.schema v, avro_value.schema v⟩)], heap, err⟩ ∧
      l_resolved_writer_decode (binary_codec resolve)
          ⟨[.resolved_writer (some ⟨avro_value.schema v, avro_value.schema v⟩), .string s,
            .avro_value ⟨r, []⟩ d'], heap, err⟩
        = .ok 1 ⟨[.resolved_writer (some ⟨avro_value.schema v, avro_value.schema v⟩),
            .string s, .avro_value ⟨r, []⟩ d', .boolean true], heap.set r v, err⟩ ∧
      l_value_eq ⟨[.avro_value ⟨r, []⟩ d', .avro_value value d], heap.set r v, err⟩
        = .ok 1 ⟨[.avro_value ⟨r, []⟩ d', .avro_value value d, .boolean true],
            heap.set r v, err⟩ := by
  obtain ⟨bs, hbs, hdec⟩ := decode_encode v hconf
  have hdec0 : decode (avro_value.schema v) bs = some (v, []) := by
    have := hdec []
    rwa [List.append_nil] at this
  have hr : r < heap.length := by
    rcases Nat.lt_or_ge r heap.length with h | h
    · exact h
    · simp [List.getElem?_eq_none h] at hdest
  refine ⟨⟨bs⟩, ?_, ?_, ?_, ?_⟩
  · -- encode
    rw [l_value_encode_eq (binary_codec resolve) static_buf malloc heap err value d v hlive]
    have hsize : (binary_codec resolve).avro_value_sizeof v = .ok bs.length := by
      simp [binary_codec, hbs]
    have hwrite : (binary_codec resolve).avro_value_write v bs.length = .ok bs := by
      simp [binary_codec, hbs]
    simp only [hsize, hwrite]
    have hbuf : ∃ buf, (if bs.length ≤ 65536 then some (c_block static_buf 65536)
        else (malloc bs.length).map (fun block => c_block block bs.length)) = some buf := by
      by_cases h1 : bs.length ≤ 65536
      · exact ⟨c_block static_buf 65536, by simp [h1]⟩
      · rcases hmem bs hbs with h | h
        · exact absurd h h1
        · obtain ⟨block, hblock⟩ := Option.isSome_iff_exists.mp h
          exact ⟨c_block block bs.length, by simp [h1, hblock]⟩
    obtain ⟨buf, hbuf⟩ := hbuf
    simp only [hbuf, List.take_left]
  · -- the resolved writer
    rw [(show l_resolved_writer_new avro_resolved_writer_new
        ⟨[.avro_schema (avro_value.schema v), .avro_schema (avro_value.schema v)], heap, err⟩
        = .ok 1 ⟨[.avro_schema (avro_value.schema v), .avro_schema (avro_value.schema v),
            .resolved_writer (some ⟨avro_value.schema v, avro_value.schema v⟩)], heap, err⟩ from by
      have h1 : index2adr ⟨[.avro_schema (avro_value.schema v),
          .avro_schema (avro_value.schema v)], heap, err⟩ 1
          = some (.avro_schema (avro_value.schema v)) := rfl
      have h2 : index2adr ⟨[.avro_schema (avro_value.schema v),
          .avro_schema (avro_value.schema v)], heap, err⟩ 2
          = some (.avro_schema (avro_value.schema v)) := rfl
      simp only [l_resolved_writer_new, lua_avro_get_schema, luaL_checkudata_schema, h1, h2,
        library_call, hres, LuaM.bind_apply, LuaM.pure_apply]
      simp [lua_avro_push_resolved_writer, push])]
  · -- decode
    have h1 : index2adr ⟨[.resolved_writer (some ⟨avro_value.schema v, avro_value.schema v⟩),
        .string ⟨bs⟩, .avro_value ⟨r, []⟩ d'], heap, err⟩ 1
        = some (.resolved_writer (some ⟨avro_value.schema v, avro_value.schema v⟩)) := rfl
    have h2 : index2adr ⟨[.resolved_writer (some ⟨avro_value.schema v, avro_value.schema v⟩),
        .string ⟨bs⟩, .avro_value ⟨r, []⟩ d'], heap, err⟩ 2
        = some (.string ⟨bs⟩) := rfl
    have h3 : index2adr ⟨[.resolved_writer (some ⟨avro_value.schema v, avro_value.schema v⟩),
        .string ⟨bs⟩, .avro_value ⟨r, []⟩ d'], heap, err⟩ 3
        = some (.avro_value ⟨r, []⟩ d') := rfl
    have hd : deref heap ⟨r, []⟩ = some (avro_generic_value_new (avro_value.schema v)) := by
      simp [deref, hdest, avro_value.at]
    have hread : (binary_codec resolve).avro_value_read
        ⟨avro_value.schema v, avro_value.schema v⟩ bs
        (avro_generic_value_new (avro_value.schema v)) = .ok v := by
      simp [binary_codec, hdec0, avro_schema_equal_self]
    have hstore : ∀ stk, store ⟨stk, heap, err⟩ ⟨r, []⟩ (fun _ => some v)
        = some ⟨stk, heap.set r v, err⟩ := by
      intro stk
      simp [store, hdest, avro_value.update]
    simp only [l_resolved_writer_decode, luaL_checkudata_resolved_writer, h1, luaL_checklstring,
      lua_tolstring, h2, lua_avro_get_value, luaL_checkudata_value, h3, avro_value_read, hd,
      hread, hstore, LuaM.bind_apply, LuaM.pure_apply]
    simp [lua_pushboolean, push]
  · -- equality
    have h1 : index2adr ⟨[.avro_value ⟨r, []⟩ d', .avro_value value d], heap.set r v, err⟩ 1
        = some (.avro_value ⟨r, []⟩ d') := rfl
    have h2 : index2adr ⟨[.avro_value ⟨r, []⟩ d', .avro_value value d], heap.set r v, err⟩ 2
        = some (.avro_value value d) := rfl
    have hd1 : deref (heap.set r v) ⟨r, []⟩ = some v := by
      simp [deref, hr, avro_value.at]
    have hd2 : deref (heap.set r v) value = some v := by
      rw [← hlive]
      simp only [deref]
      rw [List.getElem?_set_ne hne]
    simp only [l_value_eq, lua_avro_get_value, luaL_checkudata_value, h1, h2, avro_value_equal,
      hd1, hd2, equal_self v hconf, LuaM.bind_apply, LuaM.pure_apply]
    simp [lua_pushboolean, push]

/-- Witness of C18: a record with an int field, a string field and a
float field that holds 0.5. -/
theorem binary_round_trip_witness :
    deref [avro_value.record "P" [("x", .int 5), ("y", .string ['h', 'i', NUL]),
          ("f", .float_bits 1056964608)],
        .record "P" [("x", .int 0), ("y", .string [NUL]), ("f", .float 0)]] ⟨0, []⟩
      = some (.record "P" [("x", .int 5), ("y", .string ['h', 'i', NUL]),
          ("f", .float_bits 1056964608)]) ∧
    conforms (.record "P" [("x", .int 5), ("y", .string ['h', 'i', NUL]),
          ("f", .float_bits 1056964608)]) ∧
    [avro_value.record "P" [("x", .int 5), ("y", .string ['h', 'i', NUL]),
          ("f", .float_bits 1056964608)],
        .record "P" [("x", .int 0), ("y", .string [NUL]), ("f", .float 0)]][1]?
      = some (avro_generic_value_new
          (avro_value.schema (.record "P" [("x", .int 5), ("y", .string ['h', 'i', NUL]),
          ("f", .float_bits 1056964608)]))) ∧
    ∃ s : String,
      l_value_encode (binary_codec (fun _ w => .ok w)) (fun _ => NUL) (fun _ => none)
          ⟨[.avro_value ⟨0, []⟩ 1],
            [.record "P" [("x", .int 5), ("y", .string ['h', 'i', NUL]),
          ("f", .float_bits 1056964608)],
              .record "P" [("x", .int 0), ("y", .string [NUL]), ("f", .float 0)]], ""⟩
        = .ok 1 ⟨[.avro_value ⟨0, []⟩ 1, .string s],
            [.record "P" [("x", .int 5), ("y", .string ['h', 'i', NUL]),
          ("f", .float_bits 1056964608)],
              .record "P" [("x", .int 0), ("y", .string [NUL]), ("f", .float 0)]], ""⟩ ∧
      l_value_eq ⟨[.avro_value ⟨1, []⟩ 1, .avro_value ⟨0, []⟩ 1],
          [avro_value.record "P" [("x", .int 5), ("y", .string ['h', 'i', NUL]),
          ("f", .float_bits 1056964608)],
            .record "P" [("x", .int 0), ("y", .string [NUL]), ("f", .float 0)]].set 1
            (.record "P" [("x", .int 5), ("y", .string ['h', 'i', NUL]),
          ("f", .float_bits 1056964608)]), ""⟩
        = .ok 1 ⟨[.avro_value ⟨1, []⟩ 1, .avro_value ⟨0, []⟩ 1, .boolean true],
          [avro_value.record "P" [("x", .int 5), ("y", .string ['h', 'i', NUL]),
          ("f", .float_bits 1056964608)],
            .record "P" [("x", .int 0), ("y", .string [NUL]), ("f", .float 0)]].set 1
            (.record "P" [("x", .int 5), ("y", .string ['h', 'i', NUL]),
          ("f", .float_bits 1056964608)]), ""⟩ :=
  ⟨rfl, by simp [conforms, conforms_fields, ieee_value], rfl,
    match binary_round_trip (fun _ w => .ok w) (fun w r => .ok ⟨w, r⟩) (fun _ => NUL)
        (fun _ => none)
        [.record "P" [("x", .int 5), ("y", .string ['h', 'i', NUL]),
          ("f", .float_bits 1056964608)],
          .record "P" [("x", .int 0), ("y", .string [NUL]), ("f", .float 0)]] "" ⟨0, []⟩ 1 1 1
        (.record "P" [("x", .int 5), ("y", .string ['h', 'i', NUL]),
          ("f", .float_bits 1056964608)])
        rfl (by simp [conforms, conforms_fields, ieee_value]) rfl (by decide) rfl
        (fun bs h => Or.inl (by
          have hb : bs = put_long 5 ++ (put_bytes ['h', 'i'] ++ put_le 4 1056964608) := by
            simp [encode, encode_fields] at h
            exact h.symm
          rw [hb]
          simp [put_long, put_bytes, put_varint, zigzag, put_le])) with
    | ⟨s, h1, _, _, h4⟩ => ⟨s, h1, h4⟩⟩

/-! ## The module function `Value` -/

/-- C23 (the code at every input): the module function `Value`, in
legacy.c and in avro.c, returns `nil` whatever its arguments are, a
JSON string included; no value is created. -/
theorem l_value_new_returns_nil (stk : List LuaVal) (heap : List avro_value) (err : String) :
    l_value_new ⟨stk, heap, err⟩ = .ok 1 ⟨stk ++ [.nil], heap, err⟩ ∧
    Datum.l_datum_new ⟨stk, heap, err⟩ = .ok 1 ⟨stk ++ [.nil], heap, err⟩ ∧
    returned (l_value_new ⟨[.string "\x7b\"type\": \"string\"\x7d"], heap, err⟩) = some [.nil] ∧
    returned (Datum.l_datum_new ⟨[.string "\x7b\"type\": \"string\"\x7d"], heap, err⟩)
      = some [.nil] :=
  ⟨rfl, rfl, rfl, rfl⟩

/-! ## set() and scalar() of a string and of an enum -/

/-- What `scalar()` does on a live string value: the bytes of the
buffer before its last one are returned. -/
theorem l_value_scalar_string (heap : List avro_value) (err : String) (value : Ref) (d : Nat)
    (buf : List Char) (hlive : deref heap value = some (.string buf)) :
    l_value_scalar ⟨[.avro_value value d], heap, err⟩
      = .ok 1 ⟨[.avro_value value d, .string ⟨buf.take (buf.length - 1)⟩], heap, err⟩ := by
  have hself : index2adr ⟨[.avro_value value d], heap, err⟩ 1
      = some (.avro_value value d) := rfl
  simp only [l_value_scalar, lua_avro_get_value, luaL_checkudata_value, hself,
    lua_avro_push_scalar_or_value, avro_value_get_type, hlive, avro_value.type,
    LuaM.bind_apply, LuaM.pure_apply]
  simp [check, avro_value_get_string, avro_value_getter, hlive, lua_pushlstring, push]

/-- C21: the string round trip of legacy.c.  On a live string value,
`set(s)` with any Lua string `s` (empty, or with zero bytes) returns
normally; the value then holds the bytes of `s` and a terminator, and
`scalar()` returns exactly `s`. -/
theorem l_value_set_string_scalar (heap : List avro_value) (err : String) (value : Ref)
    (d : Nat) (buf : List Char) (s : String)
    (hlive : deref heap value = some (.string buf)) :
    ∃ heap',
      l_value_set ⟨[.avro_value value d, .string s], heap, err⟩
        = .ok 1 ⟨[.avro_value value d, .string s, .avro_value value d], heap', err⟩ ∧
      deref heap' value = some (.string (s.data ++ [NUL])) ∧
      l_value_scalar ⟨[.avro_value value d], heap', err⟩
        = .ok 1 ⟨[.avro_value value d, .string s], heap', err⟩ := by
  have hself : index2adr ⟨[.avro_value value d, .string s], heap, err⟩ 1
      = some (.avro_value value d) := rfl
  have hval : index2adr ⟨[.avro_value value d, .string s], heap, err⟩ 2
      = some (.string s) := rfl
  have hset : ∃ heap', avro_value_set_string_len value (s.data ++ [NUL]) (s.length + 1)
        ⟨[.avro_value value d, .string s], heap, err⟩
        = .ok (some ()) ⟨[.avro_value value d, .string s], heap', err⟩ ∧
      deref heap' value = some (.string ((s.data ++ [NUL]).take (s.length + 1))) := by
    unfold avro_value_set_string_len
    exact avro_value_setter_eq _ _ _ _ _ _ _ _ hlive rfl
  obtain ⟨heap', hset, hd⟩ := hset
  rw [take_terminated] at hd
  refine ⟨heap', ?_, hd, ?_⟩
  · have hdisp : l_value_set ⟨[.avro_value value d, .string s], heap, err⟩
        = set_scalar_value 1 2 ⟨[.avro_value value d, .string s], heap, err⟩ := by
      simp [l_value_set, lua_gettop]
    rw [hdisp]
    simp only [set_scalar_value, lua_avro_get_value, luaL_checkudata_value, hself,
      avro_value_get_type, hlive, avro_value.type, luaL_checklstring, lua_tolstring, hval,
      check, hset, LuaM.bind_apply, LuaM.pure_apply]
    simp [lua_pushvalue, push, index2adr]
  · rw [l_value_scalar_string heap' err value d _ hd]
    simp
/-- Witness of C21: a string with a zero byte in it. -/
theorem l_value_set_string_scalar_witness :
    deref [avro_value.string [NUL]] ⟨0, []⟩ = some (.string [NUL]) ∧
    ∃ heap',
      l_value_set ⟨[.avro_value ⟨0, []⟩ 1, .string "a\x00b"], [.string [NUL]], ""⟩
        = .ok 1 ⟨[.avro_value ⟨0, []⟩ 1, .string "a\x00b", .avro_value ⟨0, []⟩ 1],
            heap', ""⟩ ∧
      deref heap' ⟨0, []⟩ = some (.string ("a\x00b".data ++ [NUL])) ∧
      l_value_scalar ⟨[.avro_value ⟨0, []⟩ 1], heap', ""⟩
        = .ok 1 ⟨[.avro_value ⟨0, []⟩ 1, .string "a\x00b"], heap', ""⟩ :=
  ⟨rfl, l_value_set_string_scalar [.string [NUL]] "" ⟨0, []⟩ 1 [NUL] "a\x00b" rfl⟩

/-- What `scalar()` does on a live enum value whose index is the index
of a symbol: the symbol is returned, as a C string. -/
theorem l_value_scalar_enum (heap : List avro_value) (err : String) (value : Ref) (d : Nat)
    (name : String) (symbols : List String) (i : Nat) (sym : String)
    (hlive : deref heap value = some (.enum name symbols (i : Int)))
    (hsym : symbols[i]? = some sym) :
    l_value_scalar ⟨[.avro_value value d], heap, err⟩
      = .ok 1 ⟨[.avro_value value d, .string (cstr sym)], heap, err⟩ := by
  have hself : index2adr ⟨[.avro_value value d], heap, err⟩ 1
      = some (.avro_value value d) := rfl
  simp only [l_value_scalar, lua_avro_get_value, luaL_checkudata_value, hself,
    lua_avro_push_scalar_or_value, avro_value_get_type, hlive, avro_value.type,
    LuaM.bind_apply, LuaM.pure_apply]
  simp [check, avro_value_get_enum, avro_value_getter, avro_value_get_schema, hlive,
    avro_value.schema, avro_schema_enum_get, hsym, lua_pushstring, push]

/-- C22 (counterexample): an enum of the symbols "RED" and "GREEN" and
the string "GREEN", a zero byte, "junk", which is no symbol: `set` hands
it to the library as a C string, which ends at the zero byte; `set` does
not raise, and the value holds the index of "GREEN". -/
theorem l_value_set_enum_of_prefix :
    "GREEN\x00junk" ∉ ["RED", "GREEN"] ∧
    cstr "GREEN\x00junk" = "GREEN" ∧
    l_value_set ⟨[.avro_value ⟨0, []⟩ 1, .string "GREEN\x00junk"],
        [.enum "c" ["RED", "GREEN"] 0], ""⟩
      = .ok 1 ⟨[.avro_value ⟨0, []⟩ 1, .string "GREEN\x00junk", .avro_value ⟨0, []⟩ 1],
          [.enum "c" ["RED", "GREEN"] 1], ""⟩ :=
  ⟨by decide, by decide, rfl⟩

/-- C22 (amended): `set` of an enum value in legacy.c, the argument read
as a C string (the bytes before its first zero byte).  On a live enum
value, when the argument is a symbol of the schema, `set(sym)` returns
normally, the value holds the index of that symbol and `scalar()`
returns the symbol; when it is not a symbol of the schema, `set(sym)`
raises "No symbol named " followed by the argument, and the heap, hence
the stored index, is what it was. -/
theorem l_value_set_enum (heap : List avro_value) (err : String) (value : Ref) (d : Nat)
    (name : String) (symbols : List String) (val : Int) (sym : String)
    (hlive : deref heap value = some (.enum name symbols val)) :
    (cstr sym ∈ symbols →
      ∃ heap' i,
        l_value_set ⟨[.avro_value value d, .string sym], heap, err⟩
          = .ok 1 ⟨[.avro_value value d, .string sym, .avro_value value d], heap', err⟩ ∧
        deref heap' value = some (.enum name symbols (i : Nat)) ∧
        symbols[i]? = some (cstr sym) ∧
        l_value_scalar ⟨[.avro_value value d], heap', err⟩
          = .ok 1 ⟨[.avro_value value d, .string (cstr sym)], heap', err⟩) ∧
    (cstr sym ∉ symbols →
      l_value_set ⟨[.avro_value value d, .string sym], heap, err⟩
        = .raise (.string ("No symbol named " ++ cstr sym))
            ⟨[.avro_value value d, .string sym, .string ("No symbol named " ++ cstr sym)],
              heap, err⟩) := by
  have hself : index2adr ⟨[.avro_value value d, .string sym], heap, err⟩ 1
      = some (.avro_value value d) := rfl
  have hval : index2adr ⟨[.avro_value value d, .string sym], heap, err⟩ 2
      = some (.string sym) := rfl
  have hdisp : l_value_set ⟨[.avro_value value d, .string sym], heap, err⟩
      = set_scalar_value 1 2 ⟨[.avro_value value d, .string sym], heap, err⟩ := by
    simp [l_value_set, lua_gettop]
  constructor
  · intro hmem
    obtain ⟨i, hfind, hget⟩ := findIdx?_mem symbols (cstr sym) hmem
    have hset : ∃ heap', avro_value_set_enum value (i : Nat)
          ⟨[.avro_value value d, .string sym], heap, err⟩
          = .ok (some ()) ⟨[.avro_value value d, .string sym], heap', err⟩ ∧
        deref heap' value = some (.enum name symbols (i : Nat)) := by
      unfold avro_value_set_enum
      exact avro_value_setter_eq _ _ _ _ _ _ _ _ hlive rfl
    obtain ⟨heap', hset, hd⟩ := hset
    refine ⟨heap', i, ?_, hd, hget, ?_⟩
    · rw [hdisp]
      have hnn : ¬ ((i : Int) < 0) := by omega
      simp only [set_scalar_value, lua_avro_get_value, luaL_checkudata_value, hself,
        avro_value_get_type, hlive, avro_value.type, luaL_checkstring, luaL_checklstring,
        lua_tolstring, hval, avro_value_get_schema, avro_value.schema,
        avro_schema_enum_get_by_name, hfind, hnn, if_false, check, hset, LuaM.bind_apply,
        LuaM.pure_apply]
      simp [lua_pushvalue, push, index2adr]
    · rw [l_value_scalar_enum heap' err value d name symbols i (cstr sym) hd hget, cstr_cstr]
  · intro hnot
    have hfind : findIdx? (fun s => s == cstr sym) symbols = none := by
      apply findIdx?_eq_none
      intro a ha
      simp only [beq_eq_false_iff_ne, ne_eq]
      intro heq
      exact hnot (heq ▸ ha)
    rw [hdisp]
    simp only [set_scalar_value, lua_avro_get_value, luaL_checkudata_value, hself,
      avro_value_get_type, hlive, avro_value.type, luaL_checkstring, luaL_checklstring,
      lua_tolstring, hval, avro_value_get_schema, avro_value.schema,
      avro_schema_enum_get_by_name, hfind, LuaM.bind_apply, LuaM.pure_apply]
    simp [luaL_error, lua_pushliteral, push, lua_error, index2adr]

/-- Witness of C22 (amended): the second symbol of an enum of two. -/
theorem l_value_set_enum_witness :
    deref [avro_value.enum "color" ["RED", "GREEN"] 0] ⟨0, []⟩
      = some (.enum "color" ["RED", "GREEN"] 0) ∧
    cstr "GREEN" ∈ ["RED", "GREEN"] ∧
    ∃ heap' i,
      l_value_set ⟨[.avro_value ⟨0, []⟩ 1, .string "GREEN"],
          [.enum "color" ["RED", "GREEN"] 0], ""⟩
        = .ok 1 ⟨[.avro_value ⟨0, []⟩ 1, .string "GREEN", .avro_value ⟨0, []⟩ 1],
            heap', ""⟩ ∧
      deref heap' ⟨0, []⟩ = some (.enum "color" ["RED", "GREEN"] (i : Nat)) ∧
      ["RED", "GREEN"][i]? = some (cstr "GREEN") ∧
      l_value_scalar ⟨[.avro_value ⟨0, []⟩ 1], heap', ""⟩
        = .ok 1 ⟨[.avro_value ⟨0, []⟩ 1, .string (cstr "GREEN")], heap', ""⟩ :=
  ⟨rfl, by decide,
    (l_value_set_enum [.enum "color" ["RED", "GREEN"] 0] "" ⟨0, []⟩ 1 "color"
      ["RED", "GREEN"] 0 "GREEN" rfl).1 (by decide)⟩

/-! ## The buffer of encode() -/

/-- What `encode()` of avro.c does on a live datum, by what the
library's consumers and `malloc` do. -/
theorem l_datum_encode_eq (sizeof_consumer : avro_value → Nat)
    (encoding_consumer : avro_value → Nat → Except String (List Char))
    (static_buf : Nat → Char) (malloc : Nat → Option (Nat → Char))
    (heap : List avro_value) (err : String) (datum : Ref) (schema : Option avro_schema_t)
    (v : avro_value) (hlive : deref heap datum = some v) :
    Datum.l_datum_encode sizeof_consumer encoding_consumer static_buf malloc
        ⟨[.avro_datum datum schema], heap, err⟩
      = if sizeof_consumer v ≤ 65536 then
          match encoding_consumer v (sizeof_consumer v) with
          | .error msg => .ok 2 ⟨[.avro_datum datum schema, .nil, .string (cstr msg)], heap, msg⟩
          | .ok written => .ok 1 ⟨[.avro_datum datum schema,
              .string ⟨(written ++ (c_block static_buf 65536).drop written.length).take
                (sizeof_consumer v)⟩], heap, err⟩
        else
          match malloc (sizeof_consumer v) with
          | none => .ok 2 ⟨[.avro_datum datum schema, .nil, .string "Out of memory"], heap, err⟩
          | some _ => .undefined := by
  have hself : index2adr ⟨[.avro_datum datum schema], heap, err⟩ 1
      = some (.avro_datum datum schema) := rfl
  simp only [Datum.l_datum_encode, Datum.luaL_checkudata_datum, hself,
    Datum.avro_consume_sizeof, hlive, LuaM.bind_apply, LuaM.pure_apply]
  by_cases hs : sizeof_consumer v ≤ 65536
  · simp only [hs, if_true]
    cases hw : encoding_consumer v (sizeof_consumer v) with
    | error msg =>
      simp [Datum.avro_consume_encoding, hlive, hw, avro_strerror, avro_set_error, lua_pushnil,
        lua_pushstring, push]
    | ok written =>
      simp [Datum.avro_consume_encoding, hlive, hw, lua_pushlstring, push]
  · simp only [hs, if_false]
    cases malloc (sizeof_consumer v) with
    | none => simp [lua_pushnil, lua_pushstring, push, cstr, NUL]
    | some block => simp [Datum.undefined_behaviour]
/-- What the two `encode()` do on a live bytes value of at least 65536
bytes, whose encoding has more than 65536 bytes, with a `malloc` that
gives a block: legacy.c returns the encoding, avro.c uses a variable
that was never assigned. -/
theorem l_datum_encode_large (heap : List avro_value) (err : String) (ref : Ref) (d : Nat)
    (schema : Option avro_schema_t) (buf : List Char) (static_buf block : Nat → Char)
    (hlive : deref heap ref = some (.bytes buf)) (hbuf : 65536 ≤ buf.length) :
    Datum.l_datum_encode (fun v => ((encode v).getD []).length)
        (binary_codec (fun _ w => .ok w)).avro_value_write static_buf (fun _ => some block)
        ⟨[.avro_datum ref schema], heap, err⟩
      = .undefined ∧
    l_value_encode (binary_codec (fun _ w => .ok w)) static_buf (fun _ => some block)
        ⟨[.avro_value ref d], heap, err⟩
      = .ok 1 ⟨[.avro_value ref d, .string ⟨put_bytes buf⟩], heap, err⟩ := by
  have henc : encode (.bytes buf) = some (put_bytes buf) := rfl
  have hlen : (put_bytes buf).length = (put_long (buf.length : Nat)).length + buf.length := by
    simp only [put_bytes, List.length_append]
  have hpos := put_long_length ((buf.length : Nat) : Int)
  have hbig : ¬ ((put_bytes buf).length ≤ 65536) := by omega
  constructor
  · rw [l_datum_encode_eq _ _ _ _ heap err ref schema (.bytes buf) hlive]
    simp only [henc, Option.getD_some]
    rw [if_neg hbig]
  · rw [l_value_encode_eq _ _ _ heap err ref d (.bytes buf) hlive]
    have hsize : (binary_codec (fun _ w => .ok w)).avro_value_sizeof (.bytes buf)
        = .ok (put_bytes buf).length := by
      simp only [binary_codec, henc]
    have hwrite : (binary_codec (fun _ w => .ok w)).avro_value_write (.bytes buf)
        (put_bytes buf).length = .ok (put_bytes buf) := by
      simp only [binary_codec, henc, le_refl, if_true]
    simp only [hsize, hwrite]
    rw [if_neg hbig]
    simp only [Option.map_some', List.take_left]

/-- C24 (the code at the failing input): a bytes value of 65536 bytes
has an encoding of more than 65536 bytes.  With a `malloc` that gives a
block, `encode()` of legacy.c writes into the block and returns the
encoding; `encode()` of avro.c hands the memory writer its variable
`buf`, which was never assigned: the block went to the variable of the
same name that the `else` block declares. -/
theorem l_datum_encode_unassigned_buffer :
    Datum.l_datum_encode (fun v => ((encode v).getD []).length)
        (binary_codec (fun _ w => .ok w)).avro_value_write (fun _ => NUL)
        (fun _ => some (fun _ => NUL))
        ⟨[.avro_datum ⟨0, []⟩ (some .bytes)], [.bytes (List.replicate 65536 NUL)], ""⟩
      = .undefined ∧
    l_value_encode (binary_codec (fun _ w => .ok w)) (fun _ => NUL)
        (fun _ => some (fun _ => NUL))
        ⟨[.avro_value ⟨0, []⟩ 1], [.bytes (List.replicate 65536 NUL)], ""⟩
      = .ok 1 ⟨[.avro_value ⟨0, []⟩ 1, .string ⟨put_bytes (List.replicate 65536 NUL)⟩],
          [.bytes (List.replicate 65536 NUL)], ""⟩ :=
  l_datum_encode_large [.bytes (List.replicate 65536 NUL)] "" ⟨0, []⟩ 1 (some .bytes)
    (List.replicate 65536 NUL) (fun _ => NUL) (fun _ => NUL) rfl
    (le_of_eq (List.length_replicate 65536 NUL).symm)

/-! ## iterate() of avro.c -/

/-- C27 (the code at the failing input): on an array of arrays of ints
with one element, `iterate()` of avro.c makes an iterator state whose
element schema is the schema of the array itself; the first pair of the
iteration carries a wrapper of the element bound to that schema, the
array of arrays, while `get(1)` returns a wrapper of the same element
bound to the items schema, the array of ints. -/
theorem l_datum_iterate_element_schema :
    Datum.l_datum_iterate
        ⟨[.avro_datum ⟨0, []⟩ (some (.array (.array .int)))],
          [.array (.array .int) [.array .int [.int 1]]], ""⟩
      = .ok 3 ⟨[.avro_datum ⟨0, []⟩ (some (.array (.array .int))),
          .cfunction "iterate_array",
          .datum_iterator ⟨0, []⟩ (some (.array (.array .int))) 0, .nil],
          [.array (.array .int) [.array .int [.int 1]]], ""⟩ ∧
    Datum.iterate_array
        ⟨[.datum_iterator ⟨0, []⟩ (some (.array (.array .int))) 0, .nil],
          [.array (.array .int) [.array .int [.int 1]]], ""⟩
      = .ok 2 ⟨[.datum_iterator ⟨0, []⟩ (some (.array (.array .int))) 1, .nil, .number 1,
          .avro_datum ⟨0, [.index 0]⟩ (some (.array (.array .int)))],
          [.array (.array .int) [.array .int [.int 1]]], ""⟩ ∧
    Datum.l_datum_get
        ⟨[.avro_datum ⟨0, []⟩ (some (.array (.array .int))), .number 1],
          [.array (.array .int) [.array .int [.int 1]]], ""⟩
      = .ok 1 ⟨[.avro_datum ⟨0, []⟩ (some (.array (.array .int))), .number 1,
          .avro_datum ⟨0, [.index 0]⟩ (some (.array .int))],
          [.array (.array .int) [.array .int [.int 1]]], ""⟩ :=
  ⟨rfl, rfl, rfl⟩

/-! ## Failures that leave the values as they are -/

theorem keeps_heap_bind {α β : Type} (m : LuaM α) (f : α → LuaM β)
    (hm : keeps_heap m) (hf : ∀ a, keeps_heap (f a)) : keeps_heap (m >>= f) := by
  intro L
  have h1 := hm L
  simp only [LuaM.bind_apply]
  cases hmL : m L with
  | ok a L1 =>
    rw [hmL] at h1
    have h2 := hf a L1
    simp only [Res.keeps_heap] at h1
    simp only
    cases hf1 : f a L1 with
    | ok b L2 => rw [hf1] at h2; simp only [Res.keeps_heap] at h2 ⊢; rw [h2, h1]
    | raise msg L2 => rw [hf1] at h2; simp only [Res.keeps_heap] at h2 ⊢; rw [h2, h1]
    | undefined => trivial
  | raise msg L1 => rw [hmL] at h1; exact h1
  | undefined => trivial

theorem keeps_heap_pure {α : Type} (a : α) : keeps_heap (pure a : LuaM α) := by
  intro L
  simp only [LuaM.pure_apply, Res.keeps_heap]

theorem raise_keeps_heap_of_keeps {α : Type} (m : LuaM α) (hm : keeps_heap m) :
    raise_keeps_heap m := by
  intro L
  have h1 := hm L
  cases hmL : m L with
  | ok a L1 => trivial
  | raise msg L1 => rw [hmL] at h1; exact h1
  | undefined => trivial

/-- A raise after a step that keeps the heap. -/
theorem raise_keeps_heap_bind {α β : Type} (m : LuaM α) (f : α → LuaM β)
    (hm : keeps_heap m) (hf : ∀ a, raise_keeps_heap (f a)) : raise_keeps_heap (m >>= f) := by
  intro L
  have h1 := hm L
  simp only [LuaM.bind_apply]
  cases hmL : m L with
  | ok a L1 =>
    rw [hmL] at h1
    have h2 := hf a L1
    simp only [Res.keeps_heap] at h1
    simp only
    cases hf1 : f a L1 with
    | ok b L2 => trivial
    | raise msg L2 => rw [hf1] at h2; simp only [Res.raise_keeps_heap] at h2 ⊢; rw [h2, h1]
    | undefined => trivial
  | raise msg L1 => rw [hmL] at h1; exact h1
  | undefined => trivial

/-- A raise of a step that is followed by steps that do not raise. -/
theorem raise_keeps_heap_bind_last {α β : Type} (m : LuaM α) (f : α → LuaM β)
    (hm : raise_keeps_heap m) (hf : ∀ a, never_raises (f a)) :
    raise_keeps_heap (m >>= f) := by
  intro L
  have h1 := hm L
  simp only [LuaM.bind_apply]
  cases hmL : m L with
  | ok a L1 =>
    have h2 := hf a L1
    simp only
    cases hf1 : f a L1 with
    | ok b L2 => trivial
    | raise msg L2 => rw [hf1] at h2; exact h2.elim
    | undefined => trivial
  | raise msg L1 => rw [hmL] at h1; exact h1
  | undefined => trivial

theorem never_raises_bind {α β : Type} (m : LuaM α) (f : α → LuaM β)
    (hm : never_raises m) (hf : ∀ a, never_raises (f a)) : never_raises (m >>= f) := by
  intro L
  have h1 := hm L
  simp only [LuaM.bind_apply]
  cases hmL : m L with
  | ok a L1 => exact hf a L1
  | raise msg L1 => rw [hmL] at h1; exact h1
  | undefined => trivial

theorem never_raises_pure {α : Type} (a : α) : never_raises (pure a : LuaM α) := by
  intro L
  simp only [LuaM.pure_apply, Res.never_raises]

theorem setidx_heap (L : lua_State) (idx : Int) (v : LuaVal) : (setidx L idx v).heap = L.heap := by
  unfold setidx
  split
  · rfl
  · split <;> rfl

theorem keeps_heap_push (v : LuaVal) : keeps_heap (push v) := by
  intro L
  simp only [push, Res.keeps_heap]

theorem never_raises_push (v : LuaVal) : never_raises (push v) := by
  intro L
  simp only [push, Res.never_raises]

theorem keeps_heap_lua_pushvalue (idx : Int) : keeps_heap (lua_pushvalue idx) := by
  intro L
  simp only [lua_pushvalue, push, Res.keeps_heap]

theorem never_raises_lua_pushvalue (idx : Int) : never_raises (lua_pushvalue idx) := by
  intro L
  simp only [lua_pushvalue, push, Res.never_raises]

theorem keeps_heap_lua_error {α : Type} : keeps_heap (lua_error : LuaM α) := by
  intro L
  simp only [lua_error, Res.keeps_heap]

theorem keeps_heap_luaL_error {α : Type} (msg : String) : keeps_heap (luaL_error msg : LuaM α) := by
  unfold luaL_error
  exact keeps_heap_bind _ _ (keeps_heap_push _) (fun _ => keeps_heap_lua_error)

theorem keeps_heap_luaL_typerror {α : Type} (narg : Int) (tname : String) :
    keeps_heap (luaL_typerror narg tname : LuaM α) := by
  intro L
  exact @keeps_heap_luaL_error α _ L

theorem keeps_heap_lua_tolstring (idx : Int) : keeps_heap (lua_tolstring idx) := by
  intro L
  simp only [lua_tolstring]
  split <;> simp only [Res.keeps_heap, setidx_heap]

theorem keeps_heap_luaL_checklstring (narg : Int) : keeps_heap (luaL_checklstring narg) := by
  unfold luaL_checklstring
  refine keeps_heap_bind _ _ (keeps_heap_lua_tolstring _) (fun a => ?_)
  cases a with
  | none => exact keeps_heap_luaL_typerror _ _
  | some s => exact keeps_heap_pure _

theorem keeps_heap_luaL_checkstring (narg : Int) : keeps_heap (luaL_checkstring narg) := by
  unfold luaL_checkstring
  exact keeps_heap_bind _ _ (keeps_heap_luaL_checklstring _) (fun _ => keeps_heap_pure _)

theorem keeps_heap_lua_isnumber (idx : Int) : keeps_heap (lua_isnumber idx) := by
  intro L
  simp only [lua_isnumber, Res.keeps_heap]

theorem keeps_heap_lua_tointeger (idx : Int) : keeps_heap (lua_tointeger idx) := by
  intro L
  simp only [lua_tointeger]
  split <;> simp only [Res.keeps_heap]

theorem keeps_heap_luaL_checkinteger (narg : Int) : keeps_heap (luaL_checkinteger narg) := by
  unfold luaL_checkinteger
  refine keeps_heap_bind _ _ (keeps_heap_lua_isnumber _) (fun b => ?_)
  cases b
  · exact keeps_heap_luaL_typerror _ _
  · exact keeps_heap_lua_tointeger _

theorem keeps_heap_luaL_checknumber (narg : Int) : keeps_heap (luaL_checknumber narg) := by
  intro L
  simp only [luaL_checknumber]
  split
  · simp only [Res.keeps_heap]
  · exact keeps_heap_luaL_typerror _ _ L

theorem keeps_heap_lua_toboolean (idx : Int) : keeps_heap (lua_toboolean idx) := by
  intro L
  simp only [lua_toboolean]
  split <;> simp only [Res.keeps_heap]

theorem keeps_heap_luaL_optstring (narg : Int) : keeps_heap (luaL_optstring narg) := by
  intro L
  simp only [luaL_optstring]
  split
  · simp only [Res.keeps_heap]
  · simp only [Res.keeps_heap]
  · exact keeps_heap_bind _ _ (keeps_heap_luaL_checkstring _) (fun _ => keeps_heap_pure _) L

theorem keeps_heap_lua_avro_get_value (index : Int) : keeps_heap (lua_avro_get_value index) := by
  unfold lua_avro_get_value
  refine keeps_heap_bind _ _ ?_ (fun _ => keeps_heap_pure _)
  intro L
  simp only [luaL_checkudata_value]
  split
  · simp only [Res.keeps_heap]
  · exact keeps_heap_luaL_typerror _ _ L

theorem keeps_heap_avro_value_get_type (value : Ref) : keeps_heap (avro_value_get_type value) := by
  intro L
  simp only [avro_value_get_type]
  split <;> simp only [Res.keeps_heap]

theorem keeps_heap_avro_value_get_schema (value : Ref) :
    keeps_heap (avro_value_get_schema value) := by
  intro L
  simp only [avro_value_get_schema]
  split <;> simp only [Res.keeps_heap]

theorem keeps_heap_lua_avro_error {α : Type} : keeps_heap (lua_avro_error : LuaM α) := by
  unfold lua_avro_error
  refine keeps_heap_bind _ _ ?_ (fun s => keeps_heap_bind _ _ ?_ (fun _ => keeps_heap_lua_error))
  · intro L
    simp only [avro_strerror, Res.keeps_heap]
  · unfold lua_pushstring
    exact keeps_heap_push _

/-- The `check` of a call of the library that keeps the heap. -/
theorem keeps_heap_check {α : Type} (call : LuaM (Option α)) (h : keeps_heap call) :
    keeps_heap (check call) := by
  unfold check
  refine keeps_heap_bind _ _ h (fun a => ?_)
  cases a with
  | none => exact keeps_heap_lua_avro_error
  | some a => exact keeps_heap_pure _

/-- The `check` of a setter of the library: when it raises, nothing was
stored. -/
theorem raise_keeps_heap_check_setter (upd : avro_value → Option avro_value) (msg : String)
    (value : Ref) : raise_keeps_heap (check (avro_value_setter upd msg value)) := by
  intro L
  have hk := @keeps_heap_lua_avro_error Unit (avro_set_error msg L)
  cases hd : deref L.heap value with
  | none => simp [check, LuaM.bind_apply, avro_value_setter, hd, Res.raise_keeps_heap]
  | some val =>
    cases hs : store L value upd with
    | some L1 =>
      simp [check, LuaM.bind_apply, avro_value_setter, hd, hs, Res.raise_keeps_heap,
        LuaM.pure_apply]
    | none =>
      simp only [check, LuaM.bind_apply, avro_value_setter, hd, hs]
      revert hk
      cases lua_avro_error (avro_set_error msg L) <;>
        simp [Res.raise_keeps_heap, Res.keeps_heap, avro_set_error]

/-- The end of every branch of `set_scalar_value`, after the setter. -/
theorem never_raises_push_self (self_index : Int) :
    never_raises (do lua_pushvalue self_index; return (1 : Int)) :=
  never_raises_bind _ _ (never_raises_lua_pushvalue _) (fun _ => never_raises_pure _)

/-- When `set_scalar_value` raises, the values of the library are what
they were: every error comes before the setter stores anything. -/
theorem raise_keeps_heap_set_scalar_value (self_index val_index : Int) :
    raise_keeps_heap (set_scalar_value self_index val_index) := by
  unfold set_scalar_value
  refine raise_keeps_heap_bind _ _ (keeps_heap_lua_avro_get_value _) (fun value => ?_)
  refine raise_keeps_heap_bind _ _ (keeps_heap_avro_value_get_type _) (fun t => ?_)
  cases t <;> simp only []
  case AVRO_STRING =>
    refine raise_keeps_heap_bind _ _ (keeps_heap_luaL_checklstring _) (fun str => ?_)
    unfold avro_value_set_string_len
    exact raise_keeps_heap_bind_last _ _ (raise_keeps_heap_check_setter _ _ _)
      (fun _ => never_raises_push_self _)
  case AVRO_BYTES =>
    refine raise_keeps_heap_bind _ _ (keeps_heap_luaL_checklstring _) (fun str => ?_)
    unfold avro_value_set_bytes
    exact raise_keeps_heap_bind_last _ _ (raise_keeps_heap_check_setter _ _ _)
      (fun _ => never_raises_push_self _)
  case AVRO_INT32 =>
    refine raise_keeps_heap_bind _ _ (keeps_heap_luaL_checkinteger _) (fun i => ?_)
    unfold avro_value_set_int
    exact raise_keeps_heap_bind_last _ _ (raise_keeps_heap_check_setter _ _ _)
      (fun _ => never_raises_push_self _)
  case AVRO_INT64 =>
    refine raise_keeps_heap_bind _ _ (keeps_heap_luaL_checkinteger _) (fun i => ?_)
    unfold avro_value_set_long
    exact raise_keeps_heap_bind_last _ _ (raise_keeps_heap_check_setter _ _ _)
      (fun _ => never_raises_push_self _)
  case AVRO_FLOAT =>
    refine raise_keeps_heap_bind _ _ (keeps_heap_luaL_checknumber _) (fun n => ?_)
    unfold avro_value_set_float
    exact raise_keeps_heap_bind_last _ _ (raise_keeps_heap_check_setter _ _ _)
      (fun _ => never_raises_push_self _)
  case AVRO_DOUBLE =>
    refine raise_keeps_heap_bind _ _ (keeps_heap_luaL_checknumber _) (fun n => ?_)
    unfold avro_value_set_double
    exact raise_keeps_heap_bind_last _ _ (raise_keeps_heap_check_setter _ _ _)
      (fun _ => never_raises_push_self _)
  case AVRO_BOOLEAN =>
    refine raise_keeps_heap_bind _ _ (keeps_heap_lua_toboolean _) (fun b => ?_)
    unfold avro_value_set_boolean
    exact raise_keeps_heap_bind_last _ _ (raise_keeps_heap_check_setter _ _ _)
      (fun _ => never_raises_push_self _)
  case AVRO_NULL =>
    unfold avro_value_set_null
    exact raise_keeps_heap_bind_last _ _ (raise_keeps_heap_check_setter _ _ _)
      (fun _ => never_raises_push_self _)
  case AVRO_ENUM =>
    refine raise_keeps_heap_bind _ _ (keeps_heap_luaL_checkstring _) (fun symbol => ?_)
    refine raise_keeps_heap_bind _ _ (keeps_heap_avro_value_get_schema _) (fun schema => ?_)
    split
    · exact raise_keeps_heap_of_keeps _ (keeps_heap_luaL_error _)
    · unfold avro_value_set_enum
      exact raise_keeps_heap_bind_last _ _ (raise_keeps_heap_check_setter _ _ _)
        (fun _ => never_raises_push_self _)
  case AVRO_FIXED =>
    refine raise_keeps_heap_bind _ _ (keeps_heap_luaL_checklstring _) (fun str => ?_)
    unfold avro_value_set_fixed
    exact raise_keeps_heap_bind_last _ _ (raise_keeps_heap_check_setter _ _ _)
      (fun _ => never_raises_push_self _)
  all_goals
    exact raise_keeps_heap_of_keeps _
      (keeps_heap_bind _ _ (keeps_heap_push _) (fun _ => keeps_heap_lua_error))

/-! ## What `append(v)` leaves behind when it raises -/

/-- C26, counterexample: `append("x")` on an array of ints holding 10
raises, the string being no number, and the array then holds two
elements, 10 and a fresh 0; `append(7)` on an empty array of arrays
raises, the element being no scalar, and the array then holds one
element, a fresh empty array. -/
theorem l_value_append_grows_on_error :
    l_value_append ⟨[.avro_value ⟨0, []⟩ 1, .string "x"], [.array .int [.int 10]], ""⟩
      = .raise (.string "bad argument #2 (number expected, got string)")
          ⟨[.avro_value ⟨0, []⟩ 1, .string "x", .avro_value ⟨0, [.index 1]⟩ NO_DESTRUCTOR,
            .string "bad argument #2 (number expected, got string)"],
           [.array .int [.int 10, .int 0]], ""⟩ ∧
    l_value_append ⟨[.avro_value ⟨0, []⟩ 1, .number 7], [.array (.array .int) []], ""⟩
      = .raise (.string "Avro value isn't a scalar")
          ⟨[.avro_value ⟨0, []⟩ 1, .number 7, .avro_value ⟨0, [.index 0]⟩ NO_DESTRUCTOR,
            .string "Avro value isn't a scalar"],
           [.array (.array .int) [.array .int []]], ""⟩ :=
  ⟨rfl, rfl⟩

/-- C26, amended: whenever `append(v)` raises on a live array, the array
holds its former elements, unchanged and in their order, followed by one
fresh element of the items schema: the element is appended before the
argument is looked at, and the error leaves it there. -/
theorem l_value_append_error_state (heap : List avro_value) (err : String) (value : Ref)
    (d : Nat) (items : avro_schema_t) (elements : List avro_value) (x msg : LuaVal)
    (L' : lua_State)
    (hlive : deref heap value = some (.array items elements))
    (hraise : l_value_append ⟨[.avro_value value d, x], heap, err⟩ = .raise msg L') :
    deref L'.heap value
      = some (.array items (elements ++ [avro_generic_value_new items])) := by
  obtain ⟨heap1, happ, hd1⟩ :=
    avro_value_append_eq [.avro_value value d, x] heap err value items elements hlive
  have hself : index2adr ⟨[.avro_value value d, x], heap, err⟩ 1
      = some (.avro_value value d) := rfl
  have hk := raise_keeps_heap_set_scalar_value (-1) 2
    ⟨[.avro_value value d, x,
      .avro_value (value.child (.index elements.length)) NO_DESTRUCTOR], heap1, err⟩
  simp only [l_value_append, lua_gettop, lua_avro_get_value, luaL_checkudata_value, hself,
    avro_value_get_type, hlive, avro_value.type, check, happ, LuaM.bind_apply,
    LuaM.pure_apply] at hraise
  simp [happ, lua_avro_push_value, push] at hraise
  rw [hraise] at hk
  simp only [Res.raise_keeps_heap] at hk
  rw [hk]
  exact hd1

/-- Witness of C26: `append("x")` on an array of ints holding 10. -/
theorem l_value_append_error_state_witness :
    deref [avro_value.array .int [.int 10]] ⟨0, []⟩ = some (.array .int [.int 10]) ∧
    l_value_append ⟨[.avro_value ⟨0, []⟩ 1, .string "x"], [.array .int [.int 10]], ""⟩
      = .raise (.string "bad argument #2 (number expected, got string)")
          ⟨[.avro_value ⟨0, []⟩ 1, .string "x", .avro_value ⟨0, [.index 1]⟩ NO_DESTRUCTOR,
            .string "bad argument #2 (number expected, got string)"],
           [.array .int [.int 10, .int 0]], ""⟩ ∧
    deref [avro_value.array .int [.int 10, .int 0]] ⟨0, []⟩
      = some (.array .int ([.int 10] ++ [avro_generic_value_new .int])) :=
  ⟨rfl, rfl,
    l_value_append_error_state [.array .int [.int 10]] "" ⟨0, []⟩ 1 .int [.int 10]
      (.string "x") (.string "bad argument #2 (number expected, got string)")
      ⟨[.avro_value ⟨0, []⟩ 1, .string "x", .avro_value ⟨0, [.index 1]⟩ NO_DESTRUCTOR,
        .string "bad argument #2 (number expected, got string)"],
       [.array .int [.int 10, .int 0]], ""⟩ rfl rfl⟩

/-! ## Navigation that fails leaves the values as they are -/

theorem LuaM.pure_bind {α β : Type} (a : α) (f : α → LuaM β) :
    (pure a : LuaM α) >>= f = f a := by
  funext L
  simp only [LuaM.bind_apply, LuaM.pure_apply]

theorem fails_clean_bind {α : Type} (m : LuaM α) (f : α → LuaM Int)
    (hm : keeps_heap m) (hf : ∀ a, fails_clean (f a)) : fails_clean (m >>= f) := by
  intro L
  have h1 := hm L
  simp only [LuaM.bind_apply]
  cases hmL : m L with
  | ok a L1 =>
    rw [hmL] at h1
    have h2 := hf a L1
    simp only [Res.keeps_heap] at h1
    simp only
    cases hf1 : f a L1 with
    | ok b L2 =>
      rw [hf1] at h2
      simp only [Res.fails_clean] at h2 ⊢
      rw [← h1]
      exact h2
    | raise msg L2 =>
      rw [hf1] at h2
      simp only [Res.fails_clean] at h2 ⊢
      rw [h2, h1]
    | undefined => trivial
  | raise msg L1 => rw [hmL] at h1; exact h1
  | undefined => trivial

theorem fails_clean_bind_one {α : Type} (m : LuaM α) (f : α → LuaM Int)
    (hm : raise_keeps_heap m) (hf : ∀ a, returns_one (f a)) : fails_clean (m >>= f) := by
  intro L
  have h1 := hm L
  simp only [LuaM.bind_apply]
  cases hmL : m L with
  | ok a L1 =>
    have h2 := hf a L1
    simp only
    cases hf1 : f a L1 with
    | ok b L2 =>
      rw [hf1] at h2
      simp only [Res.returns_one] at h2
      simp only [Res.fails_clean]
      exact Or.inl h2
    | raise msg L2 =>
      rw [hf1] at h2
      simp only [Res.returns_one] at h2
    | undefined => trivial
  | raise msg L1 => rw [hmL] at h1; exact h1
  | undefined => trivial

theorem returns_one_lua_avro_push_value (value : Ref) (destructor : Nat) :
    returns_one (lua_avro_push_value value destructor) := by
  intro L
  simp [lua_avro_push_value, push, Res.returns_one]

theorem fails_clean_lua_avro_push_value (value : Ref) (destructor : Nat) :
    fails_clean (lua_avro_push_value value destructor) := by
  intro L
  simp [lua_avro_push_value, push, Res.fails_clean]

/-- The failure result of the navigation functions: nil and a message. -/
theorem fails_clean_nil_message (s : String) :
    fails_clean (do lua_pushnil; lua_pushliteral s; return (2 : Int)) := by
  intro L
  simp only [lua_pushnil, lua_pushliteral, push, LuaM.bind_apply, LuaM.pure_apply,
    Res.fails_clean]
  exact Or.inr ⟨trivial, Or.inr ⟨_, _, rfl⟩⟩

theorem fails_clean_lua_return_avro_error : fails_clean lua_return_avro_error := by
  intro L
  simp only [lua_return_avro_error, lua_pushnil, lua_pushstring, avro_strerror, push,
    LuaM.bind_apply, LuaM.pure_apply, Res.fails_clean]
  exact Or.inr ⟨trivial, Or.inr ⟨_, _, rfl⟩⟩

theorem fails_clean_zero : fails_clean (pure 0 : LuaM Int) := by
  intro L
  simp [Res.fails_clean]

theorem keeps_heap_avro_value_getter {α : Type} (sel : avro_value → Option α) (value : Ref) :
    keeps_heap (avro_value_getter sel value) := by
  intro L
  simp only [avro_value_getter]
  split <;> simp only [Res.keeps_heap]

theorem keeps_heap_avro_value_get_by_index (value : Ref) (index : Nat) :
    keeps_heap (avro_value_get_by_index value index) := by
  intro L
  simp only [avro_value_get_by_index]
  split <;> (try split) <;> simp only [Res.keeps_heap, avro_set_error]

theorem keeps_heap_avro_value_get_by_name (value : Ref) (name : String) :
    keeps_heap (avro_value_get_by_name value name) := by
  intro L
  simp only [avro_value_get_by_name]
  split <;> (try split) <;> simp only [Res.keeps_heap, avro_set_error]

theorem keeps_heap_avro_value_get_current_branch (value : Ref) :
    keeps_heap (avro_value_get_current_branch value) := by
  intro L
  simp only [avro_value_get_current_branch]
  split <;> simp only [Res.keeps_heap, avro_set_error]

theorem keeps_heap_avro_schema_union_branch_by_name (schema : avro_schema_t) (name : String) :
    keeps_heap (avro_schema_union_branch_by_name schema name) := by
  intro L
  simp only [avro_schema_union_branch_by_name]
  split <;> simp only [Res.keeps_heap, avro_set_error]

/-- The `check` of a call of the library that stores something only when
it succeeds: when it raises, nothing was stored. -/
theorem raise_keeps_heap_check {α : Type} (call : LuaM (Option α))
    (h1 : ∀ L L', call L = .ok none L' → L'.heap = L.heap)
    (h2 : ∀ L msg L', call L ≠ .raise msg L') :
    raise_keeps_heap (check call) := by
  intro L
  have hk := fun L' => @keeps_heap_lua_avro_error α L'
  simp only [check, LuaM.bind_apply]
  cases hc : call L with
  | ok a L1 =>
    cases a with
    | some a => simp only [LuaM.pure_apply, Res.raise_keeps_heap]
    | none =>
      have h := h1 L L1 hc
      have hk1 := hk L1
      simp only
      revert hk1
      cases lua_avro_error L1 <;> simp [Res.raise_keeps_heap, Res.keeps_heap, h]
  | raise msg L1 => exact absurd hc (h2 L msg L1)
  | undefined => simp only [Res.raise_keeps_heap]

theorem raise_keeps_heap_check_add (value : Ref) (key : String) :
    raise_keeps_heap (check (avro_value_add value key)) := by
  refine raise_keeps_heap_check _ ?_ ?_
  · intro L L' h
    simp only [avro_value_add] at h
    split at h
    · split at h
      · simp at h
      · split at h <;> simp at h
    · simp only [Res.ok.injEq, true_and] at h
      rw [h]
    · simp at h
  · intro L msg L' h
    simp only [avro_value_add] at h
    split at h
    · split at h
      · simp at h
      · split at h <;> simp at h
    · simp at h
    · simp at h

theorem raise_keeps_heap_check_set_branch (value : Ref) (discriminant : Nat) :
    raise_keeps_heap (check (avro_value_set_branch value discriminant)) := by
  refine raise_keeps_heap_check _ ?_ ?_
  · intro L L' h
    simp only [avro_value_set_branch] at h
    split at h
    · split at h
      · simp only [Res.ok.injEq, true_and] at h
        rw [← h]
        rfl
      · split at h
        · simp at h
        · split at h <;> simp at h
    · simp only [Res.ok.injEq, true_and] at h
      rw [h]
    · simp at h
  · intro L msg L' h
    simp only [avro_value_set_branch] at h
    split at h
    · split at h
      · simp at h
      · split at h
        · simp at h
        · split at h <;> simp at h
    · simp at h
    · simp at h

theorem fails_clean_get_array_element (value : Ref) (index : Nat) :
    fails_clean (get_array_element value index false) := by
  unfold get_array_element
  refine fails_clean_bind _ _ (keeps_heap_check _ (keeps_heap_avro_value_getter _ _))
    (fun array_size => ?_)
  split
  · exact fails_clean_nil_message _
  · refine fails_clean_bind _ _ (keeps_heap_check _ (keeps_heap_avro_value_get_by_index _ _))
      (fun e => ?_)
    exact fails_clean_lua_avro_push_value _ _

theorem fails_clean_get_map_value (value : Ref) (key : String) (can_create : Bool) :
    fails_clean (get_map_value value key can_create false) := by
  unfold get_map_value
  cases can_create
  · refine fails_clean_bind _ _ (keeps_heap_check _ (keeps_heap_avro_value_get_by_name _ _))
      (fun e => ?_)
    cases e with
    | none => exact fails_clean_nil_message _
    | some e => exact fails_clean_lua_avro_push_value _ _
  · refine fails_clean_bind_one _ _ (raise_keeps_heap_check_add _ _) (fun e => ?_)
    rw [LuaM.pure_bind]
    exact returns_one_lua_avro_push_value _ _

theorem fails_clean_get_record_field (value : Ref) (field_name : String) :
    fails_clean (get_record_field value field_name false) := by
  unfold get_record_field
  refine fails_clean_bind _ _ (keeps_heap_check _ (keeps_heap_avro_value_get_by_name _ _))
    (fun e => ?_)
  cases e with
  | none => exact fails_clean_nil_message _
  | some e => exact fails_clean_lua_avro_push_value _ _

theorem fails_clean_get_union_branch (value : Ref) (field_name : String) :
    fails_clean (get_union_branch value field_name false) := by
  unfold get_union_branch
  by_cases hn : field_name = "_"
  · rw [if_pos hn]
    refine fails_clean_bind _ _
      (keeps_heap_check _ (keeps_heap_avro_value_get_current_branch _)) (fun b => ?_)
    rw [LuaM.pure_bind]
    exact fails_clean_lua_avro_push_value _ _
  · rw [if_neg hn]
    refine fails_clean_bind _ _ (keeps_heap_avro_value_get_schema _) (fun schema => ?_)
    refine fails_clean_bind _ _ (keeps_heap_avro_schema_union_branch_by_name _ _)
      (fun r => ?_)
    cases r with
    | none =>
      rw [LuaM.pure_bind]
      exact fails_clean_lua_return_avro_error
    | some r =>
      refine fails_clean_bind_one _ _ (raise_keeps_heap_check_set_branch _ _) (fun b => ?_)
      rw [LuaM.pure_bind]
      exact returns_one_lua_avro_push_value _ _

/-- What the navigation step of a three-argument `set` leaves behind when
it does not return one value: the values of the library are what they
were, and a result other than 0 has a message on top of the stack. -/
theorem fails_clean_get_subvalue (value : Ref) (index_index : Int) (can_create : Bool) :
    fails_clean (get_subvalue value index_index can_create false) := by
  have hname : fails_clean (do
      match ← luaL_optstring index_index with
      | some index_str =>
        let t ← avro_value_get_type value
        if t = .AVRO_MAP then
          get_map_value value index_str can_create false
        else if t = .AVRO_RECORD then
          get_record_field value index_str false
        else if t = .AVRO_UNION then
          get_union_branch value index_str false
        else
          return 0
      | none => return 0) := by
    refine fails_clean_bind _ _ (keeps_heap_luaL_optstring _) (fun s => ?_)
    cases s with
    | none => exact fails_clean_zero
    | some s =>
      refine fails_clean_bind _ _ (keeps_heap_avro_value_get_type _) (fun t => ?_)
      split
      · exact fails_clean_get_map_value _ _ _
      · split
        · exact fails_clean_get_record_field _ _
        · split
          · exact fails_clean_get_union_branch _ _
          · exact fails_clean_zero
  unfold get_subvalue
  refine fails_clean_bind _ _ (keeps_heap_lua_isnumber _) (fun b => ?_)
  split
  · refine fails_clean_bind _ _ (keeps_heap_lua_tointeger _) (fun i => ?_)
    refine fails_clean_bind _ _ (keeps_heap_avro_value_get_type _) (fun t => ?_)
    split
    · exact fails_clean_get_array_element _ _
    · exact hname
  · exact hname

/-! ## A three-argument `set` whose navigation step fails -/

/-- What a three-argument `set` does: the navigation step, then the
error "Nonexistent subvalue" when it gave 0 results and otherwise
`set_scalar_value` on the value on top of the stack. -/
theorem l_value_set_navigate (heap : List avro_value) (err : String) (value : Ref) (d : Nat)
    (x val : LuaVal) :
    l_value_set ⟨[.avro_value value d, x, val], heap, err⟩
      = match get_subvalue value 2 true false ⟨[.avro_value value d, x, val], heap, err⟩ with
        | .ok n L1 =>
          if n = 0 then
            .raise (.string "Nonexistent subvalue")
              ⟨L1.stack ++ [.string "Nonexistent subvalue"], L1.heap, L1.avro_strerror⟩
          else set_scalar_value (-1) 3 L1
        | .raise msg L1 => .raise msg L1
        | .undefined => .undefined := by
  have hself : index2adr ⟨[.avro_value value d, x, val], heap, err⟩ 1
      = some (.avro_value value d) := rfl
  simp only [l_value_set, lua_gettop, lua_avro_get_value, luaL_checkudata_value, hself,
    LuaM.bind_apply, LuaM.pure_apply]
  simp only [List.length_cons, List.length_nil]
  cases hnav : get_subvalue value 2 true false ⟨[.avro_value value d, x, val], heap, err⟩ with
  | ok n L1 =>
    by_cases hn : n = 0
    · simp [hn, hnav, luaL_checkudata_value, hself, lua_pushliteral, push, lua_error,
        index2adr]
    · simp [hn, hnav, luaL_checkudata_value, hself]
  | raise msg L1 => simp [hnav, luaL_checkudata_value, hself]
  | undefined => simp [hnav, luaL_checkudata_value, hself]

/-- What `set_scalar_value` does when the value at its index is a
string: the type check of the wrapper raises, and nothing is stored. -/
theorem set_scalar_value_on_message (stk : List LuaVal) (m : String)
    (heap : List avro_value) (err : String) (val_index : Int) :
    ∃ msg L', set_scalar_value (-1) val_index ⟨stk ++ [.string m], heap, err⟩
      = .raise msg L' ∧ L'.heap = heap := by
  have htop := index2adr_top stk (.string m) heap err
  simp only [set_scalar_value, lua_avro_get_value, luaL_checkudata_value, htop,
    LuaM.bind_apply, LuaM.pure_apply, luaL_typerror, luaL_error, lua_pushliteral, push,
    lua_error]
  exact ⟨_, _, rfl, rfl⟩

/-- C25: a three-argument `set(index, v)` on a wrapper does not return
normally when the navigation step failed.  When `get_subvalue` returns a
number of results other than 1 (0 results, or nil and a message), and
when it raises, `set` raises a Lua error, and the values of the library
are what they were before the call: no scalar is modified. -/
theorem l_value_set_navigation_failure (heap : List avro_value) (err : String) (value : Ref)
    (d : Nat) (x val : LuaVal) :
    (∀ n L1,
      get_subvalue value 2 true false ⟨[.avro_value value d, x, val], heap, err⟩ = .ok n L1 →
      n ≠ 1 →
      ∃ msg L', l_value_set ⟨[.avro_value value d, x, val], heap, err⟩ = .raise msg L' ∧
        L'.heap = heap ∧ (n = 0 → msg = .string "Nonexistent subvalue")) ∧
    (∀ msg L1,
      get_subvalue value 2 true false ⟨[.avro_value value d, x, val], heap, err⟩
        = .raise msg L1 →
      l_value_set ⟨[.avro_value value d, x, val], heap, err⟩ = .raise msg L1 ∧
        L1.heap = heap) := by
  have hfc := fails_clean_get_subvalue value 2 true ⟨[.avro_value value d, x, val], heap, err⟩
  have hset := l_value_set_navigate heap err value d x val
  constructor
  · intro n L1 hnav hn
    rw [hnav] at hfc hset
    simp only [Res.fails_clean] at hfc
    simp only at hset
    rcases hfc with h1 | ⟨hheap, h0 | ⟨stk, m, hstk⟩⟩
    · exact absurd h1 hn
    · rw [hset, if_pos h0]
      exact ⟨_, _, rfl, hheap, fun _ => rfl⟩
    · by_cases h0 : n = 0
      · rw [hset, if_pos h0]
        exact ⟨_, _, rfl, hheap, fun _ => rfl⟩
      · rw [hset, if_neg h0]
        obtain ⟨s1, h1, e1⟩ := L1
        simp only at hstk hheap
        subst hstk
        obtain ⟨msg, L', hr, hh⟩ := set_scalar_value_on_message stk m h1 e1 3
        exact ⟨msg, L', hr, hh.trans hheap, fun h => absurd h h0⟩
  · intro msg L1 hnav
    rw [hnav] at hfc hset
    simp only at hset
    exact ⟨hset, hfc⟩

/-- Witness of C25: `set(5, 1)` on an array of ints holding 10; the index
is out of bounds. -/
theorem l_value_set_navigation_failure_witness :
    get_subvalue ⟨0, []⟩ 2 true false
        ⟨[.avro_value ⟨0, []⟩ 1, .number 5, .number 1], [.array .int [.int 10]], ""⟩
      = .ok 2 ⟨[.avro_value ⟨0, []⟩ 1, .number 5, .number 1, .nil,
          .string "Index out of bounds"], [.array .int [.int 10]], ""⟩ ∧
    (2 : Int) ≠ 1 ∧
    ∃ msg L',
      l_value_set ⟨[.avro_value ⟨0, []⟩ 1, .number 5, .number 1], [.array .int [.int 10]], ""⟩
        = .raise msg L' ∧
      L'.heap = [.array .int [.int 10]] ∧ ((2 : Int) = 0 → msg = .string "Nonexistent subvalue") :=
  ⟨rfl, by decide,
    (l_value_set_navigation_failure [.array .int [.int 10]] "" ⟨0, []⟩ 1 (.number 5)
      (.number 1)).1 2 _ rfl (by decide)⟩

end LuaAvro
